import Mathlib

/-!
# ACH files: file aggregator, writer, reader and merger

A shallow embedding of `file.go`, `writer.go`, `reader.go`, `merge.go` and
`errors/error.go`.

Conventions of the embedding.

* Go's `int` is `Int`; the quotient and remainder of Go are the truncating
  `Int.tdiv` and `Int.tmod`. Sums are taken in `Int`: 64-bit wrap-around is
  not modelled.
* Go strings are `String`; `len` is the length in bytes (`String.utf8ByteSize`).
* A pointer to a batch or to an entry is the record itself: these pointers are
  taken to be non-nil and not shared between two batches of a file (a File
  owns its batches). A pointer to an addenda that the sources test against nil
  or read through (`Addenda02`, `Addenda98`, `Addenda99`, and `Addenda10` to
  `Addenda16` of an IAT entry) is an `Option`, nil being `none`. The pointers
  to files that `merge.go` works on are addresses in a store (see the section
  on `merge.go`).
* A nil slice and an empty slice are both the empty list.
* A method that mutates its receiver returns the new value; a method that can
  fail returns `Option GoError` (`none` is Go's `nil` error). A run that
  stops on a nil pointer returns nothing: where the sources can do so, the
  result is an `Option`, and `none` is the run that stops.
* The input of a reader is the lines that its `bufio.Scanner` yields, buffer
  limit included (`scanLines`).
* Record types and helpers that the sources use but do not declare are either
  modelled from the specification (and say so) or taken as parameters
  (`converters`, `RecordOps`).
-/

namespace Ach

/-! ## Package `errors` -/

/-- An `error` value: the standard library's `errors.New(s)`, the package's
`*Error` with its slice of underlying errors, or a value of another error type
(`*FieldError`, `*BatchError`, declared outside the sources at hand), given by
the name of its type and the text its `Error()` method returns. -/
inductive GoError where
  | errorString (s : String)
  | Error (underlying : List GoError)
  | foreign (typeName : String) (text : String)

namespace GoError

mutual
/-- The method `Error()`: for `*Error`, the underlying messages separated by
newlines. -/
def message : GoError → String
  | .errorString s => s
  | .Error us => messages true us
  | .foreign _ text => text
/-- The loop of `(*Error).Error`: `first` says that the index is still 0. -/
def messages : Bool → List GoError → String
  | _, [] => ""
  | first, u :: us => (if first then "" else "\n") ++ message u ++ messages false us
end

end GoError

namespace errors

/-- Go `errors.WithError` for a non-nil argument: `append(es, err)` on a nil
slice. -/
def WithError (err : GoError) : GoError := .Error [err]

/-- Go `errors.WithError` on a possibly nil error: nil stays nil. -/
def WithError? : Option GoError → Option GoError
  | none => none
  | some err => some (WithError err)

/-- Go `errors.New`. -/
def New (msg : String) : GoError := WithError (.errorString msg)

/-- Go `strconv.IsPrint`: letters, marks, numbers, punctuation, symbols and
the blank. Exact up to U+00FF. Above that Go looks into the tables of Unicode:
here the separators, the format characters and the private-use characters of
the Basic Multilingual Plane are not printable, and every other character is
taken to be printable (unassigned code points are not told apart). -/
def isPrint (c : Char) : Bool :=
  let n := c.toNat
  if n ≤ 0xFF then (0x20 ≤ n ∧ n < 0x7F) ∨ (0xA1 ≤ n ∧ n ≠ 0xAD)
  else
    ¬ (n = 0x1680 ∨ (0x2000 ≤ n ∧ n ≤ 0x200F) ∨ (0x2028 ≤ n ∧ n ≤ 0x202F) ∨
      (0x205F ≤ n ∧ n ≤ 0x206F) ∨ n = 0x3000 ∨ (0xE000 ≤ n ∧ n ≤ 0xF8FF) ∨ n = 0xFEFF ∨
      (0xFFF9 ≤ n ∧ n ≤ 0xFFFB) ∨ n = 0xFFFE ∨ n = 0xFFFF)

/-- The lower-case hexadecimal digits of `n`, the last `k` of them. -/
def hexDigits : Nat → Nat → List Char
  | 0, _ => []
  | k + 1, n => hexDigits k (n / 16) ++ [Nat.digitChar (n % 16)]

/-- One character inside `%q`, as `strconv.Quote` writes it: quote and
backslash are escaped; a printable character is kept; the other characters get
their short escape (`\a`, `\b`, `\f`, `\n`, `\r`, `\t`, `\v`), two hexadecimal
digits after `\x` below the blank and at DEL, four after `\u` below U+10000
and eight after `\U` from there on. -/
def quoteChar (c : Char) : String :=
  if c = '"' then "\\\""
  else if c = '\\' then "\\\\"
  else if isPrint c then String.singleton c
  else if c.toNat = 7 then "\\a"
  else if c.toNat = 8 then "\\b"
  else if c.toNat = 12 then "\\f"
  else if c = '\n' then "\\n"
  else if c = '\r' then "\\r"
  else if c = '\t' then "\\t"
  else if c.toNat = 11 then "\\v"
  else if c.toNat < 32 ∨ c.toNat = 127 then "\\x" ++ String.mk (hexDigits 2 c.toNat)
  else if c.toNat < 0x10000 then "\\u" ++ String.mk (hexDigits 4 c.toNat)
  else "\\U" ++ String.mk (hexDigits 8 c.toNat)

/-- The verb `%q` of `fmt` on a string (`strconv.Quote`). -/
def quote (s : String) : String :=
  "\"" ++ String.join (s.toList.map quoteChar) ++ "\""

/-- Go `errors.File`. -/
def File (field value msg : String) : GoError :=
  if field = "" ∧ value = "" then
    New ("file error message=" ++ quote msg)
  else
    New ("file error field=" ++ quote field ++ " value=" ++ quote value ++
      " message=" ++ quote msg)

end errors

/-- Go `strconv.Itoa`, and the verbs `%d` and `%v` on an `int`. -/
def Itoa (n : Int) : String := toString n

/-! ## Constants and messages of `file.go` -/

def fileHeaderPos : String := "1"
def batchHeaderPos : String := "5"
def entryDetailPos : String := "6"
def entryAddendaPos : String := "7"
def batchControlPos : String := "8"
def fileControlPos : String := "9"

/-- Go `RecordLength`: character count of each line. -/
def RecordLength : Int := 94

/-- Go `fmt.Sprintf(msgFileCalculatedControlEquality, a, b)`; both arguments are
already rendered (`%v`). -/
def msgFileCalculatedControlEquality (calculated control : String) : String :=
  "calculated " ++ calculated ++ " is out-of-balance with control " ++ control

/-- Go `fmt.Sprintf(msgRecordLength, n)`. -/
def msgRecordLength (n : Int) : String :=
  "must be 94 characters and found " ++ Itoa n

def msgFileBatchOutside : String := "outside of current batch"
def msgFileBatchInside : String := "inside of current batch"
def msgFileControl : String := "none or more than one file control exists"
def msgFileHeader : String := "none or more than one file headers exists"

/-- Go `fmt.Sprintf(msgUnknownRecordType, s)`. -/
def msgUnknownRecordType (s : String) : String := s ++ " is an unknown record type"

/-! ## Records -/

/-- Modelled from the spec: the `converters` helper embedded in `File` and in
the records is not among the sources; its methods are taken as parameters. -/
structure converters where
  /-- Go `numericField(n, max)`: zero-padded field of `max` digits. -/
  numericField : Int → Nat → String
  /-- Go `alphaField(s, max)`: space-padded field of `max` characters. -/
  alphaField : String → Nat → String
  /-- Go `parseNumField(s)`: the number held by a numeric field. -/
  parseNumField : String → Int

/-- Modelled from the spec: the File Header record (section 3 and the wire
format of section 6); its declaration is not among the sources. -/
structure FileHeader where
  ID : String
  recordType : String
  priorityCode : String
  ImmediateDestination : String
  ImmediateOrigin : String
  FileCreationDate : String
  FileCreationTime : String
  FileIDModifier : String
  recordSize : String
  blockingFactor : String
  formatCode : String
  ImmediateDestinationName : String
  ImmediateOriginName : String
  ReferenceCode : String
deriving DecidableEq, Repr, Inhabited

/-- Modelled from the spec: the File Control record (wire format of section
6); its declaration is not among the sources. The six numbers are the fields
`File.Create` assigns. -/
structure FileControl where
  ID : String
  recordType : String
  BatchCount : Int
  BlockCount : Int
  EntryAddendaCount : Int
  EntryHash : Int
  TotalDebitEntryDollarAmountInFile : Int
  TotalCreditEntryDollarAmountInFile : Int
  reserved : String
deriving DecidableEq, Repr, Inhabited

/-- Thirty-nine blanks, the reserved field of a File Control. -/
def blank39 : String := String.mk (List.replicate 39 ' ')

/-- Modelled from the spec: `NewFileControl()` is not among the sources; it
returns the record with the record type of a File Control, 9, a blank reserved
field (section 6: "reserved(39 blank)") and zero everywhere else. -/
def NewFileControl : FileControl :=
  { ID := "", recordType := "9", BatchCount := 0, BlockCount := 0, EntryAddendaCount := 0,
    EntryHash := 0, TotalDebitEntryDollarAmountInFile := 0,
    TotalCreditEntryDollarAmountInFile := 0, reserved := blank39 }

/-- Modelled from the spec: `FileControl.EntryAddendaCountField()`, the
8-digit numeric field. -/
def FileControl.EntryAddendaCountField (c : converters) (fc : FileControl) : String :=
  c.numericField fc.EntryAddendaCount 8

/-- Modelled from the spec: `FileControl.EntryHashField()`, the 10-digit
numeric field. -/
def FileControl.EntryHashField (c : converters) (fc : FileControl) : String :=
  c.numericField fc.EntryHash 10

/-- Modelled from the spec: `FileControl.TotalDebitEntryDollarAmountInFileField()`,
the 12-digit numeric field. -/
def FileControl.TotalDebitEntryDollarAmountInFileField (c : converters)
    (fc : FileControl) : String :=
  c.numericField fc.TotalDebitEntryDollarAmountInFile 12

/-- Modelled from the spec: `FileControl.TotalCreditEntryDollarAmountInFileField()`,
the 12-digit numeric field. -/
def FileControl.TotalCreditEntryDollarAmountInFileField (c : converters)
    (fc : FileControl) : String :=
  c.numericField fc.TotalCreditEntryDollarAmountInFile 12

/-- Modelled from the spec: the Batch Header record (section 3); its
declaration is not among the sources. -/
structure BatchHeader where
  ID : String
  recordType : String
  ServiceClassCode : Int
  CompanyName : String
  CompanyDiscretionaryData : String
  CompanyIdentification : String
  StandardEntryClassCode : String
  CompanyEntryDescription : String
  CompanyDescriptiveDate : String
  EffectiveEntryDate : String
  settlementDate : String
  OriginatorStatusCode : Int
  ODFIIdentification : String
  BatchNumber : Int
deriving DecidableEq, Repr, Inhabited

/-- Modelled from the spec: the Batch Control record (section 3 and the wire
format of section 6); its declaration is not among the sources. -/
structure BatchControl where
  ID : String
  recordType : String
  ServiceClassCode : Int
  EntryAddendaCount : Int
  EntryHash : Int
  TotalDebitEntryDollarAmount : Int
  TotalCreditEntryDollarAmount : Int
  CompanyIdentification : String
  MessageAuthenticationCode : String
  reserved : String
  ODFIIdentification : String
  BatchNumber : Int
deriving DecidableEq, Repr, Inhabited

/-- Modelled from the spec: an addenda record behind the interface
`Addendumer` (wire format of section 6: type code, payload, entry detail
sequence number); `kind` is the Go type of the value (`Addenda02`,
`Addenda05`, ...). The addenda types other than `Addenda12` are not among the
sources. -/
structure Addendumer where
  kind : String
  recordType : String
  TypeCode : String
  payload : String
  EntryDetailSequenceNumber : Int
deriving DecidableEq, Repr, Inhabited

/-- Modelled from the spec: the Entry Detail record (section 3), with the
slice `Addendum` of its addenda that `writer.go` walks and the slots
`Addenda02`, `Addenda05`, `Addenda98` and `Addenda99` that `merge.go` counts
(a nil pointer is `none`, a nil slice the empty list); its declaration is not
among the sources. -/
structure EntryDetail where
  ID : String
  recordType : String
  TransactionCode : Int
  RDFIIdentification : String
  CheckDigit : String
  DFIAccountNumber : String
  Amount : Int
  IdentificationNumber : String
  IndividualName : String
  DiscretionaryData : String
  AddendaRecordIndicator : Int
  TraceNumber : Int
  Addendum : List Addendumer
  Category : String
  Addenda02 : Option Addendumer := none
  Addenda05 : List Addendumer := []
  Addenda98 : Option Addendumer := none
  Addenda99 : Option Addendumer := none
deriving DecidableEq, Repr, Inhabited

/-- Modelled from the spec: a value behind the interface `Batcher` (section
4.3: header, entries, control, derived category); `kind` is the Go type of the
value (`BatchPPD`, `BatchCOR`, ...). The struct the batch types embed is not
among the sources. -/
structure Batcher where
  kind : String
  Header : BatchHeader
  Entries : List EntryDetail
  Control : BatchControl
  category : String
deriving DecidableEq, Repr, Inhabited

/-- Modelled from the spec: the IAT Batch Header record; its declaration is
not among the sources. Only the fields the sources at hand read are named, the
rest of the record is `rest`. -/
structure IATBatchHeader where
  ID : String
  recordType : String
  ServiceClassCode : Int
  StandardEntryClassCode : String
  ODFIIdentification : String
  BatchNumber : Int
  rest : String
deriving DecidableEq, Repr, Inhabited

/-- Modelled from the spec: the IAT Entry Detail record with the pointers to
its seven mandatory addenda (section 4.3: each exactly one), which `merge.go`
tests against nil and `writer.go` reads through (a nil pointer is `none`), the
slice `Addendum` of its Addenda17 and Addenda18 records that `writer.go`
walks, and the slots `Addenda17`, `Addenda18`, `Addenda98` and `Addenda99`
that `merge.go` counts; its declaration is not among the sources. -/
structure IATEntryDetail where
  ID : String
  recordType : String
  TransactionCode : Int
  RDFIIdentification : String
  CheckDigit : String
  Amount : Int
  DFIAccountNumber : String
  AddendaRecordIndicator : Int
  TraceNumber : Int
  rest : String
  Addenda10 : Option Addendumer
  Addenda11 : Option Addendumer
  Addenda12 : Option Addendumer
  Addenda13 : Option Addendumer
  Addenda14 : Option Addendumer
  Addenda15 : Option Addendumer
  Addenda16 : Option Addendumer
  Addendum : List Addendumer
  Category : String
  Addenda17 : List Addendumer := []
  Addenda18 : List Addendumer := []
  Addenda98 : Option Addendumer := none
  Addenda99 : Option Addendumer := none
deriving DecidableEq, Repr, Inhabited

/-- Modelled from the spec: an IAT batch (header, entries, control); its
declaration is not among the sources. The zero value `IATBatch{}`, whose header
is nil, is not a value of this type: the reader, which alone uses it, holds an
`Option IATBatch`. -/
structure IATBatch where
  ID : String
  Header : IATBatchHeader
  Entries : List IATEntryDetail
  Control : BatchControl
  category : String
deriving DecidableEq, Repr, Inhabited

/-- Go `File` of `file.go`. -/
structure File where
  ID : String
  Header : FileHeader
  Batches : List Batcher
  IATBatches : List IATBatch
  Control : FileControl
  NotificationOfChange : List Batcher
  ReturnEntries : List Batcher
deriving DecidableEq, Repr, Inhabited

/-- Modelled from the spec: the methods of the record types that the sources
call but do not declare (`Validate`, `String`, `Parse` of section 4.2, the
batch constructors, `AddEntry`, `AddAddenda` and `Validate` of section 4.3),
taken as parameters. A method that overwrites its receiver is given the old
value and returns the new one; a `Parse` on a fresh record (`NewBatchHeader()`,
`new(EntryDetail)`, `NewAddenda02()`, ...) is given the line only, and for an
addenda the Go type that is created. -/
structure RecordOps where
  fileHeaderValidate : FileHeader → Option GoError
  fileHeaderString : FileHeader → String
  fileHeaderParse : FileHeader → String → FileHeader
  fileControlValidate : FileControl → Option GoError
  fileControlString : FileControl → String
  fileControlParse : FileControl → String → FileControl
  batchHeaderValidate : BatchHeader → Option GoError
  batchHeaderString : BatchHeader → String
  batchHeaderParse : String → BatchHeader
  batchControlValidate : BatchControl → Option GoError
  batchControlString : BatchControl → String
  batchControlParse : BatchControl → String → BatchControl
  entryDetailValidate : EntryDetail → Option GoError
  entryDetailString : EntryDetail → String
  entryDetailParse : String → EntryDetail
  entryAddAddenda : EntryDetail → Addendumer → EntryDetail
  addendaValidate : Addendumer → Option GoError
  addendaString : Addendumer → String
  addendaParse : String → String → Addendumer
  iatBatchHeaderValidate : IATBatchHeader → Option GoError
  iatBatchHeaderString : IATBatchHeader → String
  iatBatchHeaderParse : String → IATBatchHeader
  iatEntryDetailValidate : IATEntryDetail → Option GoError
  iatEntryDetailString : IATEntryDetail → String
  iatEntryDetailParse : String → IATEntryDetail
  iatEntryAddIATAddenda : IATEntryDetail → Addendumer → IATEntryDetail
  NewBatch : BatchHeader → Except GoError Batcher
  NewIATBatch : IATBatchHeader → IATBatch
  batcherAddEntry : Batcher → EntryDetail → Batcher
  batcherValidate : Batcher → Option GoError
  iatBatchAddEntry : IATBatch → IATEntryDetail → IATBatch
  iatBatchValidate : IATBatch → Option GoError
  /-- The message `msgBatchAddendaIndicator`. -/
  msgBatchAddendaIndicator : String
  /-- The message `msgIATBatchAddendaIndicator`. -/
  msgIATBatchAddendaIndicator : String

/-! ## `File.Create` -/

/-- The local variables of `File.Create` that its two loops update. -/
structure CreateVars where
  totalRecordsInFile : Int
  batchSeq : Int
  fileEntryAddendaCount : Int
  fileEntryHashSum : Int
  totalDebitAmount : Int
  totalCreditAmount : Int
deriving DecidableEq, Repr

/-- The variables as `File.Create` initialises them: two records for the file
header and control, batch sequence 1, every sum 0. -/
def CreateVars.init : CreateVars :=
  { totalRecordsInFile := 2, batchSeq := 1, fileEntryAddendaCount := 0,
    fileEntryHashSum := 0, totalDebitAmount := 0, totalCreditAmount := 0 }

/-- The body of both loops after the batch number is assigned: the sums read
from the batch control. -/
def CreateVars.add (v : CreateVars) (bc : BatchControl) : CreateVars :=
  { totalRecordsInFile := v.totalRecordsInFile + 2 + bc.EntryAddendaCount
    batchSeq := v.batchSeq + 1
    fileEntryAddendaCount := v.fileEntryAddendaCount + bc.EntryAddendaCount
    fileEntryHashSum := v.fileEntryHashSum + bc.EntryHash
    totalDebitAmount := v.totalDebitAmount + bc.TotalDebitEntryDollarAmount
    totalCreditAmount := v.totalCreditAmount + bc.TotalCreditEntryDollarAmount }

/-- Go `for i, batch := range f.Batches` of `File.Create`: the batches with their
new numbers, and the variables after the loop. -/
def File.createBatches : List Batcher → CreateVars → List Batcher × CreateVars
  | [], v => ([], v)
  | batch :: rest, v =>
    let batch1 : Batcher :=
      { batch with
        Header := { batch.Header with BatchNumber := v.batchSeq }
        Control := { batch.Control with BatchNumber := v.batchSeq } }
    let r := File.createBatches rest (v.add batch1.Control)
    (batch1 :: r.1, r.2)

/-- Go `for i, iatBatch := range f.IATBatches` of `File.Create`. -/
def File.createIATBatches : List IATBatch → CreateVars → List IATBatch × CreateVars
  | [], v => ([], v)
  | iatBatch :: rest, v =>
    let iatBatch1 : IATBatch :=
      { iatBatch with
        Header := { iatBatch.Header with BatchNumber := v.batchSeq }
        Control := { iatBatch.Control with BatchNumber := v.batchSeq } }
    let r := File.createIATBatches rest (v.add iatBatch1.Control)
    (iatBatch1 :: r.1, r.2)

/-- Go `File.Create`: the file after the call and the error returned. -/
def File.Create (ops : RecordOps) (f : File) : File × Option GoError :=
  match ops.fileHeaderValidate f.Header with
  | some err => (f, some err)
  | none =>
    if (f.Batches.length : Int) ≤ 0 ∧ (f.IATBatches.length : Int) ≤ 0 then
      (f, some (errors.File "Batches" (Itoa f.Batches.length)
        "must have []*Batches to be built"))
    else
      let r1 := File.createBatches f.Batches CreateVars.init
      let r2 := File.createIATBatches f.IATBatches r1.2
      let v := r2.2
      let fc : FileControl :=
        { NewFileControl with
          BatchCount := v.batchSeq - 1
          BlockCount :=
            if Int.tmod v.totalRecordsInFile 10 ≠ 0 then
              Int.tdiv v.totalRecordsInFile 10 + 1
            else
              Int.tdiv v.totalRecordsInFile 10
          EntryAddendaCount := v.fileEntryAddendaCount
          EntryHash := v.fileEntryHashSum
          TotalDebitEntryDollarAmountInFile := v.totalDebitAmount
          TotalCreditEntryDollarAmountInFile := v.totalCreditAmount }
      ({ f with Batches := r1.1, IATBatches := r2.1, Control := fc }, none)

/-! ## `File.AddBatch`, `File.AddIATBatch`, `File.SetHeader` -/

/-- Modelled from the spec: the category constant `CategoryReturn` of section
3 (Forward, NOC, Return); its declaration is not among the sources. -/
def CategoryReturn : String := "Return"

/-- Go `File.AddBatch`. -/
def File.AddBatch (f : File) (batch : Batcher) : File :=
  let f1 := if batch.kind = "BatchCOR" then
      { f with NotificationOfChange := f.NotificationOfChange ++ [batch] } else f
  let f2 := if batch.category = CategoryReturn then
      { f1 with ReturnEntries := f1.ReturnEntries ++ [batch] } else f1
  { f2 with Batches := f2.Batches ++ [batch] }

/-- Go `File.AddIATBatch`. -/
def File.AddIATBatch (f : File) (iatBatch : IATBatch) : File :=
  { f with IATBatches := f.IATBatches ++ [iatBatch] }

/-- Go `File.SetHeader`. -/
def File.SetHeader (f : File) (h : FileHeader) : File := { f with Header := h }

/-! ## `File.Validate` -/

/-- Go `File.isEntryAddendaCount`. -/
def File.isEntryAddendaCount (c : converters) (f : File) : Option GoError :=
  let count := f.Batches.foldl (fun n batch => n + batch.Control.EntryAddendaCount) 0
  let count := f.IATBatches.foldl (fun n iatBatch => n + iatBatch.Control.EntryAddendaCount) count
  if f.Control.EntryAddendaCount ≠ count then
    some (errors.File "EntryAddendaCount" (f.Control.EntryAddendaCountField c)
      (msgFileCalculatedControlEquality (Itoa count) (Itoa f.Control.EntryAddendaCount)))
  else none

/-- Go `File.isFileAmount`. -/
def File.isFileAmount (c : converters) (f : File) : Option GoError :=
  let dc := f.Batches.foldl (fun (p : Int × Int) batch =>
    (p.1 + batch.Control.TotalDebitEntryDollarAmount,
     p.2 + batch.Control.TotalCreditEntryDollarAmount)) (0, 0)
  let dc := f.IATBatches.foldl (fun (p : Int × Int) iatBatch =>
    (p.1 + iatBatch.Control.TotalDebitEntryDollarAmount,
     p.2 + iatBatch.Control.TotalCreditEntryDollarAmount)) dc
  let debit := dc.1
  let credit := dc.2
  if f.Control.TotalDebitEntryDollarAmountInFile ≠ debit then
    some (errors.File "TotalDebitEntryDollarAmountInFile"
      (f.Control.TotalDebitEntryDollarAmountInFileField c)
      (msgFileCalculatedControlEquality (Itoa debit)
        (Itoa f.Control.TotalDebitEntryDollarAmountInFile)))
  else if f.Control.TotalCreditEntryDollarAmountInFile ≠ credit then
    some (errors.File "TotalCreditEntryDollarAmountInFile"
      (f.Control.TotalCreditEntryDollarAmountInFileField c)
      (msgFileCalculatedControlEquality (Itoa credit)
        (Itoa f.Control.TotalCreditEntryDollarAmountInFile)))
  else none

/-- Go `File.calculateEntryHash`. -/
def File.calculateEntryHash (c : converters) (f : File) : String :=
  let hash := f.Batches.foldl (fun n batch => n + batch.Control.EntryHash) 0
  let hash := f.IATBatches.foldl (fun n iatBatch => n + iatBatch.Control.EntryHash) hash
  c.numericField hash 10

/-- Go `File.isEntryHash`. -/
def File.isEntryHash (c : converters) (f : File) : Option GoError :=
  let hashField := f.calculateEntryHash c
  if hashField ≠ f.Control.EntryHashField c then
    some (errors.File "EntryHash" (f.Control.EntryHashField c)
      (msgFileCalculatedControlEquality hashField (f.Control.EntryHashField c)))
  else none

/-- Go `File.Validate`. -/
def File.Validate (c : converters) (f : File) : Option GoError :=
  if f.Control.BatchCount ≠ (f.Batches.length : Int) + (f.IATBatches.length : Int) then
    some (errors.File "BatchCount" (Itoa f.Batches.length)
      (msgFileCalculatedControlEquality (Itoa f.Batches.length) (Itoa f.Control.BatchCount)))
  else
    match f.isEntryAddendaCount c with
    | some err => some (errors.WithError err)
    | none =>
      match f.isFileAmount c with
      | some err => some (errors.WithError err)
      | none => errors.WithError? (f.isEntryHash c)

/-! ## `writer.go`

The writer's sink is taken to accept every write: the strings handed to
`WriteString` are kept in order, and `Flush` returns nil. A run that stops on
a nil pointer returns nothing: its result is `none`. -/

/-- Go `Writer`: the strings written so far, and the line counter. -/
structure Writer where
  w : List String
  lineNum : Int
deriving DecidableEq, Repr

/-- Go `NewWriter`. -/
def NewWriter : Writer := { w := [], lineNum := 0 }

/-- Go `w.w.WriteString(s)`. -/
def Writer.WriteString (w : Writer) (s : String) : Writer :=
  { w with w := w.w ++ [s] }

/-- The pair `w.w.WriteString(record + "\n")`, `w.lineNum++`. -/
def Writer.writeLine (w : Writer) (record : String) : Writer :=
  { (w.WriteString (record ++ "\n")) with lineNum := w.lineNum + 1 }

/-- Go `Writer.writeBatch`. -/
def Writer.writeBatch (ops : RecordOps) (w : Writer) (file : File) : Writer :=
  file.Batches.foldl (fun w batch =>
    let w := w.writeLine (ops.batchHeaderString batch.Header)
    let w := batch.Entries.foldl (fun w entry =>
      let w := w.writeLine (ops.entryDetailString entry)
      entry.Addendum.foldl (fun w addenda => w.writeLine (ops.addendaString addenda)) w) w
    w.writeLine (ops.batchControlString batch.Control)) w

/-- The body of the loop `for _, entry := range iatBatch.GetEntries()` of
`Writer.writeIATBatch`: the writer after it, or `none` when one of the
pointers `entry.Addenda10` to `entry.Addenda16` is nil: `String()` reads the
record through the pointer, as `Addenda12.String` of `addenda12.go` does, and
the run stops there. -/
def Writer.writeIATEntry (ops : RecordOps) (w : Writer) (entry : IATEntryDetail) :
    Option Writer :=
  let w := w.writeLine (ops.iatEntryDetailString entry)
  match entry.Addenda10 with
  | none => none
  | some addenda10 =>
    let w := w.writeLine (ops.addendaString addenda10)
    match entry.Addenda11 with
    | none => none
    | some addenda11 =>
      let w := w.writeLine (ops.addendaString addenda11)
      match entry.Addenda12 with
      | none => none
      | some addenda12 =>
        let w := w.writeLine (ops.addendaString addenda12)
        match entry.Addenda13 with
        | none => none
        | some addenda13 =>
          let w := w.writeLine (ops.addendaString addenda13)
          match entry.Addenda14 with
          | none => none
          | some addenda14 =>
            let w := w.writeLine (ops.addendaString addenda14)
            match entry.Addenda15 with
            | none => none
            | some addenda15 =>
              let w := w.writeLine (ops.addendaString addenda15)
              match entry.Addenda16 with
              | none => none
              | some addenda16 =>
                let w := w.writeLine (ops.addendaString addenda16)
                some (entry.Addendum.foldl
                  (fun w IATaddenda => w.writeLine (ops.addendaString IATaddenda)) w)

/-- The loop `for _, entry := range iatBatch.GetEntries()` of
`Writer.writeIATBatch`, over the entries still to come. -/
def Writer.writeIATEntries (ops : RecordOps) : List IATEntryDetail → Writer → Option Writer
  | [], w => some w
  | entry :: rest, w =>
    match w.writeIATEntry ops entry with
    | none => none
    | some w => Writer.writeIATEntries ops rest w

/-- The loop `for _, iatBatch := range file.IATBatches` of
`Writer.writeIATBatch`, over the IAT batches still to come. -/
def Writer.writeIATBatches (ops : RecordOps) : List IATBatch → Writer → Option Writer
  | [], w => some w
  | iatBatch :: rest, w =>
    let w := w.writeLine (ops.iatBatchHeaderString iatBatch.Header)
    match Writer.writeIATEntries ops iatBatch.Entries w with
    | none => none
    | some w =>
      Writer.writeIATBatches ops rest (w.writeLine (ops.batchControlString iatBatch.Control))

/-- Go `Writer.writeIATBatch`: the writer after the call, or `none` when the
run stops on a nil pointer. -/
def Writer.writeIATBatch (ops : RecordOps) (w : Writer) (file : File) : Option Writer :=
  Writer.writeIATBatches ops file.IATBatches w

/-- Go `strings.Repeat("9", 94) + "\n"`. -/
def padLine : String := String.mk (List.replicate 94 '9') ++ "\n"

/-- The padding loop of `Writer.Write`, entered with the loop variable `i`:
`for ; i < (10-(w.lineNum%10)) && w.lineNum%10 != 0; i++`. -/
def Writer.pad (w : Writer) (i : Int) : Writer :=
  if i < 10 - Int.tmod w.lineNum 10 ∧ Int.tmod w.lineNum 10 ≠ 0 then
    Writer.pad (w.WriteString padLine) (i + 1)
  else w
termination_by (10 - Int.tmod w.lineNum 10 - i).toNat
decreasing_by
  simp only [Writer.WriteString]
  omega

/-- The records of `Writer.Write`: the writer after the file control is
written and before the final block is padded, or `none` when
`Writer.writeIATBatch` stops on a nil pointer. -/
def Writer.writeRecords (ops : RecordOps) (w : Writer) (file : File) : Option Writer :=
  let w := { w with lineNum := 0 }
  let w := w.writeLine (ops.fileHeaderString file.Header)
  let w := w.writeBatch ops file
  match w.writeIATBatch ops file with
  | none => none
  | some w => some (w.writeLine (ops.fileControlString file.Control))

/-- Go `Writer.Write`: the writer after the call and the error returned, or
`none` when the run stops on a nil pointer. -/
def Writer.Write (ops : RecordOps) (c : converters) (w : Writer) (file : File) :
    Option (Writer × Option GoError) :=
  match file.Validate c with
  | some err => some (w, some err)
  | none =>
    match w.writeRecords ops file with
    | none => none
    | some w => some (w.pad 0, none)

/-! ## `reader.go`

The scanner of a reader, `bufio.NewScanner(r)` with the split function
`bufio.ScanLines` and the buffer of `bufio.MaxScanTokenSize` bytes, is told by
`scanLines`: the lines that the calls of `Scan` yield on an input, up to the
first line that does not fit the buffer, where `Scan` returns false for good
(the error behind it, `bufio.ErrTooLong`, is what `Scanner.Err` would return;
`Reader.Read` does not call it). The loop of `Reader.Read` is given these
lines. A slice `s[a:b]` of a line is taken at character positions, which are
the byte positions of Go on ASCII lines. -/

/-- Go `bufio.MaxScanTokenSize`. -/
def MaxScanTokenSize : Nat := 64 * 1024

/-- The helper `dropCR` of `bufio`: a trailing carriage return is dropped. -/
def dropCR (token : List Char) : List Char :=
  if token.getLast? = some '\r' then token.dropLast else token

/-- The calls of `Scan` with the split function `bufio.ScanLines`, run to the
end of the input: `token` holds the characters since the last newline. A line
is yielded when it ends, newline included, within the `MaxScanTokenSize` bytes
of the buffer; the input ends a last line that is not empty and is shorter
than the buffer (the source of the bytes reports the end of the input by a
read of its own, as files and readers on strings do). At a line that does not
fit, `Scan` returns false and the scanning is over. -/
def scanTokens : List Char → List Char → List (List Char)
  | [], token =>
    if token = [] ∨ MaxScanTokenSize ≤ (String.mk token).utf8ByteSize then []
    else [dropCR token]
  | ch :: rest, token =>
    if ch = '\n' then
      if MaxScanTokenSize ≤ (String.mk token).utf8ByteSize then []
      else dropCR token :: scanTokens rest []
    else scanTokens rest (token ++ [ch])

/-- The lines that the calls of `r.scanner.Scan()` yield, as
`r.scanner.Text()` returns them, on the given input. -/
def scanLines (data : String) : List String :=
  (scanTokens data.toList []).map String.mk

/-- Go `s[a:b]` on a string, exact on ASCII text. -/
def slice (s : String) (a b : Nat) : String := String.mk ((s.toList.drop a).take (b - a))

/-- The zero value `FileHeader{}`. -/
def FileHeader.zero : FileHeader :=
  { ID := "", recordType := "", priorityCode := "", ImmediateDestination := "",
    ImmediateOrigin := "", FileCreationDate := "", FileCreationTime := "",
    FileIDModifier := "", recordSize := "", blockingFactor := "", formatCode := "",
    ImmediateDestinationName := "", ImmediateOriginName := "", ReferenceCode := "" }

/-- The zero value `FileControl{}`. -/
def FileControl.zero : FileControl :=
  { ID := "", recordType := "", BatchCount := 0, BlockCount := 0, EntryAddendaCount := 0,
    EntryHash := 0, TotalDebitEntryDollarAmountInFile := 0,
    TotalCreditEntryDollarAmountInFile := 0, reserved := "" }

/-- The zero value `File{}`. -/
def File.zero : File :=
  { ID := "", Header := FileHeader.zero, Batches := [], IATBatches := [],
    Control := FileControl.zero, NotificationOfChange := [], ReturnEntries := [] }

/-- Go `Reader`, without its scanner. `currentBatch` is nil or a batch;
`IATCurrentBatch` is `none` for the zero value `IATBatch{}`, whose header is
nil. -/
structure Reader where
  File : File
  line : String
  currentBatch : Option Batcher
  IATCurrentBatch : Option IATBatch
  lineNum : Int
  recordName : String
deriving DecidableEq, Repr

/-- Go `NewReader`. -/
def NewReader : Reader :=
  { File := File.zero, line := "", currentBatch := none, IATCurrentBatch := none,
    lineNum := 0, recordName := "" }

/-- Go `Reader.error`. -/
def Reader.error (r : Reader) (err : GoError) : GoError :=
  if r.recordName = "" then
    errors.New ("line:" ++ Itoa r.lineNum ++ " " ++ err.message)
  else
    errors.New ("line:" ++ Itoa r.lineNum ++ " record:" ++ r.recordName ++ " " ++ err.message)

/-- The assignment to the last element of a slice of pointers:
`entries[len(entries)-1] = f(entries[len(entries)-1])`. -/
def updateLast {α : Type} (f : α → α) : List α → List α
  | [] => []
  | [x] => [f x]
  | x :: y :: rest => x :: updateLast f (y :: rest)

/-- Go `Reader.parseFileHeader`. The error built when a header is already
present is discarded by the source, so it does not appear. -/
def Reader.parseFileHeader (ops : RecordOps) (r : Reader) : Reader × Option GoError :=
  let r := { r with recordName := "FileHeader" }
  let r := { r with File := { r.File with Header := ops.fileHeaderParse r.File.Header r.line } }
  match ops.fileHeaderValidate r.File.Header with
  | some err => (r, some (r.error err))
  | none => (r, none)

/-- Go `Reader.parseBatchHeader`. -/
def Reader.parseBatchHeader (ops : RecordOps) (r : Reader) : Reader × Option GoError :=
  let r := { r with recordName := "BatchHeader" }
  if r.currentBatch ≠ none then
    (r, some (r.error (errors.File "" "" msgFileBatchInside)))
  else
    let bh := ops.batchHeaderParse r.line
    match ops.batchHeaderValidate bh with
    | some err => (r, some (r.error err))
    | none =>
      match ops.NewBatch bh with
      | .error err => (r, some (r.error err))
      | .ok batch => ({ r with currentBatch := some batch }, none)

/-- Go `Reader.parseEntryDetail`. -/
def Reader.parseEntryDetail (ops : RecordOps) (r : Reader) : Reader × Option GoError :=
  let r := { r with recordName := "EntryDetail" }
  match r.currentBatch with
  | none => (r, some (r.error (errors.File "" "" msgFileBatchOutside)))
  | some batch =>
    let ed := ops.entryDetailParse r.line
    match ops.entryDetailValidate ed with
    | some err => (r, some (r.error err))
    | none => ({ r with currentBatch := some (ops.batcherAddEntry batch ed) }, none)

/-- One case of the switch of `Reader.parseAddenda`: a new addenda of the Go
type `kind` parses the line, is validated and is added to the last entry of
the current batch. -/
def Reader.addAddenda (ops : RecordOps) (r : Reader) (batch : Batcher) (kind : String) :
    Reader × Option GoError :=
  let addenda := ops.addendaParse kind r.line
  match ops.addendaValidate addenda with
  | some err => (r, some (r.error err))
  | none =>
    ({ r with currentBatch := some { batch with
        Entries := updateLast (fun e => ops.entryAddAddenda e addenda) batch.Entries } }, none)

/-- Go `Reader.parseAddenda`. -/
def Reader.parseAddenda (ops : RecordOps) (r : Reader) : Reader × Option GoError :=
  let r := { r with recordName := "Addenda" }
  match r.currentBatch with
  | none => (r, some (r.error (errors.File "Addenda" "" msgFileBatchOutside)))
  | some batch =>
    match batch.Entries.getLast? with
    | none => (r, some (r.error (errors.File "Addenda" "" msgFileBatchOutside)))
    | some entry =>
      if entry.AddendaRecordIndicator = 1 then
        let code := slice r.line 1 3
        if code = "02" then r.addAddenda ops batch "Addenda02"
        else if code = "05" then r.addAddenda ops batch "Addenda05"
        else if code = "98" then r.addAddenda ops batch "Addenda98"
        else if code = "99" then r.addAddenda ops batch "Addenda99"
        else (r, none)
      else
        (r, some (r.error (errors.File "AddendaRecordIndicator" "" ops.msgBatchAddendaIndicator)))

/-- Go `Reader.parseBatchControl`. -/
def Reader.parseBatchControl (ops : RecordOps) (r : Reader) : Reader × Option GoError :=
  let r := { r with recordName := "BatchControl" }
  match r.currentBatch with
  | some batch =>
    let batch := { batch with Control := ops.batchControlParse batch.Control r.line }
    let r := { r with currentBatch := some batch }
    match ops.batchControlValidate batch.Control with
    | some err => (r, some (r.error err))
    | none => (r, none)
  | none =>
    match r.IATCurrentBatch with
    | none => (r, some (r.error (errors.File "" "" msgFileBatchOutside)))
    | some iatBatch =>
      if iatBatch.Entries = [] then
        (r, some (r.error (errors.File "" "" msgFileBatchOutside)))
      else
        let iatBatch := { iatBatch with Control := ops.batchControlParse iatBatch.Control r.line }
        let r := { r with IATCurrentBatch := some iatBatch }
        match ops.batchControlValidate iatBatch.Control with
        | some err => (r, some (r.error err))
        | none => (r, none)

/-- Go `Reader.parseFileControl`. -/
def Reader.parseFileControl (ops : RecordOps) (r : Reader) : Reader × Option GoError :=
  let r := { r with recordName := "FileControl" }
  if FileControl.zero ≠ r.File.Control then
    (r, some (r.error (errors.File "" "" msgFileControl)))
  else
    let r := { r with File := { r.File with Control := ops.fileControlParse r.File.Control r.line } }
    match ops.fileControlValidate r.File.Control with
    | some err => (r, some (r.error err))
    | none => (r, none)

/-- Go `Reader.parseIATBatchHeader`. -/
def Reader.parseIATBatchHeader (ops : RecordOps) (r : Reader) : Reader × Option GoError :=
  let r := { r with recordName := "BatchHeader" }
  if r.IATCurrentBatch ≠ none then
    (r, some (r.error (errors.File "" "" msgFileBatchInside)))
  else
    let bh := ops.iatBatchHeaderParse r.line
    match ops.iatBatchHeaderValidate bh with
    | some err => (r, some (r.error err))
    | none => ({ r with IATCurrentBatch := some (ops.NewIATBatch bh) }, none)

/-- Go `Reader.parseIATEntryDetail`. -/
def Reader.parseIATEntryDetail (ops : RecordOps) (r : Reader) : Reader × Option GoError :=
  let r := { r with recordName := "EntryDetail" }
  match r.IATCurrentBatch with
  | none => (r, some (r.error (errors.File "" "" msgFileBatchOutside)))
  | some iatBatch =>
    let ed := ops.iatEntryDetailParse r.line
    match ops.iatEntryDetailValidate ed with
    | some err => (r, some (r.error err))
    | none => ({ r with IATCurrentBatch := some (ops.iatBatchAddEntry iatBatch ed) }, none)

/-- One case of `Reader.mandatoryOptionalIATAddenda` or `Reader.returnIATAddenda`:
a new addenda of the Go type `kind` parses the line, is validated and is stored
in the last entry of the IAT batch by `set`. The error is returned bare. -/
def Reader.setIATAddenda (ops : RecordOps) (r : Reader) (iatBatch : IATBatch) (kind : String)
    (set : IATEntryDetail → Addendumer → IATEntryDetail) : Reader × Option GoError :=
  let addenda := ops.addendaParse kind r.line
  match ops.addendaValidate addenda with
  | some err => (r, some err)
  | none =>
    ({ r with IATCurrentBatch := some { iatBatch with
        Entries := updateLast (fun e => set e addenda) iatBatch.Entries } }, none)

/-- Go `Reader.mandatoryOptionalIATAddenda`. -/
def Reader.mandatoryOptionalIATAddenda (ops : RecordOps) (r : Reader) (iatBatch : IATBatch) :
    Reader × Option GoError :=
  let code := slice r.line 1 3
  if code = "10" then
    r.setIATAddenda ops iatBatch "Addenda10" (fun e a => { e with Addenda10 := some a })
  else if code = "11" then
    r.setIATAddenda ops iatBatch "Addenda11" (fun e a => { e with Addenda11 := some a })
  else if code = "12" then
    r.setIATAddenda ops iatBatch "Addenda12" (fun e a => { e with Addenda12 := some a })
  else if code = "13" then
    r.setIATAddenda ops iatBatch "Addenda13" (fun e a => { e with Addenda13 := some a })
  else if code = "14" then
    r.setIATAddenda ops iatBatch "Addenda14" (fun e a => { e with Addenda14 := some a })
  else if code = "15" then
    r.setIATAddenda ops iatBatch "Addenda15" (fun e a => { e with Addenda15 := some a })
  else if code = "16" then
    r.setIATAddenda ops iatBatch "Addenda16" (fun e a => { e with Addenda16 := some a })
  else if code = "17" then
    r.setIATAddenda ops iatBatch "Addenda17" ops.iatEntryAddIATAddenda
  else if code = "18" then
    r.setIATAddenda ops iatBatch "Addenda18" ops.iatEntryAddIATAddenda
  else (r, none)

/-- Go `Reader.returnIATAddenda`. -/
def Reader.returnIATAddenda (ops : RecordOps) (r : Reader) (iatBatch : IATBatch) :
    Reader × Option GoError :=
  r.setIATAddenda ops iatBatch "Addenda99" ops.iatEntryAddIATAddenda

/-- Go `Reader.switchIATAddenda`. -/
def Reader.switchIATAddenda (ops : RecordOps) (r : Reader) (iatBatch : IATBatch) :
    Reader × Option GoError :=
  let code := slice r.line 1 3
  if code ∈ ["10", "11", "12", "13", "14", "15", "16", "17", "18"] then
    r.mandatoryOptionalIATAddenda ops iatBatch
  else if code = "99" then
    r.returnIATAddenda ops iatBatch
  else (r, none)

/-- Go `Reader.parseIATAddenda`. -/
def Reader.parseIATAddenda (ops : RecordOps) (r : Reader) : Reader × Option GoError :=
  let r := { r with recordName := "Addenda" }
  match r.IATCurrentBatch with
  | none => (r, some (r.error (errors.File "Addenda" "" msgFileBatchOutside)))
  | some iatBatch =>
    match iatBatch.Entries.getLast? with
    | none => (r, some (r.error (errors.File "Addenda" "" msgFileBatchOutside)))
    | some entry =>
      if entry.AddendaRecordIndicator = 1 then
        match r.switchIATAddenda ops iatBatch with
        | (r, some err) => (r, some (r.error err))
        | (r, none) => (r, none)
      else
        (r, some (r.error (errors.File "AddendaRecordIndicator" "" ops.msgIATBatchAddendaIndicator)))

/-- Go `Reader.parseBH`. -/
def Reader.parseBH (ops : RecordOps) (r : Reader) : Reader × Option GoError :=
  if slice r.line 50 53 = "IAT" then r.parseIATBatchHeader ops else r.parseBatchHeader ops

/-- Go `Reader.parseED`. -/
def Reader.parseED (ops : RecordOps) (r : Reader) : Reader × Option GoError :=
  if slice r.line 16 29 = "             " then r.parseIATEntryDetail ops
  else r.parseEntryDetail ops

/-- Go `Reader.parseEDAddenda`. -/
def Reader.parseEDAddenda (ops : RecordOps) (r : Reader) : Reader × Option GoError :=
  if r.currentBatch ≠ none then r.parseAddenda ops else r.parseIATAddenda ops

/-- The batch-control case of `Reader.parseLine` after `parseBatchControl` has
returned nil: the open batch is validated and added to the file. -/
def Reader.closeBatch (ops : RecordOps) (r : Reader) : Reader × Option GoError :=
  match r.currentBatch with
  | some batch =>
    match ops.batcherValidate batch with
    | some err =>
      let r := { r with recordName := "Batches" }
      (r, some (r.error err))
    | none => ({ r with File := r.File.AddBatch batch, currentBatch := none }, none)
  | none =>
    match r.IATCurrentBatch with
    | some iatBatch =>
      match ops.iatBatchValidate iatBatch with
      | some err =>
        let r := { r with recordName := "Batches" }
        (r, some (r.error err))
      | none => ({ r with File := r.File.AddIATBatch iatBatch, IATCurrentBatch := none }, none)
    | none => (r, none)

/-- Go `Reader.parseLine`. -/
def Reader.parseLine (ops : RecordOps) (r : Reader) : Reader × Option GoError :=
  let pos := slice r.line 0 1
  if pos = fileHeaderPos then r.parseFileHeader ops
  else if pos = batchHeaderPos then r.parseBH ops
  else if pos = entryDetailPos then r.parseED ops
  else if pos = entryAddendaPos then r.parseEDAddenda ops
  else if pos = batchControlPos then
    match r.parseBatchControl ops with
    | (r, some err) => (r, some err)
    | (r, none) => r.closeBatch ops
  else if pos = fileControlPos then
    if slice r.line 0 2 = "99" then (r, none)
    else r.parseFileControl ops
  else
    (r, some (r.error (errors.File "recordType" pos (msgUnknownRecordType pos))))

/-- The loop of `Reader.processFixedWidthFile` over the characters of the
line: `i` is the byte index of the next character, `record` the characters
gathered so far. -/
def Reader.fixedWidthLoop (ops : RecordOps) :
    List Char → Nat → String → Reader → Reader × Option GoError
  | [], _, _, r => (r, none)
  | ch :: rest, i, record, r =>
    let record := record ++ String.singleton ch
    if i > 0 ∧ (i + 1) % 94 = 0 then
      let r := { r with line := record }
      match r.parseLine ops with
      | (r, some err) => (r, some err)
      | (r, none) => Reader.fixedWidthLoop ops rest (i + ch.utf8Size) "" r
    else
      Reader.fixedWidthLoop ops rest (i + ch.utf8Size) record r

/-- Go `Reader.processFixedWidthFile`. -/
def Reader.processFixedWidthFile (ops : RecordOps) (r : Reader) (line : String) :
    Reader × Option GoError :=
  Reader.fixedWidthLoop ops line.toList 0 "" r

/-- The loop `for r.scanner.Scan()` of `Reader.Read` over the lines that the
scanner yields, which on the input `data` are `scanLines data`. -/
def Reader.readLoop (ops : RecordOps) : List String → Reader → Reader × Option GoError
  | [], r => (r, none)
  | line :: rest, r =>
    let r := { r with lineNum := r.lineNum + 1 }
    let lineLength : Int := line.utf8ByteSize
    if r.lineNum = 1 ∧ lineLength > RecordLength ∧ Int.tmod lineLength RecordLength = 0 then
      match r.processFixedWidthFile ops line with
      | (r, some err) => (r, some err)
      | (r, none) => Reader.readLoop ops rest r
    else if lineLength ≠ RecordLength then
      (r, some (r.error
        (errors.File "RecordLength" (Itoa lineLength) (msgRecordLength lineLength))))
    else
      let r := { r with line := line }
      match r.parseLine ops with
      | (r, some err) => (r, some err)
      | (r, none) => Reader.readLoop ops rest r

/-- Go `Reader.Read` on the lines that the scanner yields, which on the input
`data` are `scanLines data`: the reader after the call, whose `File` is the
file returned, and the error returned. -/
def Reader.Read (ops : RecordOps) (r : Reader) (lines : List String) :
    Reader × Option GoError :=
  let r := { r with lineNum := 0 }
  match Reader.readLoop ops lines r with
  | (r, some err) => (r, some err)
  | (r, none) =>
    if FileHeader.zero = r.File.Header then
      let r := { r with recordName := "FileHeader" }
      (r, some (r.error (errors.File "" "" msgFileHeader)))
    else if FileControl.zero = r.File.Control then
      let r := { r with recordName := "FileControl" }
      (r, some (r.error (errors.File "" "" msgFileControl)))
    else (r, none)

/-! ## Vocabulary of the statements about `File.Create` -/

/-- The assignment of one number to the header and the control of a batch. -/
def Batcher.withNumber (b : Batcher) (n : Int) : Batcher :=
  { b with
    Header := { b.Header with BatchNumber := n }
    Control := { b.Control with BatchNumber := n } }

/-- The assignment of one number to the header and the control of an IAT
batch. -/
def IATBatch.withNumber (b : IATBatch) (n : Int) : IATBatch :=
  { b with
    Header := { b.Header with BatchNumber := n }
    Control := { b.Control with BatchNumber := n } }

/-- The sum of a field of the batch controls over ordinary and IAT batches. -/
def File.sumControls (f : File) (field : BatchControl → Int) : Int :=
  (f.Batches.map (fun b => field b.Control)).sum +
    (f.IATBatches.map (fun b => field b.Control)).sum

/-- The record count of section 4.4: two for the file envelope, and per batch
two plus the entry and addenda count of its control. -/
def File.recordCount (f : File) : Int :=
  2 + f.sumControls (fun bc => 2 + bc.EntryAddendaCount)

/-! ## Vocabulary of the statements about `Writer.Write`

The order of the records as section 4.6 words it, to be compared with what the
loops of `writer.go` write. -/

/-- An entry followed by its addenda in their recorded order. -/
def entryRecords (ops : RecordOps) (entry : EntryDetail) : List String :=
  ops.entryDetailString entry :: entry.Addendum.map ops.addendaString

/-- A batch: its header, its entries each followed by its addenda, its
control. -/
def batchRecords (ops : RecordOps) (batch : Batcher) : List String :=
  [ops.batchHeaderString batch.Header] ++ batch.Entries.flatMap (entryRecords ops) ++
    [ops.batchControlString batch.Control]

/-- The seven mandatory addenda of an IAT entry, Addenda10 to Addenda16, in
this order: those that the entry has. -/
def IATEntryDetail.mandatory (entry : IATEntryDetail) : List Addendumer :=
  [entry.Addenda10, entry.Addenda11, entry.Addenda12, entry.Addenda13, entry.Addenda14,
    entry.Addenda15, entry.Addenda16].filterMap id

/-- None of the pointers `Addenda10` to `Addenda16` of the entry is nil. -/
def IATEntryDetail.complete (entry : IATEntryDetail) : Bool :=
  entry.Addenda10.isSome && entry.Addenda11.isSome && entry.Addenda12.isSome &&
    entry.Addenda13.isSome && entry.Addenda14.isSome && entry.Addenda15.isSome &&
    entry.Addenda16.isSome

/-- Every IAT entry of the file has its seven mandatory addenda. -/
def File.iatComplete (f : File) : Bool :=
  f.IATBatches.all (fun iatBatch => iatBatch.Entries.all IATEntryDetail.complete)

/-- An IAT entry followed by its addenda: the seven mandatory ones, then the
Addenda17 and Addenda18 records in their recorded order. -/
def iatEntryRecords (ops : RecordOps) (entry : IATEntryDetail) : List String :=
  [ops.iatEntryDetailString entry] ++ entry.mandatory.map ops.addendaString ++
    entry.Addendum.map ops.addendaString

/-- An IAT batch: its header, its entries each followed by its addenda, its
control. -/
def iatBatchRecords (ops : RecordOps) (iatBatch : IATBatch) : List String :=
  [ops.iatBatchHeaderString iatBatch.Header] ++
    iatBatch.Entries.flatMap (iatEntryRecords ops) ++
    [ops.batchControlString iatBatch.Control]

/-- The records of a file: the file header, the batches in list order, the IAT
batches in list order, the file control. -/
def File.records (ops : RecordOps) (f : File) : List String :=
  [ops.fileHeaderString f.Header] ++ f.Batches.flatMap (batchRecords ops) ++
    f.IATBatches.flatMap (iatBatchRecords ops) ++ [ops.fileControlString f.Control]

/-- The number of padding lines after `n` record lines: what is missing to the
next multiple of ten. -/
def padCount (n : Nat) : Nat := (10 - n % 10) % 10

/-- The writer after the given records are written, each with its newline. -/
def Writer.emit (w : Writer) (records : List String) : Writer :=
  { w := w.w ++ records.map (fun s => s ++ "\n"), lineNum := w.lineNum + records.length }

/-! ## Vocabulary of the round trip through `Writer.Write` and `Reader.Read`

The bytes the writer hands to its sink are the input of the reader's scanner,
and the lines that it yields on them are what `Reader.Read` is given. The
conditions under which a file is read back say, record by record, that the
record's own `Parse` recovers it from its own `String` and that the reader's
checks accept it (the record contract of section 4.2). -/

/-- The bytes a writer has handed to its sink. -/
def Writer.bytes (w : Writer) : String := String.join w.w

/-- What the reader looks at in a batch: header, entries, control. -/
def Batcher.core (b : Batcher) : BatchHeader × List EntryDetail × BatchControl :=
  (b.Header, b.Entries, b.Control)

/-- What the reader looks at in an IAT batch: header, entries, control. -/
def IATBatch.core (b : IATBatch) : IATBatchHeader × List IATEntryDetail × BatchControl :=
  (b.Header, b.Entries, b.Control)

/-- A line that the scanner yields as it is written: no newline inside, no
carriage return at the end, and shorter than the buffer of the scanner. -/
def unbroken (s : String) : Prop :=
  '\n' ∉ s.toList ∧ s.toList.getLast? ≠ some '\r' ∧ s.utf8ByteSize < MaxScanTokenSize

/-- A record line the scanner and the reader's dispatch take as one line of
the record type `pos`: 94 bytes, first byte `pos`, no newline inside, no
carriage return at the end. -/
def lineOK (s pos : String) : Bool :=
  decide (s.utf8ByteSize = 94) && decide (slice s 0 1 = pos) &&
    decide ('\n' ∉ s.toList) && decide (s.toList.getLast? ≠ some '\r')

/-- The file header is recovered from its line by `Parse` on the zero header,
passes `Validate`, and is not the zero header. -/
def fileHeaderOK (ops : RecordOps) (h : FileHeader) : Bool :=
  lineOK (ops.fileHeaderString h) fileHeaderPos &&
    decide (ops.fileHeaderParse FileHeader.zero (ops.fileHeaderString h) = h) &&
    (ops.fileHeaderValidate h).isNone && decide (h ≠ FileHeader.zero)

/-- The file control is recovered from its line by `Parse` on the zero
control, passes `Validate`, is not the zero control, and its line does not
begin with "99", which the reader takes for padding. -/
def fileControlOK (ops : RecordOps) (fc : FileControl) : Bool :=
  lineOK (ops.fileControlString fc) fileControlPos &&
    decide (slice (ops.fileControlString fc) 0 2 ≠ "99") &&
    decide (ops.fileControlParse FileControl.zero (ops.fileControlString fc) = fc) &&
    (ops.fileControlValidate fc).isNone && decide (fc ≠ FileControl.zero)

/-- The Go type `Reader.parseAddenda` creates for the type code in columns 2
and 3 of an addenda line; `none` for a code its switch has no case for. -/
def addendaKind (code : String) : Option String :=
  if code = "02" then some "Addenda02"
  else if code = "05" then some "Addenda05"
  else if code = "98" then some "Addenda98"
  else if code = "99" then some "Addenda99"
  else none

/-- The Go type `Reader.switchIATAddenda` creates and hands to `AddIATAddenda`
for the type code in columns 2 and 3; `none` for every other code. -/
def iatAddendaKind (code : String) : Option String :=
  if code = "17" then some "Addenda17"
  else if code = "18" then some "Addenda18"
  else if code = "99" then some "Addenda99"
  else none

/-- An addenda of an ordinary entry is recovered from its line: the type code
on the line is one `Reader.parseAddenda` has a case for, `Parse` of that type
gives the addenda back, and it passes `Validate`. -/
def addendaOK (ops : RecordOps) (a : Addendumer) : Bool :=
  lineOK (ops.addendaString a) entryAddendaPos &&
    match addendaKind (slice (ops.addendaString a) 1 3) with
    | some kind =>
      decide (ops.addendaParse kind (ops.addendaString a) = a) && (ops.addendaValidate a).isNone
    | none => false

/-- An addenda of the slice `Addendum` of an IAT entry is recovered from its
line. -/
def iatAddendaOK (ops : RecordOps) (a : Addendumer) : Bool :=
  lineOK (ops.addendaString a) entryAddendaPos &&
    match iatAddendaKind (slice (ops.addendaString a) 1 3) with
    | some kind =>
      decide (ops.addendaParse kind (ops.addendaString a) = a) && (ops.addendaValidate a).isNone
    | none => false

/-- A mandatory addenda of an IAT entry, of type code `code` and Go type
`kind`, is recovered from its line. -/
def mandatoryAddendaOK (ops : RecordOps) (code kind : String) (a : Addendumer) : Bool :=
  lineOK (ops.addendaString a) entryAddendaPos &&
    decide (slice (ops.addendaString a) 1 3 = code) &&
    decide (ops.addendaParse kind (ops.addendaString a) = a) && (ops.addendaValidate a).isNone

/-- The pointer to a mandatory addenda of an IAT entry is not nil, and the
addenda is recovered from its line. -/
def mandatoryOK (ops : RecordOps) (code kind : String) (a : Option Addendumer) : Bool :=
  match a with
  | none => false
  | some a => mandatoryAddendaOK ops code kind a

/-- Each addenda of the list is recovered from its line, and the entry it is
added to carries the addenda record indicator 1 at that moment: `entry` is the
entry as the addenda before it have left it. -/
def addendaChainOK (ops : RecordOps) : EntryDetail → List Addendumer → Bool
  | _, [] => true
  | entry, a :: rest =>
    decide (entry.AddendaRecordIndicator = 1) && addendaOK ops a &&
      addendaChainOK ops (ops.entryAddAddenda entry a) rest

/-- The same for the slice `Addendum` of an IAT entry. -/
def iatAddendaChainOK (ops : RecordOps) : IATEntryDetail → List Addendumer → Bool
  | _, [] => true
  | entry, a :: rest =>
    decide (entry.AddendaRecordIndicator = 1) && iatAddendaOK ops a &&
      iatAddendaChainOK ops (ops.iatEntryAddIATAddenda entry a) rest

/-- An entry is recovered from its lines: its line is not taken for an IAT
entry (columns 17 to 29 are not blank), the entry `Parse` gives passes
`Validate`, its addenda are recovered, and adding them to the parsed entry in
order gives the entry back. -/
def entryOK (ops : RecordOps) (entry : EntryDetail) : Bool :=
  let line := ops.entryDetailString entry
  let parsed := ops.entryDetailParse line
  lineOK line entryDetailPos && decide (slice line 16 29 ≠ "             ") &&
    (ops.entryDetailValidate parsed).isNone &&
    addendaChainOK ops parsed entry.Addendum &&
    decide (entry.Addendum.foldl ops.entryAddAddenda parsed = entry)

/-- The entry `Reader.mandatoryOptionalIATAddenda` has built once it has
stored the seven mandatory addenda of `entry` in the parsed entry. -/
def withMandatory (parsed entry : IATEntryDetail) : IATEntryDetail :=
  { parsed with
    Addenda10 := entry.Addenda10, Addenda11 := entry.Addenda11, Addenda12 := entry.Addenda12,
    Addenda13 := entry.Addenda13, Addenda14 := entry.Addenda14, Addenda15 := entry.Addenda15,
    Addenda16 := entry.Addenda16 }

/-- An IAT entry is recovered from its lines: columns 17 to 29 of its line are
blank, the entry `Parse` gives passes `Validate` and carries the addenda
record indicator 1, its seven mandatory addenda and the addenda of its slice
are recovered, and storing and adding them in order gives the entry back. -/
def iatEntryOK (ops : RecordOps) (entry : IATEntryDetail) : Bool :=
  let line := ops.iatEntryDetailString entry
  let parsed := ops.iatEntryDetailParse line
  lineOK line entryDetailPos && decide (slice line 16 29 = "             ") &&
    (ops.iatEntryDetailValidate parsed).isNone &&
    decide (parsed.AddendaRecordIndicator = 1) &&
    mandatoryOK ops "10" "Addenda10" entry.Addenda10 &&
    mandatoryOK ops "11" "Addenda11" entry.Addenda11 &&
    mandatoryOK ops "12" "Addenda12" entry.Addenda12 &&
    mandatoryOK ops "13" "Addenda13" entry.Addenda13 &&
    mandatoryOK ops "14" "Addenda14" entry.Addenda14 &&
    mandatoryOK ops "15" "Addenda15" entry.Addenda15 &&
    mandatoryOK ops "16" "Addenda16" entry.Addenda16 &&
    iatAddendaChainOK ops (withMandatory parsed entry) entry.Addendum &&
    decide (entry.Addendum.foldl ops.iatEntryAddIATAddenda (withMandatory parsed entry) = entry)

/-- A batch is recovered from its lines: the header line is not taken for an
IAT header, `Parse` gives the header back and it passes `Validate`, `NewBatch`
makes of it an empty batch with that header, the entries are recovered, `Parse`
on the control of the new batch gives the control back, and control and batch
pass `Validate`. -/
def batchOK (ops : RecordOps) (batch : Batcher) : Bool :=
  let hline := ops.batchHeaderString batch.Header
  let cline := ops.batchControlString batch.Control
  lineOK hline batchHeaderPos && decide (slice hline 50 53 ≠ "IAT") &&
    decide (ops.batchHeaderParse hline = batch.Header) &&
    (ops.batchHeaderValidate batch.Header).isNone &&
    (match ops.NewBatch batch.Header with
      | .ok b0 =>
        decide (b0.Header = batch.Header) && decide (b0.Entries = []) &&
          decide (ops.batchControlParse b0.Control cline = batch.Control)
      | .error _ => false) &&
    batch.Entries.all (entryOK ops) &&
    lineOK cline batchControlPos &&
    (ops.batchControlValidate batch.Control).isNone &&
    (ops.batcherValidate batch).isNone

/-- An IAT batch is recovered from its lines: the header line carries "IAT"
in columns 51 to 53, the batch has an entry (the reader refuses the control of
an IAT batch without entries), and the rest as for a batch. -/
def iatBatchOK (ops : RecordOps) (batch : IATBatch) : Bool :=
  let hline := ops.iatBatchHeaderString batch.Header
  let cline := ops.batchControlString batch.Control
  lineOK hline batchHeaderPos && decide (slice hline 50 53 = "IAT") &&
    decide (ops.iatBatchHeaderParse hline = batch.Header) &&
    (ops.iatBatchHeaderValidate batch.Header).isNone &&
    decide ((ops.NewIATBatch batch.Header).Header = batch.Header) &&
    decide ((ops.NewIATBatch batch.Header).Entries = []) &&
    decide (ops.batchControlParse (ops.NewIATBatch batch.Header).Control cline = batch.Control) &&
    decide (batch.Entries ≠ []) &&
    batch.Entries.all (iatEntryOK ops) &&
    lineOK cline batchControlPos &&
    (ops.batchControlValidate batch.Control).isNone &&
    (ops.iatBatchValidate batch).isNone

/-- Every record of the file is recovered from its lines. -/
def File.recoverable (ops : RecordOps) (f : File) : Bool :=
  fileHeaderOK ops f.Header && f.Batches.all (batchOK ops) &&
    f.IATBatches.all (iatBatchOK ops) && fileControlOK ops f.Control

/-- The laws of the batch engine the reader relies on: `AddEntry` appends the
entry and leaves header and control alone, and `Validate` of a batch looks at
header, entries and control only. -/
structure EngineLaws (ops : RecordOps) : Prop where
  addEntry : ∀ (b : Batcher) (ed : EntryDetail),
    (ops.batcherAddEntry b ed).Entries = b.Entries ++ [ed] ∧
    (ops.batcherAddEntry b ed).Header = b.Header ∧
    (ops.batcherAddEntry b ed).Control = b.Control
  iatAddEntry : ∀ (b : IATBatch) (ed : IATEntryDetail),
    (ops.iatBatchAddEntry b ed).Entries = b.Entries ++ [ed] ∧
    (ops.iatBatchAddEntry b ed).Header = b.Header ∧
    (ops.iatBatchAddEntry b ed).Control = b.Control
  validateCore : ∀ b1 b2 : Batcher, b1.core = b2.core →
    ops.batcherValidate b1 = ops.batcherValidate b2
  iatValidateCore : ∀ b1 b2 : IATBatch, b1.core = b2.core →
    ops.iatBatchValidate b1 = ops.iatBatchValidate b2

/-! ## Vocabulary of the statements about the reader's dispatch -/

/-- Go `if err := ...; err != nil { return err }` followed by the rest of the
work: the rest runs from the state the first step leaves, unless that step
ended in an error. -/
def Reader.andThen (p : Reader × Option GoError) (f : Reader → Reader × Option GoError) :
    Reader × Option GoError :=
  match p with
  | (r, some err) => (r, some err)
  | (r, none) => f r

/-- The dispatch of records one after another: each is stored in `r.line` and
handed to `Reader.parseLine`, up to the first error. -/
def Reader.parseRecords (ops : RecordOps) : List String → Reader → Reader × Option GoError
  | [], r => (r, none)
  | record :: rest, r =>
    Reader.andThen (({ r with line := record }).parseLine ops) (Reader.parseRecords ops rest)

/-- The records that the loop of `Reader.processFixedWidthFile` cuts out of
the characters of a line: `i` is the byte index of the next character,
`record` the characters gathered so far. -/
def fixedWidthRecords : List Char → Nat → String → List String
  | [], _, _ => []
  | ch :: rest, i, record =>
    let record := record ++ String.singleton ch
    if i > 0 ∧ (i + 1) % 94 = 0 then record :: fixedWidthRecords rest (i + ch.utf8Size) ""
    else fixedWidthRecords rest (i + ch.utf8Size) record

/-- The records of an input as `Reader.Read` cuts them: a first line whose
length is a multiple of 94 greater than 94 gives the records of
`processFixedWidthFile`, every other line is one record. -/
def inputRecords : List String → List String
  | [] => []
  | line :: rest =>
    (if (line.utf8ByteSize : Int) > RecordLength ∧
        Int.tmod (line.utf8ByteSize : Int) RecordLength = 0 then
      fixedWidthRecords line.toList 0 ""
    else [line]) ++ rest

/-! ## `merge.go`

`MergeFiles` works on pointers to files: the output file of a key can be the
input file itself (`lookupByHeader` returns its argument), so the files live
in a store, addressed by numbers, and the input file `fs.infiles[i]` is the
object at address `i`. The files of the input list are taken to be distinct
objects. A batch is shared between the input file and the output file it is
added to; the one field written through that pointer is the batch number,
which `File.Create` and the renumbering loop set: the embedding writes it in
the output file only, and the input file keeps the number it had. -/

/-- Go `NACHAFileLineLimit`. -/
def NACHAFileLineLimit : Int := 10000

/-- Modelled from the spec: what `merge.go` calls and the sources do not
declare, taken as parameters: `Batcher.Equal` and `File.RemoveBatch` (section
4.7: "an equal batch (by Equal semantics ...)", "roll back the last batch");
the readings of `time.Now()`, the k-th as `now.Format("060102")` and
`now.Format("1504")`; and the `%#v` rendering of a file header. -/
structure MergeOps where
  Equal : Batcher → Batcher → Bool
  RemoveBatch : File → Batcher → File
  nowDate : Nat → String
  nowTime : Nat → String
  headerGoString : FileHeader → String

/-- The body of the loop `for j := range entries` of `lineCount`. -/
def lineCountEntry (lines : Int) (entry : EntryDetail) : Int :=
  let lines := lines + 1
  let lines := if entry.Addenda02 ≠ none then lines + 1 else lines
  let lines := lines + entry.Addenda05.length
  let lines := if entry.Addenda98 ≠ none then lines + 1 else lines
  let lines := if entry.Addenda99 ≠ none then lines + 1 else lines
  lines

/-- The body of the loop `for j := range f.IATBatches[i].Entries` of
`lineCount`. -/
def lineCountIATEntry (lines : Int) (entry : IATEntryDetail) : Int :=
  let lines := lines + 1
  let lines := if entry.Addenda10 ≠ none then lines + 1 else lines
  let lines := if entry.Addenda11 ≠ none then lines + 1 else lines
  let lines := if entry.Addenda12 ≠ none then lines + 1 else lines
  let lines := if entry.Addenda13 ≠ none then lines + 1 else lines
  let lines := if entry.Addenda14 ≠ none then lines + 1 else lines
  let lines := if entry.Addenda15 ≠ none then lines + 1 else lines
  let lines := if entry.Addenda16 ≠ none then lines + 1 else lines
  let lines := lines + entry.Addenda17.length
  let lines := lines + entry.Addenda18.length
  let lines := if entry.Addenda98 ≠ none then lines + 1 else lines
  let lines := if entry.Addenda99 ≠ none then lines + 1 else lines
  lines

/-- Go `lineCount`: the number of lines and the error, which is always nil. -/
def lineCount (f : File) : Int × Option GoError :=
  let lines : Int := 2
  let lines := f.Batches.foldl (fun lines batch =>
    batch.Entries.foldl lineCountEntry (lines + 2)) lines
  let lines := f.IATBatches.foldl (fun lines iatBatch =>
    iatBatch.Entries.foldl lineCountIATEntry (lines + 2)) lines
  (lines, none)

/-- Go `NewFile()` with its header set to `h`: `NewFileHeader` is not among the
sources, and `merge.go` overwrites the header at once. -/
def NewFile (h : FileHeader) : File :=
  { ID := "", Header := h, Batches := [], IATBatches := [], Control := NewFileControl,
    NotificationOfChange := [], ReturnEntries := [] }

/-- Go `mergableFiles`, with the store of the file objects: `heap a` is the
file at address `a`, the addresses below `next` are in use, `clock` counts the
readings of `time.Now()`. The files of `locMaxed` are copies that nothing
points to, so they are held as values. -/
structure mergableFiles where
  heap : Nat → File
  next : Nat
  clock : Nat
  infiles : List Nat
  outfiles : List Nat
  locMaxed : List File

/-- The test of `lookupByHeader` and `create`: the headers of `a` and `f`
agree on ImmediateDestination and ImmediateOrigin. -/
def sameKey (a f : FileHeader) : Bool :=
  a.ImmediateDestination = f.ImmediateDestination ∧ a.ImmediateOrigin = f.ImmediateOrigin

/-- Go `mergableFiles.lookupByHeader`: the state after the call and the
address returned. -/
def mergableFiles.lookupByHeader (fs : mergableFiles) (f : Nat) : mergableFiles × Nat :=
  match fs.outfiles.find? (fun a => sameKey (fs.heap a).Header (fs.heap f).Header) with
  | some a => (fs, a)
  | none => ({ fs with outfiles := fs.outfiles ++ [f] }, f)

/-- Go `mergableFiles.create`: the state after the call and the address of the
new file. The error of `out.Create()` is dropped by the source. -/
def mergableFiles.create (rops : RecordOps) (m : MergeOps) (fs : mergableFiles) (f : Nat) :
    mergableFiles × Nat :=
  let outfiles := fs.outfiles.eraseP (fun a => sameKey (fs.heap a).Header (fs.heap f).Header)
  let out := NewFile { (fs.heap f).Header with
    FileCreationDate := m.nowDate fs.clock
    FileCreationTime := m.nowTime fs.clock }
  let out := (File.Create rops out).1
  ({ fs with
      heap := Function.update fs.heap fs.next out
      next := fs.next + 1
      clock := fs.clock + 1
      outfiles := outfiles ++ [fs.next] }, fs.next)

/-- The ways `MergeFiles` stops early: it returns an error, or an index
expression `fs.infiles[i].Batches[j]` is out of range and the program
panics. -/
inductive MergeStop where
  | error (err : GoError)
  | panic

/-- The error `fmt.Errorf("problem getting line count of File (header: %#v):
%v", outf.Header, err)`. -/
def lineCountProblem (m : MergeOps) (h : FileHeader) (err : Option GoError) : GoError :=
  .errorString ("problem getting line count of File (header: " ++ m.headerGoString h ++ "): " ++
    (match err with
     | none => "<nil>"
     | some e => e.message))

/-- The branch `if n > NACHAFileLineLimit` of the loop body of `MergeFiles`:
the batch is removed from `outf`, a copy of `outf` goes to `locMaxed`, and the
batch is added to the file that `create` returns. -/
def mergeOverLimit (rops : RecordOps) (m : MergeOps) (i j : Nat) (st : mergableFiles × Nat) :
    Except MergeStop (mergableFiles × Nat) :=
  let fs := st.1
  let outf := st.2
  match (fs.heap i).Batches[j]? with
  | none => .error .panic
  | some batch =>
    let r := File.Create rops (m.RemoveBatch (fs.heap outf) batch)
    let fs := { fs with heap := Function.update fs.heap outf r.1 }
    match r.2 with
    | some err => .error (.error err)
    | none =>
      let fs := { fs with locMaxed := fs.locMaxed ++ [fs.heap outf] }
      let c := fs.create rops m outf
      let fs := c.1
      let outf := c.2
      match (fs.heap i).Batches[j]? with
      | none => .error .panic
      | some batch =>
        let r := File.Create rops ((fs.heap outf).AddBatch batch)
        let fs := { fs with heap := Function.update fs.heap outf r.1 }
        match r.2 with
        | some err => .error (.error err)
        | none => .ok (fs, outf)

/-- The body of the loop `for j := range fs.infiles[i].Batches` of
`MergeFiles`, on the state and the address `outf`. -/
def mergeBatch (rops : RecordOps) (m : MergeOps) (i j : Nat) (st : mergableFiles × Nat) :
    Except MergeStop (mergableFiles × Nat) :=
  let fs := st.1
  let outf := st.2
  match (fs.heap i).Batches[j]? with
  | none => .error .panic
  | some batch =>
    if (fs.heap outf).Batches.any (fun o => m.Equal batch o) then .ok (fs, outf)
    else
      let r := File.Create rops ((fs.heap outf).AddBatch batch)
      let fs := { fs with heap := Function.update fs.heap outf r.1 }
      match r.2 with
      | some err => .error (.error err)
      | none =>
        let n := lineCount (fs.heap outf)
        if n.1 = 0 ∨ n.2.isSome then
          .error (.error (lineCountProblem m (fs.heap outf).Header n.2))
        else if n.1 > NACHAFileLineLimit then mergeOverLimit rops m i j (fs, outf)
        else .ok (fs, outf)

/-- The loop `for j := range fs.infiles[i].Batches` over the indices `js`. -/
def mergeBatches (rops : RecordOps) (m : MergeOps) (i : Nat) :
    List Nat → mergableFiles × Nat → Except MergeStop (mergableFiles × Nat)
  | [], st => .ok st
  | j :: js, st =>
    match mergeBatch rops m i j st with
    | .error e => .error e
    | .ok st => mergeBatches rops m i js st

/-- The loop `for j := range outf.Batches` of `MergeFiles`: the batch at index
`j` gets the number `j + 1` in its header and in its control; `n` is the
number of the first batch of the list. -/
def renumber : Int → List Batcher → List Batcher
  | _, [] => []
  | n, batch :: rest =>
    { batch with
      Header := { batch.Header with BatchNumber := n }
      Control := { batch.Control with BatchNumber := n } } :: renumber (n + 1) rest

/-- The body of the loop `for i := range fs.infiles` of `MergeFiles`. -/
def mergeFile (rops : RecordOps) (m : MergeOps) (i : Nat) (fs : mergableFiles) :
    Except MergeStop mergableFiles :=
  let l := fs.lookupByHeader i
  match mergeBatches rops m i (List.range (l.1.heap i).Batches.length) l with
  | .error e => .error e
  | .ok st =>
    let fs := st.1
    let outf := st.2
    .ok { fs with
      heap := Function.update fs.heap outf
        { fs.heap outf with Batches := renumber 1 (fs.heap outf).Batches } }

/-- The loop `for i := range fs.infiles` of `MergeFiles`. -/
def mergeFiles (rops : RecordOps) (m : MergeOps) :
    List Nat → mergableFiles → Except MergeStop mergableFiles
  | [], fs => .ok fs
  | i :: is, fs =>
    match mergeFile rops m i fs with
    | .error e => .error e
    | .ok fs => mergeFiles rops m is fs

/-- Go `MergeFiles`: the files returned, or the way the call stopped. -/
def MergeFiles (rops : RecordOps) (m : MergeOps) (files : List File) :
    Except MergeStop (List File) :=
  let fs : mergableFiles :=
    { heap := fun a => files.getD a File.zero, next := files.length, clock := 0,
      infiles := List.range files.length, outfiles := [], locMaxed := [] }
  match mergeFiles rops m fs.infiles fs with
  | .error e => .error e
  | .ok fs => .ok (fs.locMaxed ++ fs.outfiles.map fs.heap)

/-! ## Vocabulary of the statements about `MergeFiles`

The merge told on values: the output files in their order, with the one that
the batches of the current input file go to picked out. `merge_values` proves
that `MergeFiles` computes it when `Equal` is reflexive. -/

/-- The files of a merge while the batches of one input file are placed: the
output files are `before ++ [cur] ++ after`, and `cur` is the one that `outf`
points to. -/
structure MergeView where
  before : List File
  cur : File
  after : List File
  locMaxed : List File
  clock : Nat

/-- The placing of a batch that has taken `cur` over the line limit: it is
removed again, `cur` is sealed into `locMaxed` and taken out of the output
files, and the batch goes into a new file with the header of `cur` and the
date and time of now, which is the last output file. -/
def MergeView.split (rops : RecordOps) (m : MergeOps) (batch : Batcher) (z : MergeView) :
    Except MergeStop MergeView :=
  let r2 := File.Create rops (m.RemoveBatch z.cur batch)
  match r2.2 with
  | some err => .error (.error err)
  | none =>
    let out := (File.Create rops (NewFile { r2.1.Header with
      FileCreationDate := m.nowDate z.clock
      FileCreationTime := m.nowTime z.clock })).1
    let r3 := File.Create rops (out.AddBatch batch)
    match r3.2 with
    | some err => .error (.error err)
    | none =>
      .ok { before := (z.before ++ r2.1 :: z.after).eraseP
              (fun g => sameKey g.Header r2.1.Header)
            cur := r3.1
            after := []
            locMaxed := z.locMaxed ++ [r2.1]
            clock := z.clock + 1 }

/-- The placing of one batch: it is skipped when a batch of `cur` is Equal to
it; otherwise it is added to `cur`, and when that takes `cur` over the line
limit, `MergeView.split` moves it to a new file. -/
def MergeView.step (rops : RecordOps) (m : MergeOps) (batch : Batcher) (z : MergeView) :
    Except MergeStop MergeView :=
  if z.cur.Batches.any (fun o => m.Equal batch o) then .ok z
  else
    let r := File.Create rops (z.cur.AddBatch batch)
    match r.2 with
    | some err => .error (.error err)
    | none =>
      if (lineCount r.1).1 > NACHAFileLineLimit then
        MergeView.split rops m batch { z with cur := r.1 }
      else .ok { z with cur := r.1 }

/-- The placing of the batches of an input file, one after another. -/
def MergeView.steps (rops : RecordOps) (m : MergeOps) :
    List Batcher → MergeView → Except MergeStop MergeView
  | [], z => .ok z
  | batch :: rest, z =>
    match z.step rops m batch with
    | .error e => .error e
    | .ok z => MergeView.steps rops m rest z

/-- The first file of a list whose header has the key of `h`, with the files
before it and after it. -/
def splitAtKey (h : FileHeader) : List File → Option (List File × File × List File)
  | [] => none
  | g :: gs =>
    if sameKey g.Header h then some ([], g, gs)
    else
      match splitAtKey h gs with
      | none => none
      | some x => some (g :: x.1, x.2.1, x.2.2)

/-- The output files, the sealed files and the clock between two input
files. -/
structure MergeValues where
  outfiles : List File
  locMaxed : List File
  clock : Nat

/-- One input file told on values: when no output file has its key, the file
itself becomes the last output file; otherwise its batches are placed into the
first output file that has its key. In both cases the batches of the file that
`outf` points to at the end are numbered from 1. -/
def MergeValues.file (rops : RecordOps) (m : MergeOps) (f : File) (s : MergeValues) :
    Except MergeStop MergeValues :=
  match splitAtKey f.Header s.outfiles with
  | none => .ok { s with outfiles := s.outfiles ++ [{ f with Batches := renumber 1 f.Batches }] }
  | some x =>
    match MergeView.steps rops m f.Batches
      { before := x.1, cur := x.2.1, after := x.2.2, locMaxed := s.locMaxed, clock := s.clock }
    with
    | .error e => .error e
    | .ok z =>
      .ok { outfiles := z.before ++ { z.cur with Batches := renumber 1 z.cur.Batches } :: z.after
            locMaxed := z.locMaxed
            clock := z.clock }

/-- The input files one after another. -/
def MergeValues.files (rops : RecordOps) (m : MergeOps) :
    List File → MergeValues → Except MergeStop MergeValues
  | [], s => .ok s
  | f :: fs, s =>
    match s.file rops m f with
    | .error e => .error e
    | .ok s => MergeValues.files rops m fs s

/-- The merge told on values: the sealed files, then the output files. -/
def mergeValues (rops : RecordOps) (m : MergeOps) (files : List File) :
    Except MergeStop (List File) :=
  match MergeValues.files rops m files { outfiles := [], locMaxed := [], clock := 0 } with
  | .error e => .error e
  | .ok s => .ok (s.locMaxed ++ s.outfiles)

/-- The laws of `Batcher.Equal` and `File.RemoveBatch` that the statements
about `MergeFiles` assume, after section 4.7 ("identical header minus
batch-number and identical entries", "roll back the last batch"): Equal is
reflexive and symmetric and does not look at the batch number; RemoveBatch
leaves the header and the IAT batches alone, and takes out of the batches, in
their order, those that are Equal to the given one and no other. -/
structure MergeLaws (m : MergeOps) : Prop where
  equal_refl : ∀ b, m.Equal b b = true
  equal_symm : ∀ a b, m.Equal a b = m.Equal b a
  equal_number : ∀ a b n, m.Equal (a.withNumber n) b = m.Equal a b
  remove_header : ∀ f b, (m.RemoveBatch f b).Header = f.Header
  remove_iat : ∀ f b, (m.RemoveBatch f b).IATBatches = f.IATBatches
  remove_sublist : ∀ f b, (m.RemoveBatch f b).Batches.Sublist f.Batches
  remove_equal : ∀ f b, ∀ x ∈ (m.RemoveBatch f b).Batches, m.Equal x b = false
  remove_keeps : ∀ f b, ∀ x ∈ f.Batches, m.Equal x b = false → x ∈ (m.RemoveBatch f b).Batches

/-- The view `z` is the state `fs` with `outf` picked out: the output files of
`fs` are `before ++ [cur] ++ after` of `z`, and `outf` is the address of
`cur`. -/
def MergeView.of (fs : mergableFiles) (outf : Nat) (z : MergeView) : Prop :=
  ∃ A1 A2 : List Nat, fs.outfiles = A1 ++ outf :: A2 ∧ z.before = A1.map fs.heap ∧
    z.cur = fs.heap outf ∧ z.after = A2.map fs.heap ∧ z.locMaxed = fs.locMaxed ∧
    z.clock = fs.clock

/-- The values of a state between two input files. -/
def mergableFiles.values (fs : mergableFiles) : MergeValues :=
  { outfiles := fs.outfiles.map fs.heap, locMaxed := fs.locMaxed, clock := fs.clock }

/-- The state of the store before the input file `k` is taken up: no address
is twice among the output files, the addresses in use are below `next`, and
the input files from `k` on are as they were given and are not among the
output files. -/
structure mergableFiles.wellFormed (files : List File) (k : Nat) (fs : mergableFiles) :
    Prop where
  nodup : fs.outfiles.Nodup
  bound : ∀ a ∈ fs.outfiles, a < fs.next
  len : files.length ≤ fs.next
  fresh : ∀ i, k ≤ i → i < files.length → fs.heap i = files.getD i File.zero ∧ i ∉ fs.outfiles

/-- The lines of an ordinary batch in `lineCount`: header, control and the
lines of its entries. -/
def batchLines (b : Batcher) : Int := 2 + (b.Entries.map (lineCountEntry 0)).sum

/-- The lines of an IAT batch in `lineCount`: header, control and the lines of
its entries. -/
def iatBatchLines (b : IATBatch) : Int :=
  2 + (b.Entries.map (lineCountIATEntry 0)).sum

/-- Two runs agree: both stop, in the same way, or both go on, with results
that `P` relates. -/
def agree {α β : Type} (P : α → β → Prop) : Except MergeStop α → Except MergeStop β → Prop
  | .ok a, .ok b => P a b
  | .error .panic, .error .panic => True
  | .error (.error e), .error (.error e') => e = e'
  | _, _ => False

/-- The batches of a file without their numbers: each with the batch number 0
in header and control. Two batches with the same image are the same batch but
for the number that `File.Create` and the renumbering loop assign. -/
def File.cores (g : File) : List Batcher := g.Batches.map (fun b => b.withNumber 0)

/-- The lines of the IAT batches of a file in `lineCount`. -/
def File.iatLines (g : File) : Int := (g.IATBatches.map iatBatchLines).sum

/-- The output files of a view, with the sealed files. -/
def MergeView.all (z : MergeView) : List File := z.locMaxed ++ (z.before ++ z.cur :: z.after)

/-- No two files of the list have the same key. -/
def keysDistinct (l : List File) : Prop :=
  (l.map (fun g => g.Header)).Pairwise (fun h h1 => sameKey h h1 = false)

/-- The batch `x` is Equal to a batch of one of the files, the batch numbers
left aside. -/
def covered (m : MergeOps) (l : List File) (x : Batcher) : Prop :=
  ∃ g ∈ l, ∃ o ∈ g.cores, m.Equal x o = true

/-! ## Sample values

Concrete records and record methods on which the definitions are evaluated. -/

/-- Modelled from the spec: `numericField` of section 4.1, "right-justified,
zero-padded decimal digits", "overflow truncated to leftmost width digits". -/
def specNumericField (n : Int) (max : Nat) : String :=
  let s := Itoa n
  if s.length > max then s.take max
  else String.mk (List.replicate (max - s.length) '0') ++ s

/-- Modelled from the spec: `alphaField` of section 4.1, "left-justified,
space-padded to exactly width; input truncated to width". -/
def specAlphaField (s : String) (max : Nat) : String :=
  if s.length > max then s.take max
  else s ++ String.mk (List.replicate (max - s.length) ' ')

/-- The value of a list of decimal digits read from the left, starting from
`acc`; `none` at the first character that is not a digit. -/
def digitsValue : List Char → Nat → Option Nat
  | [], acc => some acc
  | c :: cs, acc => if c.isDigit then digitsValue cs (10 * acc + (c.toNat - 48)) else none

/-- Modelled from the spec: `parseNumField` of section 4.1, "non-negative
integer obtained by stripping leading spaces/zeros; empty or all-space yields
0"; a field with a non-digit, which has no number, yields 0 as well. -/
def specParseNumField (s : String) : Int :=
  match digitsValue (s.toList.dropWhile (fun c => c = ' ')) 0 with
  | some n => (n : Int)
  | none => 0

/-- The converters of section 4.1. -/
def specConverters : converters :=
  { numericField := specNumericField
    alphaField := specAlphaField
    parseNumField := specParseNumField }

/-- Go `strings.TrimSpace`, which the spec's `parseAlpha` applies to a field. -/
def trimSpace (s : String) : String :=
  String.mk ((s.toList.dropWhile Char.isWhitespace).reverse.dropWhile Char.isWhitespace).reverse

/-- The error of a record whose mandatory field is missing or wrong. -/
def fieldError (fieldName : String) : GoError :=
  .foreign "*FieldError" (fieldName ++ " is a mandatory field and has a default value")

/-- Modelled from the spec: `FileHeader.String()`, the wire format of section
6. -/
def specFileHeaderString (h : FileHeader) : String :=
  String.join [specAlphaField h.recordType 1, specAlphaField h.priorityCode 2,
    specAlphaField (" " ++ h.ImmediateDestination) 10,
    specAlphaField (" " ++ h.ImmediateOrigin) 10,
    specAlphaField h.FileCreationDate 6, specAlphaField h.FileCreationTime 4,
    specAlphaField h.FileIDModifier 1, specAlphaField h.recordSize 3,
    specAlphaField h.blockingFactor 2, specAlphaField h.formatCode 1,
    specAlphaField h.ImmediateDestinationName 23, specAlphaField h.ImmediateOriginName 23,
    specAlphaField h.ReferenceCode 8]

/-- Modelled from the spec: `FileHeader.Parse`, the wire format of section 6;
the constant fields get their constants. -/
def specFileHeaderParse (h : FileHeader) (record : String) : FileHeader :=
  { ID := h.ID, recordType := "1", priorityCode := "01",
    ImmediateDestination := trimSpace (slice record 3 13),
    ImmediateOrigin := trimSpace (slice record 13 23),
    FileCreationDate := trimSpace (slice record 23 29),
    FileCreationTime := trimSpace (slice record 29 33),
    FileIDModifier := slice record 33 34, recordSize := "094", blockingFactor := "10",
    formatCode := "1",
    ImmediateDestinationName := trimSpace (slice record 40 63),
    ImmediateOriginName := trimSpace (slice record 63 86),
    ReferenceCode := trimSpace (slice record 86 94) }

/-- Modelled from the spec: `FileHeader.Validate`, reduced to the record type
and the inclusion of the two routing numbers. -/
def specFileHeaderValidate (h : FileHeader) : Option GoError :=
  if h.recordType ≠ "1" then some (fieldError "recordType")
  else if h.ImmediateDestination = "" then some (fieldError "ImmediateDestination")
  else if h.ImmediateOrigin = "" then some (fieldError "ImmediateOrigin")
  else none

/-- Modelled from the spec: `FileControl.String()`, the wire format of section
6. -/
def specFileControlString (fc : FileControl) : String :=
  String.join [specAlphaField fc.recordType 1, specNumericField fc.BatchCount 6,
    specNumericField fc.BlockCount 6, specNumericField fc.EntryAddendaCount 8,
    specNumericField fc.EntryHash 10,
    specNumericField fc.TotalDebitEntryDollarAmountInFile 12,
    specNumericField fc.TotalCreditEntryDollarAmountInFile 12,
    specAlphaField fc.reserved 39]

/-- Modelled from the spec: `FileControl.Parse`, the wire format of section
6. -/
def specFileControlParse (fc : FileControl) (record : String) : FileControl :=
  { ID := fc.ID, recordType := "9",
    BatchCount := specParseNumField (slice record 1 7),
    BlockCount := specParseNumField (slice record 7 13),
    EntryAddendaCount := specParseNumField (slice record 13 21),
    EntryHash := specParseNumField (slice record 21 31),
    TotalDebitEntryDollarAmountInFile := specParseNumField (slice record 31 43),
    TotalCreditEntryDollarAmountInFile := specParseNumField (slice record 43 55),
    reserved := blank39 }

/-- Modelled from the spec: `FileControl.Validate`, reduced to the record type
and the inclusion of the batch count. -/
def specFileControlValidate (fc : FileControl) : Option GoError :=
  if fc.recordType ≠ "9" then some (fieldError "recordType")
  else if fc.BatchCount = 0 then some (fieldError "BatchCount")
  else none

/-- Modelled from the spec: `BatchHeader.String()`, the wire format of section
6. -/
def specBatchHeaderString (bh : BatchHeader) : String :=
  String.join [specAlphaField bh.recordType 1, specNumericField bh.ServiceClassCode 3,
    specAlphaField bh.CompanyName 16, specAlphaField bh.CompanyDiscretionaryData 20,
    specAlphaField bh.CompanyIdentification 10, specAlphaField bh.StandardEntryClassCode 3,
    specAlphaField bh.CompanyEntryDescription 10, specAlphaField bh.CompanyDescriptiveDate 6,
    specAlphaField bh.EffectiveEntryDate 6, specAlphaField bh.settlementDate 3,
    specNumericField bh.OriginatorStatusCode 1, specAlphaField bh.ODFIIdentification 8,
    specNumericField bh.BatchNumber 7]

/-- Modelled from the spec: `NewBatchHeader()` followed by `Parse`, the wire
format of section 6. -/
def specBatchHeaderParse (record : String) : BatchHeader :=
  { ID := "", recordType := "5",
    ServiceClassCode := specParseNumField (slice record 1 4),
    CompanyName := trimSpace (slice record 4 20),
    CompanyDiscretionaryData := trimSpace (slice record 20 40),
    CompanyIdentification := trimSpace (slice record 40 50),
    StandardEntryClassCode := slice record 50 53,
    CompanyEntryDescription := trimSpace (slice record 53 63),
    CompanyDescriptiveDate := trimSpace (slice record 63 69),
    EffectiveEntryDate := trimSpace (slice record 69 75),
    settlementDate := trimSpace (slice record 75 78),
    OriginatorStatusCode := specParseNumField (slice record 78 79),
    ODFIIdentification := trimSpace (slice record 79 87),
    BatchNumber := specParseNumField (slice record 87 94) }

/-- Modelled from the spec: `BatchHeader.Validate`, reduced to the record type
and the service class codes of section 3. -/
def specBatchHeaderValidate (bh : BatchHeader) : Option GoError :=
  if bh.recordType ≠ "5" then some (fieldError "recordType")
  else if bh.ServiceClassCode ∉ [200, 220, 225, 280] then some (fieldError "ServiceClassCode")
  else none

/-- Modelled from the spec: `BatchControl.String()`, the wire format of
section 6. -/
def specBatchControlString (bc : BatchControl) : String :=
  String.join [specAlphaField bc.recordType 1, specNumericField bc.ServiceClassCode 3,
    specNumericField bc.EntryAddendaCount 6, specNumericField bc.EntryHash 10,
    specNumericField bc.TotalDebitEntryDollarAmount 12,
    specNumericField bc.TotalCreditEntryDollarAmount 12,
    specAlphaField bc.CompanyIdentification 10, specAlphaField bc.MessageAuthenticationCode 19,
    specAlphaField bc.reserved 6, specAlphaField bc.ODFIIdentification 8,
    specNumericField bc.BatchNumber 7]

/-- Modelled from the spec: `BatchControl.Parse`, the wire format of section
6. -/
def specBatchControlParse (bc : BatchControl) (record : String) : BatchControl :=
  { ID := bc.ID, recordType := "8",
    ServiceClassCode := specParseNumField (slice record 1 4),
    EntryAddendaCount := specParseNumField (slice record 4 10),
    EntryHash := specParseNumField (slice record 10 20),
    TotalDebitEntryDollarAmount := specParseNumField (slice record 20 32),
    TotalCreditEntryDollarAmount := specParseNumField (slice record 32 44),
    CompanyIdentification := trimSpace (slice record 44 54),
    MessageAuthenticationCode := trimSpace (slice record 54 73),
    reserved := "      ",
    ODFIIdentification := trimSpace (slice record 79 87),
    BatchNumber := specParseNumField (slice record 87 94) }

/-- Modelled from the spec: `BatchControl.Validate`, reduced to the record
type. -/
def specBatchControlValidate (bc : BatchControl) : Option GoError :=
  if bc.recordType ≠ "8" then some (fieldError "recordType") else none

/-- Modelled from the spec: `NewBatchControl()`, the record with the record
type of a Batch Control, 8, and a blank reserved field. -/
def NewBatchControl : BatchControl :=
  { ID := "", recordType := "8", ServiceClassCode := 0, EntryAddendaCount := 0,
    EntryHash := 0, TotalDebitEntryDollarAmount := 0, TotalCreditEntryDollarAmount := 0,
    CompanyIdentification := "", MessageAuthenticationCode := "", reserved := "      ",
    ODFIIdentification := "", BatchNumber := 0 }

/-- Modelled from the spec: `EntryDetail.String()`, the wire format of section
6. -/
def specEntryDetailString (ed : EntryDetail) : String :=
  String.join [specAlphaField ed.recordType 1, specNumericField ed.TransactionCode 2,
    specAlphaField ed.RDFIIdentification 8, specAlphaField ed.CheckDigit 1,
    specAlphaField ed.DFIAccountNumber 17, specNumericField ed.Amount 10,
    specAlphaField ed.IdentificationNumber 15, specAlphaField ed.IndividualName 22,
    specAlphaField ed.DiscretionaryData 2, specNumericField ed.AddendaRecordIndicator 1,
    specNumericField ed.TraceNumber 15]

/-- Modelled from the spec: `new(EntryDetail)` followed by `Parse`, the wire
format of section 6; no addenda, no category. -/
def specEntryDetailParse (record : String) : EntryDetail :=
  { ID := "", recordType := "6",
    TransactionCode := specParseNumField (slice record 1 3),
    RDFIIdentification := trimSpace (slice record 3 11),
    CheckDigit := trimSpace (slice record 11 12),
    DFIAccountNumber := trimSpace (slice record 12 29),
    Amount := specParseNumField (slice record 29 39),
    IdentificationNumber := trimSpace (slice record 39 54),
    IndividualName := trimSpace (slice record 54 76),
    DiscretionaryData := trimSpace (slice record 76 78),
    AddendaRecordIndicator := specParseNumField (slice record 78 79),
    TraceNumber := specParseNumField (slice record 79 94),
    Addendum := [], Category := "" }

/-- Modelled from the spec: `EntryDetail.Validate`, reduced to the record
type and the addenda record indicator of section 3. -/
def specEntryDetailValidate (ed : EntryDetail) : Option GoError :=
  if ed.recordType ≠ "6" then some (fieldError "recordType")
  else if ed.AddendaRecordIndicator ∉ [0, 1] then some (fieldError "AddendaRecordIndicator")
  else none

/-- Modelled from the spec: the category constants of section 4.3. -/
def CategoryForward : String := "Forward"

/-- Modelled from the spec: the category constant for Addenda98. -/
def CategoryNOC : String := "NOC"

/-- Modelled from the spec: `EntryDetail.AddAddenda`, the state machine of
section 4.3: an Addenda99 fixes the category Return, an Addenda98 the category
NOC, each held once; any other addenda is appended to a Forward entry. -/
def specEntryAddAddenda (ed : EntryDetail) (a : Addendumer) : EntryDetail :=
  if a.kind = "Addenda99" then
    { ed with AddendaRecordIndicator := 1, Category := CategoryReturn, Addendum := [a] }
  else if a.kind = "Addenda98" then
    { ed with AddendaRecordIndicator := 1, Category := CategoryNOC, Addendum := [a] }
  else
    { ed with AddendaRecordIndicator := 1, Category := CategoryForward,
              Addendum := ed.Addendum ++ [a] }

/-- Modelled from the spec: the `String()` of an addenda record, the wire
format of section 6. -/
def specAddendaString (a : Addendumer) : String :=
  String.join [specAlphaField a.recordType 1, specAlphaField a.TypeCode 2,
    specAlphaField a.payload 84, specNumericField a.EntryDetailSequenceNumber 7]

/-- Modelled from the spec: the constructor of the addenda type `kind`
followed by `Parse`, the wire format of section 6. -/
def specAddendaParse (kind : String) (record : String) : Addendumer :=
  { kind := kind, recordType := "7", TypeCode := slice record 1 3,
    payload := trimSpace (slice record 3 87),
    EntryDetailSequenceNumber := specParseNumField (slice record 87 94) }

/-- Modelled from the spec: the `Validate` of an addenda record, reduced to
the record type and the type codes of section 4.1 (`isTypeCode`). -/
def specAddendaValidate (a : Addendumer) : Option GoError :=
  if a.recordType ≠ "7" then some (fieldError "recordType")
  else if a.TypeCode ∉ ["02", "05", "10", "11", "12", "13", "14", "15", "16", "17", "18",
      "98", "99"] then some (fieldError "TypeCode")
  else none

/-- Modelled from the spec: `IATBatchHeader.String()`. The columns the reader
looks at are those of section 4.5: the standard entry class code in columns
51 to 53; the fields the spec does not name are the 72 characters of `rest`. -/
def specIATBatchHeaderString (bh : IATBatchHeader) : String :=
  String.join [specAlphaField bh.recordType 1, specNumericField bh.ServiceClassCode 3,
    specAlphaField (bh.rest.take 46) 46, specAlphaField bh.StandardEntryClassCode 3,
    specAlphaField (bh.rest.drop 46) 26, specAlphaField bh.ODFIIdentification 8,
    specNumericField bh.BatchNumber 7]

/-- Modelled from the spec: `NewIATBatchHeader()` followed by `Parse`. -/
def specIATBatchHeaderParse (record : String) : IATBatchHeader :=
  { ID := "", recordType := "5",
    ServiceClassCode := specParseNumField (slice record 1 4),
    StandardEntryClassCode := slice record 50 53,
    ODFIIdentification := trimSpace (slice record 79 87),
    BatchNumber := specParseNumField (slice record 87 94),
    rest := slice record 4 50 ++ slice record 53 79 }

/-- Modelled from the spec: `IATBatchHeader.Validate`, reduced to the record
type and the standard entry class code. -/
def specIATBatchHeaderValidate (bh : IATBatchHeader) : Option GoError :=
  if bh.recordType ≠ "5" then some (fieldError "recordType")
  else if bh.StandardEntryClassCode ≠ "IAT" then some (fieldError "StandardEntryClassCode")
  else none

/-- Modelled from the spec: `IATEntryDetail.String()`. The columns the reader
looks at are those of section 4.5: columns 17 to 29 are blank; the fields the
spec does not name are the 8 characters of `rest`. -/
def specIATEntryDetailString (ed : IATEntryDetail) : String :=
  String.join [specAlphaField ed.recordType 1, specNumericField ed.TransactionCode 2,
    specAlphaField ed.RDFIIdentification 8, specAlphaField ed.CheckDigit 1,
    specAlphaField (ed.rest.take 4) 4, specAlphaField "" 13, specNumericField ed.Amount 10,
    specAlphaField ed.DFIAccountNumber 35, specAlphaField (ed.rest.drop 4) 4,
    specNumericField ed.AddendaRecordIndicator 1, specNumericField ed.TraceNumber 15]

/-- Modelled from the spec: `new(IATEntryDetail)` followed by `Parse`; the
addenda are not yet set. -/
def specIATEntryDetailParse (record : String) : IATEntryDetail :=
  { ID := "", recordType := "6",
    TransactionCode := specParseNumField (slice record 1 3),
    RDFIIdentification := trimSpace (slice record 3 11),
    CheckDigit := trimSpace (slice record 11 12),
    Amount := specParseNumField (slice record 29 39),
    DFIAccountNumber := trimSpace (slice record 39 74),
    AddendaRecordIndicator := specParseNumField (slice record 78 79),
    TraceNumber := specParseNumField (slice record 79 94),
    rest := slice record 12 16 ++ slice record 74 78,
    Addenda10 := none, Addenda11 := none, Addenda12 := none, Addenda13 := none,
    Addenda14 := none, Addenda15 := none, Addenda16 := none, Addendum := [], Category := "" }

/-- Modelled from the spec: `IATEntryDetail.Validate`, reduced to the record
type. -/
def specIATEntryDetailValidate (ed : IATEntryDetail) : Option GoError :=
  if ed.recordType ≠ "6" then some (fieldError "recordType") else none

/-- Modelled from the spec: `NewBatch`, with the two messages of `file.go`:
an IAT header is refused, and so is a standard entry class code that has no
batch type. -/
def specNewBatch (bh : BatchHeader) : Except GoError Batcher :=
  if bh.StandardEntryClassCode = "IAT" then
    .error (errors.File "StandardEntryClassCode" bh.StandardEntryClassCode
      (bh.StandardEntryClassCode ++ " Standard Entry Class Code should use iatBatch"))
  else if bh.StandardEntryClassCode ∈ ["ARC", "CCD", "COR", "CTX", "MTE", "PPD", "RCK", "SHR",
      "TEL", "WEB"] then
    .ok { kind := "Batch" ++ bh.StandardEntryClassCode, Header := bh, Entries := [],
          Control := NewBatchControl, category := "" }
  else
    .error (errors.File "StandardEntryClassCode" bh.StandardEntryClassCode
      (bh.StandardEntryClassCode ++ " Standard Entry Class Code is not implemented"))

/-- Modelled from the spec: `NewIATBatch`. -/
def specNewIATBatch (bh : IATBatchHeader) : IATBatch :=
  { ID := "", Header := bh, Entries := [], Control := NewBatchControl, category := "" }

/-- The error of a batch whose control disagrees with its contents. -/
def batchError (fieldName : String) : GoError :=
  .foreign "*BatchError" (fieldName ++ " is out-of-balance with the batch control")

/-- Modelled from the spec: the `Validate` of a batch, reduced to the checks 1
to 4 of `verify` in section 4.3: the batch numbers of header and control
agree, so do their ODFI identifications, the entry and addenda count is the
number of entries plus the number of their addenda, and the entry hash is the
sum of the RDFI identifications of the entries cut to its rightmost ten
digits. -/
def specBatcherValidate (b : Batcher) : Option GoError :=
  if b.Header.BatchNumber ≠ b.Control.BatchNumber then some (batchError "BatchNumber")
  else if b.Header.ODFIIdentification ≠ b.Control.ODFIIdentification then
    some (batchError "ODFIIdentification")
  else if b.Control.EntryAddendaCount ≠
      ((b.Entries.map (fun e => 1 + e.Addendum.length)).sum : Nat) then
    some (batchError "EntryAddendaCount")
  else if b.Control.EntryHash ≠
      (b.Entries.map (fun e => specParseNumField e.RDFIIdentification)).sum % 10 ^ 10 then
    some (batchError "EntryHash")
  else none

/-- Modelled from the spec: the `Validate` of an IAT batch, reduced to the
check 1 of `verify` in section 4.3. -/
def specIATBatchValidate (b : IATBatch) : Option GoError :=
  if b.Header.BatchNumber ≠ b.Control.BatchNumber then some (batchError "BatchNumber")
  else none

/-- The record methods of the specification, on which the definitions are
evaluated. -/
def specOps : RecordOps :=
  { fileHeaderValidate := specFileHeaderValidate
    fileHeaderString := specFileHeaderString
    fileHeaderParse := specFileHeaderParse
    fileControlValidate := specFileControlValidate
    fileControlString := specFileControlString
    fileControlParse := specFileControlParse
    batchHeaderValidate := specBatchHeaderValidate
    batchHeaderString := specBatchHeaderString
    batchHeaderParse := specBatchHeaderParse
    batchControlValidate := specBatchControlValidate
    batchControlString := specBatchControlString
    batchControlParse := specBatchControlParse
    entryDetailValidate := specEntryDetailValidate
    entryDetailString := specEntryDetailString
    entryDetailParse := specEntryDetailParse
    entryAddAddenda := specEntryAddAddenda
    addendaValidate := specAddendaValidate
    addendaString := specAddendaString
    addendaParse := specAddendaParse
    iatBatchHeaderValidate := specIATBatchHeaderValidate
    iatBatchHeaderString := specIATBatchHeaderString
    iatBatchHeaderParse := specIATBatchHeaderParse
    iatEntryDetailValidate := specIATEntryDetailValidate
    iatEntryDetailString := specIATEntryDetailString
    iatEntryDetailParse := specIATEntryDetailParse
    iatEntryAddIATAddenda := fun ed a => { ed with Addendum := ed.Addendum ++ [a] }
    NewBatch := specNewBatch
    NewIATBatch := specNewIATBatch
    batcherAddEntry := fun b ed => { b with Entries := b.Entries ++ [ed], category := ed.Category }
    batcherValidate := specBatcherValidate
    iatBatchAddEntry := fun b ed => { b with Entries := b.Entries ++ [ed], category := ed.Category }
    iatBatchValidate := specIATBatchValidate
    msgBatchAddendaIndicator := "is invalid for addenda record(s) found"
    msgIATBatchAddendaIndicator := "is invalid for addenda record(s) found" }

/-- A batch control with the given entry and addenda count, entry hash, debit
total and credit total. -/
def sampleControl (count hash debit credit : Int) : BatchControl :=
  { ID := "", recordType := "8", ServiceClassCode := 200, EntryAddendaCount := count,
    EntryHash := hash, TotalDebitEntryDollarAmount := debit,
    TotalCreditEntryDollarAmount := credit, CompanyIdentification := "121042882",
    MessageAuthenticationCode := "", reserved := "      ", ODFIIdentification := "12104288",
    BatchNumber := 0 }

/-- A PPD batch header carrying the given batch number. -/
def sampleBatchHeader (n : Int) : BatchHeader :=
  { ID := "", recordType := "5", ServiceClassCode := 200, CompanyName := "ACME Corporation",
    CompanyDiscretionaryData := "", CompanyIdentification := "121042882",
    StandardEntryClassCode := "PPD", CompanyEntryDescription := "PAYROLL",
    CompanyDescriptiveDate := "", EffectiveEntryDate := "181009", settlementDate := "",
    OriginatorStatusCode := 1, ODFIIdentification := "12104288", BatchNumber := n }

/-- A PPD batch without entries: header number `n`, the given control. -/
def sampleBatch (n : Int) (bc : BatchControl) : Batcher :=
  { kind := "BatchPPD", Header := sampleBatchHeader n, Entries := [], Control := bc,
    category := "Forward" }

/-- A file header with the mandatory fields set. -/
def sampleFileHeader : FileHeader :=
  { ID := "", recordType := "1", priorityCode := "01", ImmediateDestination := "231380104",
    ImmediateOrigin := "121042882", FileCreationDate := "181008", FileCreationTime := "0101",
    FileIDModifier := "A", recordSize := "094", blockingFactor := "10", formatCode := "1",
    ImmediateDestinationName := "Federal Reserve Bank", ImmediateOriginName := "My Bank Name",
    ReferenceCode := "" }

/-- A file with the sample header, the given batches and an empty control. -/
def sampleFile (batches : List Batcher) : File :=
  { ID := "", Header := sampleFileHeader, Batches := batches, IATBatches := [],
    Control := NewFileControl, NotificationOfChange := [], ReturnEntries := [] }

/-- A file of two batches that both carry the number 7: six and one entries,
entry hashes 9999999999 and 1. -/
def sampleTwo : File :=
  sampleFile [sampleBatch 7 (sampleControl 6 9999999999 500 700),
    sampleBatch 7 (sampleControl 1 1 50 70)]

/-- The file `sampleTwo` after `File.Create`. -/
def sampleTwoCreated : File := (File.Create specOps sampleTwo).1

/-- A file of one batch with six entries: ten records in all. -/
def sampleTen : File := sampleFile [sampleBatch 0 (sampleControl 6 138828060 0 600)]

/-- The file `sampleTen` after `File.Create`. -/
def sampleTenCreated : File := (File.Create specOps sampleTen).1

/-- An Addenda05 record. -/
def sampleAddenda : Addendumer :=
  { kind := "Addenda05", recordType := "7", TypeCode := "05",
    payload := "Bonus for working on #OSS!", EntryDetailSequenceNumber := 1 }

/-- A credit entry that carries `sampleAddenda`. -/
def sampleEntry : EntryDetail :=
  { ID := "", recordType := "6", TransactionCode := 22, RDFIIdentification := "23138010",
    CheckDigit := "4", DFIAccountNumber := "123456789", Amount := 100000000,
    IdentificationNumber := "ABC-123", IndividualName := "Wade Arnold",
    DiscretionaryData := "", AddendaRecordIndicator := 1, TraceNumber := 121042880000001,
    Addendum := [sampleAddenda], Category := "Forward" }

/-- A PPD batch of the one entry `sampleEntry`, with its control. -/
def sampleEntryBatch : Batcher :=
  { kind := "BatchPPD", Header := sampleBatchHeader 0, Entries := [sampleEntry],
    Control := sampleControl 2 23138010 0 100000000, category := "" }

/-- The file of the one batch `sampleEntryBatch`, after `File.Create`: six
records. -/
def samplePPD : File := (File.Create specOps (sampleFile [sampleEntryBatch])).1

/-- The writer after `samplePPD` is written by a new writer. -/
def samplePPDWritten : Writer :=
  match Writer.Write specOps specConverters NewWriter samplePPD with
  | some (w, _) => w
  | none => NewWriter

/-- The first three lines of `samplePPD`: file header, batch header, entry. -/
def samplePre : List String := (samplePPD.records specOps).take 3

/-- The reader after a new reader has read the lines `samplePre`. -/
def sampleAfterPre : Reader :=
  (Reader.readLoop specOps samplePre { NewReader with lineNum := 0 }).1

/-- A mandatory addenda of an IAT entry with the given type code. -/
def sampleMandatory (code : String) : Addendumer :=
  { kind := "Addenda" ++ code, recordType := "7", TypeCode := code,
    payload := "ANN ARBOR*MI", EntryDetailSequenceNumber := 1 }

/-- An IAT entry with its seven mandatory addenda, an Addenda17 and an
Addenda18. -/
def sampleIATEntry : IATEntryDetail :=
  { ID := "", recordType := "6", TransactionCode := 22, RDFIIdentification := "12104288",
    CheckDigit := "2", Amount := 100000, DFIAccountNumber := "123456789",
    AddendaRecordIndicator := 1, TraceNumber := 231380100000001, rest := "0009    ",
    Addenda10 := some (sampleMandatory "10"), Addenda11 := some (sampleMandatory "11"),
    Addenda12 := some (sampleMandatory "12"), Addenda13 := some (sampleMandatory "13"),
    Addenda14 := some (sampleMandatory "14"), Addenda15 := some (sampleMandatory "15"),
    Addenda16 := some (sampleMandatory "16"),
    Addendum := [sampleMandatory "17", sampleMandatory "18"], Category := "" }

/-- An IAT batch header; the 72 characters the spec does not name are
blank. -/
def sampleIATHeader : IATBatchHeader :=
  { ID := "", recordType := "5", ServiceClassCode := 220, StandardEntryClassCode := "IAT",
    ODFIIdentification := "23138010", BatchNumber := 0,
    rest := String.mk (List.replicate 72 ' ') }

/-- An IAT batch of the one entry `sampleIATEntry`, with its control. -/
def sampleIATBatch : IATBatch :=
  { ID := "", Header := sampleIATHeader, Entries := [sampleIATEntry],
    Control := sampleControl 10 12104288 0 100000, category := "" }

/-- A file of the batch `sampleEntryBatch` and the IAT batch `sampleIATBatch`,
after `File.Create`. -/
def sampleMixed : File :=
  (File.Create specOps { sampleFile [sampleEntryBatch] with IATBatches := [sampleIATBatch] }).1

/-- The i-th of the entries of `sampleHashBatch`: a credit without addenda to
the RDFI 99999999. -/
def sampleHashEntry (i : Nat) : EntryDetail :=
  { ID := "", recordType := "6", TransactionCode := 22, RDFIIdentification := "99999999",
    CheckDigit := "6", DFIAccountNumber := "123456789", Amount := 100,
    IdentificationNumber := "ABC-123", IndividualName := "Wade Arnold",
    DiscretionaryData := "", AddendaRecordIndicator := 0,
    TraceNumber := 121042880000001 + i, Addendum := [], Category := "" }

/-- A PPD batch of 51 entries to the RDFI 99999999, with its control: the
entry hash is 51 times 99999999. -/
def sampleHashBatch : Batcher :=
  { kind := "BatchPPD", Header := sampleBatchHeader 0,
    Entries := (List.range 51).map sampleHashEntry,
    Control := sampleControl 51 5099999949 0 5100, category := "" }

/-- A file of two batches `sampleHashBatch`, after `File.Create`: the entry
hash of its control is 10199999898, eleven digits. -/
def sampleHash : File :=
  (File.Create specOps (sampleFile [sampleHashBatch, sampleHashBatch])).1

/-- The six records of `samplePPD` written without line breaks: a fixed-width
file of 564 characters. -/
def sampleFixedWidth : String := String.join (samplePPD.records specOps)

/-- A second file header: the sample header with another origin. -/
def sampleSecondHeader : FileHeader :=
  { sampleFileHeader with ImmediateOrigin := "076401251", ImmediateOriginName := "Other Bank" }

/-- The lines of `samplePPD` with the line of `sampleSecondHeader` put in
after the file header: an input with two file headers. -/
def sampleTwoHeaders : List String :=
  specFileHeaderString sampleFileHeader :: specFileHeaderString sampleSecondHeader ::
    (samplePPD.records specOps).tail

/-- A file header, the header of a PPD batch and, with that batch still open,
the header of an IAT batch. -/
def sampleNested : List String :=
  [specFileHeaderString sampleFileHeader, specBatchHeaderString (sampleBatchHeader 1),
    specIATBatchHeaderString sampleIATHeader]

/-- The reader that has read the first four lines of `samplePPD` (file header,
batch header, entry, addenda) and holds the fifth, the batch control. -/
def sampleOpen : Reader :=
  { (Reader.readLoop specOps ((samplePPD.records specOps).take 4)
      { NewReader with lineNum := 0 }).1 with
    line := (samplePPD.records specOps).getD 4 "" }

/-- Modelled from the spec: `Batcher.Equal` of section 4.7, "identical header
minus batch-number and identical entries". -/
def specEqual (a b : Batcher) : Bool :=
  decide ({ a.Header with BatchNumber := 0 } = { b.Header with BatchNumber := 0 } ∧
    a.Entries = b.Entries)

/-- Modelled from the spec: `File.RemoveBatch`, the roll-back of section 4.7:
the batches Equal to the given one are taken out of the file. -/
def specRemoveBatch (f : File) (b : Batcher) : File :=
  { f with Batches := f.Batches.filter (fun x => !specEqual x b) }

/-- The operations of the merge on which the definitions are evaluated: the
clock stands at 10 October 2018, 12:00. -/
def specMergeOps : MergeOps :=
  { Equal := specEqual
    RemoveBatch := specRemoveBatch
    nowDate := fun _ => "181010"
    nowTime := fun _ => "1200"
    headerGoString := specFileHeaderString }

/-- A PPD batch of one entry without addenda, with its control. -/
def sampleSmallBatch : Batcher :=
  { kind := "BatchPPD", Header := { sampleBatchHeader 0 with CompanyName := "Other Company" },
    Entries := [sampleHashEntry 0], Control := sampleControl 1 99999999 0 100,
    category := "" }

/-- Two input files with the same key: the file of `sampleEntryBatch` and the
file of `sampleSmallBatch`, each after `File.Create`. -/
def sampleMergeIn : List File :=
  [samplePPD, (File.Create specOps (sampleFile [sampleSmallBatch])).1]

/-- The one file `MergeFiles` makes of `sampleMergeIn`: the first input file
with the batch of the second added. -/
def sampleMerged : List File :=
  [(File.Create specOps (samplePPD.AddBatch (sampleSmallBatch.withNumber 1))).1]

/-- An input file that holds the batch `sampleEntryBatch` twice. -/
def sampleDup : File := (File.Create specOps (sampleFile [sampleEntryBatch, sampleEntryBatch])).1

/-- Two input files with different keys that hold the same batch. -/
def samplePair : List File :=
  [samplePPD, { samplePPD with Header := sampleSecondHeader }]

/-- A CTX batch whose one entry carries 9,997 Addenda05 records. -/
def sampleBigBatch : Batcher :=
  { kind := "BatchCTX",
    Header := { sampleBatchHeader 1 with StandardEntryClassCode := "CTX" },
    Entries := [{ sampleEntry with
      Addendum := List.replicate 9997 sampleAddenda
      Addenda05 := List.replicate 9997 sampleAddenda }],
    Control := { sampleControl 9998 23138010 0 100000000 with BatchNumber := 1 },
    category := "Forward" }

/-- An input file of the one batch `sampleBigBatch`, after `File.Create`:
10,002 lines. -/
def sampleBig : File := (File.Create specOps (sampleFile [sampleBigBatch])).1

/-- The i-th entry of `sampleHalfBatch`: a credit that carries 99 Addenda05
records. -/
def sampleHalfEntry (i : Nat) : EntryDetail :=
  { sampleEntry with
    TraceNumber := 121042880000001 + i
    Addendum := List.replicate 99 sampleAddenda
    Addenda05 := List.replicate 99 sampleAddenda }

/-- A CTX batch of the company `name` with 50 entries of 99 Addenda05 records
each: 5,002 lines. -/
def sampleHalfBatch (name : String) : Batcher :=
  { kind := "BatchCTX",
    Header := { sampleBatchHeader 1 with StandardEntryClassCode := "CTX", CompanyName := name },
    Entries := (List.range 50).map sampleHalfEntry,
    Control := { sampleControl 5000 1156900500 0 5000000000 with BatchNumber := 1 },
    category := "Forward" }

/-- Two input files with the same key, of 5,004 lines each. -/
def sampleHalves : List File :=
  [(File.Create specOps (sampleFile [sampleHalfBatch "First Company"])).1,
    (File.Create specOps (sampleFile [sampleHalfBatch "Second Company"])).1]

/-- The files `MergeFiles` makes of `sampleHalves`. -/
def sampleHalvesMerged : List File :=
  match MergeFiles specOps specMergeOps sampleHalves with
  | .ok out => out
  | .error _ => []

/-! ## Vocabulary of the statements about the views of a file and the batch numbers -/

/-- Go `File.Validate` as a step on the file: the method and the helpers it
calls (`isEntryAddendaCount`, `isFileAmount`, `isEntryHash`,
`calculateEntryHash`) assign to no field of the receiver, so the file after
the call is the file before it, next to the error returned. -/
def File.afterValidate (c : converters) (f : File) : File × Option GoError := (f, f.Validate c)

/-- The ordinary batches of the file carry the numbers 1, 2, ... in header and
control. -/
def File.numbered (g : File) : Prop :=
  ∀ (i : Nat) (b : Batcher), g.Batches[i]? = some b →
    b.Header.BatchNumber = (i : Int) + 1 ∧ b.Control.BatchNumber = (i : Int) + 1

/-- A batch of the type `BatchCOR`, of category NOC. -/
def sampleCOR : Batcher :=
  { sampleEntryBatch with
    kind := "BatchCOR"
    Header := { sampleBatchHeader 0 with StandardEntryClassCode := "COR" }
    category := CategoryNOC }

/-- A PPD batch of category Return. -/
def sampleReturn : Batcher := { sampleEntryBatch with category := CategoryReturn }

/-- A file that holds a `BatchCOR` and a batch of category Return in its
batches while its two views are empty, after `File.Create`. -/
def sampleViews : File := (File.Create specOps (sampleFile [sampleCOR, sampleReturn])).1

/-! ## `batchARC.go`, `batchRCK.go`, `batchPPD.go`, `batchCTX.go`

The batch types embed the struct `batch`; a value of one of them is the record
`Batcher`, whose `kind` names the type. `Validate` returns the error of a
helper as it comes, or a `*BatchError` that it makes itself. -/

/-- Modelled from the spec: the error type `BatchError` of section 7 ("batch
number, field name, message"); its declaration is not among the sources. -/
structure BatchError where
  BatchNumber : Int
  FieldName : String
  Msg : String
deriving DecidableEq, Repr

/-- The `error` that the `Validate` of a batch type returns: a `*BatchError`
made by the method, or the error of a helper, handed on as it came. -/
inductive ValidateError where
  | batch (e : BatchError)
  | helper (err : GoError)

/-- Modelled from the spec: what the batch types call and the sources do not
declare, taken as parameters: `batch.verify` (section 4.3),
`EntryDetail.CreditOrDebit`, `EntryDetail.CATXAddendaRecordsField`, the three
addenda checks by category, and the messages `msgBatch...` with the arguments
that `fmt.Sprintf` fills in. -/
structure BatchOps where
  verify : Batcher → Option GoError
  CreditOrDebit : EntryDetail → String
  CATXAddendaRecordsField : EntryDetail → String
  categoryForwardAddenda05 : Batcher → EntryDetail → Addendumer → Option GoError
  categoryNOCAddenda98 : Batcher → EntryDetail → Addendumer → Option GoError
  categoryReturnAddenda99 : Batcher → EntryDetail → Addendumer → Option GoError
  msgBatchSECType : String → String → String
  msgBatchServiceClassCode : Int → String → String
  msgBatchTransactionCodeCredit : Int → String
  msgBatchAmount : String → String → String
  msgBatchCheckSerialNumber : String → String
  msgBatchAddendaCount : Int → Int → String → String
  msgBatchCompanyEntryDescription : String → String → String
  msgBatchTransactionCodeAddenda : Int → String → String

/-- Go `&BatchError{BatchNumber: batch.Header.BatchNumber, FieldName: ...,
Msg: msg}` as the error returned. -/
def Batcher.fail (batch : Batcher) (fieldName msg : String) : Option ValidateError :=
  some (.batch { BatchNumber := batch.Header.BatchNumber, FieldName := fieldName, Msg := msg })

/-- Go `if err := ...; err != nil { return err }` in a `Validate`: the error of
the helper is returned, and the rest runs when there is none. -/
def orElse (err : Option GoError) (rest : Option ValidateError) : Option ValidateError :=
  match err with
  | some e => some (.helper e)
  | none => rest

/-- The loop `for _, addenda := range entry.Addendum` of `BatchARC.Validate`,
over the addenda still to come. -/
def BatchARC.validateAddenda (ops : BatchOps) (batch : Batcher) (entry : EntryDetail) :
    List Addendumer → Option ValidateError
  | [] => none
  | addenda :: rest =>
    if entry.Category = CategoryForward then
      if (entry.Addendum.length : Int) > 0 then
        batch.fail "AddendaCount"
          (ops.msgBatchAddendaCount entry.Addendum.length 0 batch.Header.StandardEntryClassCode)
      else BatchARC.validateAddenda ops batch entry rest
    else if entry.Category = CategoryNOC then
      orElse (ops.categoryNOCAddenda98 batch entry addenda)
        (BatchARC.validateAddenda ops batch entry rest)
    else if entry.Category = CategoryReturn then
      orElse (ops.categoryReturnAddenda99 batch entry addenda)
        (BatchARC.validateAddenda ops batch entry rest)
    else BatchARC.validateAddenda ops batch entry rest

/-- The loop `for _, entry := range batch.Entries` of `BatchARC.Validate`, over
the entries still to come. -/
def BatchARC.validateEntries (ops : BatchOps) (batch : Batcher) :
    List EntryDetail → Option ValidateError
  | [] => none
  | entry :: rest =>
    if ops.CreditOrDebit entry ≠ "D" then
      batch.fail "TransactionCode" (ops.msgBatchTransactionCodeCredit entry.TransactionCode)
    else if entry.Amount > 2500000 then
      batch.fail "Amount" (ops.msgBatchAmount "25,000" "ARC")
    else if entry.IdentificationNumber = "" then
      batch.fail "CheckSerialNumber" (ops.msgBatchCheckSerialNumber "ARC")
    else
      match BatchARC.validateAddenda ops batch entry entry.Addendum with
      | some e => some e
      | none => BatchARC.validateEntries ops batch rest

/-- Go `BatchARC.Validate`. -/
def BatchARC.Validate (ops : BatchOps) (batch : Batcher) : Option ValidateError :=
  orElse (ops.verify batch)
    (if batch.Header.StandardEntryClassCode ≠ "ARC" then
      batch.fail "StandardEntryClassCode"
        (ops.msgBatchSECType batch.Header.StandardEntryClassCode "ARC")
    else if batch.Header.ServiceClassCode = 200 ∨ batch.Header.ServiceClassCode = 220 ∨
        batch.Header.ServiceClassCode = 280 then
      batch.fail "ServiceClassCode"
        (ops.msgBatchServiceClassCode batch.Header.ServiceClassCode "ARC")
    else BatchARC.validateEntries ops batch batch.Entries)

/-- The loop `for _, addenda := range entry.Addendum` of `BatchRCK.Validate`. -/
def BatchRCK.validateAddenda (ops : BatchOps) (batch : Batcher) (entry : EntryDetail) :
    List Addendumer → Option ValidateError
  | [] => none
  | addenda :: rest =>
    if entry.Category = CategoryForward then
      if (entry.Addendum.length : Int) > 0 then
        batch.fail "AddendaCount"
          (ops.msgBatchAddendaCount entry.Addendum.length 0 batch.Header.StandardEntryClassCode)
      else BatchRCK.validateAddenda ops batch entry rest
    else if entry.Category = CategoryNOC then
      orElse (ops.categoryNOCAddenda98 batch entry addenda)
        (BatchRCK.validateAddenda ops batch entry rest)
    else if entry.Category = CategoryReturn then
      orElse (ops.categoryReturnAddenda99 batch entry addenda)
        (BatchRCK.validateAddenda ops batch entry rest)
    else BatchRCK.validateAddenda ops batch entry rest

/-- The loop `for _, entry := range batch.Entries` of `BatchRCK.Validate`. -/
def BatchRCK.validateEntries (ops : BatchOps) (batch : Batcher) :
    List EntryDetail → Option ValidateError
  | [] => none
  | entry :: rest =>
    if ops.CreditOrDebit entry ≠ "D" then
      batch.fail "TransactionCode" (ops.msgBatchTransactionCodeCredit entry.TransactionCode)
    else if entry.Amount > 250000 then
      batch.fail "Amount" (ops.msgBatchAmount "2,500" "RCK")
    else if entry.IdentificationNumber = "" then
      batch.fail "CheckSerialNumber" (ops.msgBatchCheckSerialNumber "RCK")
    else
      match BatchRCK.validateAddenda ops batch entry entry.Addendum with
      | some e => some e
      | none => BatchRCK.validateEntries ops batch rest

/-- Go `BatchRCK.Validate`. -/
def BatchRCK.Validate (ops : BatchOps) (batch : Batcher) : Option ValidateError :=
  orElse (ops.verify batch)
    (if batch.Header.StandardEntryClassCode ≠ "RCK" then
      batch.fail "StandardEntryClassCode"
        (ops.msgBatchSECType batch.Header.StandardEntryClassCode "RCK")
    else if batch.Header.ServiceClassCode = 200 ∨ batch.Header.ServiceClassCode = 220 ∨
        batch.Header.ServiceClassCode = 280 then
      batch.fail "ServiceClassCode"
        (ops.msgBatchServiceClassCode batch.Header.ServiceClassCode "RCK")
    else if batch.Header.CompanyEntryDescription ≠ "REDEPCHECK" then
      batch.fail "CompanyEntryDescription"
        (ops.msgBatchCompanyEntryDescription batch.Header.CompanyEntryDescription "RCK")
    else BatchRCK.validateEntries ops batch batch.Entries)

/-- The loop `for _, addenda := range entry.Addendum` of `BatchPPD.Validate`. -/
def BatchPPD.validateAddenda (ops : BatchOps) (batch : Batcher) (entry : EntryDetail) :
    List Addendumer → Option ValidateError
  | [] => none
  | addenda :: rest =>
    if entry.Category = CategoryForward then
      orElse (ops.categoryForwardAddenda05 batch entry addenda)
        (if (entry.Addendum.length : Int) > 1 then
          batch.fail "AddendaCount"
            (ops.msgBatchAddendaCount entry.Addendum.length 1 batch.Header.StandardEntryClassCode)
        else BatchPPD.validateAddenda ops batch entry rest)
    else if entry.Category = CategoryNOC then
      orElse (ops.categoryNOCAddenda98 batch entry addenda)
        (BatchPPD.validateAddenda ops batch entry rest)
    else if entry.Category = CategoryReturn then
      orElse (ops.categoryReturnAddenda99 batch entry addenda)
        (BatchPPD.validateAddenda ops batch entry rest)
    else BatchPPD.validateAddenda ops batch entry rest

/-- The loop `for _, entry := range batch.Entries` of `BatchPPD.Validate`. -/
def BatchPPD.validateEntries (ops : BatchOps) (batch : Batcher) :
    List EntryDetail → Option ValidateError
  | [] => none
  | entry :: rest =>
    match BatchPPD.validateAddenda ops batch entry entry.Addendum with
    | some e => some e
    | none => BatchPPD.validateEntries ops batch rest

/-- Go `BatchPPD.Validate`. -/
def BatchPPD.Validate (ops : BatchOps) (batch : Batcher) : Option ValidateError :=
  orElse (ops.verify batch)
    (if batch.Header.StandardEntryClassCode ≠ "PPD" then
      batch.fail "StandardEntryClassCode"
        (ops.msgBatchSECType batch.Header.StandardEntryClassCode "PPD")
    else BatchPPD.validateEntries ops batch batch.Entries)

/-- The loop of `strconv.ParseUint` in base 10 over the characters after the
sign, `n` being the number read so far: `none` at a character that is no
digit (a syntax error); the largest `uint64` as soon as the number leaves the
range (a range error, the characters after it are not looked at); the number
at the end. -/
def parseUintLoop : List Char → Nat → Option Nat
  | [], n => some n
  | c :: cs, n =>
    if ¬ c.isDigit then none
    else if n ≥ (2 ^ 64 - 1) / 10 + 1 then some (2 ^ 64 - 1)
    else if n * 10 + (c.toNat - 48) > 2 ^ 64 - 1 then some (2 ^ 64 - 1)
    else parseUintLoop cs (n * 10 + (c.toNat - 48))

/-- Go `strconv.Atoi` without the error, which `BatchCTX.Validate` drops: a
sign or none, then decimal digits; 0 on a syntax error, and the nearest number
of 64 bits on a range error. -/
def Atoi (s : String) : Int :=
  let cs := s.toList
  let neg := cs.head? = some '-'
  let ds := if cs.head? = some '+' ∨ cs.head? = some '-' then cs.tail else cs
  if ds = [] then 0
  else
    match parseUintLoop ds 0 with
    | none => 0
    | some un =>
      if ¬ neg ∧ un ≥ 2 ^ 63 then 2 ^ 63 - 1
      else if neg ∧ un > 2 ^ 63 then -(2 ^ 63)
      else if neg then -(un : Int)
      else (un : Int)

/-- Go `msgBatchCTXAddendaCount` of `batchCTX.go` with its two numbers filled
in. -/
def msgBatchCTXAddendaCount (addendaRecords len : Int) : String :=
  Itoa addendaRecords ++ " entry detail addenda records not equal to addendum " ++ Itoa len

/-- The loop `for _, addenda := range entry.Addendum` of `BatchCTX.Validate`. -/
def BatchCTX.validateAddenda (ops : BatchOps) (batch : Batcher) (entry : EntryDetail) :
    List Addendumer → Option ValidateError
  | [] => none
  | addenda :: rest =>
    if entry.Category = CategoryForward then
      orElse (ops.categoryForwardAddenda05 batch entry addenda)
        (BatchCTX.validateAddenda ops batch entry rest)
    else if entry.Category = CategoryNOC then
      orElse (ops.categoryNOCAddenda98 batch entry addenda)
        (BatchCTX.validateAddenda ops batch entry rest)
    else if entry.Category = CategoryReturn then
      orElse (ops.categoryReturnAddenda99 batch entry addenda)
        (BatchCTX.validateAddenda ops batch entry rest)
    else BatchCTX.validateAddenda ops batch entry rest

/-- The loop `for _, entry := range batch.Entries` of `BatchCTX.Validate`. -/
def BatchCTX.validateEntries (ops : BatchOps) (batch : Batcher) :
    List EntryDetail → Option ValidateError
  | [] => none
  | entry :: rest =>
    if (entry.Addendum.length : Int) > 9999 then
      batch.fail "AddendaCount"
        (ops.msgBatchAddendaCount entry.Addendum.length 9999 batch.Header.StandardEntryClassCode)
    else
      let addendaRecords := Atoi (ops.CATXAddendaRecordsField entry)
      if (entry.Addendum.length : Int) ≠ addendaRecords then
        batch.fail "Addendum" (msgBatchCTXAddendaCount addendaRecords entry.Addendum.length)
      else if (entry.Addendum.length : Int) > 0 then
        if entry.TransactionCode ∈ [23, 28, 33, 38, 43, 48, 53] then
          batch.fail "Addendum" (ops.msgBatchTransactionCodeAddenda entry.TransactionCode "CTX")
        else
          match BatchCTX.validateAddenda ops batch entry entry.Addendum with
          | some e => some e
          | none => BatchCTX.validateEntries ops batch rest
      else BatchCTX.validateEntries ops batch rest

/-- Go `BatchCTX.Validate`. -/
def BatchCTX.Validate (ops : BatchOps) (batch : Batcher) : Option ValidateError :=
  orElse (ops.verify batch)
    (if batch.Header.StandardEntryClassCode ≠ "CTX" then
      batch.fail "StandardEntryClassCode"
        (ops.msgBatchSECType batch.Header.StandardEntryClassCode "CTX")
    else BatchCTX.validateEntries ops batch batch.Entries)

/-! ## `addenda12.go`

A slice `record[a:b]` is taken at character positions, as in the reader: the
embedding is exact on ASCII records. -/

/-- Modelled from the spec: the error type `FieldError` of section 7 ("field
name, offending value, human-readable message"); its declaration is not among
the sources. -/
structure FieldError where
  FieldName : String
  Value : String
  Msg : String
deriving DecidableEq, Repr

/-- Modelled from the spec: the `validator` helper embedded in the records
(section 4.1, "validation predicates exposed to records") is not among the
sources; the two predicates that `addenda12.go` calls and the messages it
uses are taken as parameters, `msgRecordType` with the number that
`fmt.Sprintf` fills in. -/
structure validator where
  isTypeCode : String → Option GoError
  isAlphanumeric : String → Option GoError
  msgFieldInclusion : String
  msgRecordType : Int → String
  msgAddendaTypeCode : String

/-- Go `Addenda12`, without the two helpers it embeds. -/
structure Addenda12 where
  ID : String
  recordType : String
  TypeCode : String
  OriginatorCityStateProvince : String
  OriginatorCountryPostalCode : String
  reserved : String
  EntryDetailSequenceNumber : Int
deriving DecidableEq, Repr

/-- Go `NewAddenda12`. -/
def NewAddenda12 : Addenda12 :=
  { ID := "", recordType := "7", TypeCode := "12", OriginatorCityStateProvince := "",
    OriginatorCountryPostalCode := "", reserved := "", EntryDetailSequenceNumber := 0 }

/-- Go `unicode.IsSpace`. -/
def isSpace (c : Char) : Bool :=
  c.toNat ∈ [0x09, 0x0A, 0x0B, 0x0C, 0x0D, 0x20, 0x85, 0xA0, 0x1680, 0x2028, 0x2029, 0x202F,
    0x205F, 0x3000] ∨ (0x2000 ≤ c.toNat ∧ c.toNat ≤ 0x200A)

/-- Go `strings.TrimSpace`: the text without the white space at its two ends. -/
def TrimSpace (s : String) : String :=
  String.mk ((s.toList.dropWhile isSpace).reverse.dropWhile isSpace).reverse

/-- Go `Addenda12.Parse`: the record after the call, or `none` when the line
has fewer than 94 characters, where the slice `record[87:94]` panics. -/
def Addenda12.Parse (c : converters) (addenda12 : Addenda12) (record : String) :
    Option Addenda12 :=
  if record.length < 94 then none
  else
    some { addenda12 with
      recordType := "7"
      TypeCode := slice record 1 3
      OriginatorCityStateProvince := TrimSpace (slice record 3 38)
      OriginatorCountryPostalCode := TrimSpace (slice record 38 73)
      reserved := "              "
      EntryDetailSequenceNumber := c.parseNumField (slice record 87 94) }

/-- Go `Addenda12.OriginatorCityStateProvinceField`. -/
def Addenda12.OriginatorCityStateProvinceField (c : converters) (addenda12 : Addenda12) :
    String :=
  c.alphaField addenda12.OriginatorCityStateProvince 35

/-- Go `Addenda12.OriginatorCountryPostalCodeField`. -/
def Addenda12.OriginatorCountryPostalCodeField (c : converters) (addenda12 : Addenda12) :
    String :=
  c.alphaField addenda12.OriginatorCountryPostalCode 35

/-- Go `Addenda12.reservedField`. -/
def Addenda12.reservedField (c : converters) (addenda12 : Addenda12) : String :=
  c.alphaField addenda12.reserved 14

/-- Go `Addenda12.EntryDetailSequenceNumberField`. -/
def Addenda12.EntryDetailSequenceNumberField (c : converters) (addenda12 : Addenda12) :
    String :=
  c.numericField addenda12.EntryDetailSequenceNumber 7

/-- Go `Addenda12.String`: the six strings written to the builder, in order. -/
def Addenda12.String (c : converters) (addenda12 : Addenda12) : String :=
  addenda12.recordType ++ addenda12.TypeCode ++ addenda12.OriginatorCityStateProvinceField c ++
    addenda12.OriginatorCountryPostalCodeField c ++ addenda12.reservedField c ++
    addenda12.EntryDetailSequenceNumberField c

/-- Go `Addenda12.fieldInclusion`. -/
def Addenda12.fieldInclusion (val : validator) (c : converters) (addenda12 : Addenda12) :
    Option FieldError :=
  if addenda12.recordType = "" then
    some { FieldName := "recordType", Value := addenda12.recordType,
           Msg := val.msgFieldInclusion ++ ", did you use NewAddenda12()?" }
  else if addenda12.TypeCode = "" then
    some { FieldName := "TypeCode", Value := addenda12.TypeCode,
           Msg := val.msgFieldInclusion ++ ", did you use NewAddenda12()?" }
  else if addenda12.OriginatorCityStateProvince = "" then
    some { FieldName := "OriginatorCityStateProvince",
           Value := addenda12.OriginatorCityStateProvince,
           Msg := val.msgFieldInclusion ++ ", did you use NewAddenda12()?" }
  else if addenda12.OriginatorCountryPostalCode = "" then
    some { FieldName := "OriginatorCountryPostalCode",
           Value := addenda12.OriginatorCountryPostalCode,
           Msg := val.msgFieldInclusion ++ ", did you use NewAddenda12()?" }
  else if addenda12.EntryDetailSequenceNumber = 0 then
    some { FieldName := "EntryDetailSequenceNumber",
           Value := addenda12.EntryDetailSequenceNumberField c,
           Msg := val.msgFieldInclusion ++ ", did you use NewAddenda12()?" }
  else none

/-- Go `Addenda12.Validate`. -/
def Addenda12.Validate (val : validator) (c : converters) (addenda12 : Addenda12) :
    Option FieldError :=
  match addenda12.fieldInclusion val c with
  | some err => some err
  | none =>
    if addenda12.recordType ≠ "7" then
      some { FieldName := "recordType", Value := addenda12.recordType,
             Msg := val.msgRecordType 7 }
    else
      match val.isTypeCode addenda12.TypeCode with
      | some err =>
        some { FieldName := "TypeCode", Value := addenda12.TypeCode, Msg := err.message }
      | none =>
        if addenda12.TypeCode ≠ "12" then
          some { FieldName := "TypeCode", Value := addenda12.TypeCode,
                 Msg := val.msgAddendaTypeCode }
        else
          match val.isAlphanumeric addenda12.OriginatorCityStateProvince with
          | some err =>
            some { FieldName := "OriginatorCityStateProvince",
                   Value := addenda12.OriginatorCityStateProvince, Msg := err.message }
          | none =>
            match val.isAlphanumeric addenda12.OriginatorCountryPostalCode with
            | some err =>
              some { FieldName := "OriginatorCountryPostalCode",
                     Value := addenda12.OriginatorCountryPostalCode, Msg := err.message }
            | none => none

/-! ## Vocabulary of the round trip of a record -/

/-- The laws of the converters that the round trip of a record assumes, after
section 4.1: `alphaField` gives a text that fits the width followed by blanks,
and a field of the width in any case; `numericField` gives a field of the
width, and `parseNumField` reads a number of no more digits than the width
back from it. -/
structure ConverterLaws (c : converters) : Prop where
  alpha_pad : ∀ (s : String) (n : Nat), s.length ≤ n →
    c.alphaField s n = s ++ String.mk (List.replicate (n - s.length) ' ')
  alpha_length : ∀ (s : String) (n : Nat), (c.alphaField s n).length = n
  numeric_length : ∀ (x : Int) (n : Nat), (c.numericField x n).length = n
  numeric_parse : ∀ (x : Int) (n : Nat), 0 ≤ x → x < 10 ^ n →
    c.parseNumField (c.numericField x n) = x

/-! ## Sample batches

Concrete batch helpers and batches on which the `Validate` of the batch types
is evaluated. -/

/-- Modelled from the spec: `EntryDetail.CreditOrDebit`, after section 3
("transaction code (two digits encoding [checking/savings/loan/GL] ×
[credit/debit/prenote/return/NOC]")): in a code of two digits the second digit
says credit, 1 to 4, or debit, 5 to 9; any other code is neither. -/
def specCreditOrDebit (e : EntryDetail) : String :=
  if 10 ≤ e.TransactionCode ∧ e.TransactionCode ≤ 99 then
    if 1 ≤ e.TransactionCode % 10 ∧ e.TransactionCode % 10 ≤ 4 then "C"
    else if 5 ≤ e.TransactionCode % 10 then "D"
    else ""
  else ""

/-- Modelled from the spec: `EntryDetail.CATXAddendaRecordsField`, the "4-digit
addenda-count field within the entry" of section 4.3, which names no place for
it: the sample reads the first four characters of the individual name. -/
def specCATXAddendaRecordsField (e : EntryDetail) : String := e.IndividualName.take 4

/-- Modelled from the spec: an addenda check by category of section 4.3,
reduced to the type code that the category asks for. -/
def specCategoryAddenda (code : String) (_ : Batcher) (_ : EntryDetail) (a : Addendumer) :
    Option GoError :=
  if a.TypeCode ≠ code then
    some (.foreign "*BatchError" ("TypeCode " ++ a.TypeCode ++ " is not " ++ code))
  else none

/-- The batch helpers of the specification, on which the definitions are
evaluated: `verify` is reduced to the checks 1 to 4 of section 4.3, and the
messages are sample texts. -/
def specBatchOps : BatchOps :=
  { verify := specBatcherValidate
    CreditOrDebit := specCreditOrDebit
    CATXAddendaRecordsField := specCATXAddendaRecordsField
    categoryForwardAddenda05 := specCategoryAddenda "05"
    categoryNOCAddenda98 := specCategoryAddenda "98"
    categoryReturnAddenda99 := specCategoryAddenda "99"
    msgBatchSECType := fun a b => "header SEC type code " ++ a ++ " for batch type " ++ b
    msgBatchServiceClassCode := fun n s =>
      "Service Class Code " ++ Itoa n ++ " is not valid for batch type " ++ s
    msgBatchTransactionCodeCredit := fun n =>
      "Transaction Code " ++ Itoa n ++ " is a credit, this batch type takes debits only"
    msgBatchAmount := fun a s => "Amounts in batch type " ++ s ++ " are at most " ++ a
    msgBatchCheckSerialNumber := fun s => "Check Serial Number is mandatory for " ++ s
    msgBatchAddendaCount := fun n k s =>
      Itoa n ++ " addenda found where " ++ Itoa k ++ " is allowed for batch type " ++ s
    msgBatchCompanyEntryDescription := fun a s =>
      "Company Entry Description " ++ a ++ " is not valid for batch type " ++ s
    msgBatchTransactionCodeAddenda := fun n s =>
      "Addenda not allowed for transaction code " ++ Itoa n ++ " for batch type " ++ s }

/-- A debit entry of the given amount, with a check serial number and without
addenda. -/
def sampleDebit (amount : Int) : EntryDetail :=
  { sampleEntry with
    TransactionCode := 27, Amount := amount, IdentificationNumber := "123456",
    AddendaRecordIndicator := 0, Addendum := [], Category := CategoryForward }

/-- An ARC batch of one debit entry of the given amount, under the given
service class code, with its control. -/
def sampleARC (serviceClassCode amount : Int) : Batcher :=
  { kind := "BatchARC",
    Header := { sampleBatchHeader 1 with
      StandardEntryClassCode := "ARC", ServiceClassCode := serviceClassCode },
    Entries := [sampleDebit amount],
    Control := { sampleControl 1 23138010 amount 0 with
      BatchNumber := 1, ServiceClassCode := serviceClassCode },
    category := CategoryForward }

/-- An RCK batch of one debit entry of the given amount, under the given
service class code, with the company entry description of the type. -/
def sampleRCK (serviceClassCode amount : Int) : Batcher :=
  { kind := "BatchRCK",
    Header := { sampleBatchHeader 1 with
      StandardEntryClassCode := "RCK", ServiceClassCode := serviceClassCode,
      CompanyEntryDescription := "REDEPCHECK" },
    Entries := [sampleDebit amount],
    Control := { sampleControl 1 23138010 amount 0 with
      BatchNumber := 1, ServiceClassCode := serviceClassCode },
    category := CategoryForward }

/-- A PPD batch of one Forward credit entry that carries `n` Addenda05
records, with its control. -/
def samplePPDBatch (n : Nat) : Batcher :=
  { kind := "BatchPPD", Header := sampleBatchHeader 1,
    Entries := [{ sampleEntry with
      AddendaRecordIndicator := if n = 0 then 0 else 1
      Addendum := List.replicate n sampleAddenda }],
    Control := { sampleControl (1 + n) 23138010 0 100000000 with BatchNumber := 1 },
    category := CategoryForward }

/-- A CTX batch of one Forward entry with the given transaction code, whose
addenda-count field is `field` and which carries `n` Addenda05 records. -/
def sampleCTX (code : Int) (field : String) (n : Nat) : Batcher :=
  { kind := "BatchCTX",
    Header := { sampleBatchHeader 1 with StandardEntryClassCode := "CTX" },
    Entries := [{ sampleEntry with
      TransactionCode := code
      IndividualName := field ++ "Receiver Company  "
      AddendaRecordIndicator := if n = 0 then 0 else 1
      Addendum := List.replicate n sampleAddenda }],
    Control := { sampleControl (1 + n) 23138010 0 100000000 with BatchNumber := 1 },
    category := CategoryForward }

/-! ## Sample records of the type `Addenda12` -/

/-- Modelled from the spec: `isTypeCode` of section 4.1 ("enumerated
02/05/10–18/98/99"). -/
def specIsTypeCode (s : String) : Option GoError :=
  if s ∈ ["02", "05", "10", "11", "12", "13", "14", "15", "16", "17", "18", "98", "99"] then
    none
  else some (.errorString "is an invalid Addenda Type Code")

/-- Modelled from the spec: `isAlphanumeric` of section 4.1, on the characters
of the field codec ("Printable ASCII 0x20–0x7E only"). -/
def specIsAlphanumeric (s : String) : Option GoError :=
  if s.toList.all (fun ch => 0x20 ≤ ch.toNat ∧ ch.toNat ≤ 0x7E) then none
  else some (.errorString "has non alphanumeric characters")

/-- The validator of the specification, with sample texts for the messages. -/
def specValidator : validator :=
  { isTypeCode := specIsTypeCode
    isAlphanumeric := specIsAlphanumeric
    msgFieldInclusion := "is a mandatory field and has a default value"
    msgRecordType := fun n => "received expecting " ++ Itoa n
    msgAddendaTypeCode := "is a type code that the record does not take" }

/-- An Addenda12 record with the given city, country and sequence number. -/
def sampleAddenda12 (city country : String) (seq : Int) : Addenda12 :=
  { NewAddenda12 with
    OriginatorCityStateProvince := city
    OriginatorCountryPostalCode := country
    EntryDetailSequenceNumber := seq }

/-- An Addenda12 record with a city of 15 characters, a country of 9 and a
sequence number of seven digits. -/
def sampleA12 : Addenda12 := sampleAddenda12 "Springfield*IL\\" "US*62701\\" 1234567

/-- An Addenda12 record whose city has 36 characters. -/
def sampleLongCity : Addenda12 :=
  sampleAddenda12 "ABCDEFGHIJKLMNOPQRSTUVWXYZ0123456789" "US*62701\\" 1

/-- An Addenda12 record whose city begins with a blank. -/
def sampleBlankCity : Addenda12 := sampleAddenda12 " Springfield*IL\\" "US*62701\\" 1

/-- An Addenda12 record whose sequence number has eight digits. -/
def sampleLongSequence : Addenda12 :=
  sampleAddenda12 "Springfield*IL\\" "US*62701\\" 12345678

/-! ## Vocabulary of the statements about the lines the reader dispatches -/

/-- The records that `Reader.Read` hands to `parseLine` for one line of the
scanner, `lineNum` being the number the line has got: the records that
`processFixedWidthFile` cuts for a first line whose length is a multiple of 94
greater than 94, the line itself when it has 94 bytes, and `none` when the
line is refused for its length. -/
def dispatched (lineNum : Int) (line : String) : Option (List String) :=
  let lineLength : Int := line.utf8ByteSize
  if lineNum = 1 ∧ lineLength > RecordLength ∧ Int.tmod lineLength RecordLength = 0 then
    some (fixedWidthRecords line.toList 0 "")
  else if lineLength ≠ RecordLength then none
  else some [line]

/-- An entry whose DFI account number has four characters. -/
def sampleShortEntry : EntryDetail :=
  { sampleEntry with DFIAccountNumber := "1234", AddendaRecordIndicator := 0, Addendum := [] }

/-- The reader that has read the file header and the batch header of
`samplePPD`, so that its PPD batch is open, and holds the line of
`sampleShortEntry`. -/
def sampleShortOpen : Reader :=
  { (Reader.readLoop specOps ((samplePPD.records specOps).take 2)
      { NewReader with lineNum := 0 }).1 with
    line := specEntryDetailString sampleShortEntry }

/-- The reader that has read the file header, the batch header and the entry
of `samplePPD`, whose addenda record indicator is 1, and holds an addenda line
with the type code 12. -/
def sampleStrayAddenda : Reader :=
  { sampleAfterPre with line := specAddendaString { sampleAddenda with TypeCode := "12" } }

/-! ## `batchMTE.go`

`BatchMTE.InvalidEntries` reads `entry.Addenda02.TerminalState` through the
pointer `entry.Addenda02`; the value `none` of a result stands for the run
that stops there on a nil pointer. -/

/-- Modelled from the spec: the Standard Entry Class code `MTE` of section
4.3; its declaration is not among the sources. -/
def MTE : String := "MTE"

/-- Modelled from the spec: what `batchMTE.go` calls and the sources do not
declare, taken as parameters: whether `batch.validateOpts` is set with
`SkipAll`, `batch.verify`, the helpers `ValidAmountForCodes`,
`ValidTranCodeForServiceClassCode` and `addendaFieldInclusion` of the batch,
`usabbrev.Valid` (section 4.3: "an external abbreviation table"), the field
`TerminalState` of an Addenda02, and the messages of the errors
`ErrBatchSECType`, `ErrBatchAmountZero`, `ErrValidState` and
`ErrIdentificationNumber` with their arguments. -/
structure MTEOps where
  skipAll : Batcher → Bool
  verify : Batcher → Option GoError
  ValidAmountForCodes : Batcher → EntryDetail → Option GoError
  ValidTranCodeForServiceClassCode : Batcher → EntryDetail → Option GoError
  addendaFieldInclusion : Batcher → EntryDetail → Option GoError
  usabbrevValid : String → Bool
  TerminalState : Addendumer → String
  msgBatchSECType : String → String → String
  msgBatchAmountZero : Int → String
  msgValidState : String → String
  msgIdentificationNumber : String → String

/-- Go `InvalidEntry`. -/
structure InvalidEntry where
  Entry : EntryDetail
  Error : ValidateError

/-- Go `strings.Trim`: the text without the characters of `cutset` at its two
ends. -/
def Trim (s cutset : String) : String :=
  String.mk ((s.toList.dropWhile (fun c => c ∈ cutset.toList)).reverse.dropWhile
    (fun c => c ∈ cutset.toList)).reverse

/-- Go `&BatchError{...}` as the error of an invalid entry. -/
def Batcher.entryError (batch : Batcher) (fieldName msg : String) : ValidateError :=
  .batch { BatchNumber := batch.Header.BatchNumber, FieldName := fieldName, Msg := msg }

/-- The checks of the body of the loop of `BatchMTE.InvalidEntries` that come
before the terminal state is read: `out` after them. -/
def BatchMTE.entryChecks (ops : MTEOps) (batch : Batcher) (entry : EntryDetail)
    (out : List InvalidEntry) : List InvalidEntry :=
  let out := if entry.Amount ≤ 0 then
      out ++ [{ Entry := entry
                Error := batch.entryError "Amount" (ops.msgBatchAmountZero entry.Amount) }]
    else out
  let out := match ops.ValidAmountForCodes batch entry with
    | some err => out ++ [{ Entry := entry, Error := .helper err }]
    | none => out
  let out := match ops.ValidTranCodeForServiceClassCode batch entry with
    | some err => out ++ [{ Entry := entry, Error := .helper err }]
    | none => out
  let out := match ops.addendaFieldInclusion batch entry with
    | some err => out ++ [{ Entry := entry, Error := .helper err }]
    | none => out
  out

/-- The block `if entry.Category == CategoryForward` of the body of the loop:
`out` after it, or `none` when `entry.Addenda02` is nil, where reading
`entry.Addenda02.TerminalState` stops the run. -/
def BatchMTE.terminalState (ops : MTEOps) (batch : Batcher) (entry : EntryDetail)
    (out : List InvalidEntry) : Option (List InvalidEntry) :=
  if entry.Category = CategoryForward then
    match entry.Addenda02 with
    | none => none
    | some addenda02 =>
      if ¬ ops.usabbrevValid (ops.TerminalState addenda02) then
        some (out ++ [{ Entry := entry
                        Error := batch.entryError "TerminalState"
                          (ops.msgValidState (ops.TerminalState addenda02)) }])
      else some out
  else some out

/-- The loop `for _, entry := range batch.Entries` of
`BatchMTE.InvalidEntries`, over the entries still to come. -/
def BatchMTE.invalidEntriesLoop (ops : MTEOps) (batch : Batcher) :
    List EntryDetail → List InvalidEntry → Option (List InvalidEntry)
  | [], out => some out
  | entry :: rest, out =>
    match BatchMTE.terminalState ops batch entry (BatchMTE.entryChecks ops batch entry out) with
    | none => none
    | some out =>
      let out := if Trim entry.IdentificationNumber " 0" = "" then
          out ++ [{ Entry := entry
                    Error := batch.entryError "IdentificationNumber"
                      (ops.msgIdentificationNumber entry.IdentificationNumber) }]
        else out
      BatchMTE.invalidEntriesLoop ops batch rest out

/-- Go `BatchMTE.InvalidEntries`: the list returned, or `none` when the run
stops on a nil pointer. -/
def BatchMTE.InvalidEntries (ops : MTEOps) (batch : Batcher) : Option (List InvalidEntry) :=
  BatchMTE.invalidEntriesLoop ops batch batch.Entries []

/-- Go `BatchMTE.Validate`: the error returned, or `none` when the run stops
on a nil pointer. -/
def BatchMTE.Validate (ops : MTEOps) (batch : Batcher) : Option (Option ValidateError) :=
  if ops.skipAll batch then some none
  else
    match ops.verify batch with
    | some err => some (some (.helper err))
    | none =>
      if batch.Header.StandardEntryClassCode ≠ MTE then
        some (some (batch.entryError "StandardEntryClassCode"
          (ops.msgBatchSECType batch.Header.StandardEntryClassCode MTE)))
      else
        match BatchMTE.InvalidEntries ops batch with
        | none => none
        | some invalidEntries =>
          match invalidEntries with
          | first :: _ => some (some first.Error)
          | [] => some none

/-- Modelled from the spec: the operations of an MTE batch on which the
definitions are evaluated. The addenda check follows section 4.3 ("SHR, POS,
MTE: exactly one Addenda02"), the table of states holds four abbreviations,
the terminal state is the last two characters of the payload, and the other
helpers find nothing. -/
def specMTEOps : MTEOps :=
  { skipAll := fun _ => false
    verify := fun _ => none
    ValidAmountForCodes := fun _ _ => none
    ValidTranCodeForServiceClassCode := fun _ _ => none
    addendaFieldInclusion := fun _ entry =>
      if entry.Category = CategoryForward ∧ entry.Addenda02 = none then
        some (.errorString "Addenda02 is a mandatory field and has a default value")
      else none
    usabbrevValid := fun s => s ∈ ["CA", "IL", "MI", "NY"]
    TerminalState := fun a => String.mk (a.payload.toList.drop (a.payload.length - 2))
    msgBatchSECType := fun found want => "header SEC type code " ++ found ++ " for batch type " ++ want
    msgBatchAmountZero := fun n => "found " ++ Itoa n
    msgValidState := fun s => s ++ " is an invalid State abbreviation"
    msgIdentificationNumber := fun s => "found " ++ s }

/-- An Addenda02 record whose payload ends with the terminal state. -/
def sampleAddenda02 (state : String) : Addendumer :=
  { kind := "Addenda02", recordType := "7", TypeCode := "02",
    payload := "2005091234561224400 N 18TH ST          PHILADELPHIA   " ++ state,
    EntryDetailSequenceNumber := 1 }

/-- An MTE batch of the one Forward debit entry with the given Addenda02. -/
def sampleMTE (addenda02 : Option Addendumer) : Batcher :=
  { kind := "BatchMTE",
    Header := { sampleBatchHeader 1 with StandardEntryClassCode := "MTE" },
    Entries := [{ sampleDebit 10000 with
      AddendaRecordIndicator := 1, Addenda02 := addenda02 }],
    Control := { sampleControl 2 23138010 10000 0 with BatchNumber := 1 },
    category := CategoryForward }

/-! ## A sample file whose IAT entry lacks a mandatory addenda -/

/-- The IAT entry `sampleIATEntry` without its Addenda12: the pointer is
nil. -/
def sampleIATEntryNoAddenda12 : IATEntryDetail := { sampleIATEntry with Addenda12 := none }

/-- A file of one IAT batch whose one entry is `sampleIATEntryNoAddenda12`,
after `File.Create`; the control of the batch counts the entry and its eight
addenda. -/
def sampleIATNoAddenda12 : File :=
  (File.Create specOps { sampleFile [] with
    IATBatches := [{ sampleIATBatch with
      Entries := [sampleIATEntryNoAddenda12]
      Control := sampleControl 9 12104288 0 100000 }] }).1

/-! ## Vocabulary of the statements about the lines the scanner yields -/

end Ach

/-! ## Facts about `File.Create` -/

namespace Ach

/-- A loop that adds one number per element computes the sum of the
numbers. -/
theorem foldl_add_eq_sum {α : Type} (g : α → Int) (l : List α) (a : Int) :
    l.foldl (fun n x => n + g x) a = a + (l.map g).sum := by
  induction l generalizing a with
  | nil => simp
  | cons x rest ih => simp [ih, add_assoc]

/-- A loop that adds a pair of numbers per element computes the two sums. -/
theorem foldl_add_pair_eq_sum {α : Type} (g k : α → Int) (l : List α) (p : Int × Int) :
    l.foldl (fun (q : Int × Int) x => (q.1 + g x, q.2 + k x)) p =
      (p.1 + (l.map g).sum, p.2 + (l.map k).sum) := by
  induction l generalizing p with
  | nil => simp
  | cons x rest ih => simp [ih, add_assoc]

theorem createBatches_length (bs : List Batcher) (v : CreateVars) :
    (File.createBatches bs v).1.length = bs.length := by
  induction bs generalizing v with
  | nil => rfl
  | cons b rest ih => simp [File.createBatches, ih]

theorem createIATBatches_length (bs : List IATBatch) (v : CreateVars) :
    (File.createIATBatches bs v).1.length = bs.length := by
  induction bs generalizing v with
  | nil => rfl
  | cons b rest ih => simp [File.createIATBatches, ih]

theorem createBatches_getElem? (bs : List Batcher) (v : CreateVars) (i : Nat) :
    (File.createBatches bs v).1[i]? =
      (bs[i]?).map (fun b => b.withNumber (v.batchSeq + i)) := by
  induction bs generalizing v i with
  | nil => simp [File.createBatches]
  | cons b rest ih =>
    cases i with
    | zero => simp [File.createBatches, Batcher.withNumber]
    | succ j =>
      simp only [File.createBatches, List.getElem?_cons_succ, ih]
      have e : v.batchSeq + 1 + (j : Int) = v.batchSeq + ((j : Int) + 1) := by ring
      simp [CreateVars.add, e]

theorem createIATBatches_getElem? (bs : List IATBatch) (v : CreateVars) (i : Nat) :
    (File.createIATBatches bs v).1[i]? =
      (bs[i]?).map (fun b => b.withNumber (v.batchSeq + i)) := by
  induction bs generalizing v i with
  | nil => simp [File.createIATBatches]
  | cons b rest ih =>
    cases i with
    | zero => simp [File.createIATBatches, IATBatch.withNumber]
    | succ j =>
      simp only [File.createIATBatches, List.getElem?_cons_succ, ih]
      have e : v.batchSeq + 1 + (j : Int) = v.batchSeq + ((j : Int) + 1) := by ring
      simp [CreateVars.add, e]

/-- The controls after the loop differ from the controls before it in the
batch number only, so every sum that ignores the number is the same. -/
theorem createBatches_map_control (field : BatchControl → Int)
    (hf : ∀ bc n, field { bc with BatchNumber := n } = field bc)
    (bs : List Batcher) (v : CreateVars) :
    (File.createBatches bs v).1.map (fun b => field b.Control) =
      bs.map (fun b => field b.Control) := by
  induction bs generalizing v with
  | nil => rfl
  | cons b rest ih => simp [File.createBatches, ih, hf]

theorem createIATBatches_map_control (field : BatchControl → Int)
    (hf : ∀ bc n, field { bc with BatchNumber := n } = field bc)
    (bs : List IATBatch) (v : CreateVars) :
    (File.createIATBatches bs v).1.map (fun b => field b.Control) =
      bs.map (fun b => field b.Control) := by
  induction bs generalizing v with
  | nil => rfl
  | cons b rest ih => simp [File.createIATBatches, ih, hf]

/-- The variables after the loop over the ordinary batches. -/
theorem createBatches_vars (bs : List Batcher) (v : CreateVars) :
    (File.createBatches bs v).2 =
      { totalRecordsInFile :=
          v.totalRecordsInFile + (bs.map (fun b => 2 + b.Control.EntryAddendaCount)).sum
        batchSeq := v.batchSeq + bs.length
        fileEntryAddendaCount :=
          v.fileEntryAddendaCount + (bs.map (fun b => b.Control.EntryAddendaCount)).sum
        fileEntryHashSum := v.fileEntryHashSum + (bs.map (fun b => b.Control.EntryHash)).sum
        totalDebitAmount :=
          v.totalDebitAmount + (bs.map (fun b => b.Control.TotalDebitEntryDollarAmount)).sum
        totalCreditAmount :=
          v.totalCreditAmount + (bs.map (fun b => b.Control.TotalCreditEntryDollarAmount)).sum } := by
  induction bs generalizing v with
  | nil => simp [File.createBatches]
  | cons b rest ih =>
    simp only [File.createBatches, ih, CreateVars.add, List.map_cons, List.sum_cons,
      List.length_cons, Nat.cast_add, Nat.cast_one, CreateVars.mk.injEq]
    refine ⟨?_, ?_, ?_, ?_, ?_, ?_⟩ <;> ring

/-- The variables after the loop over the IAT batches. -/
theorem createIATBatches_vars (bs : List IATBatch) (v : CreateVars) :
    (File.createIATBatches bs v).2 =
      { totalRecordsInFile :=
          v.totalRecordsInFile + (bs.map (fun b => 2 + b.Control.EntryAddendaCount)).sum
        batchSeq := v.batchSeq + bs.length
        fileEntryAddendaCount :=
          v.fileEntryAddendaCount + (bs.map (fun b => b.Control.EntryAddendaCount)).sum
        fileEntryHashSum := v.fileEntryHashSum + (bs.map (fun b => b.Control.EntryHash)).sum
        totalDebitAmount :=
          v.totalDebitAmount + (bs.map (fun b => b.Control.TotalDebitEntryDollarAmount)).sum
        totalCreditAmount :=
          v.totalCreditAmount + (bs.map (fun b => b.Control.TotalCreditEntryDollarAmount)).sum } := by
  induction bs generalizing v with
  | nil => simp [File.createIATBatches]
  | cons b rest ih =>
    simp only [File.createIATBatches, ih, CreateVars.add, List.map_cons, List.sum_cons,
      List.length_cons, Nat.cast_add, Nat.cast_one, CreateVars.mk.injEq]
    refine ⟨?_, ?_, ?_, ?_, ?_, ?_⟩ <;> ring

/-- What a successful `File.Create` leaves behind, in terms of its two
loops. -/
theorem create_success (ops : RecordOps) (f f' : File)
    (h : File.Create ops f = (f', none)) :
    f'.Batches = (File.createBatches f.Batches CreateVars.init).1 ∧
    f'.IATBatches = (File.createIATBatches f.IATBatches
      (File.createBatches f.Batches CreateVars.init).2).1 ∧
    f'.Control.BatchCount = (f.Batches.length : Int) + f.IATBatches.length ∧
    f'.Control.BlockCount =
      (if Int.tmod f.recordCount 10 ≠ 0 then Int.tdiv f.recordCount 10 + 1
       else Int.tdiv f.recordCount 10) ∧
    f'.Control.EntryAddendaCount = f.sumControls (fun bc => bc.EntryAddendaCount) ∧
    f'.Control.EntryHash = f.sumControls (fun bc => bc.EntryHash) ∧
    f'.Control.TotalDebitEntryDollarAmountInFile =
      f.sumControls (fun bc => bc.TotalDebitEntryDollarAmount) ∧
    f'.Control.TotalCreditEntryDollarAmountInFile =
      f.sumControls (fun bc => bc.TotalCreditEntryDollarAmount) := by
  unfold File.Create at h
  split at h
  · simp at h
  · split at h
    · simp at h
    · simp only [Prod.mk.injEq, and_true] at h
      subst h
      simp only [createIATBatches_vars, createBatches_vars, CreateVars.init, File.sumControls,
        File.recordCount]
      refine ⟨trivial, trivial, ?_, ?_, ?_, ?_, ?_, ?_⟩
      · ring
      · have e : (2 : Int) + (List.map (fun b : Batcher => 2 + b.Control.EntryAddendaCount)
            f.Batches).sum + (List.map (fun b : IATBatch => 2 + b.Control.EntryAddendaCount)
            f.IATBatches).sum = 2 + ((List.map (fun b : Batcher =>
            2 + b.Control.EntryAddendaCount) f.Batches).sum + (List.map (fun b : IATBatch =>
            2 + b.Control.EntryAddendaCount) f.IATBatches).sum) := by ring
        simp only [e]
      · ring
      · ring
      · ring
      · ring

/-- The sums over the batch controls are the same before and after
`File.Create`, which changes batch numbers only. -/
theorem create_sumControls (ops : RecordOps) (f f' : File)
    (h : File.Create ops f = (f', none)) (field : BatchControl → Int)
    (hf : ∀ bc n, field { bc with BatchNumber := n } = field bc) :
    f'.sumControls field = f.sumControls field := by
  obtain ⟨hb, hi, _⟩ := create_success ops f f' h
  simp only [File.sumControls, hb, hi, createBatches_map_control field hf,
    createIATBatches_map_control field hf]

theorem create_lengths (ops : RecordOps) (f f' : File)
    (h : File.Create ops f = (f', none)) :
    f'.Batches.length = f.Batches.length ∧ f'.IATBatches.length = f.IATBatches.length := by
  obtain ⟨hb, hi, _⟩ := create_success ops f f' h
  simp [hb, hi, createBatches_length, createIATBatches_length]

theorem create_recordCount (ops : RecordOps) (f f' : File)
    (h : File.Create ops f = (f', none)) : f'.recordCount = f.recordCount := by
  simp only [File.recordCount]
  rw [create_sumControls ops f f' h (fun bc => 2 + bc.EntryAddendaCount) (fun _ _ => rfl)]

/-- The block count `File.Create` computes with Go's truncating division is
the ceiling of a tenth of the record count, for a record count that is not
negative. -/
theorem blockCount_eq_ceil (R : Int) (hR : 0 ≤ R) :
    (if Int.tmod R 10 ≠ 0 then Int.tdiv R 10 + 1 else Int.tdiv R 10) = ⌈(R : ℚ) / 10⌉ := by
  rw [Int.tmod_eq_emod hR (by norm_num), Int.tdiv_eq_ediv hR (by norm_num)]
  symm
  rw [Int.ceil_eq_iff]
  split_ifs with h
  · constructor
    · rw [lt_div_iff₀ (by norm_num)]
      have : (R / 10 + 1 - 1) * 10 < R := by omega
      exact_mod_cast this
    · rw [div_le_iff₀ (by norm_num)]
      have : R ≤ (R / 10 + 1) * 10 := by omega
      exact_mod_cast this
  · constructor
    · rw [lt_div_iff₀ (by norm_num)]
      have : (R / 10 - 1) * 10 < R := by omega
      exact_mod_cast this
    · rw [div_le_iff₀ (by norm_num)]
      have : R ≤ (R / 10) * 10 := by omega
      exact_mod_cast this

/-! ## The file control after `File.Create` -/

/-- C1: after `File.Create` succeeds, the batch count of the file control is
the number of batches plus the number of IAT batches, its entry and addenda
count is the sum of the entry and addenda counts of all batch controls, and
its debit and credit totals are the exact sums (in the integers, nothing cut
off) of the debit and credit totals of all batch controls. -/
theorem create_control_totals (ops : RecordOps) (f f' : File)
    (h : File.Create ops f = (f', none)) :
    f'.Control.BatchCount = (f'.Batches.length : Int) + (f'.IATBatches.length : Int) ∧
    f'.Control.EntryAddendaCount = f'.sumControls (fun bc => bc.EntryAddendaCount) ∧
    f'.Control.TotalDebitEntryDollarAmountInFile =
      f'.sumControls (fun bc => bc.TotalDebitEntryDollarAmount) ∧
    f'.Control.TotalCreditEntryDollarAmountInFile =
      f'.sumControls (fun bc => bc.TotalCreditEntryDollarAmount) := by
  obtain ⟨_, _, hc, _, he, _, hd, hcr⟩ := create_success ops f f' h
  obtain ⟨hl, hli⟩ := create_lengths ops f f' h
  rw [create_sumControls ops f f' h (fun bc => bc.EntryAddendaCount) (fun _ _ => rfl),
    create_sumControls ops f f' h (fun bc => bc.TotalDebitEntryDollarAmount) (fun _ _ => rfl),
    create_sumControls ops f f' h (fun bc => bc.TotalCreditEntryDollarAmount) (fun _ _ => rfl),
    hl, hli]
  exact ⟨hc, he, hd, hcr⟩

/-- C1 at the file `sampleTwo`: two batches, seven entries, totals 550 and
770. -/
theorem create_control_totals_witness :
    File.Create specOps sampleTwo = (sampleTwoCreated, none) ∧
    sampleTwoCreated.Control.BatchCount = 2 ∧
    sampleTwoCreated.Control.EntryAddendaCount = 7 ∧
    sampleTwoCreated.Control.TotalDebitEntryDollarAmountInFile = 550 ∧
    sampleTwoCreated.Control.TotalCreditEntryDollarAmountInFile = 770 := by
  have h : File.Create specOps sampleTwo = (sampleTwoCreated, none) := by rfl
  have t := create_control_totals specOps sampleTwo sampleTwoCreated h
  refine ⟨h, ?_, ?_, ?_, ?_⟩
  · rw [t.1]; decide
  · rw [t.2.1]; decide
  · rw [t.2.2.1]; decide
  · rw [t.2.2.2]; decide

/-- C2: after `File.Create` succeeds, the block count of the file control is
the ceiling of R / 10, where R = 2 + the sum over all ordinary and IAT batches
of (2 + the entry and addenda count of the batch control), for every file whose
R is not negative; R = 10 gives block count 1 and R = 11 gives 2. -/
theorem create_blockCount (ops : RecordOps) (f f' : File)
    (h : File.Create ops f = (f', none)) (hR : 0 ≤ f'.recordCount) :
    f'.Control.BlockCount = ⌈(f'.recordCount : ℚ) / 10⌉ ∧
    (f'.recordCount = 10 → f'.Control.BlockCount = 1) ∧
    (f'.recordCount = 11 → f'.Control.BlockCount = 2) := by
  obtain ⟨_, _, _, hb, _⟩ := create_success ops f f' h
  rw [← create_recordCount ops f f' h] at hb
  refine ⟨?_, ?_, ?_⟩
  · rw [hb]; exact blockCount_eq_ceil _ hR
  · intro h10; rw [hb, h10]; decide
  · intro h11; rw [hb, h11]; decide

/-- C2 at the file `sampleTen`, the file of the test `testFileBlockCount10`:
one batch of six entries, ten records, one block. -/
theorem create_blockCount_witness :
    File.Create specOps sampleTen = (sampleTenCreated, none) ∧
    sampleTenCreated.recordCount = 10 ∧ sampleTenCreated.Control.BlockCount = 1 := by
  have h : File.Create specOps sampleTen = (sampleTenCreated, none) := by rfl
  have hc : sampleTenCreated.recordCount = 10 := by decide
  exact ⟨h, hc, (create_blockCount specOps sampleTen sampleTenCreated h (by decide)).2.1 hc⟩

/-- C3 as stated fails: for the file `sampleTwo`, whose two batch controls
carry the entry hashes 9999999999 and 1, `File.Create` succeeds and leaves the
eleven-digit sum 10000000000 in the file control, not its rightmost ten digits
0000000000. -/
theorem create_entryHash_not_truncated :
    File.Create specOps sampleTwo = (sampleTwoCreated, none) ∧
    sampleTwoCreated.sumControls (fun bc => bc.EntryHash) = 10000000000 ∧
    sampleTwoCreated.Control.EntryHash = 10000000000 ∧
    sampleTwoCreated.Control.EntryHash ≠
      sampleTwoCreated.sumControls (fun bc => bc.EntryHash) % 10 ^ 10 := by
  refine ⟨by rfl, by decide, by decide, by decide⟩

/-- C3, amended: after `File.Create` succeeds, the entry hash of the file
control is the whole sum of the entry hashes of all batch controls; it is the
sum cut to its rightmost ten digits exactly when the sum has at most ten
digits; and for every `numericField` the ten-digit field of the control is the
ten-digit field that `File.calculateEntryHash` derives from the batches. -/
theorem create_entryHash_sum (ops : RecordOps) (f f' : File)
    (h : File.Create ops f = (f', none)) :
    f'.Control.EntryHash = f'.sumControls (fun bc => bc.EntryHash) ∧
    (0 ≤ f'.sumControls (fun bc => bc.EntryHash) →
      (f'.Control.EntryHash = f'.sumControls (fun bc => bc.EntryHash) % 10 ^ 10 ↔
        f'.sumControls (fun bc => bc.EntryHash) < 10 ^ 10)) ∧
    ∀ c : converters, f'.Control.EntryHashField c = f'.calculateEntryHash c := by
  obtain ⟨_, _, _, _, _, hh, _⟩ := create_success ops f f' h
  rw [← create_sumControls ops f f' h (fun bc => bc.EntryHash) (fun _ _ => rfl)] at hh
  refine ⟨hh, ?_, ?_⟩
  · intro h0
    rw [hh]
    constructor
    · intro e
      rw [e]
      exact Int.emod_lt_of_pos _ (by norm_num)
    · intro hlt
      exact (Int.emod_eq_of_lt h0 hlt).symm
  · intro c
    simp only [FileControl.EntryHashField, File.calculateEntryHash, hh, File.sumControls,
      foldl_add_eq_sum, zero_add]

/-- C3 amended, at the file `sampleTen`: the hash of the control is the hash
of its one batch. -/
theorem create_entryHash_sum_witness :
    File.Create specOps sampleTen = (sampleTenCreated, none) ∧
    sampleTenCreated.Control.EntryHash = 138828060 := by
  have h : File.Create specOps sampleTen = (sampleTenCreated, none) := by rfl
  refine ⟨h, ?_⟩
  rw [(create_entryHash_sum specOps sampleTen sampleTenCreated h).1]
  decide

/-- C4: after `File.Create` succeeds, the i-th ordinary batch (counted from
1, in list order) has header and control batch number i and the j-th IAT batch
has header and control batch number |Batches| + j, whatever numbers the batches
carried before: each batch is the batch that stood at its place before, with
only the two numbers replaced. -/
theorem create_batch_numbers (ops : RecordOps) (f f' : File)
    (h : File.Create ops f = (f', none)) :
    (∀ (i : Nat) (b : Batcher), f'.Batches[i]? = some b →
      b.Header.BatchNumber = (i : Int) + 1 ∧ b.Control.BatchNumber = (i : Int) + 1) ∧
    (∀ (j : Nat) (b : IATBatch), f'.IATBatches[j]? = some b →
      b.Header.BatchNumber = (f'.Batches.length : Int) + ((j : Int) + 1) ∧
      b.Control.BatchNumber = (f'.Batches.length : Int) + ((j : Int) + 1)) ∧
    (∀ i : Nat, f'.Batches[i]? = (f.Batches[i]?).map (fun b => b.withNumber ((i : Int) + 1))) ∧
    (∀ j : Nat, f'.IATBatches[j]? =
      (f.IATBatches[j]?).map (fun b => b.withNumber ((f.Batches.length : Int) + ((j : Int) + 1)))) := by
  obtain ⟨hb, hi, _⟩ := create_success ops f f' h
  obtain ⟨hl, _⟩ := create_lengths ops f f' h
  have e1 : ∀ i : Nat, f'.Batches[i]? =
      (f.Batches[i]?).map (fun b => b.withNumber ((i : Int) + 1)) := by
    intro i
    rw [hb, createBatches_getElem?]
    simp [CreateVars.init, add_comm]
  have e2 : ∀ j : Nat, f'.IATBatches[j]? = (f.IATBatches[j]?).map
      (fun b => b.withNumber ((f.Batches.length : Int) + ((j : Int) + 1))) := by
    intro j
    rw [hi, createIATBatches_getElem?, createBatches_vars]
    have e : ∀ n j : Int, 1 + n + j = n + (j + 1) := by intro n j; ring
    simp [CreateVars.init, e]
  refine ⟨?_, ?_, e1, e2⟩
  · intro i b hib
    rw [e1 i] at hib
    obtain ⟨b0, _, rfl⟩ := Option.map_eq_some'.mp hib
    exact ⟨rfl, rfl⟩
  · intro j b hjb
    rw [e2 j] at hjb
    obtain ⟨b0, _, rfl⟩ := Option.map_eq_some'.mp hjb
    rw [hl]
    exact ⟨rfl, rfl⟩

/-- C4 at the file `sampleTwo`, whose two batches both carried the number 7:
they carry 1 and 2 after `File.Create`. -/
theorem create_batch_numbers_witness :
    File.Create specOps sampleTwo = (sampleTwoCreated, none) ∧
    sampleTwo.Batches.map (fun b => b.Header.BatchNumber) = [7, 7] ∧
    sampleTwoCreated.Batches.map (fun b => (b.Header.BatchNumber, b.Control.BatchNumber)) =
      [(1, 1), (2, 2)] := by
  have h : File.Create specOps sampleTwo = (sampleTwoCreated, none) := by rfl
  have t := (create_batch_numbers specOps sampleTwo sampleTwoCreated h).2.2.1
  refine ⟨h, by decide, ?_⟩
  have l : sampleTwoCreated.Batches.length = 2 := by decide
  apply List.ext_getElem? 
  intro i
  rw [List.getElem?_map, t i]
  match i with
  | 0 => decide
  | 1 => decide
  | (n + 2) => simp [sampleTwo, sampleFile]

/-! ## `File.Validate` -/

/-- C5: `File.Validate` returns nil if and only if the batch count of the
control is the number of batches plus IAT batches, its entry and addenda count
is the sum over the batch controls, its debit and credit totals are the sums
over the batch controls, and its ten-digit entry hash field is the ten-digit
field of the summed batch-control hashes; otherwise it returns the error of
the first check that fails, in the order BatchCount, EntryAddendaCount,
TotalDebit, TotalCredit, EntryHash. -/
theorem validate_checks (c : converters) (f : File) :
    (f.Validate c = none ↔
      f.Control.BatchCount = (f.Batches.length : Int) + (f.IATBatches.length : Int) ∧
      f.Control.EntryAddendaCount = f.sumControls (fun bc => bc.EntryAddendaCount) ∧
      f.Control.TotalDebitEntryDollarAmountInFile =
        f.sumControls (fun bc => bc.TotalDebitEntryDollarAmount) ∧
      f.Control.TotalCreditEntryDollarAmountInFile =
        f.sumControls (fun bc => bc.TotalCreditEntryDollarAmount) ∧
      c.numericField f.Control.EntryHash 10 =
        c.numericField (f.sumControls (fun bc => bc.EntryHash)) 10) ∧
    (f.Control.BatchCount ≠ (f.Batches.length : Int) + (f.IATBatches.length : Int) →
      f.Validate c = some (errors.File "BatchCount" (Itoa f.Batches.length)
        (msgFileCalculatedControlEquality (Itoa f.Batches.length)
          (Itoa f.Control.BatchCount)))) ∧
    (f.Control.BatchCount = (f.Batches.length : Int) + (f.IATBatches.length : Int) →
      f.Control.EntryAddendaCount ≠ f.sumControls (fun bc => bc.EntryAddendaCount) →
      f.Validate c = some (errors.WithError (errors.File "EntryAddendaCount"
        (f.Control.EntryAddendaCountField c)
        (msgFileCalculatedControlEquality
          (Itoa (f.sumControls (fun bc => bc.EntryAddendaCount)))
          (Itoa f.Control.EntryAddendaCount))))) ∧
    (f.Control.BatchCount = (f.Batches.length : Int) + (f.IATBatches.length : Int) →
      f.Control.EntryAddendaCount = f.sumControls (fun bc => bc.EntryAddendaCount) →
      f.Control.TotalDebitEntryDollarAmountInFile ≠
        f.sumControls (fun bc => bc.TotalDebitEntryDollarAmount) →
      f.Validate c = some (errors.WithError (errors.File "TotalDebitEntryDollarAmountInFile"
        (f.Control.TotalDebitEntryDollarAmountInFileField c)
        (msgFileCalculatedControlEquality
          (Itoa (f.sumControls (fun bc => bc.TotalDebitEntryDollarAmount)))
          (Itoa f.Control.TotalDebitEntryDollarAmountInFile))))) ∧
    (f.Control.BatchCount = (f.Batches.length : Int) + (f.IATBatches.length : Int) →
      f.Control.EntryAddendaCount = f.sumControls (fun bc => bc.EntryAddendaCount) →
      f.Control.TotalDebitEntryDollarAmountInFile =
        f.sumControls (fun bc => bc.TotalDebitEntryDollarAmount) →
      f.Control.TotalCreditEntryDollarAmountInFile ≠
        f.sumControls (fun bc => bc.TotalCreditEntryDollarAmount) →
      f.Validate c = some (errors.WithError (errors.File "TotalCreditEntryDollarAmountInFile"
        (f.Control.TotalCreditEntryDollarAmountInFileField c)
        (msgFileCalculatedControlEquality
          (Itoa (f.sumControls (fun bc => bc.TotalCreditEntryDollarAmount)))
          (Itoa f.Control.TotalCreditEntryDollarAmountInFile))))) ∧
    (f.Control.BatchCount = (f.Batches.length : Int) + (f.IATBatches.length : Int) →
      f.Control.EntryAddendaCount = f.sumControls (fun bc => bc.EntryAddendaCount) →
      f.Control.TotalDebitEntryDollarAmountInFile =
        f.sumControls (fun bc => bc.TotalDebitEntryDollarAmount) →
      f.Control.TotalCreditEntryDollarAmountInFile =
        f.sumControls (fun bc => bc.TotalCreditEntryDollarAmount) →
      c.numericField f.Control.EntryHash 10 ≠
        c.numericField (f.sumControls (fun bc => bc.EntryHash)) 10 →
      f.Validate c = some (errors.WithError (errors.File "EntryHash"
        (f.Control.EntryHashField c)
        (msgFileCalculatedControlEquality
          (c.numericField (f.sumControls (fun bc => bc.EntryHash)) 10)
          (f.Control.EntryHashField c))))) := by
  have hv : f.Validate c =
      if f.Control.BatchCount ≠ (f.Batches.length : Int) + (f.IATBatches.length : Int) then
        some (errors.File "BatchCount" (Itoa f.Batches.length)
          (msgFileCalculatedControlEquality (Itoa f.Batches.length)
            (Itoa f.Control.BatchCount)))
      else if f.Control.EntryAddendaCount ≠ f.sumControls (fun bc => bc.EntryAddendaCount) then
        some (errors.WithError (errors.File "EntryAddendaCount"
          (f.Control.EntryAddendaCountField c)
          (msgFileCalculatedControlEquality
            (Itoa (f.sumControls (fun bc => bc.EntryAddendaCount)))
            (Itoa f.Control.EntryAddendaCount))))
      else if f.Control.TotalDebitEntryDollarAmountInFile ≠
          f.sumControls (fun bc => bc.TotalDebitEntryDollarAmount) then
        some (errors.WithError (errors.File "TotalDebitEntryDollarAmountInFile"
          (f.Control.TotalDebitEntryDollarAmountInFileField c)
          (msgFileCalculatedControlEquality
            (Itoa (f.sumControls (fun bc => bc.TotalDebitEntryDollarAmount)))
            (Itoa f.Control.TotalDebitEntryDollarAmountInFile))))
      else if f.Control.TotalCreditEntryDollarAmountInFile ≠
          f.sumControls (fun bc => bc.TotalCreditEntryDollarAmount) then
        some (errors.WithError (errors.File "TotalCreditEntryDollarAmountInFile"
          (f.Control.TotalCreditEntryDollarAmountInFileField c)
          (msgFileCalculatedControlEquality
            (Itoa (f.sumControls (fun bc => bc.TotalCreditEntryDollarAmount)))
            (Itoa f.Control.TotalCreditEntryDollarAmountInFile))))
      else if c.numericField f.Control.EntryHash 10 ≠
          c.numericField (f.sumControls (fun bc => bc.EntryHash)) 10 then
        some (errors.WithError (errors.File "EntryHash" (f.Control.EntryHashField c)
          (msgFileCalculatedControlEquality
            (c.numericField (f.sumControls (fun bc => bc.EntryHash)) 10)
            (f.Control.EntryHashField c))))
      else none := by
    simp only [File.Validate, File.isEntryAddendaCount, File.isFileAmount, File.isEntryHash,
      File.calculateEntryHash, FileControl.EntryHashField, File.sumControls, foldl_add_eq_sum,
      foldl_add_pair_eq_sum, zero_add]
    split_ifs <;> simp_all [errors.WithError?]
  rw [hv]
  refine ⟨?_, ?_, ?_, ?_, ?_, ?_⟩
  · split_ifs <;> simp_all
  · intro h1; simp [h1]
  · intro h1 h2; simp [h1, h2]
  · intro h1 h2 h3; simp [h1, h2, h3]
  · intro h1 h2 h3 h4; simp [h1, h2, h3, h4]
  · intro h1 h2 h3 h4 h5; simp [h1, h2, h3, h4, h5]

/-! ## When `File.Create` fails -/

/-- C6: `File.Create` returns an error if and only if the file header fails
`FileHeader.Validate` or the file has neither ordinary nor IAT batches, and
whenever it returns an error the file is what it was before the call. -/
theorem create_error_iff (ops : RecordOps) (f : File) :
    ((File.Create ops f).2 ≠ none ↔
      (ops.fileHeaderValidate f.Header ≠ none ∨ (f.Batches = [] ∧ f.IATBatches = []))) ∧
    ((File.Create ops f).2 ≠ none → (File.Create ops f).1 = f) := by
  unfold File.Create
  cases hv : ops.fileHeaderValidate f.Header with
  | some err => simp
  | none =>
    by_cases hb : f.Batches = [] ∧ f.IATBatches = []
    · simp [hb]
    · have hb' : ¬ ((f.Batches.length : Int) ≤ 0 ∧ (f.IATBatches.length : Int) ≤ 0) := by
        intro ⟨h1, h2⟩
        apply hb
        constructor
        · exact List.length_eq_zero.mp (by omega)
        · exact List.length_eq_zero.mp (by omega)
      simp [hb, hb']

/-! ## `Writer.Write` -/

theorem emit_nil (w : Writer) : w.emit [] = w := by
  simp [Writer.emit]

theorem emit_emit (w : Writer) (a b : List String) : (w.emit a).emit b = w.emit (a ++ b) := by
  simp [Writer.emit, add_assoc]

theorem writeLine_eq_emit (w : Writer) (s : String) : w.writeLine s = w.emit [s] := by
  simp [Writer.writeLine, Writer.WriteString, Writer.emit]

/-- A loop whose body writes the records `g x` writes the records of all the
elements in order. -/
theorem foldl_emit {α : Type} (g : α → List String) (l : List α) (w : Writer) :
    l.foldl (fun w x => w.emit (g x)) w = w.emit (l.flatMap g) := by
  induction l generalizing w with
  | nil => simp [emit_nil]
  | cons x rest ih => simp [ih, emit_emit]

theorem foldl_writeLine {α : Type} (g : α → String) (l : List α) (w : Writer) :
    l.foldl (fun w x => w.writeLine (g x)) w = w.emit (l.map g) := by
  have e : (fun (w : Writer) x => w.writeLine (g x)) =
      fun (w : Writer) x => w.emit ((fun x => [g x]) x) := by
    funext w x
    exact writeLine_eq_emit w (g x)
  rw [e, foldl_emit]
  congr 1
  induction l with
  | nil => rfl
  | cons x rest ih => simp [List.flatMap_cons, ih]

theorem writeBatch_eq_emit (ops : RecordOps) (w : Writer) (file : File) :
    w.writeBatch ops file = w.emit (file.Batches.flatMap (batchRecords ops)) := by
  unfold Writer.writeBatch
  rw [← foldl_emit]
  congr 1
  funext w batch
  have e : ∀ w : Writer, List.foldl (fun w entry =>
      List.foldl (fun w addenda => w.writeLine (ops.addendaString addenda))
        (w.writeLine (ops.entryDetailString entry)) entry.Addendum) w batch.Entries =
      w.emit (batch.Entries.flatMap (entryRecords ops)) := by
    intro w
    rw [← foldl_emit]
    congr 1
    funext w entry
    rw [foldl_writeLine, writeLine_eq_emit, emit_emit]
    rfl
  dsimp only
  rw [e]
  simp only [writeLine_eq_emit, emit_emit, batchRecords]

/-- The body of the loop over the entries of an IAT batch writes the records
of an entry that has its seven mandatory addenda. -/
theorem writeIATEntry_complete (ops : RecordOps) (w : Writer) (e : IATEntryDetail)
    (h : e.complete = true) : w.writeIATEntry ops e = some (w.emit (iatEntryRecords ops e)) := by
  simp only [IATEntryDetail.complete, Bool.and_eq_true, Option.isSome_iff_exists] at h
  obtain ⟨⟨⟨⟨⟨⟨⟨a10, h10⟩, a11, h11⟩, a12, h12⟩, a13, h13⟩, a14, h14⟩, a15, h15⟩, a16, h16⟩ := h
  simp only [Writer.writeIATEntry, h10, h11, h12, h13, h14, h15, h16, iatEntryRecords,
    IATEntryDetail.mandatory]
  rw [foldl_writeLine]
  simp only [writeLine_eq_emit, emit_emit]
  rfl

/-- The body of the loop stops at an entry that lacks one of its seven
mandatory addenda. -/
theorem writeIATEntry_incomplete (ops : RecordOps) (w : Writer) (e : IATEntryDetail)
    (h : e.complete = false) : w.writeIATEntry ops e = none := by
  simp only [Writer.writeIATEntry]
  cases h10 : e.Addenda10 with
  | none => rfl
  | some a10 =>
  cases h11 : e.Addenda11 with
  | none => rfl
  | some a11 =>
  cases h12 : e.Addenda12 with
  | none => rfl
  | some a12 =>
  cases h13 : e.Addenda13 with
  | none => rfl
  | some a13 =>
  cases h14 : e.Addenda14 with
  | none => rfl
  | some a14 =>
  cases h15 : e.Addenda15 with
  | none => rfl
  | some a15 =>
  cases h16 : e.Addenda16 with
  | none => rfl
  | some a16 =>
    simp [IATEntryDetail.complete, h10, h11, h12, h13, h14, h15, h16] at h

theorem writeIATEntries_eq (ops : RecordOps) (es : List IATEntryDetail) :
    ∀ w : Writer, Writer.writeIATEntries ops es w =
      if es.all IATEntryDetail.complete = true then
        some (w.emit (es.flatMap (iatEntryRecords ops)))
      else none := by
  induction es with
  | nil => intro w; simp [Writer.writeIATEntries, emit_nil]
  | cons e rest ih =>
    intro w
    simp only [Writer.writeIATEntries, List.all_cons, Bool.and_eq_true, List.flatMap_cons]
    cases hc : e.complete with
    | false => simp [writeIATEntry_incomplete ops w e hc]
    | true =>
      rw [writeIATEntry_complete ops w e hc]
      simp only [ih, true_and, emit_emit]

theorem writeIATBatches_eq (ops : RecordOps) (bs : List IATBatch) :
    ∀ w : Writer, Writer.writeIATBatches ops bs w =
      if bs.all (fun b => b.Entries.all IATEntryDetail.complete) = true then
        some (w.emit (bs.flatMap (iatBatchRecords ops)))
      else none := by
  induction bs with
  | nil => intro w; simp [Writer.writeIATBatches, emit_nil]
  | cons b rest ih =>
    intro w
    simp only [Writer.writeIATBatches, List.all_cons, Bool.and_eq_true, List.flatMap_cons,
      writeIATEntries_eq]
    cases hc : b.Entries.all IATEntryDetail.complete with
    | false => simp
    | true =>
      simp only [if_true, ih, true_and, writeLine_eq_emit, emit_emit, iatBatchRecords,
        List.append_assoc]

/-- The loops of `Writer.writeIATBatch` write the records of the IAT batches
when every IAT entry has its seven mandatory addenda, and stop on a nil
pointer when one has not. -/
theorem writeIATBatch_eq_emit (ops : RecordOps) (w : Writer) (file : File) :
    w.writeIATBatch ops file =
      if file.iatComplete = true then
        some (w.emit (file.IATBatches.flatMap (iatBatchRecords ops)))
      else none := by
  simp only [Writer.writeIATBatch, writeIATBatches_eq, File.iatComplete]

/-- The records phase of `Writer.Write` writes the records of the file in the
order of section 4.6 and counts them from zero, when every IAT entry has its
seven mandatory addenda; it stops on a nil pointer when one has not. -/
theorem writeRecords_eq (ops : RecordOps) (w : Writer) (file : File) :
    w.writeRecords ops file =
      if file.iatComplete = true then
        some { w := w.w ++ (file.records ops).map (fun s => s ++ "\n"),
               lineNum := (file.records ops).length }
      else none := by
  simp only [Writer.writeRecords, writeBatch_eq_emit, writeIATBatch_eq_emit, writeLine_eq_emit,
    emit_emit, File.records]
  cases file.iatComplete with
  | false => simp
  | true => simp [Writer.emit, add_assoc]

/-- The padding loop, entered with `i` rounds done, writes the rounds that are
left. -/
theorem pad_eq (k : Nat) : ∀ (w : Writer) (i : Int), 0 ≤ w.lineNum → 0 ≤ i →
    Int.tmod w.lineNum 10 ≠ 0 → i + k = 10 - Int.tmod w.lineNum 10 →
    w.pad i = { w with w := w.w ++ List.replicate k padLine } := by
  induction k with
  | zero =>
    intro w i _ _ _ hk
    rw [Writer.pad]
    have : ¬ (i < 10 - Int.tmod w.lineNum 10 ∧ Int.tmod w.lineNum 10 ≠ 0) := by
      intro ⟨h, _⟩; simp at hk; omega
    simp [this]
  | succ k ih =>
    intro w i hw hi hm hk
    rw [Writer.pad]
    have hc : i < 10 - Int.tmod w.lineNum 10 ∧ Int.tmod w.lineNum 10 ≠ 0 := by
      refine ⟨?_, hm⟩
      push_cast at hk
      omega
    rw [if_pos hc]
    rw [ih (w.WriteString padLine) (i + 1) hw (by omega) hm (by
      simp only [Writer.WriteString]; push_cast at hk; omega)]
    simp [Writer.WriteString, List.replicate_succ]

/-- The padding loop entered at 0 writes `padCount` lines. -/
theorem pad_zero (w : Writer) (n : Nat) (hn : w.lineNum = n) :
    w.pad 0 = { w with w := w.w ++ List.replicate (padCount n) padLine } := by
  have h10 : Int.tmod w.lineNum 10 = ((n % 10 : Nat) : Int) := by
    rw [hn, Int.tmod_eq_emod (by omega) (by norm_num)]
    norm_cast
  by_cases hm : n % 10 = 0
  · rw [Writer.pad]
    have : ¬ ((0 : Int) < 10 - Int.tmod w.lineNum 10 ∧ Int.tmod w.lineNum 10 ≠ 0) := by
      intro ⟨_, h⟩; apply h; rw [h10, hm]; rfl
    rw [if_neg this]
    simp [padCount, hm]
  · have hlt : n % 10 < 10 := Nat.mod_lt _ (by norm_num)
    apply pad_eq (padCount n) w 0 (by omega) (le_refl _)
    · rw [h10]; exact_mod_cast hm
    · rw [h10]
      simp only [padCount]
      have : (10 - n % 10) % 10 = 10 - n % 10 := Nat.mod_eq_of_lt (by omega)
      rw [this]
      omega

/-- What `Writer.Write` leaves in the writer when the file validates and
every IAT entry has its seven mandatory addenda. -/
theorem write_output (ops : RecordOps) (c : converters) (w : Writer) (f : File)
    (hv : f.Validate c = none) (hc : f.iatComplete = true) :
    Writer.Write ops c w f =
      some ({ w := w.w ++ (f.records ops).map (fun s => s ++ "\n") ++
                List.replicate (padCount (f.records ops).length) padLine,
              lineNum := (f.records ops).length }, none) := by
  simp only [Writer.Write, hv, writeRecords_eq, hc, if_true]
  rw [pad_zero _ (f.records ops).length rfl]

/-- `Writer.Write` stops on a nil pointer when the file validates and an IAT
entry lacks one of its seven mandatory addenda. -/
theorem write_stops (ops : RecordOps) (c : converters) (w : Writer) (f : File)
    (hv : f.Validate c = none) (hc : f.iatComplete = false) :
    Writer.Write ops c w f = none := by
  simp [Writer.Write, hv, writeRecords_eq, hc]

/-- When `Writer.Write` returns nil, the file validates and every IAT entry
has its seven mandatory addenda. -/
theorem write_returns (ops : RecordOps) (c : converters) (w w1 : Writer) (f : File)
    (h : Writer.Write ops c w f = some (w1, none)) :
    f.Validate c = none ∧ f.iatComplete = true := by
  cases hv : f.Validate c with
  | some err => simp [Writer.Write, hv] at h
  | none =>
    cases hc : f.iatComplete with
    | false => rw [write_stops ops c w f hv hc] at h; cases h
    | true => exact ⟨rfl, rfl⟩

/-- C8: for every file on which `Writer.Write` succeeds, the lines written are
the record lines followed by padding lines of 94 nines; with n record lines
there are (10 - n mod 10) mod 10 padding lines, none when n is a multiple of
10, and the total number of lines written is a multiple of 10. -/
theorem write_padding (ops : RecordOps) (c : converters) (w w' : Writer) (f : File)
    (h : Writer.Write ops c w f = some (w', none)) :
    w'.w = w.w ++ (f.records ops).map (fun s => s ++ "\n") ++
      List.replicate ((10 - (f.records ops).length % 10) % 10) padLine ∧
    w'.lineNum = (f.records ops).length ∧
    ((f.records ops).length % 10 = 0 →
      w'.w = w.w ++ (f.records ops).map (fun s => s ++ "\n")) ∧
    (w'.w.length - w.w.length) % 10 = 0 ∧
    padLine = String.mk (List.replicate 94 '9') ++ "\n" := by
  obtain ⟨hv, hc⟩ := write_returns ops c w w' f h
  rw [write_output ops c w f hv hc] at h
  simp only [Option.some.injEq, Prod.mk.injEq, and_true] at h
  subst h
  refine ⟨rfl, rfl, ?_, ?_, rfl⟩
  · intro h0
    simp [padCount, h0]
  · simp only [padCount, List.length_append, List.length_map, List.length_replicate]
    omega

/-- C8 at the file `samplePPD`: six record lines, four padding lines, ten
lines in all. -/
theorem write_padding_witness :
    Writer.Write specOps specConverters NewWriter samplePPD = some (samplePPDWritten, none) ∧
    (samplePPD.records specOps).length = 6 ∧
    samplePPDWritten.w.length = 10 ∧
    samplePPDWritten.w.drop 6 = List.replicate 4 padLine := by
  have h : Writer.Write specOps specConverters NewWriter samplePPD =
      some (samplePPDWritten, none) := by rfl
  have t := write_padding specOps specConverters NewWriter samplePPDWritten samplePPD h
  have n : (samplePPD.records specOps).length = 6 := by decide
  refine ⟨h, n, ?_, ?_⟩
  · rw [t.1, n]; simp [NewWriter, n]
  · rw [t.1, n]
    have l : (NewWriter.w ++ (samplePPD.records specOps).map (fun s => s ++ "\n")).length = 6 := by
      simp [NewWriter, n]
    rw [List.drop_append_of_le_length (by omega), ← l, List.drop_length]
    rfl

set_option maxRecDepth 100000 in
/-- C9 fails on the code. For a file that passes `File.Validate` and each of
whose IAT entries has its seven mandatory addenda, `Writer.Write` writes, in
this order and each with its newline: the file header; for each ordinary batch
in list order its header, each entry followed at once by that entry's addenda
in their recorded order, and the batch control; each IAT batch likewise; the
file control; the padding lines. For a file that fails `File.Validate` it
writes nothing and returns that error. But `Writer.writeIATBatch` reads the
pointers `Addenda10` to `Addenda16` of an IAT entry without a test, and
`File.Validate` does not look at them: for every file that passes
`File.Validate` and holds an IAT entry that lacks one of the seven, the run
stops on the nil pointer and `Writer.Write` returns nothing. So for the file
`sampleIATNoAddenda12`, whose IAT entry has no Addenda12, while `lineCount`
counts its eleven lines. -/
theorem write_order (ops : RecordOps) (c : converters) (w : Writer) (f : File) :
    (f.Validate c = none → f.iatComplete = true →
      Writer.Write ops c w f = some
        ({ w := w.w ++
              (([ops.fileHeaderString f.Header] ++
                f.Batches.flatMap (fun batch =>
                  [ops.batchHeaderString batch.Header] ++
                  batch.Entries.flatMap (fun entry =>
                    ops.entryDetailString entry :: entry.Addendum.map ops.addendaString) ++
                  [ops.batchControlString batch.Control]) ++
                f.IATBatches.flatMap (fun iatBatch =>
                  [ops.iatBatchHeaderString iatBatch.Header] ++
                  iatBatch.Entries.flatMap (iatEntryRecords ops) ++
                  [ops.batchControlString iatBatch.Control]) ++
                [ops.fileControlString f.Control]).map (fun s => s ++ "\n")) ++
              List.replicate (padCount (f.records ops).length) padLine,
           lineNum := (f.records ops).length }, none)) ∧
    (f.Validate c = none → f.iatComplete = false → Writer.Write ops c w f = none) ∧
    (∀ err, f.Validate c = some err → Writer.Write ops c w f = some (w, some err)) ∧
    sampleIATNoAddenda12.IATBatches.map
        (fun b => b.Entries.map (fun e => (e.Addenda11.isSome, e.Addenda12.isSome))) =
      [[(true, false)]] ∧
    sampleIATNoAddenda12.iatComplete = false ∧
    (sampleIATNoAddenda12.Validate specConverters).isNone = true ∧
    (Writer.Write specOps specConverters NewWriter sampleIATNoAddenda12).isNone = true ∧
    (lineCount sampleIATNoAddenda12).1 = 11 := by
  refine ⟨?_, ?_, ?_, by decide, by decide, by rfl, by rfl, by decide⟩
  · intro hv hc
    rw [write_output ops c w f hv hc]
    rfl
  · intro hv hc
    exact write_stops ops c w f hv hc
  · intro err hv
    simp [Writer.Write, hv]

/-- C9 at the file `samplePPD`, which validates and has no IAT batch: the ten
lines written, in order. -/
theorem write_order_witness :
    samplePPD.Validate specConverters = none ∧ samplePPD.iatComplete = true ∧
    samplePPDWritten.w =
      ["101 231380104 1210428821810080101A094101Federal Reserve Bank   My Bank Name                   \n",
       "5200ACME Corporation                    121042882 PPDPAYROLL         181009   1121042880000001\n",
       "622231380104123456789        0100000000ABC-123        Wade Arnold             1121042880000001\n",
       "705Bonus for working on #OSS!                                                          0000001\n",
       "82000000020023138010000000000000000100000000121042882                          121042880000001\n",
       "9000001000001000000020023138010000000000000000100000000                                       \n",
       padLine, padLine, padLine, padLine] := by
  have hv : samplePPD.Validate specConverters = none := by rfl
  have hc : samplePPD.iatComplete = true := by decide
  refine ⟨hv, hc, ?_⟩
  have t := (write_order specOps specConverters NewWriter samplePPD).1 hv hc
  have e : samplePPDWritten =
      match Writer.Write specOps specConverters NewWriter samplePPD with
      | some (w, _) => w
      | none => NewWriter := rfl
  rw [e, t]
  decide

/-! ## `Reader.Read`: the line number

No parser touches the line counter, so after `n` lines are read without error
the counter is `n`. -/

theorem parseFileHeader_lineNum (ops : RecordOps) (r : Reader) :
    (r.parseFileHeader ops).1.lineNum = r.lineNum := by
  simp only [Reader.parseFileHeader]
  split <;> rfl

theorem parseBatchHeader_lineNum (ops : RecordOps) (r : Reader) :
    (r.parseBatchHeader ops).1.lineNum = r.lineNum := by
  simp only [Reader.parseBatchHeader]
  repeat' split
  all_goals rfl

theorem parseIATBatchHeader_lineNum (ops : RecordOps) (r : Reader) :
    (r.parseIATBatchHeader ops).1.lineNum = r.lineNum := by
  simp only [Reader.parseIATBatchHeader]
  repeat' split
  all_goals rfl

theorem parseEntryDetail_lineNum (ops : RecordOps) (r : Reader) :
    (r.parseEntryDetail ops).1.lineNum = r.lineNum := by
  simp only [Reader.parseEntryDetail]
  repeat' split
  all_goals rfl

theorem parseIATEntryDetail_lineNum (ops : RecordOps) (r : Reader) :
    (r.parseIATEntryDetail ops).1.lineNum = r.lineNum := by
  simp only [Reader.parseIATEntryDetail]
  repeat' split
  all_goals rfl

theorem addAddenda_lineNum (ops : RecordOps) (r : Reader) (b : Batcher) (k : String) :
    (r.addAddenda ops b k).1.lineNum = r.lineNum := by
  simp only [Reader.addAddenda]
  repeat' split
  all_goals rfl

theorem parseAddenda_lineNum (ops : RecordOps) (r : Reader) :
    (r.parseAddenda ops).1.lineNum = r.lineNum := by
  simp only [Reader.parseAddenda]
  repeat' split
  all_goals first | rfl | rw [addAddenda_lineNum]

theorem setIATAddenda_lineNum (ops : RecordOps) (r : Reader) (b : IATBatch) (k : String)
    (set : IATEntryDetail → Addendumer → IATEntryDetail) :
    (r.setIATAddenda ops b k set).1.lineNum = r.lineNum := by
  simp only [Reader.setIATAddenda]
  repeat' split
  all_goals rfl

theorem switchIATAddenda_lineNum (ops : RecordOps) (r : Reader) (b : IATBatch) :
    (r.switchIATAddenda ops b).1.lineNum = r.lineNum := by
  simp only [Reader.switchIATAddenda, Reader.mandatoryOptionalIATAddenda,
    Reader.returnIATAddenda]
  repeat' split
  all_goals first | rfl | rw [setIATAddenda_lineNum]

theorem parseIATAddenda_lineNum (ops : RecordOps) (r : Reader) :
    (r.parseIATAddenda ops).1.lineNum = r.lineNum := by
  simp only [Reader.parseIATAddenda]
  split
  · rfl
  · split
    · rfl
    · split
      · have h := switchIATAddenda_lineNum ops { r with recordName := "Addenda" } ‹IATBatch›
        split <;> simp_all
      · rfl

theorem parseBatchControl_lineNum (ops : RecordOps) (r : Reader) :
    (r.parseBatchControl ops).1.lineNum = r.lineNum := by
  simp only [Reader.parseBatchControl]
  repeat' split
  all_goals rfl

theorem parseFileControl_lineNum (ops : RecordOps) (r : Reader) :
    (r.parseFileControl ops).1.lineNum = r.lineNum := by
  simp only [Reader.parseFileControl]
  repeat' split
  all_goals rfl

theorem closeBatch_lineNum (ops : RecordOps) (r : Reader) :
    (r.closeBatch ops).1.lineNum = r.lineNum := by
  simp only [Reader.closeBatch]
  repeat' split
  all_goals rfl

theorem parseLine_lineNum (ops : RecordOps) (r : Reader) :
    (r.parseLine ops).1.lineNum = r.lineNum := by
  simp only [Reader.parseLine, Reader.parseBH, Reader.parseED, Reader.parseEDAddenda]
  repeat' split
  all_goals first
    | rfl
    | rw [parseFileHeader_lineNum]
    | rw [parseIATBatchHeader_lineNum]
    | rw [parseBatchHeader_lineNum]
    | rw [parseIATEntryDetail_lineNum]
    | rw [parseEntryDetail_lineNum]
    | rw [parseAddenda_lineNum]
    | rw [parseIATAddenda_lineNum]
    | rw [parseFileControl_lineNum]
    | (have h := parseBatchControl_lineNum ops r
       simp_all [closeBatch_lineNum])

theorem fixedWidthLoop_lineNum (ops : RecordOps) (cs : List Char) :
    ∀ (i : Nat) (record : String) (r : Reader),
      (Reader.fixedWidthLoop ops cs i record r).1.lineNum = r.lineNum := by
  induction cs with
  | nil => intro i record r; rfl
  | cons ch rest ih =>
    intro i record r
    simp only [Reader.fixedWidthLoop]
    split
    · have h := parseLine_lineNum ops { r with line := record ++ String.singleton ch }
      split
      · simp_all
      · rename_i r2 hr2
        rw [ih]
        simp_all
    · rw [ih]

/-- The loop of `Reader.Read` over two lists of lines in a row: the second is
read from the state the first leaves, unless the first ends in an error. -/
theorem readLoop_append (ops : RecordOps) (pre post : List String) :
    ∀ r : Reader, Reader.readLoop ops (pre ++ post) r =
      match Reader.readLoop ops pre r with
      | (r1, some err) => (r1, some err)
      | (r1, none) => Reader.readLoop ops post r1 := by
  induction pre with
  | nil => intro r; simp [Reader.readLoop]
  | cons line rest ih =>
    intro r
    simp only [List.cons_append, Reader.readLoop]
    split
    · split
      · rfl
      · exact ih _
    · split
      · rfl
      · split
        · rfl
        · exact ih _

theorem lineOK_spec (s pos : String) (h : lineOK s pos = true) :
    s.utf8ByteSize = 94 ∧ slice s 0 1 = pos ∧ '\n' ∉ s.toList ∧
      s.toList.getLast? ≠ some '\r' := by
  simpa [lineOK, and_assoc] using h

/-- A line of 94 bytes that `parseLine` accepts: the loop goes on from the
state `parseLine` leaves. -/
theorem readLoop_cons (ops : RecordOps) (line : String) (rest : List String) (r r1 : Reader)
    (h : line.utf8ByteSize = 94)
    (hp : Reader.parseLine ops { r with lineNum := r.lineNum + 1, line := line } = (r1, none)) :
    Reader.readLoop ops (line :: rest) r = Reader.readLoop ops rest r1 := by
  simp only [Reader.readLoop]
  have h1 : ¬ (r.lineNum + 1 = 1 ∧ ((line.utf8ByteSize : Nat) : Int) > RecordLength ∧
      Int.tmod ((line.utf8ByteSize : Nat) : Int) RecordLength = 0) := by
    rw [h]; intro ⟨_, h2, _⟩; simp [RecordLength] at h2
  have h2 : ¬ (((line.utf8ByteSize : Nat) : Int) ≠ RecordLength) := by
    rw [h]; simp [RecordLength]
  rw [if_neg h1, if_neg h2, hp]

theorem parseLine_header (ops : RecordOps) (r : Reader) (h : slice r.line 0 1 = fileHeaderPos) :
    r.parseLine ops = r.parseFileHeader ops := by
  simp [Reader.parseLine, h]

theorem parseLine_batchHeader (ops : RecordOps) (r : Reader)
    (h : slice r.line 0 1 = batchHeaderPos) : r.parseLine ops = r.parseBH ops := by
  simp [Reader.parseLine, h, fileHeaderPos, batchHeaderPos]

theorem parseLine_entry (ops : RecordOps) (r : Reader)
    (h : slice r.line 0 1 = entryDetailPos) : r.parseLine ops = r.parseED ops := by
  simp [Reader.parseLine, h, fileHeaderPos, batchHeaderPos, entryDetailPos]

theorem parseLine_addenda (ops : RecordOps) (r : Reader)
    (h : slice r.line 0 1 = entryAddendaPos) : r.parseLine ops = r.parseEDAddenda ops := by
  simp [Reader.parseLine, h, fileHeaderPos, batchHeaderPos, entryDetailPos, entryAddendaPos]

theorem parseLine_batchControl (ops : RecordOps) (r r1 : Reader)
    (h : slice r.line 0 1 = batchControlPos) (hp : r.parseBatchControl ops = (r1, none)) :
    r.parseLine ops = r1.closeBatch ops := by
  simp [Reader.parseLine, h, fileHeaderPos, batchHeaderPos, entryDetailPos, entryAddendaPos,
    batchControlPos, hp]

theorem parseLine_fileControl (ops : RecordOps) (r : Reader)
    (h : slice r.line 0 1 = fileControlPos) :
    r.parseLine ops = if slice r.line 0 2 = "99" then (r, none) else r.parseFileControl ops := by
  simp [Reader.parseLine, h, fileHeaderPos, batchHeaderPos, entryDetailPos, entryAddendaPos,
    batchControlPos, fileControlPos]


theorem isNone_eq (o : Option GoError) (h : o.isNone = true) : o = none := by
  cases o <;> simp_all

/-- The reader takes the file header line. -/
theorem step_fileHeader (ops : RecordOps) (h : FileHeader) (hok : fileHeaderOK ops h = true)
    (rest : List String) (r : Reader) (hr : r.File.Header = FileHeader.zero) :
    ∃ r1, Reader.readLoop ops (ops.fileHeaderString h :: rest) r = Reader.readLoop ops rest r1 ∧
      r1.File = { r.File with Header := h } ∧ r1.currentBatch = r.currentBatch ∧
      r1.IATCurrentBatch = r.IATCurrentBatch := by
  simp only [fileHeaderOK, Bool.and_eq_true, decide_eq_true_eq] at hok
  obtain ⟨⟨⟨hl, hp⟩, hv⟩, _⟩ := hok
  obtain ⟨h94, h01, _, _⟩ := lineOK_spec _ _ hl
  have hv := isNone_eq _ hv
  refine ⟨{ r with
      lineNum := r.lineNum + 1
      line := ops.fileHeaderString h
      recordName := "FileHeader"
      File := { r.File with Header := h } },
    readLoop_cons ops _ rest r _ h94 ?_, rfl, rfl, rfl⟩
  rw [parseLine_header ops _ h01]
  simp only [Reader.parseFileHeader, hr, hp, hv]

/-- The reader takes a batch header line and opens the batch `NewBatch`
makes. -/
theorem step_batchHeader (ops : RecordOps) (bh : BatchHeader) (b0 : Batcher)
    (hl : lineOK (ops.batchHeaderString bh) batchHeaderPos = true)
    (hiat : slice (ops.batchHeaderString bh) 50 53 ≠ "IAT")
    (hp : ops.batchHeaderParse (ops.batchHeaderString bh) = bh)
    (hv : ops.batchHeaderValidate bh = none) (hn : ops.NewBatch bh = .ok b0)
    (rest : List String) (r : Reader) (hr : r.currentBatch = none) :
    ∃ r1, Reader.readLoop ops (ops.batchHeaderString bh :: rest) r = Reader.readLoop ops rest r1 ∧
      r1.File = r.File ∧ r1.currentBatch = some b0 ∧
      r1.IATCurrentBatch = r.IATCurrentBatch := by
  obtain ⟨h94, h01, _, _⟩ := lineOK_spec _ _ hl
  refine ⟨{ r with
      lineNum := r.lineNum + 1
      line := ops.batchHeaderString bh
      recordName := "BatchHeader"
      currentBatch := some b0 },
    readLoop_cons ops _ rest r _ h94 ?_, rfl, rfl, rfl⟩
  rw [parseLine_batchHeader ops _ h01]
  simp [Reader.parseBH, hiat, Reader.parseBatchHeader, hr, hp, hv, hn]


theorem updateLast_concat {α : Type} (f : α → α) (pre : List α) (x : α) :
    updateLast f (pre ++ [x]) = pre ++ [f x] := by
  induction pre with
  | nil => rfl
  | cons y rest ih =>
    cases rest with
    | nil => rfl
    | cons z rest2 =>
      simp only [List.cons_append] at ih ⊢
      simp only [updateLast, ih]

/-- The reader takes an entry line and adds the parsed entry to the open
batch. -/
theorem step_entry (ops : RecordOps) (line : String)
    (hl : lineOK line entryDetailPos = true) (hiat : slice line 16 29 ≠ "             ")
    (hv : ops.entryDetailValidate (ops.entryDetailParse line) = none)
    (rest : List String) (r : Reader) (x : Batcher) (hx : r.currentBatch = some x) :
    ∃ r1, Reader.readLoop ops (line :: rest) r = Reader.readLoop ops rest r1 ∧
      r1.File = r.File ∧
      r1.currentBatch = some (ops.batcherAddEntry x (ops.entryDetailParse line)) ∧
      r1.IATCurrentBatch = r.IATCurrentBatch := by
  obtain ⟨h94, h01, _, _⟩ := lineOK_spec _ _ hl
  refine ⟨{ r with
      lineNum := r.lineNum + 1
      line := line
      recordName := "EntryDetail"
      currentBatch := some (ops.batcherAddEntry x (ops.entryDetailParse line)) },
    readLoop_cons ops _ rest r _ h94 ?_, rfl, rfl, rfl⟩
  rw [parseLine_entry ops _ h01]
  simp [Reader.parseED, hiat, Reader.parseEntryDetail, hx, hv]

/-- The reader takes an addenda line and adds the addenda to the last entry
of the open batch. -/
theorem step_addenda (ops : RecordOps) (a : Addendumer) (hok : addendaOK ops a = true)
    (rest : List String) (r : Reader) (x : Batcher) (pre : List EntryDetail)
    (cur : EntryDetail) (hx : r.currentBatch = some x) (hxe : x.Entries = pre ++ [cur])
    (hari : cur.AddendaRecordIndicator = 1) :
    ∃ r1, Reader.readLoop ops (ops.addendaString a :: rest) r = Reader.readLoop ops rest r1 ∧
      r1.File = r.File ∧
      r1.currentBatch = some { x with Entries := pre ++ [ops.entryAddAddenda cur a] } ∧
      r1.IATCurrentBatch = r.IATCurrentBatch := by
  simp only [addendaOK, Bool.and_eq_true] at hok
  obtain ⟨hl, hk⟩ := hok
  obtain ⟨h94, h01, _, _⟩ := lineOK_spec _ _ hl
  refine ⟨{ r with
      lineNum := r.lineNum + 1
      line := ops.addendaString a
      recordName := "Addenda"
      currentBatch := some { x with Entries := pre ++ [ops.entryAddAddenda cur a] } },
    readLoop_cons ops _ rest r _ h94 ?_, rfl, rfl, rfl⟩
  rw [parseLine_addenda ops _ h01]
  have hlast : (pre ++ [cur]).getLast? = some cur := by simp
  cases hkind : addendaKind (slice (ops.addendaString a) 1 3) with
  | none => simp [hkind] at hk
  | some kind =>
    simp only [hkind, Bool.and_eq_true, decide_eq_true_eq] at hk
    obtain ⟨hp, hv⟩ := hk
    have hv := isNone_eq _ hv
    simp only [addendaKind] at hkind
    simp only [Reader.parseEDAddenda, hx, Reader.parseAddenda, hxe, hlast, hari]
    split_ifs at hkind with c1 c2 c3 c4
    all_goals
      simp only [Option.some.injEq] at hkind
      subst hkind
      simp [*, Reader.addAddenda, updateLast_concat]


/-- The reader takes the addenda lines of an entry, one after the other. -/
theorem read_addenda_chain (ops : RecordOps) (as : List Addendumer) :
    ∀ (cur : EntryDetail), addendaChainOK ops cur as = true →
    ∀ (rest : List String) (r : Reader) (x : Batcher) (pre : List EntryDetail),
      r.currentBatch = some x → x.Entries = pre ++ [cur] →
      ∃ r1, Reader.readLoop ops (as.map ops.addendaString ++ rest) r =
          Reader.readLoop ops rest r1 ∧
        r1.File = r.File ∧
        r1.currentBatch = some { x with Entries := pre ++ [as.foldl ops.entryAddAddenda cur] } ∧
        r1.IATCurrentBatch = r.IATCurrentBatch := by
  induction as with
  | nil =>
    intro cur _ rest r x pre hx hxe
    refine ⟨r, rfl, rfl, ?_, rfl⟩
    rw [hx]
    simp only [List.foldl_nil, ← hxe]
  | cons a as ih =>
    intro cur hchain rest r x pre hx hxe
    simp only [addendaChainOK, Bool.and_eq_true, decide_eq_true_eq] at hchain
    obtain ⟨⟨hari, hok⟩, hrest⟩ := hchain
    obtain ⟨r1, e1, f1, c1, i1⟩ := step_addenda ops a hok (as.map ops.addendaString ++ rest)
      r x pre cur hx hxe hari
    obtain ⟨r2, e2, f2, c2, i2⟩ := ih (ops.entryAddAddenda cur a) hrest rest r1
      { x with Entries := pre ++ [ops.entryAddAddenda cur a] } pre c1 rfl
    refine ⟨r2, ?_, ?_, ?_, ?_⟩
    · simp only [List.map_cons, List.cons_append]
      rw [e1, e2]
    · rw [f2, f1]
    · rw [c2]; rfl
    · rw [i2, i1]

/-- The reader takes the lines of an entry and adds the entry to the open
batch. -/
theorem read_entry (ops : RecordOps) (laws : EngineLaws ops) (e : EntryDetail)
    (hok : entryOK ops e = true) (rest : List String) (r : Reader) (x : Batcher)
    (hx : r.currentBatch = some x) :
    ∃ r1 x1, Reader.readLoop ops (entryRecords ops e ++ rest) r = Reader.readLoop ops rest r1 ∧
      r1.File = r.File ∧ r1.currentBatch = some x1 ∧ x1.Entries = x.Entries ++ [e] ∧
      x1.Header = x.Header ∧ x1.Control = x.Control ∧
      r1.IATCurrentBatch = r.IATCurrentBatch := by
  simp only [entryOK, Bool.and_eq_true, decide_eq_true_eq] at hok
  obtain ⟨⟨⟨⟨hl, hiat⟩, hv⟩, hchain⟩, hfold⟩ := hok
  have hv := isNone_eq _ hv
  obtain ⟨r1, e1, f1, c1, i1⟩ := step_entry ops _ hl hiat hv
    (e.Addendum.map ops.addendaString ++ rest) r x hx
  obtain ⟨ha, hh, hc⟩ := laws.addEntry x (ops.entryDetailParse (ops.entryDetailString e))
  obtain ⟨r2, e2, f2, c2, i2⟩ := read_addenda_chain ops e.Addendum _ hchain rest r1 _
    x.Entries c1 ha
  refine ⟨r2, _, ?_, ?_, c2, ?_, hh, hc, ?_⟩
  · simp only [entryRecords, List.cons_append]
    rw [e1, e2]
  · rw [f2, f1]
  · simp only [hfold]
  · rw [i2, i1]

/-- The reader takes the lines of the entries of a batch. -/
theorem read_entries (ops : RecordOps) (laws : EngineLaws ops) (es : List EntryDetail) :
    (∀ e ∈ es, entryOK ops e = true) →
    ∀ (rest : List String) (r : Reader) (x : Batcher), r.currentBatch = some x →
      ∃ r1 x1, Reader.readLoop ops (es.flatMap (entryRecords ops) ++ rest) r =
          Reader.readLoop ops rest r1 ∧
        r1.File = r.File ∧ r1.currentBatch = some x1 ∧ x1.Entries = x.Entries ++ es ∧
        x1.Header = x.Header ∧ x1.Control = x.Control ∧
        r1.IATCurrentBatch = r.IATCurrentBatch := by
  induction es with
  | nil =>
    intro _ rest r x hx
    exact ⟨r, x, rfl, rfl, hx, by simp, rfl, rfl, rfl⟩
  | cons e es ih =>
    intro hall rest r x hx
    obtain ⟨r1, x1, e1, f1, c1, n1, h1, k1, i1⟩ := read_entry ops laws e (hall e (by simp))
      (es.flatMap (entryRecords ops) ++ rest) r x hx
    obtain ⟨r2, x2, e2, f2, c2, n2, h2, k2, i2⟩ := ih (fun t ht => hall t (by simp [ht]))
      rest r1 x1 c1
    refine ⟨r2, x2, ?_, ?_, c2, ?_, ?_, ?_, ?_⟩
    · simp only [List.flatMap_cons, List.append_assoc]
      rw [e1, e2]
    · rw [f2, f1]
    · rw [n2, n1]; simp
    · rw [h2, h1]
    · rw [k2, k1]
    · rw [i2, i1]

/-- The reader takes a batch control line, validates the open batch and adds
it to the file. -/
theorem step_batchControl (ops : RecordOps) (line : String)
    (hl : lineOK line batchControlPos = true) (rest : List String) (r : Reader) (x : Batcher)
    (hx : r.currentBatch = some x)
    (hcv : ops.batchControlValidate (ops.batchControlParse x.Control line) = none)
    (hbv : ops.batcherValidate { x with Control := ops.batchControlParse x.Control line } = none) :
    ∃ r1, Reader.readLoop ops (line :: rest) r = Reader.readLoop ops rest r1 ∧
      r1.File = r.File.AddBatch { x with Control := ops.batchControlParse x.Control line } ∧
      r1.currentBatch = none ∧ r1.IATCurrentBatch = r.IATCurrentBatch := by
  obtain ⟨h94, h01, _, _⟩ := lineOK_spec _ _ hl
  refine ⟨{ r with
      lineNum := r.lineNum + 1
      line := line
      recordName := "BatchControl"
      File := r.File.AddBatch { x with Control := ops.batchControlParse x.Control line }
      currentBatch := none },
    readLoop_cons ops _ rest r _ h94 ?_, rfl, rfl, rfl⟩
  rw [parseLine_batchControl ops _ { r with
      lineNum := r.lineNum + 1
      line := line
      recordName := "BatchControl"
      currentBatch := some { x with Control := ops.batchControlParse x.Control line } } h01]
  · simp [Reader.closeBatch, hbv]
  · simp [Reader.parseBatchControl, hx, hcv]


/-- The reader takes the lines of a batch and adds to the file a batch with
the same header, entries and control. -/
theorem read_batch (ops : RecordOps) (laws : EngineLaws ops) (b : Batcher)
    (hok : batchOK ops b = true) (rest : List String) (r : Reader)
    (hr : r.currentBatch = none) :
    ∃ r1 b1, Reader.readLoop ops (batchRecords ops b ++ rest) r = Reader.readLoop ops rest r1 ∧
      r1.File = r.File.AddBatch b1 ∧ b1.core = b.core ∧ r1.currentBatch = none ∧
      r1.IATCurrentBatch = r.IATCurrentBatch := by
  simp only [batchOK, Bool.and_eq_true, decide_eq_true_eq, List.all_eq_true] at hok
  obtain ⟨⟨⟨⟨⟨⟨⟨⟨hl, hiat⟩, hp⟩, hv⟩, hnew⟩, hes⟩, hcl⟩, hcv⟩, hbv⟩ := hok
  have hv := isNone_eq _ hv
  have hcv := isNone_eq _ hcv
  have hbv := isNone_eq _ hbv
  cases hn : ops.NewBatch b.Header with
  | error err => simp [hn] at hnew
  | ok b0 =>
    simp only [hn, Bool.and_eq_true, decide_eq_true_eq] at hnew
    obtain ⟨⟨hh0, he0⟩, hc0⟩ := hnew
    obtain ⟨r1, e1, f1, c1, i1⟩ := step_batchHeader ops b.Header b0 hl hiat hp hv hn
      (b.Entries.flatMap (entryRecords ops) ++ [ops.batchControlString b.Control] ++ rest) r hr
    obtain ⟨r2, x2, e2, f2, c2, n2, h2, k2, i2⟩ := read_entries ops laws b.Entries hes
      ([ops.batchControlString b.Control] ++ rest) r1 b0 c1
    have hpc : ops.batchControlParse x2.Control (ops.batchControlString b.Control) =
        b.Control := by rw [k2, hc0]
    obtain ⟨r3, e3, f3, c3, i3⟩ := step_batchControl ops (ops.batchControlString b.Control) hcl
      rest r2 x2 c2 (by rw [hpc]; exact hcv) (by
        rw [hpc, laws.validateCore _ b (by simp [Batcher.core, h2, hh0, n2, he0])]
        exact hbv)
    have key : ∃ b1, r3.File = r.File.AddBatch b1 ∧ b1.core = b.core :=
      ⟨_, by rw [f3, f2, f1], by simp [Batcher.core, h2, hh0, n2, he0, hpc]⟩
    obtain ⟨b1, g1, g2⟩ := key
    refine ⟨r3, b1, ?_, g1, g2, c3, ?_⟩
    · simp only [batchRecords, List.append_assoc, List.singleton_append, List.cons_append,
        List.nil_append] at e1 e2 e3 ⊢
      rw [e1, e2, e3]
    · rw [i3, i2, i1]

theorem addBatch_fields (f : File) (b : Batcher) :
    (f.AddBatch b).Header = f.Header ∧ (f.AddBatch b).Control = f.Control ∧
    (f.AddBatch b).IATBatches = f.IATBatches ∧ (f.AddBatch b).Batches = f.Batches ++ [b] := by
  simp only [File.AddBatch]
  split_ifs <;> exact ⟨rfl, rfl, rfl, rfl⟩

/-- The reader takes the lines of the batches of a file, in order. -/
theorem read_batches (ops : RecordOps) (laws : EngineLaws ops) (bs : List Batcher) :
    (∀ b ∈ bs, batchOK ops b = true) →
    ∀ (rest : List String) (r : Reader), r.currentBatch = none →
      ∃ r1, Reader.readLoop ops (bs.flatMap (batchRecords ops) ++ rest) r =
          Reader.readLoop ops rest r1 ∧
        r1.File.Header = r.File.Header ∧ r1.File.Control = r.File.Control ∧
        r1.File.IATBatches = r.File.IATBatches ∧
        r1.File.Batches.map Batcher.core = r.File.Batches.map Batcher.core ++ bs.map Batcher.core ∧
        r1.currentBatch = none ∧ r1.IATCurrentBatch = r.IATCurrentBatch := by
  induction bs with
  | nil =>
    intro _ rest r hr
    exact ⟨r, rfl, rfl, rfl, rfl, by simp, hr, rfl⟩
  | cons b bs ih =>
    intro hall rest r hr
    obtain ⟨r1, b1, e1, f1, k1, c1, i1⟩ := read_batch ops laws b (hall b (by simp))
      (bs.flatMap (batchRecords ops) ++ rest) r hr
    obtain ⟨r2, e2, h2, k2, j2, m2, c2, i2⟩ := ih (fun t ht => hall t (by simp [ht])) rest r1 c1
    obtain ⟨a1, a2, a3, a4⟩ := addBatch_fields r.File b1
    refine ⟨r2, ?_, ?_, ?_, ?_, ?_, c2, ?_⟩
    · simp only [List.flatMap_cons, List.append_assoc]
      rw [e1, e2]
    · rw [h2, f1, a1]
    · rw [k2, f1, a2]
    · rw [j2, f1, a3]
    · rw [m2, f1, a4]
      simp [k1]
    · rw [i2, i1]


/-! ### IAT batches -/

/-- The reader takes an IAT batch header line and opens the batch
`NewIATBatch` makes. -/
theorem step_iatBatchHeader (ops : RecordOps) (bh : IATBatchHeader)
    (hl : lineOK (ops.iatBatchHeaderString bh) batchHeaderPos = true)
    (hiat : slice (ops.iatBatchHeaderString bh) 50 53 = "IAT")
    (hp : ops.iatBatchHeaderParse (ops.iatBatchHeaderString bh) = bh)
    (hv : ops.iatBatchHeaderValidate bh = none)
    (rest : List String) (r : Reader) (hr : r.IATCurrentBatch = none) :
    ∃ r1, Reader.readLoop ops (ops.iatBatchHeaderString bh :: rest) r =
        Reader.readLoop ops rest r1 ∧
      r1.File = r.File ∧ r1.currentBatch = r.currentBatch ∧
      r1.IATCurrentBatch = some (ops.NewIATBatch bh) := by
  obtain ⟨h94, h01, _, _⟩ := lineOK_spec _ _ hl
  refine ⟨{ r with
      lineNum := r.lineNum + 1
      line := ops.iatBatchHeaderString bh
      recordName := "BatchHeader"
      IATCurrentBatch := some (ops.NewIATBatch bh) },
    readLoop_cons ops _ rest r _ h94 ?_, rfl, rfl, rfl⟩
  rw [parseLine_batchHeader ops _ h01]
  simp [Reader.parseBH, hiat, Reader.parseIATBatchHeader, hr, hp, hv]

/-- The reader takes an IAT entry line and adds the parsed entry to the open
IAT batch. -/
theorem step_iatEntry (ops : RecordOps) (line : String)
    (hl : lineOK line entryDetailPos = true) (hiat : slice line 16 29 = "             ")
    (hv : ops.iatEntryDetailValidate (ops.iatEntryDetailParse line) = none)
    (rest : List String) (r : Reader) (x : IATBatch) (hx : r.IATCurrentBatch = some x) :
    ∃ r1, Reader.readLoop ops (line :: rest) r = Reader.readLoop ops rest r1 ∧
      r1.File = r.File ∧ r1.currentBatch = r.currentBatch ∧
      r1.IATCurrentBatch = some (ops.iatBatchAddEntry x (ops.iatEntryDetailParse line)) := by
  obtain ⟨h94, h01, _, _⟩ := lineOK_spec _ _ hl
  refine ⟨{ r with
      lineNum := r.lineNum + 1
      line := line
      recordName := "EntryDetail"
      IATCurrentBatch := some (ops.iatBatchAddEntry x (ops.iatEntryDetailParse line)) },
    readLoop_cons ops _ rest r _ h94 ?_, rfl, rfl, rfl⟩
  rw [parseLine_entry ops _ h01]
  simp [Reader.parseED, hiat, Reader.parseIATEntryDetail, hx, hv]

/-- The reader takes an addenda line of an IAT entry: when the switch on the
type code leads to `setIATAddenda` with the type `kind` and the assignment
`set`, the addenda is stored in the last entry of the open IAT batch. -/
theorem step_iatAddenda (ops : RecordOps) (a : Addendumer) (kind : String)
    (set : IATEntryDetail → Addendumer → IATEntryDetail)
    (hl : lineOK (ops.addendaString a) entryAddendaPos = true)
    (hp : ops.addendaParse kind (ops.addendaString a) = a)
    (hv : ops.addendaValidate a = none)
    (hsw : ∀ (r : Reader) (x : IATBatch), r.line = ops.addendaString a →
      r.switchIATAddenda ops x = r.setIATAddenda ops x kind set)
    (rest : List String) (r : Reader) (x : IATBatch) (pre : List IATEntryDetail)
    (cur : IATEntryDetail) (hc : r.currentBatch = none) (hx : r.IATCurrentBatch = some x)
    (hxe : x.Entries = pre ++ [cur]) (hari : cur.AddendaRecordIndicator = 1) :
    ∃ r1, Reader.readLoop ops (ops.addendaString a :: rest) r = Reader.readLoop ops rest r1 ∧
      r1.File = r.File ∧ r1.currentBatch = none ∧
      r1.IATCurrentBatch = some { x with Entries := pre ++ [set cur a] } := by
  obtain ⟨h94, h01, _, _⟩ := lineOK_spec _ _ hl
  refine ⟨{ r with
      lineNum := r.lineNum + 1
      line := ops.addendaString a
      recordName := "Addenda"
      IATCurrentBatch := some { x with Entries := pre ++ [set cur a] } },
    readLoop_cons ops _ rest r _ h94 ?_, rfl, hc, rfl⟩
  rw [parseLine_addenda ops _ h01]
  have hlast : (pre ++ [cur]).getLast? = some cur := by simp
  simp only [Reader.parseEDAddenda, hc, Reader.parseIATAddenda, hx, hxe, hlast, hari]
  simp [hsw, Reader.setIATAddenda, hp, hv, updateLast_concat, hxe]

theorem switch_10 (ops : RecordOps) (r : Reader) (x : IATBatch) (h : slice r.line 1 3 = "10") :
    r.switchIATAddenda ops x =
      r.setIATAddenda ops x "Addenda10" (fun e a => { e with Addenda10 := some a }) := by
  simp [Reader.switchIATAddenda, Reader.mandatoryOptionalIATAddenda, h]

theorem switch_11 (ops : RecordOps) (r : Reader) (x : IATBatch) (h : slice r.line 1 3 = "11") :
    r.switchIATAddenda ops x =
      r.setIATAddenda ops x "Addenda11" (fun e a => { e with Addenda11 := some a }) := by
  simp [Reader.switchIATAddenda, Reader.mandatoryOptionalIATAddenda, h]

theorem switch_12 (ops : RecordOps) (r : Reader) (x : IATBatch) (h : slice r.line 1 3 = "12") :
    r.switchIATAddenda ops x =
      r.setIATAddenda ops x "Addenda12" (fun e a => { e with Addenda12 := some a }) := by
  simp [Reader.switchIATAddenda, Reader.mandatoryOptionalIATAddenda, h]

theorem switch_13 (ops : RecordOps) (r : Reader) (x : IATBatch) (h : slice r.line 1 3 = "13") :
    r.switchIATAddenda ops x =
      r.setIATAddenda ops x "Addenda13" (fun e a => { e with Addenda13 := some a }) := by
  simp [Reader.switchIATAddenda, Reader.mandatoryOptionalIATAddenda, h]

theorem switch_14 (ops : RecordOps) (r : Reader) (x : IATBatch) (h : slice r.line 1 3 = "14") :
    r.switchIATAddenda ops x =
      r.setIATAddenda ops x "Addenda14" (fun e a => { e with Addenda14 := some a }) := by
  simp [Reader.switchIATAddenda, Reader.mandatoryOptionalIATAddenda, h]

theorem switch_15 (ops : RecordOps) (r : Reader) (x : IATBatch) (h : slice r.line 1 3 = "15") :
    r.switchIATAddenda ops x =
      r.setIATAddenda ops x "Addenda15" (fun e a => { e with Addenda15 := some a }) := by
  simp [Reader.switchIATAddenda, Reader.mandatoryOptionalIATAddenda, h]

theorem switch_16 (ops : RecordOps) (r : Reader) (x : IATBatch) (h : slice r.line 1 3 = "16") :
    r.switchIATAddenda ops x =
      r.setIATAddenda ops x "Addenda16" (fun e a => { e with Addenda16 := some a }) := by
  simp [Reader.switchIATAddenda, Reader.mandatoryOptionalIATAddenda, h]

theorem switch_optional (ops : RecordOps) (r : Reader) (x : IATBatch) (kind : String)
    (h : iatAddendaKind (slice r.line 1 3) = some kind) :
    r.switchIATAddenda ops x = r.setIATAddenda ops x kind ops.iatEntryAddIATAddenda := by
  simp only [iatAddendaKind] at h
  split_ifs at h with c1 c2 c3
  all_goals
    simp only [Option.some.injEq] at h
    subst h
    simp [Reader.switchIATAddenda, Reader.mandatoryOptionalIATAddenda, Reader.returnIATAddenda, *]

/-- The reader takes a mandatory addenda line of an IAT entry. -/
theorem step_mandatory (ops : RecordOps) (code kind : String) (a : Addendumer)
    (set : IATEntryDetail → Addendumer → IATEntryDetail)
    (hok : mandatoryAddendaOK ops code kind a = true)
    (hsw : ∀ (r : Reader) (x : IATBatch), slice r.line 1 3 = code →
      r.switchIATAddenda ops x = r.setIATAddenda ops x kind set)
    (rest : List String) (r : Reader) (x : IATBatch) (pre : List IATEntryDetail)
    (cur : IATEntryDetail) (hc : r.currentBatch = none) (hx : r.IATCurrentBatch = some x)
    (hxe : x.Entries = pre ++ [cur]) (hari : cur.AddendaRecordIndicator = 1) :
    ∃ r1, Reader.readLoop ops (ops.addendaString a :: rest) r = Reader.readLoop ops rest r1 ∧
      r1.File = r.File ∧ r1.currentBatch = none ∧
      r1.IATCurrentBatch = some { x with Entries := pre ++ [set cur a] } := by
  simp only [mandatoryAddendaOK, Bool.and_eq_true, decide_eq_true_eq] at hok
  obtain ⟨⟨⟨hl, hcode⟩, hp⟩, hv⟩ := hok
  exact step_iatAddenda ops a kind set hl hp (isNone_eq _ hv)
    (fun r x hline => hsw r x (by rw [hline, hcode])) rest r x pre cur hc hx hxe hari

theorem mandatoryOK_some (ops : RecordOps) (code kind : String) (o : Option Addendumer)
    (h : mandatoryOK ops code kind o = true) :
    ∃ a, o = some a ∧ mandatoryAddendaOK ops code kind a = true := by
  cases o with
  | none => simp [mandatoryOK] at h
  | some a => exact ⟨a, rfl, h⟩

/-- An IAT entry that is recovered from its lines has its seven mandatory
addenda, and each of them is recovered from its line. -/
theorem iatEntryOK_mandatory (ops : RecordOps) (e : IATEntryDetail)
    (hok : iatEntryOK ops e = true) :
    ∃ a10 a11 a12 a13 a14 a15 a16 : Addendumer,
      (e.Addenda10 = some a10 ∧ e.Addenda11 = some a11 ∧ e.Addenda12 = some a12 ∧
        e.Addenda13 = some a13 ∧ e.Addenda14 = some a14 ∧ e.Addenda15 = some a15 ∧
        e.Addenda16 = some a16) ∧
      (mandatoryAddendaOK ops "10" "Addenda10" a10 = true ∧
        mandatoryAddendaOK ops "11" "Addenda11" a11 = true ∧
        mandatoryAddendaOK ops "12" "Addenda12" a12 = true ∧
        mandatoryAddendaOK ops "13" "Addenda13" a13 = true ∧
        mandatoryAddendaOK ops "14" "Addenda14" a14 = true ∧
        mandatoryAddendaOK ops "15" "Addenda15" a15 = true ∧
        mandatoryAddendaOK ops "16" "Addenda16" a16 = true) ∧
      e.mandatory = [a10, a11, a12, a13, a14, a15, a16] ∧ e.complete = true := by
  simp only [iatEntryOK, Bool.and_eq_true, decide_eq_true_eq] at hok
  obtain ⟨⟨⟨⟨⟨⟨⟨⟨⟨⟨⟨⟨_, _⟩, _⟩, _⟩, h10⟩, h11⟩, h12⟩, h13⟩, h14⟩, h15⟩, h16⟩, _⟩, _⟩ := hok
  obtain ⟨a10, q10, k10⟩ := mandatoryOK_some ops _ _ _ h10
  obtain ⟨a11, q11, k11⟩ := mandatoryOK_some ops _ _ _ h11
  obtain ⟨a12, q12, k12⟩ := mandatoryOK_some ops _ _ _ h12
  obtain ⟨a13, q13, k13⟩ := mandatoryOK_some ops _ _ _ h13
  obtain ⟨a14, q14, k14⟩ := mandatoryOK_some ops _ _ _ h14
  obtain ⟨a15, q15, k15⟩ := mandatoryOK_some ops _ _ _ h15
  obtain ⟨a16, q16, k16⟩ := mandatoryOK_some ops _ _ _ h16
  refine ⟨a10, a11, a12, a13, a14, a15, a16, ⟨q10, q11, q12, q13, q14, q15, q16⟩,
    ⟨k10, k11, k12, k13, k14, k15, k16⟩, ?_, ?_⟩
  · simp only [IATEntryDetail.mandatory, q10, q11, q12, q13, q14, q15, q16]
    rfl
  · simp only [IATEntryDetail.complete, q10, q11, q12, q13, q14, q15, q16]
    rfl

/-- The reader takes the seven mandatory addenda lines of an IAT entry. -/
theorem read_mandatory (ops : RecordOps) (e : IATEntryDetail)
    (a10 a11 a12 a13 a14 a15 a16 : Addendumer)
    (hq : e.Addenda10 = some a10 ∧ e.Addenda11 = some a11 ∧ e.Addenda12 = some a12 ∧
      e.Addenda13 = some a13 ∧ e.Addenda14 = some a14 ∧ e.Addenda15 = some a15 ∧
      e.Addenda16 = some a16)
    (h10 : mandatoryAddendaOK ops "10" "Addenda10" a10 = true)
    (h11 : mandatoryAddendaOK ops "11" "Addenda11" a11 = true)
    (h12 : mandatoryAddendaOK ops "12" "Addenda12" a12 = true)
    (h13 : mandatoryAddendaOK ops "13" "Addenda13" a13 = true)
    (h14 : mandatoryAddendaOK ops "14" "Addenda14" a14 = true)
    (h15 : mandatoryAddendaOK ops "15" "Addenda15" a15 = true)
    (h16 : mandatoryAddendaOK ops "16" "Addenda16" a16 = true)
    (rest : List String) (r : Reader) (x : IATBatch) (pre : List IATEntryDetail)
    (cur : IATEntryDetail) (hc : r.currentBatch = none) (hx : r.IATCurrentBatch = some x)
    (hxe : x.Entries = pre ++ [cur]) (hari : cur.AddendaRecordIndicator = 1) :
    ∃ r1, Reader.readLoop ops
        (ops.addendaString a10 :: ops.addendaString a11 ::
          ops.addendaString a12 :: ops.addendaString a13 ::
          ops.addendaString a14 :: ops.addendaString a15 ::
          ops.addendaString a16 :: rest) r = Reader.readLoop ops rest r1 ∧
      r1.File = r.File ∧ r1.currentBatch = none ∧
      r1.IATCurrentBatch = some { x with Entries := pre ++ [withMandatory cur e] } := by
  obtain ⟨r1, e1, f1, c1, i1⟩ := step_mandatory ops "10" "Addenda10" a10 _ h10
    (switch_10 ops) _ r x pre cur hc hx hxe hari
  obtain ⟨r2, e2, f2, c2, i2⟩ := step_mandatory ops "11" "Addenda11" a11 _ h11
    (switch_11 ops) _ r1 _ pre _ c1 i1 rfl hari
  obtain ⟨r3, e3, f3, c3, i3⟩ := step_mandatory ops "12" "Addenda12" a12 _ h12
    (switch_12 ops) _ r2 _ pre _ c2 i2 rfl hari
  obtain ⟨r4, e4, f4, c4, i4⟩ := step_mandatory ops "13" "Addenda13" a13 _ h13
    (switch_13 ops) _ r3 _ pre _ c3 i3 rfl hari
  obtain ⟨r5, e5, f5, c5, i5⟩ := step_mandatory ops "14" "Addenda14" a14 _ h14
    (switch_14 ops) _ r4 _ pre _ c4 i4 rfl hari
  obtain ⟨r6, e6, f6, c6, i6⟩ := step_mandatory ops "15" "Addenda15" a15 _ h15
    (switch_15 ops) _ r5 _ pre _ c5 i5 rfl hari
  obtain ⟨r7, e7, f7, c7, i7⟩ := step_mandatory ops "16" "Addenda16" a16 _ h16
    (switch_16 ops) rest r6 _ pre _ c6 i6 rfl hari
  refine ⟨r7, ?_, ?_, c7, ?_⟩
  · rw [e1, e2, e3, e4, e5, e6, e7]
  · rw [f7, f6, f5, f4, f3, f2, f1]
  · rw [i7]
    simp only [withMandatory, hq.1, hq.2.1, hq.2.2.1, hq.2.2.2.1, hq.2.2.2.2.1, hq.2.2.2.2.2.1,
      hq.2.2.2.2.2.2]

/-- The reader takes the lines of the slice `Addendum` of an IAT entry, one
after the other. -/
theorem read_iatAddenda_chain (ops : RecordOps) (as : List Addendumer) :
    ∀ (cur : IATEntryDetail), iatAddendaChainOK ops cur as = true →
    ∀ (rest : List String) (r : Reader) (x : IATBatch) (pre : List IATEntryDetail),
      r.currentBatch = none → r.IATCurrentBatch = some x → x.Entries = pre ++ [cur] →
      ∃ r1, Reader.readLoop ops (as.map ops.addendaString ++ rest) r =
          Reader.readLoop ops rest r1 ∧
        r1.File = r.File ∧ r1.currentBatch = none ∧
        r1.IATCurrentBatch =
          some { x with Entries := pre ++ [as.foldl ops.iatEntryAddIATAddenda cur] } := by
  induction as with
  | nil =>
    intro cur _ rest r x pre hc hx hxe
    refine ⟨r, rfl, rfl, hc, ?_⟩
    rw [hx]
    simp only [List.foldl_nil, ← hxe]
  | cons a as ih =>
    intro cur hchain rest r x pre hc hx hxe
    simp only [iatAddendaChainOK, Bool.and_eq_true, decide_eq_true_eq] at hchain
    obtain ⟨⟨hari, hok⟩, hrest⟩ := hchain
    simp only [iatAddendaOK, Bool.and_eq_true] at hok
    obtain ⟨hl, hk⟩ := hok
    cases hkind : iatAddendaKind (slice (ops.addendaString a) 1 3) with
    | none => simp [hkind] at hk
    | some kind =>
      simp only [hkind, Bool.and_eq_true, decide_eq_true_eq] at hk
      obtain ⟨hp, hv⟩ := hk
      obtain ⟨r1, e1, f1, c1, i1⟩ := step_iatAddenda ops a kind ops.iatEntryAddIATAddenda hl hp
        (isNone_eq _ hv) (fun r x hline => switch_optional ops r x kind (by rw [hline, hkind]))
        (as.map ops.addendaString ++ rest) r x pre cur hc hx hxe hari
      obtain ⟨r2, e2, f2, c2, i2⟩ := ih (ops.iatEntryAddIATAddenda cur a) hrest rest r1
        { x with Entries := pre ++ [ops.iatEntryAddIATAddenda cur a] } pre c1 i1 rfl
      refine ⟨r2, ?_, ?_, c2, ?_⟩
      · simp only [List.map_cons, List.cons_append]
        rw [e1, e2]
      · rw [f2, f1]
      · rw [i2]; rfl

/-- The reader takes the lines of an IAT entry and adds the entry to the open
IAT batch. -/
theorem read_iatEntry (ops : RecordOps) (laws : EngineLaws ops) (e : IATEntryDetail)
    (hok : iatEntryOK ops e = true) (rest : List String) (r : Reader) (x : IATBatch)
    (hc : r.currentBatch = none) (hx : r.IATCurrentBatch = some x) :
    ∃ r1 x1, Reader.readLoop ops (iatEntryRecords ops e ++ rest) r =
        Reader.readLoop ops rest r1 ∧
      r1.File = r.File ∧ r1.currentBatch = none ∧ r1.IATCurrentBatch = some x1 ∧
      x1.Entries = x.Entries ++ [e] ∧ x1.Header = x.Header ∧ x1.Control = x.Control := by
  obtain ⟨a10, a11, a12, a13, a14, a15, a16, hq, ⟨h10, h11, h12, h13, h14, h15, h16⟩, hm, _⟩ :=
    iatEntryOK_mandatory ops e hok
  simp only [iatEntryOK, Bool.and_eq_true, decide_eq_true_eq] at hok
  obtain ⟨⟨⟨⟨⟨⟨⟨⟨⟨⟨⟨⟨hl, hiat⟩, hv⟩, hari⟩, _⟩, _⟩, _⟩, _⟩, _⟩, _⟩, _⟩, hchain⟩, hfold⟩ := hok
  obtain ⟨r1, e1, f1, c1, i1⟩ := step_iatEntry ops _ hl hiat (isNone_eq _ hv)
    (ops.addendaString a10 :: ops.addendaString a11 ::
      ops.addendaString a12 :: ops.addendaString a13 ::
      ops.addendaString a14 :: ops.addendaString a15 ::
      ops.addendaString a16 :: (e.Addendum.map ops.addendaString ++ rest)) r x hx
  obtain ⟨ha, hh, hk⟩ := laws.iatAddEntry x (ops.iatEntryDetailParse (ops.iatEntryDetailString e))
  obtain ⟨r2, e2, f2, c2, i2⟩ := read_mandatory ops e a10 a11 a12 a13 a14 a15 a16 hq
    h10 h11 h12 h13 h14 h15 h16
    (e.Addendum.map ops.addendaString ++ rest) r1 _ x.Entries _ (by rw [c1, hc]) i1 ha hari
  obtain ⟨r3, e3, f3, c3, i3⟩ := read_iatAddenda_chain ops e.Addendum _ hchain rest r2 _
    x.Entries c2 i2 rfl
  refine ⟨r3, _, ?_, ?_, c3, i3, ?_, hh, hk⟩
  · simp only [iatEntryRecords, hm, List.map_cons, List.map_nil, List.cons_append,
      List.nil_append, List.append_assoc]
    rw [e1, e2, e3]
  · rw [f3, f2, f1]
  · simp only [hfold]

/-- The reader takes the lines of the entries of an IAT batch. -/
theorem read_iatEntries (ops : RecordOps) (laws : EngineLaws ops) (es : List IATEntryDetail) :
    (∀ e ∈ es, iatEntryOK ops e = true) →
    ∀ (rest : List String) (r : Reader) (x : IATBatch),
      r.currentBatch = none → r.IATCurrentBatch = some x →
      ∃ r1 x1, Reader.readLoop ops (es.flatMap (iatEntryRecords ops) ++ rest) r =
          Reader.readLoop ops rest r1 ∧
        r1.File = r.File ∧ r1.currentBatch = none ∧ r1.IATCurrentBatch = some x1 ∧
        x1.Entries = x.Entries ++ es ∧ x1.Header = x.Header ∧ x1.Control = x.Control := by
  induction es with
  | nil =>
    intro _ rest r x hc hx
    exact ⟨r, x, rfl, rfl, hc, hx, by simp, rfl, rfl⟩
  | cons e es ih =>
    intro hall rest r x hc hx
    obtain ⟨r1, x1, e1, f1, c1, i1, n1, h1, k1⟩ := read_iatEntry ops laws e (hall e (by simp))
      (es.flatMap (iatEntryRecords ops) ++ rest) r x hc hx
    obtain ⟨r2, x2, e2, f2, c2, i2, n2, h2, k2⟩ := ih (fun t ht => hall t (by simp [ht]))
      rest r1 x1 c1 i1
    refine ⟨r2, x2, ?_, ?_, c2, i2, ?_, ?_, ?_⟩
    · simp only [List.flatMap_cons, List.append_assoc]
      rw [e1, e2]
    · rw [f2, f1]
    · rw [n2, n1]; simp
    · rw [h2, h1]
    · rw [k2, k1]

/-- The reader takes the batch control line of an IAT batch that has entries,
validates the batch and adds it to the file. -/
theorem step_iatBatchControl (ops : RecordOps) (line : String)
    (hl : lineOK line batchControlPos = true) (rest : List String) (r : Reader) (x : IATBatch)
    (hc : r.currentBatch = none) (hx : r.IATCurrentBatch = some x) (hne : x.Entries ≠ [])
    (hcv : ops.batchControlValidate (ops.batchControlParse x.Control line) = none)
    (hbv : ops.iatBatchValidate { x with Control := ops.batchControlParse x.Control line } =
      none) :
    ∃ r1, Reader.readLoop ops (line :: rest) r = Reader.readLoop ops rest r1 ∧
      r1.File = r.File.AddIATBatch { x with Control := ops.batchControlParse x.Control line } ∧
      r1.currentBatch = none ∧ r1.IATCurrentBatch = none := by
  obtain ⟨h94, h01, _, _⟩ := lineOK_spec _ _ hl
  refine ⟨{ r with
      lineNum := r.lineNum + 1
      line := line
      recordName := "BatchControl"
      File := r.File.AddIATBatch { x with Control := ops.batchControlParse x.Control line }
      IATCurrentBatch := none },
    readLoop_cons ops _ rest r _ h94 ?_, rfl, hc, rfl⟩
  rw [parseLine_batchControl ops _ { r with
      lineNum := r.lineNum + 1
      line := line
      recordName := "BatchControl"
      IATCurrentBatch := some { x with Control := ops.batchControlParse x.Control line } } h01]
  · simp [Reader.closeBatch, hc, hbv]
  · simp [Reader.parseBatchControl, hc, hx, hne, hcv]

/-- The reader takes the lines of an IAT batch and adds to the file an IAT
batch with the same header, entries and control. -/
theorem read_iatBatch (ops : RecordOps) (laws : EngineLaws ops) (b : IATBatch)
    (hok : iatBatchOK ops b = true) (rest : List String) (r : Reader)
    (hc : r.currentBatch = none) (hr : r.IATCurrentBatch = none) :
    ∃ r1 b1, Reader.readLoop ops (iatBatchRecords ops b ++ rest) r =
        Reader.readLoop ops rest r1 ∧
      r1.File = r.File.AddIATBatch b1 ∧ b1.core = b.core ∧ r1.currentBatch = none ∧
      r1.IATCurrentBatch = none := by
  simp only [iatBatchOK, Bool.and_eq_true, decide_eq_true_eq, List.all_eq_true] at hok
  obtain ⟨⟨⟨⟨⟨⟨⟨⟨⟨⟨⟨hl, hiat⟩, hp⟩, hv⟩, hh0⟩, he0⟩, hc0⟩, hne⟩, hes⟩, hcl⟩, hcv⟩, hbv⟩ := hok
  obtain ⟨r1, e1, f1, c1, i1⟩ := step_iatBatchHeader ops b.Header hl hiat hp (isNone_eq _ hv)
    (b.Entries.flatMap (iatEntryRecords ops) ++ [ops.batchControlString b.Control] ++ rest) r hr
  obtain ⟨r2, x2, e2, f2, c2, i2, n2, h2, k2⟩ := read_iatEntries ops laws b.Entries hes
    ([ops.batchControlString b.Control] ++ rest) r1 _ (by rw [c1, hc]) i1
  have hpc : ops.batchControlParse x2.Control (ops.batchControlString b.Control) =
      b.Control := by rw [k2, hc0]
  have hn2 : x2.Entries = b.Entries := by rw [n2, he0]; rfl
  obtain ⟨r3, e3, f3, c3, i3⟩ := step_iatBatchControl ops (ops.batchControlString b.Control)
    hcl rest r2 x2 c2 i2 (by rw [hn2]; exact hne) (by rw [hpc]; exact isNone_eq _ hcv) (by
      rw [hpc, laws.iatValidateCore _ b (by simp [IATBatch.core, h2, hh0, hn2])]
      exact isNone_eq _ hbv)
  have key : ∃ b1, r3.File = r.File.AddIATBatch b1 ∧ b1.core = b.core :=
    ⟨_, by rw [f3, f2, f1], by simp [IATBatch.core, h2, hh0, hn2, hpc]⟩
  obtain ⟨b1, g1, g2⟩ := key
  refine ⟨r3, b1, ?_, g1, g2, c3, i3⟩
  simp only [iatBatchRecords, List.append_assoc, List.singleton_append, List.cons_append,
    List.nil_append] at e1 e2 e3 ⊢
  rw [e1, e2, e3]

/-- The reader takes the lines of the IAT batches of a file, in order. -/
theorem read_iatBatches (ops : RecordOps) (laws : EngineLaws ops) (bs : List IATBatch) :
    (∀ b ∈ bs, iatBatchOK ops b = true) →
    ∀ (rest : List String) (r : Reader), r.currentBatch = none → r.IATCurrentBatch = none →
      ∃ r1, Reader.readLoop ops (bs.flatMap (iatBatchRecords ops) ++ rest) r =
          Reader.readLoop ops rest r1 ∧
        r1.File.Header = r.File.Header ∧ r1.File.Control = r.File.Control ∧
        r1.File.Batches = r.File.Batches ∧
        r1.File.IATBatches.map IATBatch.core =
          r.File.IATBatches.map IATBatch.core ++ bs.map IATBatch.core ∧
        r1.currentBatch = none ∧ r1.IATCurrentBatch = none := by
  induction bs with
  | nil =>
    intro _ rest r hc hr
    exact ⟨r, rfl, rfl, rfl, rfl, by simp, hc, hr⟩
  | cons b bs ih =>
    intro hall rest r hc hr
    obtain ⟨r1, b1, e1, f1, k1, c1, i1⟩ := read_iatBatch ops laws b (hall b (by simp))
      (bs.flatMap (iatBatchRecords ops) ++ rest) r hc hr
    obtain ⟨r2, e2, h2, k2, j2, m2, c2, i2⟩ := ih (fun t ht => hall t (by simp [ht])) rest r1
      c1 i1
    refine ⟨r2, ?_, ?_, ?_, ?_, ?_, c2, i2⟩
    · simp only [List.flatMap_cons, List.append_assoc]
      rw [e1, e2]
    · rw [h2, f1]; rfl
    · rw [k2, f1]; rfl
    · rw [j2, f1]; rfl
    · rw [m2, f1]
      simp [File.AddIATBatch, k1]

/-- The reader takes the file control line. -/
theorem step_fileControl (ops : RecordOps) (fc : FileControl)
    (hok : fileControlOK ops fc = true) (rest : List String) (r : Reader)
    (hr : r.File.Control = FileControl.zero) :
    ∃ r1, Reader.readLoop ops (ops.fileControlString fc :: rest) r =
        Reader.readLoop ops rest r1 ∧
      r1.File = { r.File with Control := fc } ∧ r1.currentBatch = r.currentBatch ∧
      r1.IATCurrentBatch = r.IATCurrentBatch := by
  simp only [fileControlOK, Bool.and_eq_true, decide_eq_true_eq] at hok
  obtain ⟨⟨⟨⟨hl, h99⟩, hp⟩, hv⟩, _⟩ := hok
  obtain ⟨h94, h01, _, _⟩ := lineOK_spec _ _ hl
  refine ⟨{ r with
      lineNum := r.lineNum + 1
      line := ops.fileControlString fc
      recordName := "FileControl"
      File := { r.File with Control := fc } },
    readLoop_cons ops _ rest r _ h94 ?_, rfl, rfl, rfl⟩
  rw [parseLine_fileControl ops _ h01]
  simp [h99, Reader.parseFileControl, hr, hp, isNone_eq _ hv]

/-- A padding line without its newline: 94 nines. -/
theorem padLine_eq : padLine = String.mk (List.replicate 94 '9') ++ "\n" := rfl

/-- The reader skips the padding lines. -/
theorem read_padding (ops : RecordOps) (k : Nat) :
    ∀ r : Reader, ∃ r1, Reader.readLoop ops
        (List.replicate k (String.mk (List.replicate 94 '9'))) r = (r1, none) ∧
      r1.File = r.File := by
  induction k with
  | zero => intro r; exact ⟨r, rfl, rfl⟩
  | succ k ih =>
    intro r
    obtain ⟨r1, e1, f1⟩ := ih { r with
      lineNum := r.lineNum + 1
      line := String.mk (List.replicate 94 '9') }
    refine ⟨r1, ?_, f1⟩
    have h1 : slice (String.mk (List.replicate 94 '9')) 0 1 = fileControlPos := by decide
    have h2 : slice (String.mk (List.replicate 94 '9')) 0 2 = "99" := by decide
    rw [List.replicate_succ, readLoop_cons ops _ _ r _ (by decide) ?_, e1]
    rw [parseLine_fileControl ops _ h1]
    exact if_pos h2

/-! ### The lines of a recoverable file have no line break inside -/

theorem lineOK_unbroken (s pos : String) (h : lineOK s pos = true) : unbroken s :=
  ⟨(lineOK_spec s pos h).2.2.1, (lineOK_spec s pos h).2.2.2, by
    rw [(lineOK_spec s pos h).1]; decide⟩

theorem addendaChain_unbroken (ops : RecordOps) (as : List Addendumer) :
    ∀ cur : EntryDetail, addendaChainOK ops cur as = true →
      ∀ s ∈ as.map ops.addendaString, unbroken s := by
  induction as with
  | nil => intro _ _ s hs; simp at hs
  | cons a as ih =>
    intro cur h s hs
    simp only [addendaChainOK, Bool.and_eq_true, decide_eq_true_eq] at h
    obtain ⟨⟨_, hok⟩, hrest⟩ := h
    simp only [List.map_cons, List.mem_cons] at hs
    rcases hs with rfl | hs
    · simp only [addendaOK, Bool.and_eq_true] at hok
      exact lineOK_unbroken _ _ hok.1
    · exact ih _ hrest s hs

theorem iatAddendaChain_unbroken (ops : RecordOps) (as : List Addendumer) :
    ∀ cur : IATEntryDetail, iatAddendaChainOK ops cur as = true →
      ∀ s ∈ as.map ops.addendaString, unbroken s := by
  induction as with
  | nil => intro _ _ s hs; simp at hs
  | cons a as ih =>
    intro cur h s hs
    simp only [iatAddendaChainOK, Bool.and_eq_true, decide_eq_true_eq] at h
    obtain ⟨⟨_, hok⟩, hrest⟩ := h
    simp only [List.map_cons, List.mem_cons] at hs
    rcases hs with rfl | hs
    · simp only [iatAddendaOK, Bool.and_eq_true] at hok
      exact lineOK_unbroken _ _ hok.1
    · exact ih _ hrest s hs

theorem mandatory_unbroken (ops : RecordOps) (code kind : String) (a : Addendumer)
    (h : mandatoryAddendaOK ops code kind a = true) : unbroken (ops.addendaString a) := by
  simp only [mandatoryAddendaOK, Bool.and_eq_true, decide_eq_true_eq] at h
  exact lineOK_unbroken _ _ h.1.1.1

theorem entryRecords_unbroken (ops : RecordOps) (e : EntryDetail) (h : entryOK ops e = true) :
    ∀ s ∈ entryRecords ops e, unbroken s := by
  simp only [entryOK, Bool.and_eq_true, decide_eq_true_eq] at h
  obtain ⟨⟨⟨⟨hl, _⟩, _⟩, hchain⟩, _⟩ := h
  intro s hs
  simp only [entryRecords, List.mem_cons] at hs
  rcases hs with rfl | hs
  · exact lineOK_unbroken _ _ hl
  · exact addendaChain_unbroken ops _ _ hchain s hs

theorem iatEntryRecords_unbroken (ops : RecordOps) (e : IATEntryDetail)
    (h : iatEntryOK ops e = true) : ∀ s ∈ iatEntryRecords ops e, unbroken s := by
  obtain ⟨a10, a11, a12, a13, a14, a15, a16, _, ⟨h10, h11, h12, h13, h14, h15, h16⟩, hm, _⟩ :=
    iatEntryOK_mandatory ops e h
  simp only [iatEntryOK, Bool.and_eq_true, decide_eq_true_eq] at h
  obtain ⟨⟨⟨⟨⟨⟨⟨⟨⟨⟨⟨⟨hl, _⟩, _⟩, _⟩, _⟩, _⟩, _⟩, _⟩, _⟩, _⟩, _⟩, hchain⟩, _⟩ := h
  intro s hs
  simp only [iatEntryRecords, hm, List.map_cons, List.map_nil, List.cons_append,
    List.nil_append, List.mem_cons] at hs
  rcases hs with rfl | rfl | rfl | rfl | rfl | rfl | rfl | rfl | hs
  · exact lineOK_unbroken _ _ hl
  · exact mandatory_unbroken ops _ _ _ h10
  · exact mandatory_unbroken ops _ _ _ h11
  · exact mandatory_unbroken ops _ _ _ h12
  · exact mandatory_unbroken ops _ _ _ h13
  · exact mandatory_unbroken ops _ _ _ h14
  · exact mandatory_unbroken ops _ _ _ h15
  · exact mandatory_unbroken ops _ _ _ h16
  · exact iatAddendaChain_unbroken ops _ _ hchain s hs

theorem batchRecords_unbroken (ops : RecordOps) (b : Batcher) (h : batchOK ops b = true) :
    ∀ s ∈ batchRecords ops b, unbroken s := by
  simp only [batchOK, Bool.and_eq_true, decide_eq_true_eq, List.all_eq_true] at h
  obtain ⟨⟨⟨⟨⟨⟨⟨⟨hl, _⟩, _⟩, _⟩, _⟩, hes⟩, hcl⟩, _⟩, _⟩ := h
  intro s hs
  simp only [batchRecords, List.mem_append, List.mem_singleton, List.mem_flatMap] at hs
  rcases hs with (rfl | ⟨e, he, hs⟩) | rfl
  · exact lineOK_unbroken _ _ hl
  · exact entryRecords_unbroken ops e (hes e he) s hs
  · exact lineOK_unbroken _ _ hcl

theorem iatBatchRecords_unbroken (ops : RecordOps) (b : IATBatch)
    (h : iatBatchOK ops b = true) : ∀ s ∈ iatBatchRecords ops b, unbroken s := by
  simp only [iatBatchOK, Bool.and_eq_true, decide_eq_true_eq, List.all_eq_true] at h
  obtain ⟨⟨⟨⟨⟨⟨⟨⟨⟨⟨⟨hl, _⟩, _⟩, _⟩, _⟩, _⟩, _⟩, _⟩, hes⟩, hcl⟩, _⟩, _⟩ := h
  intro s hs
  simp only [iatBatchRecords, List.mem_append, List.mem_singleton, List.mem_flatMap] at hs
  rcases hs with (rfl | ⟨e, he, hs⟩) | rfl
  · exact lineOK_unbroken _ _ hl
  · exact iatEntryRecords_unbroken ops e (hes e he) s hs
  · exact lineOK_unbroken _ _ hcl

theorem records_unbroken (ops : RecordOps) (f : File) (h : f.recoverable ops = true) :
    ∀ s ∈ f.records ops, unbroken s := by
  simp only [File.recoverable, Bool.and_eq_true, List.all_eq_true] at h
  obtain ⟨⟨⟨hh, hbs⟩, his⟩, hc⟩ := h
  intro s hs
  simp only [File.records, List.mem_append, List.mem_singleton, List.mem_flatMap] at hs
  rcases hs with ((rfl | ⟨b, hb, hs⟩) | ⟨b, hb, hs⟩) | rfl
  · simp only [fileHeaderOK, Bool.and_eq_true, decide_eq_true_eq] at hh
    exact lineOK_unbroken _ _ hh.1.1.1
  · exact batchRecords_unbroken ops b (hbs b hb) s hs
  · exact iatBatchRecords_unbroken ops b (his b hb) s hs
  · simp only [fileControlOK, Bool.and_eq_true, decide_eq_true_eq] at hc
    exact lineOK_unbroken _ _ hc.1.1.1.1

theorem join_toList_aux (l : List String) (acc : String) :
    (l.foldl (fun r s => r ++ s) acc).toList = acc.toList ++ l.flatMap String.toList := by
  induction l generalizing acc with
  | nil => simp
  | cons s rest ih =>
    rw [List.foldl_cons, ih]
    simp [String.toList, String.data_append]

theorem join_toList (l : List String) :
    (String.join l).toList = l.flatMap String.toList := by
  unfold String.join
  rw [join_toList_aux]
  simp [String.toList]

theorem byteSize_append (a b : List Char) :
    (String.mk (a ++ b)).utf8ByteSize =
      (String.mk a).utf8ByteSize + (String.mk b).utf8ByteSize := by
  induction a with
  | nil => simp [String.utf8ByteSize, String.utf8ByteSize.go]
  | cons c cs ih =>
    have e : ∀ l : List Char,
        (String.mk (c :: l)).utf8ByteSize = (String.mk l).utf8ByteSize + c.utf8Size := by
      intro l
      simp [String.utf8ByteSize, String.utf8ByteSize.go]
    rw [List.cons_append, e, e, ih]
    omega

/-- The scanner at a line that ends in a newline: the line is yielded when it
fits the buffer, and the scanning is over when it does not. -/
theorem scanTokens_record (record : List Char) (h : '\n' ∉ record) :
    ∀ (rest token : List Char),
      scanTokens (record ++ '\n' :: rest) token =
        if MaxScanTokenSize ≤ (String.mk (token ++ record)).utf8ByteSize then []
        else dropCR (token ++ record) :: scanTokens rest [] := by
  induction record with
  | nil => intro rest token; simp [scanTokens]
  | cons ch cs ih =>
    intro rest token
    have hch : ch ≠ '\n' := fun e => h (by simp [e])
    have hcs : '\n' ∉ cs := fun e => h (by simp [e])
    have e := ih hcs rest (token ++ [ch])
    simp only [List.cons_append, scanTokens, if_neg hch]
    simp only [List.append_assoc, List.singleton_append] at e
    exact e

/-- The scanner at a last line that no newline ends. -/
theorem scanTokens_last (record : List Char) (h : '\n' ∉ record) :
    ∀ token : List Char,
      scanTokens record token =
        if token ++ record = [] ∨ MaxScanTokenSize ≤ (String.mk (token ++ record)).utf8ByteSize
        then [] else [dropCR (token ++ record)] := by
  induction record with
  | nil => intro token; simp [scanTokens]
  | cons ch cs ih =>
    intro token
    have hch : ch ≠ '\n' := fun e => h (by simp [e])
    have hcs : '\n' ∉ cs := fun e => h (by simp [e])
    have e := ih hcs (token ++ [ch])
    simp only [scanTokens, if_neg hch]
    simp only [List.append_assoc, List.singleton_append] at e
    exact e

theorem dropCR_eq (record : List Char) (h : record.getLast? ≠ some '\r') :
    dropCR record = record := by
  simp [dropCR, h]

theorem scanTokens_records (records : List String) (h : ∀ s ∈ records, unbroken s)
    (tail : List Char) :
    scanTokens (records.flatMap (fun s => (s ++ "\n").toList) ++ tail) [] =
      records.map String.toList ++ scanTokens tail [] := by
  induction records with
  | nil => simp
  | cons s rest ih =>
    have hs := h s (by simp)
    have e : (s ++ "\n").toList = s.toList ++ ['\n'] := by
      simp [String.toList, String.data_append]
    have hsize : ¬ MaxScanTokenSize ≤ (String.mk s.toList).utf8ByteSize :=
      Nat.not_le.mpr hs.2.2
    simp only [List.flatMap_cons, e, List.append_assoc, List.singleton_append, List.map_cons,
      List.cons_append, List.nil_append]
    rw [scanTokens_record _ hs.1, List.nil_append, if_neg hsize, dropCR_eq _ hs.2.1,
      ih (fun t ht => h t (by simp [ht]))]

/-- The scanner yields the lines of an input, each written with its newline,
when every line is `unbroken`, and goes on with what follows them. -/
theorem scanLines_lines (records : List String) (h : ∀ s ∈ records, unbroken s)
    (tail : String) :
    scanLines (String.join (records.map (fun s => s ++ "\n")) ++ tail) =
      records ++ scanLines tail := by
  have e0 : (String.join (records.map (fun s => s ++ "\n")) ++ tail).toList =
      records.flatMap (fun s => (s ++ "\n").toList) ++ tail.toList := by
    rw [show (String.join (records.map (fun s => s ++ "\n")) ++ tail).toList =
      (String.join (records.map (fun s => s ++ "\n"))).toList ++ tail.toList from by
        simp [String.toList, String.data_append]]
    rw [join_toList, List.flatMap_map]
  simp only [scanLines, e0]
  rw [scanTokens_records records h]
  have e : ∀ s : String, String.mk s.toList = s := fun s => rfl
  simp [Function.comp_def, e]

/-- The scanner gives back the records the writer wrote, each with its
newline, when every record is `unbroken`. -/
theorem scanLines_join (records : List String) (h : ∀ s ∈ records, unbroken s) :
    scanLines (String.join (records.map (fun s => s ++ "\n"))) = records := by
  have e := scanLines_lines records h ""
  have e1 : scanLines "" = [] := rfl
  rw [e1, List.append_nil, String.append_empty] at e
  exact e

/-- The scanner yields a last line that no newline ends, when it is not empty
and `unbroken`. -/
theorem scanLines_last (line : String) (h : unbroken line) (hne : line ≠ "") :
    scanLines line = [line] := by
  have hsize : ¬ MaxScanTokenSize ≤ (String.mk ([] ++ line.toList)).utf8ByteSize :=
    Nat.not_le.mpr h.2.2
  have hne2 : ¬ ([] ++ line.toList = []) := by
    intro e
    apply hne
    have : line.toList = [] := e
    exact congrArg String.mk this
  simp only [scanLines]
  rw [scanTokens_last _ h.1, if_neg (not_or.mpr ⟨hne2, hsize⟩), List.nil_append,
    dropCR_eq _ h.2.1]
  rfl

/-- The lines the scanner yields on what `Writer.Write` has written: the
records of the file and the padding lines, without their newlines. -/
theorem scanLines_written (ops : RecordOps) (f : File) (h : f.recoverable ops = true) (k : Nat) :
    scanLines (String.join ([] ++ (f.records ops).map (fun s => s ++ "\n") ++
      List.replicate k padLine)) =
      f.records ops ++ List.replicate k (String.mk (List.replicate 94 '9')) := by
  have e : [] ++ (f.records ops).map (fun s => s ++ "\n") ++ List.replicate k padLine =
      (f.records ops ++ List.replicate k (String.mk (List.replicate 94 '9'))).map
        (fun s => s ++ "\n") := by
    simp [padLine_eq]
  rw [e]
  apply scanLines_join
  intro s hs
  rcases List.mem_append.mp hs with hs | hs
  · exact records_unbroken ops f h s hs
  · rw [List.eq_of_mem_replicate hs]
    exact ⟨by decide, by decide, by decide⟩

/-- The loop of `Reader.Read` over the records of a recoverable file and its
padding lines ends without error, with the header, the control and, batch by
batch, the header, entries and control of the file. -/
theorem readLoop_records (ops : RecordOps) (laws : EngineLaws ops) (f : File)
    (h : f.recoverable ops = true) (k : Nat) :
    ∃ r, Reader.readLoop ops
        (f.records ops ++ List.replicate k (String.mk (List.replicate 94 '9')))
        { NewReader with lineNum := 0 } = (r, none) ∧
      r.File.Header = f.Header ∧ r.File.Control = f.Control ∧
      r.File.Batches.map Batcher.core = f.Batches.map Batcher.core ∧
      r.File.IATBatches.map IATBatch.core = f.IATBatches.map IATBatch.core := by
  have h' := h
  simp only [File.recoverable, Bool.and_eq_true, List.all_eq_true] at h'
  obtain ⟨⟨⟨hh, hbs⟩, his⟩, hc⟩ := h'
  obtain ⟨r1, e1, f1, c1, i1⟩ := step_fileHeader ops f.Header hh
    (f.Batches.flatMap (batchRecords ops) ++ (f.IATBatches.flatMap (iatBatchRecords ops) ++
      (ops.fileControlString f.Control ::
        List.replicate k (String.mk (List.replicate 94 '9')))))
    { NewReader with lineNum := 0 } rfl
  obtain ⟨r2, e2, h2, k2, j2, m2, c2, i2⟩ := read_batches ops laws f.Batches hbs
    (f.IATBatches.flatMap (iatBatchRecords ops) ++ (ops.fileControlString f.Control ::
      List.replicate k (String.mk (List.replicate 94 '9')))) r1 c1
  obtain ⟨r3, e3, h3, k3, j3, m3, c3, i3⟩ := read_iatBatches ops laws f.IATBatches his
    (ops.fileControlString f.Control :: List.replicate k (String.mk (List.replicate 94 '9')))
    r2 c2 (by rw [i2, i1]; rfl)
  obtain ⟨r4, e4, f4, c4, i4⟩ := step_fileControl ops f.Control hc
    (List.replicate k (String.mk (List.replicate 94 '9'))) r3 (by rw [k3, k2, f1]; rfl)
  obtain ⟨r5, e5, f5⟩ := read_padding ops k r4
  refine ⟨r5, ?_, ?_, ?_, ?_, ?_⟩
  · simp only [File.records, List.append_assoc, List.singleton_append, List.cons_append,
      List.nil_append]
    rw [e1, e2, e3, e4, e5]
  · rw [f5, f4]
    show r3.File.Header = f.Header
    rw [h3, h2, f1]
  · rw [f5, f4]
  · rw [f5, f4]
    show r3.File.Batches.map Batcher.core = f.Batches.map Batcher.core
    rw [j3, m2, f1]
    simp [NewReader, File.zero]
  · rw [f5, f4]
    show r3.File.IATBatches.map IATBatch.core = f.IATBatches.map IATBatch.core
    rw [m3, j2, f1]
    simp [NewReader, File.zero]

/-- Every IAT entry of a recoverable file has its seven mandatory addenda. -/
theorem recoverable_complete (ops : RecordOps) (f : File) (h : f.recoverable ops = true) :
    f.iatComplete = true := by
  simp only [File.recoverable, Bool.and_eq_true, List.all_eq_true] at h
  obtain ⟨⟨⟨_, _⟩, his⟩, _⟩ := h
  simp only [File.iatComplete, List.all_eq_true]
  intro b hb e he
  have hbok := his b hb
  simp only [iatBatchOK, Bool.and_eq_true, decide_eq_true_eq, List.all_eq_true] at hbok
  obtain ⟨⟨⟨⟨_, hes⟩, _⟩, _⟩, _⟩ := hbok
  obtain ⟨_, _, _, _, _, _, _, _, _, _, hc⟩ := iatEntryOK_mandatory ops e (hes e he)
  exact hc

/-- The records of a recoverable file and padding lines behind them are read
without error, and the file that `Reader.Read` returns has the header, the
control and, batch by batch, the header, entries and control of the file. -/
theorem read_records (ops : RecordOps) (laws : EngineLaws ops) (f : File)
    (hrec : f.recoverable ops = true) (k : Nat) :
    ∃ r : Reader,
      Reader.Read ops NewReader
        (f.records ops ++ List.replicate k (String.mk (List.replicate 94 '9'))) = (r, none) ∧
      r.File.Header = f.Header ∧ r.File.Control = f.Control ∧
      r.File.Batches.map Batcher.core = f.Batches.map Batcher.core ∧
      r.File.IATBatches.map IATBatch.core = f.IATBatches.map IATBatch.core := by
  obtain ⟨r, e, hh, hc, hb, hi⟩ := readLoop_records ops laws f hrec k
  refine ⟨r, ?_, hh, hc, hb, hi⟩
  simp only [Reader.Read, e]
  have hrec' := hrec
  simp only [File.recoverable, fileHeaderOK, fileControlOK, Bool.and_eq_true,
    decide_eq_true_eq] at hrec'
  have h1 : ¬ (FileHeader.zero = r.File.Header) := by
    rw [hh]; exact fun e => hrec'.1.1.1.2 e.symm
  have h2 : ¬ (FileControl.zero = r.File.Control) := by
    rw [hc]; exact fun e => hrec'.2.2 e.symm
  rw [if_neg h1, if_neg h2]

/-- C7, amended: for every file that passes `File.Validate` and each of whose
records is recovered from its line (`File.recoverable`: the line has 94 bytes,
its record type in column 1 and no line break, `Parse` after `String` gives
the record back, the reader's `Validate` calls accept it, the columns the
reader peeks at select the right parser, an entry that has addenda carries
the indicator 1, an IAT batch has an entry, the file control line does not
begin with "99"), `Writer.Write` succeeds and `Reader.Read` on the lines of the
bytes written succeeds and yields a file with the same header, the same
control and, batch by batch in the same order, the same header, entries (with
their addenda in their order) and control. -/
theorem write_read_roundtrip (ops : RecordOps) (c : converters) (f : File)
    (laws : EngineLaws ops) (hrec : f.recoverable ops = true) (hv : f.Validate c = none) :
    ∃ (w : Writer) (r : Reader),
      Writer.Write ops c NewWriter f = some (w, none) ∧
      Reader.Read ops NewReader (scanLines w.bytes) = (r, none) ∧
      r.File.Header = f.Header ∧ r.File.Control = f.Control ∧
      r.File.Batches.map Batcher.core = f.Batches.map Batcher.core ∧
      r.File.IATBatches.map IATBatch.core = f.IATBatches.map IATBatch.core := by
  obtain ⟨r, e, hh, hc, hb, hi⟩ := read_records ops laws f hrec
    (padCount (f.records ops).length)
  refine ⟨_, r, write_output ops c NewWriter f hv (recoverable_complete ops f hrec), ?_,
    hh, hc, hb, hi⟩
  simp only [Writer.bytes, NewWriter]
  rw [scanLines_written ops f hrec]
  exact e

/-- The record methods of the specification obey the laws of the batch
engine. -/
theorem specOps_laws : EngineLaws specOps where
  addEntry := by intro b ed; exact ⟨rfl, rfl, rfl⟩
  iatAddEntry := by intro b ed; exact ⟨rfl, rfl, rfl⟩
  validateCore := by
    intro b1 b2 h
    simp only [Batcher.core, Prod.mk.injEq] at h
    obtain ⟨h1, h2, h3⟩ := h
    simp only [specOps, specBatcherValidate, h1, h2, h3]
  iatValidateCore := by
    intro b1 b2 h
    simp only [IATBatch.core, Prod.mk.injEq] at h
    obtain ⟨h1, h2, h3⟩ := h
    simp only [specOps, specIATBatchValidate, h1, h3]

set_option maxRecDepth 100000 in
/-- C7 amended, at the file `sampleMixed`: a batch with an entry and its
addenda and an IAT batch with an entry, its seven mandatory addenda, an
Addenda17 and an Addenda18, written and read back with the record methods of
the specification. -/
theorem write_read_roundtrip_witness :
    sampleMixed.recoverable specOps = true ∧ sampleMixed.Validate specConverters = none ∧
    ∃ (w : Writer) (r : Reader),
      Writer.Write specOps specConverters NewWriter sampleMixed = some (w, none) ∧
      Reader.Read specOps NewReader (scanLines w.bytes) = (r, none) ∧
      r.File.Header = sampleMixed.Header ∧ r.File.Control = sampleMixed.Control ∧
      r.File.Batches.map Batcher.core = sampleMixed.Batches.map Batcher.core ∧
      r.File.IATBatches.map IATBatch.core = sampleMixed.IATBatches.map IATBatch.core := by
  have h1 : sampleMixed.recoverable specOps = true := by decide
  have h2 : sampleMixed.Validate specConverters = none := by rfl
  exact ⟨h1, h2, write_read_roundtrip specOps specConverters sampleMixed specOps_laws h1 h2⟩

/-! ## The entry hash the reader returns -/

theorem parseFileHeader_control (ops : RecordOps) (r : Reader) :
    (r.parseFileHeader ops).1.File.Control = r.File.Control := by
  simp only [Reader.parseFileHeader]
  split <;> rfl

theorem parseBatchHeader_control (ops : RecordOps) (r : Reader) :
    (r.parseBatchHeader ops).1.File.Control = r.File.Control := by
  simp only [Reader.parseBatchHeader]
  repeat' split
  all_goals rfl

theorem parseIATBatchHeader_control (ops : RecordOps) (r : Reader) :
    (r.parseIATBatchHeader ops).1.File.Control = r.File.Control := by
  simp only [Reader.parseIATBatchHeader]
  repeat' split
  all_goals rfl

theorem parseEntryDetail_control (ops : RecordOps) (r : Reader) :
    (r.parseEntryDetail ops).1.File.Control = r.File.Control := by
  simp only [Reader.parseEntryDetail]
  repeat' split
  all_goals rfl

theorem parseIATEntryDetail_control (ops : RecordOps) (r : Reader) :
    (r.parseIATEntryDetail ops).1.File.Control = r.File.Control := by
  simp only [Reader.parseIATEntryDetail]
  repeat' split
  all_goals rfl

theorem addAddenda_control (ops : RecordOps) (r : Reader) (b : Batcher) (k : String) :
    (r.addAddenda ops b k).1.File.Control = r.File.Control := by
  simp only [Reader.addAddenda]
  repeat' split
  all_goals rfl

theorem parseAddenda_control (ops : RecordOps) (r : Reader) :
    (r.parseAddenda ops).1.File.Control = r.File.Control := by
  simp only [Reader.parseAddenda]
  repeat' split
  all_goals first | rfl | rw [addAddenda_control]

theorem setIATAddenda_control (ops : RecordOps) (r : Reader) (b : IATBatch) (k : String)
    (set : IATEntryDetail → Addendumer → IATEntryDetail) :
    (r.setIATAddenda ops b k set).1.File.Control = r.File.Control := by
  simp only [Reader.setIATAddenda]
  repeat' split
  all_goals rfl

theorem switchIATAddenda_control (ops : RecordOps) (r : Reader) (b : IATBatch) :
    (r.switchIATAddenda ops b).1.File.Control = r.File.Control := by
  simp only [Reader.switchIATAddenda, Reader.mandatoryOptionalIATAddenda,
    Reader.returnIATAddenda]
  repeat' split
  all_goals first | rfl | rw [setIATAddenda_control]

theorem parseIATAddenda_control (ops : RecordOps) (r : Reader) :
    (r.parseIATAddenda ops).1.File.Control = r.File.Control := by
  simp only [Reader.parseIATAddenda]
  split
  · rfl
  · split
    · rfl
    · split
      · have h := switchIATAddenda_control ops { r with recordName := "Addenda" } ‹IATBatch›
        split <;> simp_all
      · rfl

theorem parseBatchControl_control (ops : RecordOps) (r : Reader) :
    (r.parseBatchControl ops).1.File.Control = r.File.Control := by
  simp only [Reader.parseBatchControl]
  repeat' split
  all_goals rfl

theorem closeBatch_control (ops : RecordOps) (r : Reader) :
    (r.closeBatch ops).1.File.Control = r.File.Control := by
  simp only [Reader.closeBatch]
  repeat' split
  all_goals first | rfl | exact (addBatch_fields _ _).2.1

/-- The file control after `parseFileControl` is the one before it or one that
`FileControl.Parse` has filled. -/
theorem parseFileControl_control (ops : RecordOps) (r : Reader) :
    (r.parseFileControl ops).1.File.Control = r.File.Control ∨
    (r.parseFileControl ops).1.File.Control = ops.fileControlParse r.File.Control r.line := by
  simp only [Reader.parseFileControl]
  repeat' split
  all_goals first | (left; rfl) | (right; rfl)

theorem parseLine_control (ops : RecordOps) (r : Reader) :
    (r.parseLine ops).1.File.Control = r.File.Control ∨
    (r.parseLine ops).1.File.Control = ops.fileControlParse r.File.Control r.line := by
  simp only [Reader.parseLine, Reader.parseBH, Reader.parseED, Reader.parseEDAddenda]
  repeat' split
  all_goals first
    | (left; rfl)
    | (left; rw [parseFileHeader_control])
    | (left; rw [parseIATBatchHeader_control])
    | (left; rw [parseBatchHeader_control])
    | (left; rw [parseIATEntryDetail_control])
    | (left; rw [parseEntryDetail_control])
    | (left; rw [parseAddenda_control])
    | (left; rw [parseIATAddenda_control])
    | exact parseFileControl_control ops r
    | (left
       have h := parseBatchControl_control ops r
       simp_all [closeBatch_control])


/-- The number read from at most `l.length` digits, continuing from `acc`, is
below `(acc + 1) * 10 ^ l.length`. -/
theorem digitsValue_lt (l : List Char) :
    ∀ (acc n : Nat), digitsValue l acc = some n → n < (acc + 1) * 10 ^ l.length := by
  induction l with
  | nil =>
    intro acc n h
    simp only [digitsValue, Option.some.injEq] at h
    simp [← h]
  | cons ch cs ih =>
    intro acc n h
    simp only [digitsValue] at h
    split at h
    · rename_i hd
      have hb := ih _ _ h
      have h9 : ch.toNat - 48 ≤ 9 := by
        simp only [Char.isDigit, Bool.and_eq_true, decide_eq_true_eq] at hd
        have := hd.2
        simp only [Char.toNat]
        have h57 : ch.val.toNat ≤ 57 := by
          have := UInt32.le_def.mp this
          simpa using this
        omega
      calc n < (10 * acc + (ch.toNat - 48) + 1) * 10 ^ cs.length := hb
        _ ≤ (10 * (acc + 1)) * 10 ^ cs.length := by
          apply Nat.mul_le_mul_right
          omega
        _ = (acc + 1) * 10 ^ (ch :: cs).length := by
          simp only [List.length_cons, pow_succ]
          ring
    · simp at h

theorem dropWhile_length_le {α : Type} (p : α → Bool) (l : List α) :
    (l.dropWhile p).length ≤ l.length := by
  induction l with
  | nil => simp
  | cons x rest ih =>
    simp only [List.dropWhile]
    split
    · exact le_trans ih (Nat.le_succ _)
    · exact le_refl _

/-- A numeric field of at most ten characters holds a number below 10^10. -/
theorem specParseNumField_lt (s : String) (h : s.length ≤ 10) :
    specParseNumField s < 10 ^ 10 := by
  simp only [specParseNumField]
  split
  · rename_i n hn
    have hb := digitsValue_lt _ _ _ hn
    have hl : (List.dropWhile (fun c => decide (c = ' ')) s.toList).length ≤ 10 :=
      le_trans (dropWhile_length_le _ _) h
    have : n < 10 ^ 10 := by
      calc n < (0 + 1) * 10 ^ (List.dropWhile (fun c => decide (c = ' ')) s.toList).length := hb
        _ ≤ (0 + 1) * 10 ^ 10 := by
          apply Nat.mul_le_mul_left
          exact Nat.pow_le_pow_right (by norm_num) hl
        _ = 10 ^ 10 := by norm_num
    exact_mod_cast this
  · norm_num

theorem slice_length (s : String) (a b : Nat) : (slice s a b).length ≤ b - a := by
  simp only [slice, String.length]
  exact List.length_take_le _ _

/-- The entry hash `FileControl.Parse` reads from the ten columns of its field
has at most ten digits. -/
theorem specFileControlParse_entryHash (fc : FileControl) (record : String) :
    (specFileControlParse fc record).EntryHash < 10 ^ 10 :=
  specParseNumField_lt _ (slice_length record 21 31)


/-- The loop of `processFixedWidthFile` keeps the entry hash of the file
control below 10^10 when `FileControl.Parse` does. -/
theorem fixedWidthLoop_hash (ops : RecordOps)
    (hp : ∀ fc record, (ops.fileControlParse fc record).EntryHash < 10 ^ 10)
    (cs : List Char) : ∀ (i : Nat) (record : String) (r : Reader),
      r.File.Control.EntryHash < 10 ^ 10 →
      (Reader.fixedWidthLoop ops cs i record r).1.File.Control.EntryHash < 10 ^ 10 := by
  induction cs with
  | nil => intro i record r h; exact h
  | cons ch rest ih =>
    intro i record r h
    simp only [Reader.fixedWidthLoop]
    split
    · have hc := parseLine_control ops { r with line := record ++ String.singleton ch }
      have h1 : ({ r with line := record ++ String.singleton ch }.parseLine
          ops).1.File.Control.EntryHash < 10 ^ 10 := by
        rcases hc with e | e
        · rw [e]; exact h
        · rw [e]; exact hp _ _
      split
      · rename_i r2 err hr2
        rw [hr2] at h1
        exact h1
      · rename_i r2 hr2
        rw [hr2] at h1
        exact ih _ _ _ h1
    · exact ih _ _ _ h

/-- The loop of `Reader.Read` keeps the entry hash of the file control below
10^10 when `FileControl.Parse` does. -/
theorem readLoop_hash (ops : RecordOps)
    (hp : ∀ fc record, (ops.fileControlParse fc record).EntryHash < 10 ^ 10)
    (lines : List String) : ∀ r : Reader, r.File.Control.EntryHash < 10 ^ 10 →
      (Reader.readLoop ops lines r).1.File.Control.EntryHash < 10 ^ 10 := by
  induction lines with
  | nil => intro r h; exact h
  | cons line rest ih =>
    intro r h
    simp only [Reader.readLoop]
    split
    · have h1 := fixedWidthLoop_hash ops hp line.toList 0 ""
        { r with lineNum := r.lineNum + 1 } h
      simp only [Reader.processFixedWidthFile]
      split
      · rename_i r2 err hr2
        rw [hr2] at h1
        exact h1
      · rename_i r2 hr2
        rw [hr2] at h1
        exact ih _ h1
    · split
      · exact h
      · have hc := parseLine_control ops { r with lineNum := r.lineNum + 1, line := line }
        have h1 : ({ r with lineNum := r.lineNum + 1, line := line }.parseLine
            ops).1.File.Control.EntryHash < 10 ^ 10 := by
          rcases hc with e | e
          · rw [e]; exact h
          · rw [e]; exact hp _ _
        split
        · rename_i r2 err hr2
          rw [hr2] at h1
          exact h1
        · rename_i r2 hr2
          rw [hr2] at h1
          exact ih _ h1

/-- Whatever the lines, a new reader never returns a file control whose entry
hash has more than ten digits, when `FileControl.Parse` reads the hash from a
ten-digit field. -/
theorem read_hash (ops : RecordOps)
    (hp : ∀ fc record, (ops.fileControlParse fc record).EntryHash < 10 ^ 10)
    (lines : List String) :
    (Reader.Read ops NewReader lines).1.File.Control.EntryHash < 10 ^ 10 := by
  have h := readLoop_hash ops hp lines { NewReader with lineNum := 0 } (by decide)
  simp only [Reader.Read]
  split
  · rename_i r2 err hr2
    rw [hr2] at h
    exact h
  · rename_i r2 hr2
    rw [hr2] at h
    split
    · exact h
    · split
      · exact h
      · exact h


/-- C7 as stated fails: the file `sampleHash`, two batches of 51 entries to
the RDFI 99999999, comes out of `File.Create` and passes `File.Validate` with
the eleven-digit entry hash 10199999898 in its control. `FileControl.Parse`
reads the hash from a field of ten columns, and whatever the other record
methods are and whatever the bytes, the reader then returns a file control
whose entry hash is below 10^10: reading back what the writer wrote of
`sampleHash` does not yield its control. -/
theorem roundtrip_loses_entryHash :
    File.Create specOps (sampleFile [sampleHashBatch, sampleHashBatch]) = (sampleHash, none) ∧
    sampleHash.Validate specConverters = none ∧
    sampleHash.Control.EntryHash = 10199999898 ∧
    (∀ fc record, (specFileControlParse fc record).EntryHash < 10 ^ 10) ∧
    (∀ ops : RecordOps,
      (∀ fc record, (ops.fileControlParse fc record).EntryHash < 10 ^ 10) →
      ∀ w : Writer,
        (Reader.Read ops NewReader (scanLines w.bytes)).1.File.Control ≠ sampleHash.Control) := by
  have hh : sampleHash.Control.EntryHash = 10199999898 := by decide
  refine ⟨by rfl, by rfl, hh, specFileControlParse_entryHash, ?_⟩
  intro ops hp w e
  have hb := read_hash ops hp (scanLines w.bytes)
  rw [e, hh] at hb
  exact absurd hb (by norm_num)

/-! ## The dispatch of the reader -/

theorem andThen_ok (r : Reader) (f : Reader → Reader × Option GoError) :
    Reader.andThen (r, none) f = f r := rfl

theorem andThen_err (r : Reader) (err : GoError) (f : Reader → Reader × Option GoError) :
    Reader.andThen (r, some err) f = (r, some err) := rfl

/-- The loop of `processFixedWidthFile` is the dispatch of the records it
cuts. -/
theorem fixedWidthLoop_eq (ops : RecordOps) (cs : List Char) :
    ∀ (i : Nat) (record : String) (r : Reader),
      Reader.fixedWidthLoop ops cs i record r =
        Reader.parseRecords ops (fixedWidthRecords cs i record) r := by
  induction cs with
  | nil => intro i record r; rfl
  | cons ch rest ih =>
    intro i record r
    simp only [Reader.fixedWidthLoop, fixedWidthRecords]
    split
    · simp only [Reader.parseRecords]
      split
      · rename_i r2 err hr2
        rw [hr2]; rfl
      · rename_i r2 hr2
        rw [hr2, andThen_ok]
        exact ih _ _ _
    · exact ih _ _ _

theorem ascii_utf8Size (c : Char) (h : c.toNat < 128) : c.utf8Size = 1 := by
  have h1 : c.val.toNat < 128 := h
  simp only [Char.utf8Size]
  have : c.val ≤ 127 := by
    rw [UInt32.le_def]
    show c.val.toNat ≤ 127
    omega
  simp [this]

theorem ascii_byteSize (l : List Char) (h : ∀ c ∈ l, c.toNat < 128) :
    (String.mk l).utf8ByteSize = l.length := by
  induction l with
  | nil => rfl
  | cons c cs ih =>
    have e : (String.mk (c :: cs)).utf8ByteSize = (String.mk cs).utf8ByteSize + c.utf8Size := by
      simp [String.utf8ByteSize, String.utf8ByteSize.go]
    rw [e, ih (fun x hx => h x (List.mem_cons_of_mem _ hx)),
      ascii_utf8Size c (h c (List.mem_cons_self _ _))]
    simp

/-- One record of the loop: from a position where `acc` is gathered, the
characters that fill it up to 94 are cut off as one record. -/
theorem fixedWidthRecords_chunk (chunk : List Char) :
    ∀ (rest acc : List Char) (i : Nat), (∀ c ∈ chunk, c.toNat < 128) →
      i % 94 = acc.length → acc.length + chunk.length = 94 → chunk ≠ [] →
      fixedWidthRecords (chunk ++ rest) i (String.mk acc) =
        String.mk (acc ++ chunk) :: fixedWidthRecords rest (i + chunk.length) "" := by
  induction chunk with
  | nil => intro rest acc i _ _ _ h; exact absurd rfl h
  | cons c cs ih =>
    intro rest acc i ha hi hl _
    have hc : c.utf8Size = 1 := ascii_utf8Size c (ha c (List.mem_cons_self _ _))
    have e : String.mk acc ++ String.singleton c = String.mk (acc ++ [c]) := by
      apply String.ext; simp [String.singleton]
    simp only [List.cons_append, fixedWidthRecords, hc, e]
    simp only [List.length_cons] at hl
    by_cases hcs : cs = []
    · subst hcs
      simp only [List.length_nil] at hl
      have h1 : i > 0 ∧ (i + 1) % 94 = 0 := by omega
      rw [if_pos h1]
      simp
    · have hpos : 0 < cs.length := List.length_pos.mpr hcs
      have h1 : ¬ (i > 0 ∧ (i + 1) % 94 = 0) := by omega
      rw [if_neg h1]
      have h2 := ih rest (acc ++ [c]) (i + 1) (fun x hx => ha x (List.mem_cons_of_mem _ hx))
        (by simp; omega) (by simp; omega) hcs
      simp only [List.append_assoc, List.singleton_append] at h2
      show fixedWidthRecords (cs ++ rest) (i + 1) (String.mk (acc ++ [c])) = _
      rw [h2, List.length_cons]
      congr 2
      omega

/-- The records cut out of an ASCII line of 94 k characters are its k slices
of 94 characters. -/
theorem fixedWidthRecords_ascii (k : Nat) :
    ∀ (cs : List Char) (i : Nat), (∀ c ∈ cs, c.toNat < 128) → cs.length = 94 * k →
      i % 94 = 0 →
      fixedWidthRecords cs i "" =
        (List.range k).map (fun j => String.mk ((cs.drop (94 * j)).take 94)) := by
  induction k with
  | zero =>
    intro cs i _ hl _
    have : cs = [] := List.length_eq_zero.mp (by simpa using hl)
    subst this; rfl
  | succ k ih =>
    intro cs i ha hl hi
    have hsplit : cs = cs.take 94 ++ cs.drop 94 := (List.take_append_drop 94 cs).symm
    have htl : (cs.take 94).length = 94 := by simp [hl]
    have hne : cs.take 94 ≠ [] := by
      intro h; rw [h] at htl; simp at htl
    have h1 := fixedWidthRecords_chunk (cs.take 94) (cs.drop 94) [] i
      (fun c hc => ha c (List.mem_of_mem_take hc)) (by simpa using hi) (by simpa using htl) hne
    rw [← hsplit] at h1
    have e0 : String.mk [] = "" := rfl
    rw [e0] at h1
    rw [h1, List.range_succ_eq_map, List.map_cons, List.map_map]
    simp only [List.nil_append, Nat.mul_zero, List.drop_zero]
    congr 1
    rw [ih (cs.drop 94) (i + (cs.take 94).length)
      (fun c hc => ha c (List.mem_of_mem_drop hc)) (by simp [hl]; omega) (by omega)]
    apply List.map_congr_left
    intro j _
    simp only [Function.comp, List.drop_drop]
    congr 3
    omega

theorem andThen_pure (p : Reader × Option GoError) :
    Reader.andThen p (fun r => (r, none)) = p := by
  obtain ⟨r, e⟩ := p
  cases e <;> rfl

theorem parseBatchHeader_file (ops : RecordOps) (r : Reader) :
    (r.parseBatchHeader ops).1.File = r.File := by
  simp only [Reader.parseBatchHeader]
  repeat' split
  all_goals rfl

theorem parseIATBatchHeader_file (ops : RecordOps) (r : Reader) :
    (r.parseIATBatchHeader ops).1.File = r.File := by
  simp only [Reader.parseIATBatchHeader]
  repeat' split
  all_goals rfl

theorem parseEntryDetail_file (ops : RecordOps) (r : Reader) :
    (r.parseEntryDetail ops).1.File = r.File := by
  simp only [Reader.parseEntryDetail]
  repeat' split
  all_goals rfl

theorem parseIATEntryDetail_file (ops : RecordOps) (r : Reader) :
    (r.parseIATEntryDetail ops).1.File = r.File := by
  simp only [Reader.parseIATEntryDetail]
  repeat' split
  all_goals rfl

theorem addAddenda_file (ops : RecordOps) (r : Reader) (b : Batcher) (k : String) :
    (r.addAddenda ops b k).1.File = r.File := by
  simp only [Reader.addAddenda]
  repeat' split
  all_goals rfl

theorem parseAddenda_file (ops : RecordOps) (r : Reader) :
    (r.parseAddenda ops).1.File = r.File := by
  simp only [Reader.parseAddenda]
  repeat' split
  all_goals first | rfl | rw [addAddenda_file]

theorem setIATAddenda_file (ops : RecordOps) (r : Reader) (b : IATBatch) (k : String)
    (set : IATEntryDetail → Addendumer → IATEntryDetail) :
    (r.setIATAddenda ops b k set).1.File = r.File := by
  simp only [Reader.setIATAddenda]
  repeat' split
  all_goals rfl

theorem switchIATAddenda_file (ops : RecordOps) (r : Reader) (b : IATBatch) :
    (r.switchIATAddenda ops b).1.File = r.File := by
  simp only [Reader.switchIATAddenda, Reader.mandatoryOptionalIATAddenda,
    Reader.returnIATAddenda]
  repeat' split
  all_goals first | rfl | rw [setIATAddenda_file]

theorem parseIATAddenda_file (ops : RecordOps) (r : Reader) :
    (r.parseIATAddenda ops).1.File = r.File := by
  simp only [Reader.parseIATAddenda]
  split
  · rfl
  · split
    · rfl
    · split
      · have h := switchIATAddenda_file ops { r with recordName := "Addenda" } ‹IATBatch›
        split <;> simp_all
      · rfl

theorem parseBatchControl_file (ops : RecordOps) (r : Reader) :
    (r.parseBatchControl ops).1.File = r.File := by
  simp only [Reader.parseBatchControl]
  repeat' split
  all_goals rfl

theorem closeBatch_header (ops : RecordOps) (r : Reader) :
    (r.closeBatch ops).1.File.Header = r.File.Header := by
  simp only [Reader.closeBatch]
  repeat' split
  all_goals first | rfl | exact (addBatch_fields _ _).1

theorem parseFileControl_header (ops : RecordOps) (r : Reader) :
    (r.parseFileControl ops).1.File.Header = r.File.Header := by
  simp only [Reader.parseFileControl]
  repeat' split
  all_goals rfl

/-- A record that does not begin with "1" leaves the file header alone. -/
theorem parseLine_keeps_header (ops : RecordOps) (r : Reader)
    (h : slice r.line 0 1 ≠ fileHeaderPos) :
    (r.parseLine ops).1.File.Header = r.File.Header := by
  simp only [Reader.parseLine, Reader.parseBH, Reader.parseED, Reader.parseEDAddenda, if_neg h]
  repeat' split
  all_goals first
    | rfl
    | rw [parseIATBatchHeader_file]
    | rw [parseBatchHeader_file]
    | rw [parseIATEntryDetail_file]
    | rw [parseEntryDetail_file]
    | rw [parseAddenda_file]
    | rw [parseIATAddenda_file]
    | rw [parseFileControl_header]
    | (have h := parseBatchControl_file ops r
       simp_all [closeBatch_header])

/-- A record that does not begin with "9", or that begins with "99", leaves
the file control alone. -/
theorem parseLine_keeps_control (ops : RecordOps) (r : Reader)
    (h : slice r.line 0 1 = fileControlPos → slice r.line 0 2 = "99") :
    (r.parseLine ops).1.File.Control = r.File.Control := by
  simp only [Reader.parseLine, Reader.parseBH, Reader.parseED, Reader.parseEDAddenda]
  repeat' split
  all_goals first
    | rfl
    | rw [parseFileHeader_control]
    | rw [parseIATBatchHeader_control]
    | rw [parseBatchHeader_control]
    | rw [parseIATEntryDetail_control]
    | rw [parseEntryDetail_control]
    | rw [parseAddenda_control]
    | rw [parseIATAddenda_control]
    | (have h := parseBatchControl_control ops r
       simp_all [closeBatch_control])

/-- What every record of a list leaves alone, the dispatch of the list leaves
alone. -/
theorem parseRecords_frame {α : Type} (ops : RecordOps) (π : File → α) (keep : String → Prop)
    (H : ∀ r : Reader, keep r.line → π (r.parseLine ops).1.File = π r.File)
    (records : List String) : ∀ r : Reader, (∀ s ∈ records, keep s) →
      π (Reader.parseRecords ops records r).1.File = π r.File := by
  induction records with
  | nil => intro r _; rfl
  | cons s rest ih =>
    intro r hk
    simp only [Reader.parseRecords]
    have h1 := H { r with line := s } (hk s (List.mem_cons_self _ _))
    generalize Reader.parseLine ops { r with line := s } = p at h1
    obtain ⟨r1, e⟩ := p
    cases e with
    | none =>
      rw [andThen_ok, ih r1 (fun x hx => hk x (List.mem_cons_of_mem _ hx))]
      exact h1
    | some err => exact h1

/-- The loop of `Reader.Read` after the first line: what every line leaves
alone, the loop leaves alone. -/
theorem readLoop_frame_later {α : Type} (ops : RecordOps) (π : File → α)
    (keep : String → Prop)
    (H : ∀ r : Reader, keep r.line → π (r.parseLine ops).1.File = π r.File)
    (lines : List String) : ∀ r : Reader, 1 ≤ r.lineNum → (∀ s ∈ lines, keep s) →
      π (Reader.readLoop ops lines r).1.File = π r.File := by
  induction lines with
  | nil => intro r _ _; rfl
  | cons line rest ih =>
    intro r hn hk
    simp only [Reader.readLoop]
    rw [if_neg (fun h => by have := h.1; omega)]
    split
    · rfl
    · have h1 := H { r with lineNum := r.lineNum + 1, line := line }
        (hk line (List.mem_cons_self _ _))
      have h2 := parseLine_lineNum ops { r with lineNum := r.lineNum + 1, line := line }
      generalize Reader.parseLine ops { r with lineNum := r.lineNum + 1, line := line } = p
        at h1 h2
      obtain ⟨r1, e⟩ := p
      cases e with
      | none =>
        simp only at h1 h2 ⊢
        rw [ih r1 (by rw [h2]; omega) (fun x hx => hk x (List.mem_cons_of_mem _ hx))]
        exact h1
      | some err => exact h1

/-- The loop of `Reader.Read` from the first line on: what every record of the
input leaves alone, the loop leaves alone. -/
theorem readLoop_frame {α : Type} (ops : RecordOps) (π : File → α) (keep : String → Prop)
    (H : ∀ r : Reader, keep r.line → π (r.parseLine ops).1.File = π r.File)
    (lines : List String) (r : Reader) (hn : r.lineNum = 0)
    (hk : ∀ s ∈ inputRecords lines, keep s) :
    π (Reader.readLoop ops lines r).1.File = π r.File := by
  cases lines with
  | nil => rfl
  | cons line rest =>
    simp only [inputRecords] at hk
    have hrest : ∀ s ∈ rest, keep s := fun s hs => hk s (List.mem_append_right _ hs)
    simp only [Reader.readLoop]
    split
    · rename_i hc
      rw [if_pos hc.2] at hk
      simp only [Reader.processFixedWidthFile]
      rw [fixedWidthLoop_eq]
      have h1 := parseRecords_frame ops π keep H (fixedWidthRecords line.toList 0 "")
        { r with lineNum := r.lineNum + 1 } (fun s hs => hk s (List.mem_append_left _ hs))
      have h2 := fixedWidthLoop_lineNum ops line.toList 0 "" { r with lineNum := r.lineNum + 1 }
      rw [fixedWidthLoop_eq] at h2
      generalize Reader.parseRecords ops (fixedWidthRecords line.toList 0 "")
        { r with lineNum := r.lineNum + 1 } = p at h1 h2
      obtain ⟨r1, e⟩ := p
      cases e with
      | none =>
        simp only at h1 h2 ⊢
        rw [readLoop_frame_later ops π keep H rest r1 (by rw [h2, hn]; rfl) hrest]
        exact h1
      | some err => exact h1
    · rename_i hc
      split
      · rfl
      · rename_i hlen
        have hlen1 : ((line.utf8ByteSize : Nat) : Int) = RecordLength := not_not.mp hlen
        have hmem : keep line := by
          apply hk
          rw [if_neg (fun h => by have := h.1; omega)]
          simp
        have h1 := H { r with lineNum := r.lineNum + 1, line := line } hmem
        have h2 := parseLine_lineNum ops { r with lineNum := r.lineNum + 1, line := line }
        generalize Reader.parseLine ops { r with lineNum := r.lineNum + 1, line := line } = p
          at h1 h2
        obtain ⟨r1, e⟩ := p
        cases e with
        | none =>
          simp only at h1 h2 ⊢
          rw [readLoop_frame_later ops π keep H rest r1 (by rw [h2, hn]; rfl) hrest]
          exact h1
        | some err => exact h1

/-- C13: `Reader.Read` returns an error when no record of the input begins
with "1" (no file header), when every record that begins with "9" begins with
"99" (no file control), and when, after lines read without error that left a
file control, a line of 94 bytes follows that begins with "9" but not with
"99": that line is refused with the file-control error. -/
theorem read_requires_header_and_control (ops : RecordOps) (lines : List String) :
    ((∀ s ∈ inputRecords lines, slice s 0 1 ≠ fileHeaderPos) →
      ∃ r err, Reader.Read ops NewReader lines = (r, some err)) ∧
    ((∀ s ∈ inputRecords lines, slice s 0 1 = fileControlPos → slice s 0 2 = "99") →
      ∃ r err, Reader.Read ops NewReader lines = (r, some err)) ∧
    (∀ (pre rest : List String) (line : String) (r1 : Reader),
      lines = pre ++ line :: rest →
      Reader.readLoop ops pre { NewReader with lineNum := 0 } = (r1, none) →
      FileControl.zero ≠ r1.File.Control →
      line.utf8ByteSize = 94 → slice line 0 1 = fileControlPos → slice line 0 2 ≠ "99" →
      Reader.Read ops NewReader lines =
        ({ r1 with lineNum := r1.lineNum + 1, line := line, recordName := "FileControl" },
          some (Reader.error
            { r1 with lineNum := r1.lineNum + 1, line := line, recordName := "FileControl" }
            (errors.File "" "" msgFileControl)))) := by
  refine ⟨?_, ?_, ?_⟩
  · intro hk
    have h := readLoop_frame ops (fun f => f.Header) (fun s => slice s 0 1 ≠ fileHeaderPos)
      (fun r hr => parseLine_keeps_header ops r hr) lines { NewReader with lineNum := 0 } rfl hk
    simp only [Reader.Read]
    generalize Reader.readLoop ops lines { NewReader with lineNum := 0 } = p at h
    obtain ⟨r1, e⟩ := p
    cases e with
    | some err => exact ⟨_, _, rfl⟩
    | none =>
      simp only at h ⊢
      have hz : FileHeader.zero = r1.File.Header := by rw [h]; rfl
      rw [if_pos hz]
      exact ⟨_, _, rfl⟩
  · intro hk
    have h := readLoop_frame ops (fun f => f.Control)
      (fun s => slice s 0 1 = fileControlPos → slice s 0 2 = "99")
      (fun r hr => parseLine_keeps_control ops r hr) lines { NewReader with lineNum := 0 } rfl hk
    simp only [Reader.Read]
    generalize Reader.readLoop ops lines { NewReader with lineNum := 0 } = p at h
    obtain ⟨r1, e⟩ := p
    cases e with
    | some err => exact ⟨_, _, rfl⟩
    | none =>
      simp only at h ⊢
      have hz : FileControl.zero = r1.File.Control := by rw [h]; rfl
      split
      · exact ⟨_, _, rfl⟩
      · exact ⟨_, _, rfl⟩
  · intro pre rest line r1 hl hpre hc h94 h9 h99
    subst hl
    simp only [Reader.Read]
    rw [readLoop_append, hpre]
    simp only [Reader.readLoop]
    have h1 : ¬ (r1.lineNum + 1 = 1 ∧ ((line.utf8ByteSize : Nat) : Int) > RecordLength ∧
        Int.tmod ((line.utf8ByteSize : Nat) : Int) RecordLength = 0) := by
      rw [h94]; intro ⟨_, h2, _⟩; simp [RecordLength] at h2
    have h2 : ¬ (((line.utf8ByteSize : Nat) : Int) ≠ RecordLength) := by
      rw [h94]; simp [RecordLength]
    rw [if_neg h1, if_neg h2]
    rw [parseLine_fileControl ops _ h9]
    simp only
    rw [if_neg h99]
    simp only [Reader.parseFileControl]
    rw [if_pos hc]

set_option maxRecDepth 100000 in
/-- C12 fails on the code: `parseFileHeader` builds the file-header error for
a second header but does not return it. A line that begins with "1", read when
a header is present, is parsed over that header, and it is accepted whenever
the header it parses to validates: the first header is overwritten and no
error is returned. On `sampleTwoHeaders`, `Reader.Read` returns no error and
the file carries the second header. -/
theorem second_file_header_accepted :
    (∀ (ops : RecordOps) (r : Reader), FileHeader.zero ≠ r.File.Header →
      slice r.line 0 1 = fileHeaderPos →
      ops.fileHeaderValidate (ops.fileHeaderParse r.File.Header r.line) = none →
      r.parseLine ops =
        ({ r with
            recordName := "FileHeader"
            File := { r.File with Header := ops.fileHeaderParse r.File.Header r.line } },
          none)) ∧
    (Reader.Read specOps NewReader sampleTwoHeaders).2 = none ∧
    (Reader.Read specOps NewReader sampleTwoHeaders).1.File.Header = sampleSecondHeader ∧
    sampleSecondHeader ≠ sampleFileHeader := by
  refine ⟨?_, isNone_eq _ (by decide), by decide, by decide⟩
  intro ops r _ h1 hv
  rw [parseLine_header ops r h1]
  simp only [Reader.parseFileHeader]
  rw [hv]

/-- C14: with no batch open, neither an ordinary one nor an IAT one, a line
that begins with "6" makes `parseLine` fail with the file error "outside of
current batch", wrapped with the line number and the record name EntryDetail;
the reader is left as it was but for the record name, so no entry is added to
any batch. -/
theorem entry_outside_batch (ops : RecordOps) (r : Reader) (h1 : r.currentBatch = none)
    (h2 : r.IATCurrentBatch = none) (h6 : slice r.line 0 1 = entryDetailPos) :
    r.parseLine ops =
      ({ r with recordName := "EntryDetail" },
        some (Reader.error { r with recordName := "EntryDetail" }
          (errors.File "" "" msgFileBatchOutside))) := by
  rw [parseLine_entry ops r h6]
  simp only [Reader.parseED, Reader.parseIATEntryDetail, Reader.parseEntryDetail, h1, h2]
  split <;> rfl

set_option maxRecDepth 100000 in
/-- C14 at a new reader that holds the entry line of `samplePPD`. -/
theorem entry_outside_batch_witness :
    Reader.parseLine specOps { NewReader with line := (samplePPD.records specOps).getD 2 "" } =
      ({ NewReader with line := (samplePPD.records specOps).getD 2 "", recordName := "EntryDetail" },
        some (Reader.error
          { NewReader with
            line := (samplePPD.records specOps).getD 2 ""
            recordName := "EntryDetail" }
          (errors.File "" "" msgFileBatchOutside))) :=
  entry_outside_batch specOps { NewReader with line := (samplePPD.records specOps).getD 2 "" }
    rfl rfl (by decide)

set_option maxRecDepth 100000 in
/-- C15 fails on the code: each of the two batch-header parsers looks at the
open batch of its own kind only. With an ordinary batch open and no IAT batch,
a line that begins with "5" and carries "IAT" in columns 51 to 53 opens an IAT
batch next to it without error whenever its header validates; with an IAT
batch open and no ordinary batch, an ordinary batch header that validates and
has a batch type opens an ordinary batch next to it. On `sampleNested` the
loop of `Reader.Read` ends without error with both batches open. -/
theorem batch_header_inside_other_kind :
    (∀ (ops : RecordOps) (r : Reader) (b : Batcher), r.currentBatch = some b →
      r.IATCurrentBatch = none → slice r.line 0 1 = batchHeaderPos →
      slice r.line 50 53 = "IAT" →
      ops.iatBatchHeaderValidate (ops.iatBatchHeaderParse r.line) = none →
      r.parseLine ops =
        ({ r with
            recordName := "BatchHeader"
            IATCurrentBatch := some (ops.NewIATBatch (ops.iatBatchHeaderParse r.line)) },
          none)) ∧
    (∀ (ops : RecordOps) (r : Reader) (ib : IATBatch) (b : Batcher), r.currentBatch = none →
      r.IATCurrentBatch = some ib → slice r.line 0 1 = batchHeaderPos →
      slice r.line 50 53 ≠ "IAT" →
      ops.batchHeaderValidate (ops.batchHeaderParse r.line) = none →
      ops.NewBatch (ops.batchHeaderParse r.line) = .ok b →
      r.parseLine ops = ({ r with recordName := "BatchHeader", currentBatch := some b }, none)) ∧
    (Reader.readLoop specOps sampleNested { NewReader with lineNum := 0 }).2 = none ∧
    (Reader.readLoop specOps sampleNested
      { NewReader with lineNum := 0 }).1.currentBatch.isSome = true ∧
    (Reader.readLoop specOps sampleNested
      { NewReader with lineNum := 0 }).1.IATCurrentBatch.isSome = true := by
  refine ⟨?_, ?_, isNone_eq _ (by decide), by decide, by decide⟩
  · intro ops r b h1 h2 h5 hi hv
    rw [parseLine_batchHeader ops r h5]
    simp only [Reader.parseBH, if_pos hi, Reader.parseIATBatchHeader, h2, hv]
    simp
  · intro ops r ib b h1 h2 h5 hi hv hn
    rw [parseLine_batchHeader ops r h5]
    simp only [Reader.parseBH, if_neg hi, Reader.parseBatchHeader, h1, hv, hn]
    simp

/-- C16: a line that begins with "8", processed while the ordinary batch `b`
is open, is parsed into the control of `b`. When that control validates and
the batch validates, the batch is appended as the last element of
`File.Batches`, no ordinary batch remains open and no error is returned. When
the control validates and the batch does not, an error is returned and
`File.Batches` is unchanged. With no batch open, ordinary or IAT, the line
fails with the file error "outside of current batch". -/
theorem batch_control_closes_batch (ops : RecordOps) (r : Reader)
    (h8 : slice r.line 0 1 = batchControlPos) :
    (∀ b : Batcher, r.currentBatch = some b →
      ops.batchControlValidate (ops.batchControlParse b.Control r.line) = none →
      ops.batcherValidate { b with Control := ops.batchControlParse b.Control r.line } = none →
      (r.parseLine ops).2 = none ∧
      (r.parseLine ops).1.File.Batches =
        r.File.Batches ++ [{ b with Control := ops.batchControlParse b.Control r.line }] ∧
      (r.parseLine ops).1.currentBatch = none) ∧
    (∀ (b : Batcher) (err : GoError), r.currentBatch = some b →
      ops.batchControlValidate (ops.batchControlParse b.Control r.line) = none →
      ops.batcherValidate { b with Control := ops.batchControlParse b.Control r.line } =
        some err →
      (r.parseLine ops).2 =
        some (Reader.error
          { r with
            recordName := "Batches"
            currentBatch := some { b with Control := ops.batchControlParse b.Control r.line } }
          err) ∧
      (r.parseLine ops).1.File.Batches = r.File.Batches) ∧
    (r.currentBatch = none → r.IATCurrentBatch = none →
      r.parseLine ops =
        ({ r with recordName := "BatchControl" },
          some (Reader.error { r with recordName := "BatchControl" }
            (errors.File "" "" msgFileBatchOutside)))) := by
  refine ⟨?_, ?_, ?_⟩
  · intro b hb hc hv
    have hp : r.parseBatchControl ops =
        ({ r with
            recordName := "BatchControl"
            currentBatch := some { b with Control := ops.batchControlParse b.Control r.line } },
          none) := by
      simp only [Reader.parseBatchControl, hb, hc]
    rw [parseLine_batchControl ops r _ h8 hp]
    simp only [Reader.closeBatch, hv]
    refine ⟨trivial, ?_, trivial⟩
    simp [File.AddBatch]
    repeat' split
    all_goals rfl
  · intro b err hb hc hv
    have hp : r.parseBatchControl ops =
        ({ r with
            recordName := "BatchControl"
            currentBatch := some { b with Control := ops.batchControlParse b.Control r.line } },
          none) := by
      simp only [Reader.parseBatchControl, hb, hc]
    rw [parseLine_batchControl ops r _ h8 hp]
    simp only [Reader.closeBatch, hv]
    exact ⟨trivial, trivial⟩
  · intro h1 h2
    simp [Reader.parseLine, h8, fileHeaderPos, batchHeaderPos, entryDetailPos, entryAddendaPos,
      batchControlPos, Reader.parseBatchControl, h1, h2]

set_option maxRecDepth 100000 in
/-- C16 at the reader `sampleOpen`, which holds the batch control line of
`samplePPD` with the batch open: the batch is closed and appended. -/
theorem batch_control_closes_batch_witness :
    (Reader.parseLine specOps sampleOpen).2 = none ∧
    (Reader.parseLine specOps sampleOpen).1.File.Batches = samplePPD.Batches ∧
    (Reader.parseLine specOps sampleOpen).1.currentBatch = none := by
  have h := (batch_control_closes_batch specOps sampleOpen (by decide)).1
    (sampleOpen.currentBatch.getD default) (by decide) (isNone_eq _ (by decide))
    (isNone_eq _ (by decide))
  refine ⟨h.1, ?_, h.2.2⟩
  rw [h.2.1]
  decide

set_option maxRecDepth 100000 in
/-- C13 at the lines of `samplePPD`: without the first line there is no file
header, without the last no file control, and with the last line repeated
there is a second file control. -/
theorem read_requires_header_and_control_witness :
    (∃ r err, Reader.Read specOps NewReader (samplePPD.records specOps).tail = (r, some err)) ∧
    (∃ r err, Reader.Read specOps NewReader (samplePPD.records specOps).dropLast =
      (r, some err)) ∧
    (∃ r, Reader.Read specOps NewReader
        (samplePPD.records specOps ++ [(samplePPD.records specOps).getD 5 ""]) =
      (r, some (Reader.error r (errors.File "" "" msgFileControl)))) :=
  ⟨(read_requires_header_and_control specOps (samplePPD.records specOps).tail).1 (by decide),
   (read_requires_header_and_control specOps (samplePPD.records specOps).dropLast).2.1
      (by decide),
   ⟨_, (read_requires_header_and_control specOps
      (samplePPD.records specOps ++ [(samplePPD.records specOps).getD 5 ""])).2.2
      (samplePPD.records specOps) [] ((samplePPD.records specOps).getD 5 "")
      (Reader.readLoop specOps (samplePPD.records specOps) { NewReader with lineNum := 0 }).1
      rfl (Prod.ext rfl (isNone_eq _ (by decide))) (by decide) (by decide) (by decide)
      (by decide)⟩⟩

/-! ## `lineCount` -/

theorem lineCountEntry_add (lines : Int) (e : EntryDetail) :
    lineCountEntry lines e = lines + lineCountEntry 0 e := by
  simp only [lineCountEntry]
  split_ifs <;> ring

theorem lineCountEntry_pos (e : EntryDetail) : 1 ≤ lineCountEntry 0 e := by
  simp only [lineCountEntry]
  split_ifs <;> omega

theorem ite_succ (c : Prop) [Decidable c] (n : Int) :
    (if c then n + 1 else n) = n + (if c then 1 else 0) := by
  split_ifs <;> simp

theorem ite_one_nonneg (c : Prop) [Decidable c] : (0 : Int) ≤ (if c then 1 else 0) := by
  split_ifs <;> simp

theorem lineCountIATEntry_add (lines : Int) (e : IATEntryDetail) :
    lineCountIATEntry lines e = lines + lineCountIATEntry 0 e := by
  simp only [lineCountIATEntry, ite_succ]
  ring

theorem lineCountIATEntry_pos (e : IATEntryDetail) :
    1 ≤ lineCountIATEntry 0 e := by
  simp only [lineCountIATEntry, ite_succ]
  have h0 := ite_one_nonneg (e.Addenda10 ≠ none)
  have h1 := ite_one_nonneg (e.Addenda11 ≠ none)
  have h2 := ite_one_nonneg (e.Addenda12 ≠ none)
  have h3 := ite_one_nonneg (e.Addenda13 ≠ none)
  have h4 := ite_one_nonneg (e.Addenda14 ≠ none)
  have h5 := ite_one_nonneg (e.Addenda15 ≠ none)
  have h6 := ite_one_nonneg (e.Addenda16 ≠ none)
  have h7 := ite_one_nonneg (e.Addenda98 ≠ none)
  have h8 := ite_one_nonneg (e.Addenda99 ≠ none)
  have h9 : (0 : Int) ≤ (e.Addenda17.length : Int) := Int.natCast_nonneg _
  have h10 : (0 : Int) ≤ (e.Addenda18.length : Int) := Int.natCast_nonneg _
  linarith

/-- A loop that adds a number to its counter for each element adds their
sum. -/
theorem foldl_add_fun {α : Type} (g : Int → α → Int) (h : ∀ n a, g n a = n + g 0 a)
    (l : List α) : ∀ acc : Int, l.foldl g acc = acc + (l.map (g 0)).sum := by
  induction l with
  | nil => intro acc; simp
  | cons a l ih =>
    intro acc
    simp only [List.foldl_cons, List.map_cons, List.sum_cons]
    rw [ih, h acc a]
    ring

theorem batch_fold (n : Int) (b : Batcher) :
    b.Entries.foldl lineCountEntry (n + 2) = n + batchLines b := by
  rw [foldl_add_fun _ lineCountEntry_add, batchLines]
  ring

theorem iatBatch_fold (n : Int) (b : IATBatch) :
    b.Entries.foldl lineCountIATEntry (n + 2) = n + iatBatchLines b := by
  rw [foldl_add_fun _ (lineCountIATEntry_add), iatBatchLines]
  ring

/-- The line count is two lines for the file, and the lines of its batches and
IAT batches. -/
theorem lineCount_eq (f : File) :
    (lineCount f).1 =
      2 + (f.Batches.map batchLines).sum + (f.IATBatches.map iatBatchLines).sum := by
  have e1 : (fun (lines : Int) (batch : Batcher) =>
      batch.Entries.foldl lineCountEntry (lines + 2)) = fun lines batch =>
        lines + batchLines batch := by
    funext n b; exact batch_fold n b
  have e2 : (fun (lines : Int) (iatBatch : IATBatch) =>
      iatBatch.Entries.foldl lineCountIATEntry (lines + 2)) = fun lines batch =>
        lines + iatBatchLines batch := by
    funext n b; exact iatBatch_fold n b
  simp only [lineCount, e1, e2]
  rw [foldl_add_fun (fun (lines : Int) (batch : IATBatch) => lines + iatBatchLines batch)
      (fun n a => by ring),
    foldl_add_fun (fun (lines : Int) (batch : Batcher) => lines + batchLines batch)
      (fun n a => by ring)]
  simp

theorem sum_nonneg_of {α : Type} (g : α → Int) (h : ∀ a, 0 ≤ g a) (l : List α) :
    0 ≤ (l.map g).sum := by
  induction l with
  | nil => simp
  | cons a l ih =>
    simp only [List.map_cons, List.sum_cons]
    have := h a
    omega

theorem batchLines_pos (b : Batcher) : 2 ≤ batchLines b := by
  have := sum_nonneg_of (lineCountEntry 0)
    (fun e => by have := lineCountEntry_pos e; omega) b.Entries
  simp only [batchLines]; omega

theorem iatBatchLines_pos (b : IATBatch) : 2 ≤ iatBatchLines b := by
  have := sum_nonneg_of (lineCountIATEntry 0)
    (fun e => by have := lineCountIATEntry_pos e; omega) b.Entries
  simp only [iatBatchLines]; omega

theorem lineCount_ge (f : File) : 2 ≤ (lineCount f).1 := by
  rw [lineCount_eq]
  have h1 := sum_nonneg_of batchLines (fun b => by have := batchLines_pos b; omega) f.Batches
  have h2 := sum_nonneg_of iatBatchLines
    (fun b => by have := iatBatchLines_pos b; omega) f.IATBatches
  omega

theorem lineCount_snd (f : File) : (lineCount f).2 = none := rfl

/-! ## `MergeFiles` on values -/

theorem map_update_of_not_mem (h : Nat → File) (a : Nat) (v : File) (l : List Nat)
    (hn : a ∉ l) : l.map (Function.update h a v) = l.map h := by
  apply List.map_congr_left
  intro x hx
  rw [Function.update_noteq]
  rintro rfl
  exact hn hx

theorem agree_ok {α β : Type} (P : α → β → Prop) (a : α) (b : β) (h : P a b) :
    agree P (.ok a) (.ok b) := h

theorem agree_error {α β : Type} (P : α → β → Prop) (e : MergeStop) :
    agree P (.error e : Except MergeStop α) (.error e : Except MergeStop β) := by
  cases e <;> simp [agree]

/-- The search of `lookupByHeader` among the addresses is the search among the
files they point to. -/
theorem find_splitAtKey (heap : Nat → File) (h : FileHeader) (A : List Nat) :
    (A.find? (fun a => sameKey (heap a).Header h) = none →
      splitAtKey h (A.map heap) = none) ∧
    (∀ a, A.find? (fun a => sameKey (heap a).Header h) = some a →
      ∃ A1 A2, A = A1 ++ a :: A2 ∧
        splitAtKey h (A.map heap) = some (A1.map heap, heap a, A2.map heap)) := by
  induction A with
  | nil => simp [splitAtKey]
  | cons x xs ih =>
    by_cases hx : sameKey (heap x).Header h = true
    · constructor
      · intro hf; simp [List.find?, hx] at hf
      · intro a hf
        simp [List.find?, hx] at hf
        subst hf
        exact ⟨[], xs, rfl, by simp [splitAtKey, hx]⟩
    · constructor
      · intro hf
        simp only [List.find?, hx] at hf
        simp only [List.map_cons, splitAtKey, hx]
        rw [ih.1 hf]
        simp
      · intro a hf
        simp only [List.find?, hx] at hf
        obtain ⟨A1, A2, e1, e2⟩ := ih.2 a hf
        refine ⟨x :: A1, A2, by rw [e1]; rfl, ?_⟩
        simp only [List.map_cons, splitAtKey, hx]
        rw [e2]
        simp

/-- The store after `outf` is overwritten: the view changes in `cur` only. -/
theorem of_update (files : List File) (k : Nat) (fs : mergableFiles) (outf : Nat)
    (z : MergeView) (v : File) (hwf : fs.wellFormed files k) (hk : k < files.length)
    (hv : z.of fs outf) :
    MergeView.of { fs with heap := Function.update fs.heap outf v } outf { z with cur := v } ∧
    mergableFiles.wellFormed files k { fs with heap := Function.update fs.heap outf v } ∧
    Function.update fs.heap outf v k = fs.heap k := by
  obtain ⟨A1, A2, hA, hbef, hcur, haft, hloc, hclk⟩ := hv
  have hmem : outf ∈ fs.outfiles := by rw [hA]; simp
  have hnd := hwf.nodup
  rw [hA] at hnd
  have hn1 : outf ∉ A1 := by
    intro h
    exact (List.nodup_append.mp hnd).2.2 h (List.mem_cons_self _ _)
  have hn2 : outf ∉ A2 := (List.nodup_cons.mp (List.nodup_append.mp hnd).2.1).1
  have hfr : ∀ i, k ≤ i → i < files.length → i ≠ outf := by
    intro i h1 h2 e
    exact (hwf.fresh i h1 h2).2 (e ▸ hmem)
  refine ⟨⟨A1, A2, hA, ?_, ?_, ?_, hloc, hclk⟩, ⟨hwf.nodup, hwf.bound, hwf.len, ?_⟩, ?_⟩
  · simp only [map_update_of_not_mem _ _ _ _ hn1]; exact hbef
  · simp
  · simp only [map_update_of_not_mem _ _ _ _ hn2]; exact haft
  · intro i h1 h2
    refine ⟨?_, (hwf.fresh i h1 h2).2⟩
    simp only [Function.update_noteq (hfr i h1 h2)]
    exact (hwf.fresh i h1 h2).1
  · exact Function.update_noteq (hfr k le_rfl hk) _ _

/-- The over-limit branch on the store does what `MergeView.split` does on the
values, when `outf` is not the input file. -/
theorem mergeOverLimit_view (rops : RecordOps) (m : MergeOps) (files : List File) (k j : Nat)
    (b : Batcher) (fs : mergableFiles) (outf : Nat) (z : MergeView)
    (hwf : fs.wellFormed files k) (hk : k < files.length) (hv : z.of fs outf)
    (hb : (fs.heap k).Batches[j]? = some b) :
    agree (fun st z1 => MergeView.of st.1 st.2 z1 ∧ st.1.wellFormed files k ∧
        st.1.heap k = fs.heap k)
      (mergeOverLimit rops m k j (fs, outf)) (z.split rops m b) := by
  obtain ⟨A1, A2, hA, hbef, hcur, haft, hloc, hclk⟩ := hv
  have hko : k ∉ fs.outfiles := (hwf.fresh k le_rfl hk).2
  have hmem : outf ∈ fs.outfiles := by rw [hA]; simp
  have hok : k ≠ outf := fun h => hko (h ▸ hmem)
  have hnk : k ≠ fs.next := by have := hwf.len; omega
  have hno : outf ≠ fs.next := by have := hwf.bound outf hmem; omega
  simp only [mergeOverLimit, MergeView.split, hb, mergableFiles.create, Function.update_same,
    Function.update_noteq hok, Function.update_noteq hnk, Function.update_noteq hno,
    ← hcur, ← hclk]
  generalize File.Create rops (m.RemoveBatch z.cur b) = r2
  obtain ⟨g2, e2⟩ := r2
  cases e2 with
  | some err => exact agree_error _ _
  | none =>
    simp only
    generalize File.Create rops ((File.Create rops (NewFile { g2.Header with
      FileCreationDate := m.nowDate z.clock
      FileCreationTime := m.nowTime z.clock })).1.AddBatch b) = r3
    generalize (File.Create rops (NewFile { g2.Header with
      FileCreationDate := m.nowDate z.clock
      FileCreationTime := m.nowTime z.clock })).1 = out
    obtain ⟨g3, e3⟩ := r3
    cases e3 with
    | some err => exact agree_error _ _
    | none =>
      simp only [agree, Function.update_idem]
      have hnd := hwf.nodup
      have hnd0 := hnd
      rw [hA] at hnd
      have hn1 : outf ∉ A1 := by
        intro h
        exact (List.nodup_append.mp hnd).2.2 h (List.mem_cons_self _ _)
      have hn2 : outf ∉ A2 := (List.nodup_cons.mp (List.nodup_append.mp hnd).2.1).1
      have hsub : ∀ a ∈ List.eraseP
          (fun a => sameKey (Function.update fs.heap outf g2 a).Header g2.Header) fs.outfiles,
          a ∈ fs.outfiles := fun a ha => List.mem_of_mem_eraseP ha
      have hnext : fs.next ∉ List.eraseP
          (fun a => sameKey (Function.update fs.heap outf g2 a).Header g2.Header)
          fs.outfiles := by
        intro h
        have := hwf.bound _ (hsub _ h)
        omega
      refine ⟨⟨_, [], rfl, ?_, ?_, rfl, ?_, rfl⟩, ⟨?_, ?_, ?_, ?_⟩, ?_⟩
      · rw [map_update_of_not_mem _ _ _ _ hnext]
        have e : (fun a => sameKey (Function.update fs.heap outf g2 a).Header g2.Header) =
            (fun g : File => sameKey g.Header g2.Header) ∘ Function.update fs.heap outf g2 := rfl
        rw [e, ← List.eraseP_map, hA, List.map_append, List.map_cons,
          map_update_of_not_mem _ _ _ _ hn1, map_update_of_not_mem _ _ _ _ hn2,
          Function.update_same, hbef, haft]
      · simp
      · simp [hloc]
      · refine List.nodup_append.mpr ⟨hnd0.eraseP _, List.nodup_singleton _, ?_⟩
        intro a ha hb
        rw [List.mem_singleton] at hb
        exact hnext (hb ▸ ha)
      · intro a ha
        rcases List.mem_append.mp ha with h | h
        · have := hwf.bound _ (hsub _ h)
          show a < fs.next + 1
          omega
        · rw [List.mem_singleton] at h
          show a < fs.next + 1
          omega
      · have := hwf.len
        show files.length ≤ fs.next + 1
        omega
      · intro i h1 h2
        have hi := hwf.fresh i h1 h2
        have hio : i ≠ outf := fun e => hi.2 (e ▸ hmem)
        have hin : i ≠ fs.next := by have := hwf.len; omega
        refine ⟨?_, ?_⟩
        · simp only [Function.update_noteq hin, Function.update_noteq hio]
          exact hi.1
        · intro h
          rcases List.mem_append.mp h with h | h
          · exact hi.2 (hsub _ h)
          · rw [List.mem_singleton] at h
            exact hin h
      · simp only [Function.update_noteq hnk, Function.update_noteq hok]

theorem agree_mono {α β : Type} (P Q : α → β → Prop) (h : ∀ a b, P a b → Q a b)
    (x : Except MergeStop α) (y : Except MergeStop β) (hx : agree P x y) : agree Q x y := by
  cases x with
  | ok a =>
    cases y with
    | ok b => exact h a b hx
    | error e => exact hx
  | error e =>
    cases y with
    | ok b => cases e <;> exact hx
    | error e' => cases e <;> cases e' <;> exact hx

/-- One batch: the loop body of `MergeFiles` on the store does what
`MergeView.step` does on the values, when `outf` is not the input file. -/
theorem mergeBatch_view (rops : RecordOps) (m : MergeOps) (files : List File) (k j : Nat)
    (b : Batcher) (fs : mergableFiles) (outf : Nat) (z : MergeView)
    (hwf : fs.wellFormed files k) (hk : k < files.length) (hv : z.of fs outf)
    (hb : (fs.heap k).Batches[j]? = some b) :
    agree (fun st z1 => MergeView.of st.1 st.2 z1 ∧ st.1.wellFormed files k ∧
        st.1.heap k = fs.heap k)
      (mergeBatch rops m k j (fs, outf)) (z.step rops m b) := by
  have hcur : z.cur = fs.heap outf := by
    obtain ⟨A1, A2, hA, hbef, hcur, haft, hloc, hclk⟩ := hv
    exact hcur
  simp only [mergeBatch, MergeView.step, hb, ← hcur, lineCount_snd, Option.isSome_none,
    Function.update_same]
  by_cases hany : (z.cur.Batches.any fun o => m.Equal b o) = true
  · simp only [hany, if_true]
    exact ⟨hv, hwf, rfl⟩
  · simp only [hany]
    have hu := of_update files k fs outf z (File.Create rops (z.cur.AddBatch b)).1 hwf hk hv
    generalize File.Create rops (z.cur.AddBatch b) = r at hu
    obtain ⟨g1, e1⟩ := r
    cases e1 with
    | some err => exact agree_error _ _
    | none =>
      have hge := lineCount_ge g1
      have h0 : ¬ ((lineCount g1).1 = 0 ∨ false = true) := by
        intro h
        rcases h with h | h
        · omega
        · exact Bool.noConfusion h
      simp only [if_false, h0]
      by_cases hlim : (lineCount g1).1 > NACHAFileLineLimit
      · simp only [hlim, if_true]
        refine agree_mono _ _ ?_ _ _
          (mergeOverLimit_view rops m files k j b _ outf _ hu.2.1 hk hu.1
            (by show (Function.update fs.heap outf g1 k).Batches[j]? = some b
                rw [hu.2.2]; exact hb))
        intro st z1 h
        refine ⟨h.1, h.2.1, ?_⟩
        rw [h.2.2]
        exact hu.2.2
      · simp only [hlim, if_false]
        exact ⟨hu.1, hu.2.1, hu.2.2⟩

theorem drop_eq_cons {α : Type} (l : List α) (s : Nat) (b : α) (rest : List α)
    (h : l.drop s = b :: rest) : l[s]? = some b ∧ l.drop (s + 1) = rest := by
  constructor
  · have e : (l.drop s)[0]? = l[s + 0]? := by simp
    rw [h] at e
    simpa using e.symm
  · have := List.drop_drop 1 s l
    rw [h] at this
    simpa [Nat.add_comm] using this.symm

/-- The loop over the batches of the input file `k`, from index `s` on, does
on the store what `MergeView.steps` does on the values. -/
theorem mergeBatches_view (rops : RecordOps) (m : MergeOps) (files : List File) (k : Nat)
    (hk : k < files.length) (bs : List Batcher) :
    ∀ (s : Nat) (fs : mergableFiles) (outf : Nat) (z : MergeView),
      fs.wellFormed files k → z.of fs outf → (fs.heap k).Batches.drop s = bs →
      agree (fun st z1 => MergeView.of st.1 st.2 z1 ∧ st.1.wellFormed files k)
        (mergeBatches rops m k (List.range' s bs.length) (fs, outf))
        (MergeView.steps rops m bs z) := by
  induction bs with
  | nil =>
    intro s fs outf z hwf hv _
    exact ⟨hv, hwf⟩
  | cons b rest ih =>
    intro s fs outf z hwf hv hd
    obtain ⟨hb, hrest⟩ := drop_eq_cons _ _ _ _ hd
    have h1 := mergeBatch_view rops m files k s b fs outf z hwf hk hv hb
    simp only [List.length_cons, List.range'_succ, mergeBatches, MergeView.steps]
    generalize mergeBatch rops m k s (fs, outf) = x at h1
    generalize z.step rops m b = y at h1
    cases x with
    | error e =>
      cases y with
      | error e' => cases e <;> cases e' <;> exact h1
      | ok z1 => cases e <;> exact h1.elim
    | ok st =>
      cases y with
      | error e' => exact h1.elim
      | ok z1 =>
        obtain ⟨h2, h3, h4⟩ := h1
        exact ih (s + 1) st.1 st.2 z1 h3 h2 (by rw [h4]; exact hrest)

/-- The loop over the batches of an input file that is its own output file
changes nothing, when Equal is reflexive. -/
theorem mergeBatches_self (rops : RecordOps) (m : MergeOps) (hrefl : ∀ b, m.Equal b b = true)
    (k : Nat) (fs : mergableFiles) (t : Nat) :
    ∀ s : Nat, s + t ≤ (fs.heap k).Batches.length →
      mergeBatches rops m k (List.range' s t) (fs, k) = .ok (fs, k) := by
  induction t with
  | zero => intro s _; rfl
  | succ t ih =>
    intro s hs
    have hlt : s < (fs.heap k).Batches.length := by omega
    have hb : (fs.heap k).Batches[s]? = some ((fs.heap k).Batches[s]) :=
      List.getElem?_eq_getElem hlt
    have hany : ((fs.heap k).Batches.any fun o => m.Equal ((fs.heap k).Batches[s]) o) = true :=
      List.any_eq_true.mpr ⟨_, List.getElem_mem hlt, hrefl _⟩
    simp only [List.range'_succ, mergeBatches, mergeBatch, hb, hany, if_true]
    exact ih (s + 1) (by omega)

/-- One input file: the loop body of `MergeFiles` on the store does what
`MergeValues.file` does on the values, when Equal is reflexive. -/
theorem mergeFile_values (rops : RecordOps) (m : MergeOps) (hrefl : ∀ b, m.Equal b b = true)
    (files : List File) (k : Nat) (fs : mergableFiles) (hwf : fs.wellFormed files k)
    (hk : k < files.length) :
    agree (fun fs1 s1 => mergableFiles.values fs1 = s1 ∧ fs1.wellFormed files (k + 1))
      (mergeFile rops m k fs) (fs.values.file rops m (files.getD k File.zero)) := by
  have hf := (hwf.fresh k le_rfl hk).1
  have hko := (hwf.fresh k le_rfl hk).2
  have hfind := find_splitAtKey fs.heap (fs.heap k).Header fs.outfiles
  simp only [mergeFile, mergableFiles.lookupByHeader, MergeValues.file, mergableFiles.values]
  rw [← hf]
  cases hfd : fs.outfiles.find? (fun a => sameKey (fs.heap a).Header (fs.heap k).Header) with
  | none =>
    rw [hfind.1 hfd]
    simp only [List.range_eq_range']
    rw [mergeBatches_self rops m hrefl k _ _ 0 (by simp)]
    simp only [agree, List.map_append, List.map_cons, List.map_nil, Function.update_same]
    refine ⟨?_, ⟨?_, ?_, hwf.len, ?_⟩⟩
    · rw [map_update_of_not_mem _ _ _ _ hko]
    · exact List.nodup_append.mpr ⟨hwf.nodup, List.nodup_singleton _, by
        intro a ha hb
        rw [List.mem_singleton] at hb
        exact hko (hb ▸ ha)⟩
    · intro a ha
      rcases List.mem_append.mp ha with h | h
      · exact hwf.bound a h
      · rw [List.mem_singleton] at h
        have := hwf.len
        show a < fs.next
        omega
    · intro i h1 h2
      have hi := hwf.fresh i (by omega) h2
      have hik : i ≠ k := by omega
      refine ⟨?_, ?_⟩
      · simp only [Function.update_noteq hik]
        exact hi.1
      · intro h
        rcases List.mem_append.mp h with h | h
        · exact hi.2 h
        · rw [List.mem_singleton] at h
          exact hik h
  | some a =>
    obtain ⟨A1, A2, hA, hsp⟩ := hfind.2 a hfd
    rw [hsp]
    simp only [List.range_eq_range']
    have h1 := mergeBatches_view rops m files k hk (fs.heap k).Batches 0 fs a
      { before := A1.map fs.heap, cur := fs.heap a, after := A2.map fs.heap,
        locMaxed := fs.locMaxed, clock := fs.clock } hwf
      ⟨A1, A2, hA, rfl, rfl, rfl, rfl, rfl⟩ (by simp)
    generalize mergeBatches rops m k (List.range' 0 (fs.heap k).Batches.length) (fs, a) = x at h1
    generalize MergeView.steps rops m (fs.heap k).Batches
      { before := A1.map fs.heap, cur := fs.heap a, after := A2.map fs.heap,
        locMaxed := fs.locMaxed, clock := fs.clock } = y at h1
    cases x with
    | error e =>
      cases y with
      | error e' => cases e <;> cases e' <;> exact h1
      | ok z1 => cases e <;> exact h1.elim
    | ok st =>
      cases y with
      | error e' => exact h1.elim
      | ok z1 =>
        obtain ⟨⟨B1, B2, hB, hbef, hcur, haft, hloc, hclk⟩, hwf1⟩ := h1
        have hnd := hwf1.nodup
        rw [hB] at hnd
        have hn1 : st.2 ∉ B1 := by
          intro h
          exact (List.nodup_append.mp hnd).2.2 h (List.mem_cons_self _ _)
        have hn2 : st.2 ∉ B2 := (List.nodup_cons.mp (List.nodup_append.mp hnd).2.1).1
        have hmem : st.2 ∈ st.1.outfiles := by rw [hB]; simp
        simp only [agree]
        refine ⟨?_, ⟨hwf1.nodup, hwf1.bound, hwf1.len, ?_⟩⟩
        · simp only [hB, List.map_append, List.map_cons, Function.update_same,
            map_update_of_not_mem _ _ _ _ hn1, map_update_of_not_mem _ _ _ _ hn2,
            hbef, hcur, haft, hloc, hclk]
        · intro i h1 h2
          have hi := hwf1.fresh i (by omega) h2
          have hio : i ≠ st.2 := fun e => hi.2 (e ▸ hmem)
          refine ⟨?_, hi.2⟩
          simp only [Function.update_noteq hio]
          exact hi.1

/-- The loop over the input files from `k` on does on the store what
`MergeValues.files` does on the values. -/
theorem mergeFiles_values (rops : RecordOps) (m : MergeOps) (hrefl : ∀ b, m.Equal b b = true)
    (files : List File) (rest : List File) :
    ∀ (k : Nat) (fs : mergableFiles), fs.wellFormed files k → files.drop k = rest →
      agree (fun fs1 s1 => mergableFiles.values fs1 = s1)
        (mergeFiles rops m (List.range' k rest.length) fs)
        (MergeValues.files rops m rest fs.values) := by
  induction rest with
  | nil => intro k fs _ _; rfl
  | cons f rest ih =>
    intro k fs hwf hd
    obtain ⟨hf, hrest⟩ := drop_eq_cons _ _ _ _ hd
    have hk : k < files.length := by
      by_contra h
      rw [List.drop_eq_nil_of_le (by omega)] at hd
      exact List.noConfusion hd
    have hfd : files.getD k File.zero = f := by
      rw [List.getD_eq_getElem?_getD, hf]; rfl
    have h1 := mergeFile_values rops m hrefl files k fs hwf hk
    rw [hfd] at h1
    simp only [List.length_cons, List.range'_succ, mergeFiles, MergeValues.files]
    generalize mergeFile rops m k fs = x at h1
    generalize fs.values.file rops m f = y at h1
    cases x with
    | error e =>
      cases y with
      | error e' => cases e <;> cases e' <;> exact h1
      | ok z1 => cases e <;> exact h1.elim
    | ok fs1 =>
      cases y with
      | error e' => exact h1.elim
      | ok s1 =>
        obtain ⟨h2, h3⟩ := h1
        rw [← h2]
        exact ih (k + 1) fs1 h3 hrest

theorem agree_eq {α : Type} (x y : Except MergeStop α) (h : agree (fun a b => a = b) x y) :
    x = y := by
  cases x with
  | ok a =>
    cases y with
    | ok b => exact congrArg _ h
    | error e => exact h.elim
  | error e =>
    cases y with
    | ok b => cases e <;> exact h.elim
    | error e' =>
      cases e <;> cases e'
      · exact congrArg _ (congrArg _ h)
      · exact h.elim
      · exact h.elim
      · rfl

/-- When Equal is reflexive, `MergeFiles` computes the merge told on
values. -/
theorem merge_values (rops : RecordOps) (m : MergeOps) (hrefl : ∀ b, m.Equal b b = true)
    (files : List File) : MergeFiles rops m files = mergeValues rops m files := by
  have h := mergeFiles_values rops m hrefl files files 0
    { heap := fun a => files.getD a File.zero, next := files.length, clock := 0,
      infiles := List.range' 0 files.length, outfiles := [], locMaxed := [] }
    ⟨List.nodup_nil, (by intro a ha; cases ha), le_rfl,
      fun i _ _ => ⟨rfl, by intro h; cases h⟩⟩
    rfl
  simp only [MergeFiles, mergeValues, List.range_eq_range']
  generalize mergeFiles rops m (List.range' 0 files.length) _ = x at h
  have hv : mergableFiles.values
      { heap := fun a => files.getD a File.zero, next := files.length, clock := 0,
        infiles := List.range' 0 files.length, outfiles := [], locMaxed := [] } =
      { outfiles := [], locMaxed := [], clock := 0 } := rfl
  rw [hv] at h
  generalize MergeValues.files rops m files { outfiles := [], locMaxed := [], clock := 0 } = y
    at h
  apply agree_eq
  cases x with
  | error e =>
    cases y with
    | error e' => cases e <;> cases e' <;> exact h
    | ok z1 => cases e <;> exact h.elim
  | ok fs1 =>
    cases y with
    | error e' => exact h.elim
    | ok s1 =>
      simp only [agree]
      rw [← h]
      rfl

/-! ## The merge on values, step by step -/

theorem withNumber_withNumber (b : Batcher) (n k : Int) :
    (b.withNumber n).withNumber k = b.withNumber k := rfl

theorem createBatches_cores (bs : List Batcher) :
    ∀ v : CreateVars, (File.createBatches bs v).1.map (fun b => b.withNumber 0) =
      bs.map (fun b => b.withNumber 0) := by
  induction bs with
  | nil => intro v; rfl
  | cons b rest ih =>
    intro v
    simp only [File.createBatches, List.map_cons]
    rw [ih]
    rfl

theorem createIATBatches_lines (bs : List IATBatch) :
    ∀ v : CreateVars, ((File.createIATBatches bs v).1.map iatBatchLines) =
      bs.map iatBatchLines := by
  induction bs with
  | nil => intro v; rfl
  | cons b rest ih =>
    intro v
    simp only [File.createIATBatches, List.map_cons]
    rw [ih]
    rfl

/-- What `File.Create` keeps, whether it fails or not: the header, the
batches but for their numbers, the lines of the IAT batches. -/
theorem create_keeps (rops : RecordOps) (f : File) :
    (File.Create rops f).1.Header = f.Header ∧ (File.Create rops f).1.cores = f.cores ∧
    (File.Create rops f).1.iatLines = f.iatLines ∧
    ((File.Create rops f).1.IATBatches = [] ↔ f.IATBatches = []) := by
  simp only [File.Create]
  split
  · exact ⟨rfl, rfl, rfl, Iff.rfl⟩
  · split
    · exact ⟨rfl, rfl, rfl, Iff.rfl⟩
    · refine ⟨rfl, createBatches_cores _ _, ?_, ?_⟩
      · simp only [File.iatLines]
        rw [createIATBatches_lines]
      · simp only
        constructor
        · intro h
          have := congrArg List.length h
          rw [createIATBatches_length] at this
          exact List.length_eq_zero.mp this
        · intro h
          rw [h]
          rfl

theorem renumber_cores (bs : List Batcher) :
    ∀ n : Int, (renumber n bs).map (fun b => b.withNumber 0) =
      bs.map (fun b => b.withNumber 0) := by
  induction bs with
  | nil => intro n; rfl
  | cons b rest ih =>
    intro n
    simp only [renumber, List.map_cons]
    rw [ih]
    rfl

theorem batchLines_withNumber (b : Batcher) (n : Int) : batchLines (b.withNumber n) = batchLines b :=
  rfl

/-- The line count read off the batches without their numbers. -/
theorem lineCount_cores (g : File) :
    (lineCount g).1 = 2 + (g.cores.map batchLines).sum + g.iatLines := by
  rw [lineCount_eq, File.cores, File.iatLines, List.map_map]
  rfl

theorem addBatch_cores (g : File) (b : Batcher) :
    (g.AddBatch b).cores = g.cores ++ [b.withNumber 0] := by
  simp only [File.cores, (addBatch_fields g b).2.2.2, List.map_append, List.map_cons,
    List.map_nil]

theorem sublist_of_concat {α : Type} (L : List α) (x : α) :
    ∀ R : List α, R.Sublist (L ++ [x]) → x ∉ R → R.Sublist L := by
  induction L with
  | nil =>
    intro R h hx
    cases h with
    | cons _ h1 => exact h1
    | cons₂ _ h1 => exact absurd (List.mem_cons_self _ _) hx
  | cons a L ih =>
    intro R h hx
    cases h with
    | cons _ h1 => exact (ih R h1 hx).cons a
    | cons₂ _ h1 =>
      exact (ih _ h1 (fun h => hx (List.mem_cons_of_mem _ h))).cons₂ a

/-- A batch and its image without number are Equal to the same batches. -/
theorem equal_core (m : MergeOps) (laws : MergeLaws m) (a b : Batcher) (n : Int) :
    m.Equal a (b.withNumber n) = m.Equal a b ∧ m.Equal (a.withNumber n) b = m.Equal a b := by
  refine ⟨?_, laws.equal_number a b n⟩
  rw [laws.equal_symm, laws.equal_number, laws.equal_symm]

/-- What `MergeView.split` returns when it does not stop. -/
theorem split_ok (rops : RecordOps) (m : MergeOps) (b : Batcher) (z z1 : MergeView)
    (h : z.split rops m b = .ok z1) :
    ∃ g2 g3 : File, File.Create rops (m.RemoveBatch z.cur b) = (g2, none) ∧
      File.Create rops ((File.Create rops (NewFile { g2.Header with
        FileCreationDate := m.nowDate z.clock
        FileCreationTime := m.nowTime z.clock })).1.AddBatch b) = (g3, none) ∧
      z1 = { before := (z.before ++ g2 :: z.after).eraseP
               (fun g => sameKey g.Header g2.Header)
             cur := g3
             after := []
             locMaxed := z.locMaxed ++ [g2]
             clock := z.clock + 1 } := by
  simp only [MergeView.split] at h
  generalize hr2 : File.Create rops (m.RemoveBatch z.cur b) = r2 at h
  obtain ⟨g2, e2⟩ := r2
  cases e2 with
  | some err => simp at h
  | none =>
    simp only at h
    generalize hr3 : File.Create rops ((File.Create rops (NewFile { g2.Header with
      FileCreationDate := m.nowDate z.clock
      FileCreationTime := m.nowTime z.clock })).1.AddBatch b) = r3 at h
    obtain ⟨g3, e3⟩ := r3
    cases e3 with
    | some err => simp at h
    | none =>
      simp only [Except.ok.injEq] at h
      exact ⟨g2, g3, rfl, hr3, h.symm⟩

/-- What `MergeView.step` returns when it does not stop: the view itself when
a batch of `cur` is Equal to the batch; otherwise the view with the batch
added to `cur`, when that stays within the line limit, and the result of
`MergeView.split` on it when not. -/
theorem step_ok (rops : RecordOps) (m : MergeOps) (b : Batcher) (z z1 : MergeView)
    (h : z.step rops m b = .ok z1) :
    (z1 = z ∧ (z.cur.Batches.any fun o => m.Equal b o) = true) ∨
    ((z.cur.Batches.any fun o => m.Equal b o) = false ∧
      ∃ g1 : File, File.Create rops (z.cur.AddBatch b) = (g1, none) ∧
        (((lineCount g1).1 ≤ NACHAFileLineLimit ∧ z1 = { z with cur := g1 }) ∨
         ((lineCount g1).1 > NACHAFileLineLimit ∧
           MergeView.split rops m b { z with cur := g1 } = .ok z1))) := by
  simp only [MergeView.step] at h
  by_cases hany : (z.cur.Batches.any fun o => m.Equal b o) = true
  · left
    simp only [hany, if_true, Except.ok.injEq] at h
    exact ⟨h.symm, hany⟩
  · right
    simp only [hany] at h
    refine ⟨by simpa using hany, ?_⟩
    generalize hr : File.Create rops (z.cur.AddBatch b) = r at h
    obtain ⟨g1, e1⟩ := r
    cases e1 with
    | some err => simp at h
    | none =>
      refine ⟨g1, rfl, ?_⟩
      simp only [Bool.false_eq_true, if_false] at h
      by_cases hlim : (lineCount g1).1 > NACHAFileLineLimit
      · right
        simp only [hlim, if_true] at h
        exact ⟨hlim, h⟩
      · left
        simp only [hlim, if_false, Except.ok.injEq] at h
        exact ⟨by omega, h.symm⟩

/-- The file `cur` after a batch is added and `File.Create` has run. -/
theorem added_facts (rops : RecordOps) (cur g1 : File) (b : Batcher)
    (h : File.Create rops (cur.AddBatch b) = (g1, none)) :
    g1.Header = cur.Header ∧ g1.cores = cur.cores ++ [b.withNumber 0] ∧
    g1.iatLines = cur.iatLines := by
  have hk := create_keeps rops (cur.AddBatch b)
  rw [h] at hk
  refine ⟨hk.1.trans (addBatch_fields cur b).1, hk.2.1.trans (addBatch_cores cur b), ?_⟩
  rw [hk.2.2.1, File.iatLines, (addBatch_fields cur b).2.2.1]
  rfl

/-- The file that `create` makes, after the batch is added and `File.Create`
has run: the header given, the one batch, no IAT batch. -/
theorem fresh_facts (rops : RecordOps) (hd : FileHeader) (g3 : File)
    (b : Batcher)
    (h : File.Create rops ((File.Create rops (NewFile hd)).1.AddBatch b) = (g3, none)) :
    g3.Header = hd ∧ g3.cores = [b.withNumber 0] ∧ g3.iatLines = 0 := by
  have h0 := create_keeps rops (NewFile hd)
  have h1 := added_facts rops _ g3 b h
  refine ⟨h1.1.trans h0.1, ?_, ?_⟩
  · rw [h1.2.1, h0.2.1]; rfl
  · rw [h1.2.2, h0.2.2.1]; rfl

/-- The file `g1`, which is `cur` with the batch `b` added, after the batch is
removed again and `File.Create` has run: the header and the IAT lines are
those of `cur`, and the batches are batches of `cur`, in their order, among
them every batch of `cur` that is not Equal to `b`. -/
theorem removed_facts (rops : RecordOps) (m : MergeOps) (laws : MergeLaws m)
    (cur g1 g2 : File) (b : Batcher)
    (h1 : File.Create rops (cur.AddBatch b) = (g1, none))
    (h2 : File.Create rops (m.RemoveBatch g1 b) = (g2, none)) :
    g2.Header = cur.Header ∧ g2.cores.Sublist cur.cores ∧ g2.iatLines = cur.iatLines ∧
    (∀ o ∈ cur.cores, m.Equal o b = false → o ∈ g2.cores) := by
  have ha := added_facts rops cur g1 b h1
  have hk := create_keeps rops (m.RemoveBatch g1 b)
  rw [h2] at hk
  simp only at hk
  have hmap : g1.Batches.map (fun x => x.withNumber 0) = cur.cores ++ [b.withNumber 0] := ha.2.1
  obtain ⟨L, L2, hL, hL1, hL2⟩ := List.map_eq_append_iff.mp hmap
  obtain ⟨b1, hb1, hb1c⟩ : ∃ b1, L2 = [b1] ∧ b1.withNumber 0 = b.withNumber 0 := by
    cases L2 with
    | nil => simp at hL2
    | cons x xs =>
      cases xs with
      | nil => exact ⟨x, rfl, by simpa using hL2⟩
      | cons y ys => simp at hL2
  subst hb1
  have heq : m.Equal b1 b = true := by
    rw [← (equal_core m laws b1 b 0).2, hb1c, (equal_core m laws b b 0).2]
    exact laws.equal_refl b
  have hnot : b1 ∉ (m.RemoveBatch g1 b).Batches := by
    intro hmem
    have := laws.remove_equal g1 b b1 hmem
    rw [heq] at this
    exact Bool.noConfusion this
  have hsub : (m.RemoveBatch g1 b).Batches.Sublist L := by
    apply sublist_of_concat L b1 _ _ hnot
    rw [← hL]
    exact laws.remove_sublist g1 b
  refine ⟨?_, ?_, ?_, ?_⟩
  · rw [hk.1, laws.remove_header, ha.1]
  · rw [hk.2.1, ← hL1]
    exact hsub.map _
  · rw [hk.2.2.1, File.iatLines, laws.remove_iat, ← ha.2.2]
    rfl
  · intro o ho hne
    rw [hk.2.1]
    rw [← hL1] at ho
    obtain ⟨x, hx, hxo⟩ := List.mem_map.mp ho
    have hx1 : x ∈ g1.Batches := by rw [hL]; exact List.mem_append_left _ hx
    have hxe : m.Equal x b = false := by
      rw [← (equal_core m laws x b 0).2, hxo]
      exact hne
    exact List.mem_map.mpr ⟨x, laws.remove_keeps g1 b x hx1 hxe, hxo⟩

theorem mem_all (z : MergeView) (g : File) :
    g ∈ z.all ↔ g ∈ z.locMaxed ∨ g ∈ z.before ∨ g = z.cur ∨ g ∈ z.after := by
  simp [MergeView.all]

/-- One step keeps a property of the files that is read off the header, the
batches without their numbers and the IAT lines, when the property survives
the addition of a batch of the input file within the line limit, holds of the
sublists and holds of a file of one batch. -/
theorem step_invariant (rops : RecordOps) (m : MergeOps) (laws : MergeLaws m)
    (files : List File) (Q : FileHeader → List Batcher → Int → Prop)
    (hadd : ∀ (h : FileHeader) (cs : List Batcher) (iat : Int) (f : File) (b : Batcher),
      f ∈ files → b ∈ f.Batches → sameKey h f.Header = true → Q h cs iat →
      (∀ o ∈ cs, m.Equal b o = false) →
      2 + ((cs ++ [b.withNumber 0]).map batchLines).sum + iat ≤ NACHAFileLineLimit →
      Q h (cs ++ [b.withNumber 0]) iat)
    (hsub : ∀ (h : FileHeader) (cs cs1 : List Batcher) (iat : Int),
      cs1.Sublist cs → Q h cs iat → Q h cs1 iat)
    (hnew : ∀ (h : FileHeader) (f : File) (b : Batcher), f ∈ files → b ∈ f.Batches →
      sameKey h f.Header = true → Q h [b.withNumber 0] 0)
    (f : File) (hf : f ∈ files) (b : Batcher) (hb : b ∈ f.Batches) (z z1 : MergeView)
    (hz : ∀ g ∈ z.all, Q g.Header g.cores (g.iatLines))
    (hkey : sameKey z.cur.Header f.Header = true) (h : z.step rops m b = .ok z1) :
    (∀ g ∈ z1.all, Q g.Header g.cores (g.iatLines)) ∧
      sameKey z1.cur.Header f.Header = true := by
  have hcur := hz z.cur ((mem_all z _).mpr (Or.inr (Or.inr (Or.inl rfl))))
  rcases step_ok rops m b z z1 h with ⟨e, _⟩ | ⟨hany, g1, hg1, hcase⟩
  · subst e; exact ⟨hz, hkey⟩
  · have ha := added_facts rops z.cur g1 b hg1
    have hne : ∀ o ∈ z.cur.cores, m.Equal b o = false := by
      intro o ho
      obtain ⟨x, hx, hxo⟩ := List.mem_map.mp ho
      rw [← hxo, (equal_core m laws b x 0).1]
      have := List.any_eq_false.mp hany x hx
      simpa using this
    rcases hcase with ⟨hlim, e⟩ | ⟨hlim, hs⟩
    · subst e
      refine ⟨?_, by show sameKey g1.Header f.Header = true; rw [ha.1]; exact hkey⟩
      intro g hg
      rcases (mem_all _ g).mp hg with h1 | h1 | h1 | h1
      · exact hz g ((mem_all z g).mpr (Or.inl h1))
      · exact hz g ((mem_all z g).mpr (Or.inr (Or.inl h1)))
      · have e : g = g1 := h1
        subst e
        rw [ha.1, ha.2.1, ha.2.2]
        apply hadd _ _ _ f b hf hb hkey hcur hne
        have := lineCount_cores g
        rw [ha.2.1, ha.2.2] at this
        omega
      · exact hz g ((mem_all z g).mpr (Or.inr (Or.inr (Or.inr h1))))
    · obtain ⟨g2, g3, hg2, hg3, e⟩ := split_ok rops m b _ z1 hs
      have hr := removed_facts rops m laws z.cur g1 g2 b hg1 hg2
      have hfr := fresh_facts rops _ g3 b hg3
      have hk2 : sameKey g2.Header f.Header = true := by rw [hr.1]; exact hkey
      have hQ2 : Q g2.Header g2.cores (g2.iatLines) := by
        rw [hr.1, hr.2.2.1]
        exact hsub _ _ _ _ hr.2.1 hcur
      have hk3 : sameKey g3.Header f.Header = true := by rw [hfr.1]; exact hk2
      subst e
      refine ⟨?_, hk3⟩
      intro g hg
      rcases (mem_all _ g).mp hg with h1 | h1 | h1 | h1
      · rcases List.mem_append.mp h1 with h2 | h2
        · exact hz g ((mem_all z g).mpr (Or.inl h2))
        · rw [List.mem_singleton] at h2
          subst h2
          exact hQ2
      · have h2 := List.mem_of_mem_eraseP h1
        rcases List.mem_append.mp h2 with h3 | h3
        · exact hz g ((mem_all z g).mpr (Or.inr (Or.inl h3)))
        · rcases List.mem_cons.mp h3 with h4 | h4
          · subst h4; exact hQ2
          · exact hz g ((mem_all z g).mpr (Or.inr (Or.inr (Or.inr h4))))
      · have e : g = g3 := h1
        subst e
        rw [hfr.2.1, hfr.2.2]
        exact hnew _ f b hf hb hk3
      · cases h1

theorem splitAtKey_some (h : FileHeader) (l : List File) :
    ∀ x, splitAtKey h l = some x →
      l = x.1 ++ x.2.1 :: x.2.2 ∧ sameKey x.2.1.Header h = true ∧
      ∀ g ∈ x.1, sameKey g.Header h = false := by
  induction l with
  | nil => intro x hx; simp [splitAtKey] at hx
  | cons g gs ih =>
    intro x hx
    simp only [splitAtKey] at hx
    by_cases hg : sameKey g.Header h = true
    · simp only [hg, if_true, Option.some.injEq] at hx
      subst hx
      exact ⟨rfl, hg, by intro g hg; cases hg⟩
    · simp only [hg] at hx
      cases hs : splitAtKey h gs with
      | none => rw [hs] at hx; simp at hx
      | some y =>
        rw [hs] at hx
        simp only [Bool.false_eq_true, if_false, Option.some.injEq] at hx
        subst hx
        obtain ⟨e1, e2, e3⟩ := ih y hs
        refine ⟨by simp only [List.cons_append]; rw [← e1], e2, ?_⟩
        intro g1 hg1
        rcases List.mem_cons.mp hg1 with h1 | h1
        · subst h1; simpa using hg
        · exact e3 g1 h1

theorem splitAtKey_none (h : FileHeader) (l : List File) (hn : splitAtKey h l = none) :
    ∀ g ∈ l, sameKey g.Header h = false := by
  induction l with
  | nil => intro g hg; cases hg
  | cons g gs ih =>
    simp only [splitAtKey] at hn
    by_cases hg : sameKey g.Header h = true
    · simp [hg] at hn
    · simp only [hg, Bool.false_eq_true, if_false] at hn
      cases hs : splitAtKey h gs with
      | none =>
        intro g1 hg1
        rcases List.mem_cons.mp hg1 with h1 | h1
        · subst h1; simpa using hg
        · exact ih hs g1 h1
      | some y => rw [hs] at hn; simp at hn

/-- The steps over batches of the input file keep what each step keeps. -/
theorem steps_induction (rops : RecordOps) (m : MergeOps) (I : MergeView → Prop)
    (bs : List Batcher)
    (hstep : ∀ b ∈ bs, ∀ z z1 : MergeView, I z → z.step rops m b = .ok z1 → I z1) :
    ∀ z z1 : MergeView, I z → MergeView.steps rops m bs z = .ok z1 → I z1 := by
  induction bs with
  | nil =>
    intro z z1 hz h
    simp only [MergeView.steps, Except.ok.injEq] at h
    exact h ▸ hz
  | cons b rest ih =>
    intro z z1 hz h
    simp only [MergeView.steps] at h
    cases hs : z.step rops m b with
    | error e => rw [hs] at h; simp at h
    | ok z2 =>
      rw [hs] at h
      exact ih (fun b1 hb1 => hstep b1 (List.mem_cons_of_mem _ hb1)) z2 z1
        (hstep b (List.mem_cons_self _ _) z z2 hz hs) h

/-- The input files one after another keep what each of them keeps. -/
theorem files_induction (rops : RecordOps) (m : MergeOps) (J : MergeValues → Prop)
    (fl : List File)
    (hfile : ∀ f ∈ fl, ∀ s s1 : MergeValues, J s → s.file rops m f = .ok s1 → J s1) :
    ∀ s s1 : MergeValues, J s → MergeValues.files rops m fl s = .ok s1 → J s1 := by
  induction fl with
  | nil =>
    intro s s1 hs h
    simp only [MergeValues.files, Except.ok.injEq] at h
    exact h ▸ hs
  | cons f rest ih =>
    intro s s1 hs h
    simp only [MergeValues.files] at h
    cases hf : s.file rops m f with
    | error e => rw [hf] at h; simp at h
    | ok s2 =>
      rw [hf] at h
      exact ih (fun f1 hf1 => hfile f1 (List.mem_cons_of_mem _ hf1)) s2 s1
        (hfile f (List.mem_cons_self _ _) s s2 hs hf) h

/-- What `MergeValues.file` returns when it does not stop. -/
theorem file_ok (rops : RecordOps) (m : MergeOps) (f : File) (s s1 : MergeValues)
    (h : s.file rops m f = .ok s1) :
    (splitAtKey f.Header s.outfiles = none ∧
      s1 = { s with outfiles := s.outfiles ++ [{ f with Batches := renumber 1 f.Batches }] }) ∨
    (∃ x z, splitAtKey f.Header s.outfiles = some x ∧
      MergeView.steps rops m f.Batches
        { before := x.1, cur := x.2.1, after := x.2.2, locMaxed := s.locMaxed,
          clock := s.clock } = .ok z ∧
      s1 = { outfiles := z.before ++ { z.cur with Batches := renumber 1 z.cur.Batches } :: z.after
             locMaxed := z.locMaxed
             clock := z.clock }) := by
  simp only [MergeValues.file] at h
  cases hs : splitAtKey f.Header s.outfiles with
  | none =>
    rw [hs] at h
    simp only [Except.ok.injEq] at h
    exact Or.inl ⟨rfl, h.symm⟩
  | some x =>
    rw [hs] at h
    simp only at h
    cases hz : MergeView.steps rops m f.Batches
      { before := x.1, cur := x.2.1, after := x.2.2, locMaxed := s.locMaxed,
        clock := s.clock } with
    | error e => rw [hz] at h; simp at h
    | ok z =>
      rw [hz] at h
      simp only [Except.ok.injEq] at h
      exact Or.inr ⟨x, z, rfl, hz, h.symm⟩

theorem renumbered_keeps (g : File) :
    ({ g with Batches := renumber 1 g.Batches } : File).Header = g.Header ∧
    ({ g with Batches := renumber 1 g.Batches } : File).cores = g.cores ∧
    ({ g with Batches := renumber 1 g.Batches } : File).iatLines = g.iatLines :=
  ⟨rfl, renumber_cores _ _, rfl⟩

/-- A property of files that is read off the header, the batches without their
numbers and the IAT lines holds of every file that `MergeFiles` returns, when
it holds of the input files, survives the addition of a batch of an input file
of the same key that is Equal to no batch of the file and keeps the file
within the line limit, holds of the sublists, and holds of a file of one batch
of an input file. -/
theorem merge_invariant (rops : RecordOps) (m : MergeOps) (laws : MergeLaws m)
    (files : List File) (Q : FileHeader → List Batcher → Int → Prop)
    (hin : ∀ f ∈ files, Q f.Header f.cores (f.iatLines))
    (hadd : ∀ (h : FileHeader) (cs : List Batcher) (iat : Int) (f : File) (b : Batcher),
      f ∈ files → b ∈ f.Batches → sameKey h f.Header = true → Q h cs iat →
      (∀ o ∈ cs, m.Equal b o = false) →
      2 + ((cs ++ [b.withNumber 0]).map batchLines).sum + iat ≤ NACHAFileLineLimit →
      Q h (cs ++ [b.withNumber 0]) iat)
    (hsub : ∀ (h : FileHeader) (cs cs1 : List Batcher) (iat : Int),
      cs1.Sublist cs → Q h cs iat → Q h cs1 iat)
    (hnew : ∀ (h : FileHeader) (f : File) (b : Batcher), f ∈ files → b ∈ f.Batches →
      sameKey h f.Header = true → Q h [b.withNumber 0] 0)
    (out : List File) (h : MergeFiles rops m files = .ok out) :
    ∀ g ∈ out, Q g.Header g.cores (g.iatLines) := by
  rw [merge_values rops m laws.equal_refl] at h
  simp only [mergeValues] at h
  cases hs : MergeValues.files rops m files { outfiles := [], locMaxed := [], clock := 0 } with
  | error e => rw [hs] at h; simp at h
  | ok s =>
    rw [hs] at h
    simp only [Except.ok.injEq] at h
    subst h
    have key := files_induction rops m
      (fun s => ∀ g ∈ s.locMaxed ++ s.outfiles, Q g.Header g.cores (g.iatLines)) files ?_
      _ s (by intro g hg; cases hg) hs
    · exact key
    · intro f hf s s1 hJ hfile
      rcases file_ok rops m f s s1 hfile with ⟨_, e⟩ | ⟨x, z, hx, hz, e⟩
      · subst e
        intro g hg
        simp only [List.mem_append, List.mem_singleton] at hg
        rcases hg with h1 | h1 | h1
        · exact hJ g (List.mem_append_left _ h1)
        · exact hJ g (List.mem_append_right _ h1)
        · subst h1
          have := renumbered_keeps f
          rw [this.1, this.2.1, this.2.2]
          exact hin f hf
      · obtain ⟨e1, e2, _⟩ := splitAtKey_some _ _ x hx
        have hI := steps_induction rops m
          (fun z => (∀ g ∈ z.all, Q g.Header g.cores (g.iatLines)) ∧
            sameKey z.cur.Header f.Header = true) f.Batches
          (fun b hb z z1 hz hstep =>
            step_invariant rops m laws files Q hadd hsub hnew f hf b hb z z1 hz.1 hz.2 hstep)
          _ z ⟨by
            intro g hg
            apply hJ g
            rcases (mem_all _ g).mp hg with h1 | h1 | h1 | h1
            · exact List.mem_append_left _ h1
            · exact List.mem_append_right _ (by rw [e1]; simp [h1])
            · exact List.mem_append_right _ (by rw [e1]; simp [show g = x.2.1 from h1])
            · exact List.mem_append_right _ (by rw [e1]; simp [h1]), e2⟩ hz
        subst e
        intro g hg
        simp only [List.mem_append, List.mem_cons] at hg
        rcases hg with h1 | h1 | h1 | h1
        · exact hI.1 g ((mem_all z g).mpr (Or.inl h1))
        · exact hI.1 g ((mem_all z g).mpr (Or.inr (Or.inl h1)))
        · subst h1
          have := renumbered_keeps z.cur
          rw [this.1, this.2.1, this.2.2]
          exact hI.1 z.cur ((mem_all z _).mpr (Or.inr (Or.inr (Or.inl rfl))))
        · exact hI.1 g ((mem_all z g).mpr (Or.inr (Or.inr (Or.inr h1))))

theorem sameKey_self (h : FileHeader) : sameKey h h = true := by simp [sameKey]

theorem sameKey_iff (a f : FileHeader) :
    sameKey a f = true ↔
      a.ImmediateDestination = f.ImmediateDestination ∧ a.ImmediateOrigin = f.ImmediateOrigin := by
  simp [sameKey]

theorem sum_sublist_le {α : Type} (g : α → Int) (h : ∀ a, 0 ≤ g a) (l1 l2 : List α)
    (hs : l1.Sublist l2) : (l1.map g).sum ≤ (l2.map g).sum := by
  induction hs with
  | slnil => simp
  | cons a _ ih =>
    simp only [List.map_cons, List.sum_cons]
    have := h a
    omega
  | cons₂ a _ ih =>
    simp only [List.map_cons, List.sum_cons]
    omega

theorem iatLines_nonneg (g : File) : 0 ≤ g.iatLines :=
  sum_nonneg_of iatBatchLines (fun b => by have := iatBatchLines_pos b; omega) _

/-- Every batch of a file that `MergeFiles` returns is, but for its number, a
batch of an input file that has the key of the returned file. -/
theorem merge_origin (rops : RecordOps) (m : MergeOps) (laws : MergeLaws m)
    (files out : List File) (h : MergeFiles rops m files = .ok out) :
    ∀ g ∈ out, ∀ c ∈ g.cores, ∃ f ∈ files, sameKey g.Header f.Header = true ∧ c ∈ f.cores :=
  merge_invariant rops m laws files
    (fun h cs _ => ∀ c ∈ cs, ∃ f ∈ files, sameKey h f.Header = true ∧ c ∈ f.cores)
    (fun f hf c hc => ⟨f, hf, sameKey_self _, hc⟩)
    (fun h cs iat f b hf hb hk hQ _ _ c hc => by
      rcases List.mem_append.mp hc with h1 | h1
      · exact hQ c h1
      · rw [List.mem_singleton] at h1
        subst h1
        exact ⟨f, hf, hk, List.mem_map.mpr ⟨b, hb, rfl⟩⟩)
    (fun h cs cs1 iat hs hQ c hc => hQ c (hs.subset hc))
    (fun h f b hf hb hk c hc => by
      rw [List.mem_singleton] at hc
      subst hc
      exact ⟨f, hf, hk, List.mem_map.mpr ⟨b, hb, rfl⟩⟩)
    out h

/-- C20: every batch of a file that `MergeFiles` returns is, but for its batch
number, a batch of an input file whose header has the ImmediateDestination and
the ImmediateOrigin of the returned file, when `Equal` and `RemoveBatch` obey
their laws: batches of input files with another key are never put into that
file. -/
theorem merge_along_key (rops : RecordOps) (m : MergeOps) (laws : MergeLaws m)
    (files out : List File) (h : MergeFiles rops m files = .ok out) :
    ∀ g ∈ out, ∀ b ∈ g.Batches, ∃ f ∈ files,
      f.Header.ImmediateDestination = g.Header.ImmediateDestination ∧
      f.Header.ImmediateOrigin = g.Header.ImmediateOrigin ∧
      ∃ b0 ∈ f.Batches, b0.withNumber 0 = b.withNumber 0 := by
  intro g hg b hb
  obtain ⟨f, hf, hk, hc⟩ := merge_origin rops m laws files out h g hg (b.withNumber 0)
    (List.mem_map.mpr ⟨b, hb, rfl⟩)
  obtain ⟨b0, hb0, e⟩ := List.mem_map.mp hc
  have hk2 := (sameKey_iff _ _).mp hk
  exact ⟨f, hf, hk2.1.symm, hk2.2.symm, b0, hb0, e⟩

/-- C17, amended: when no input file has more than 10,000 lines, no file that
`MergeFiles` returns has more than 10,000 lines, by the count of `lineCount`,
when `Equal` and `RemoveBatch` obey their laws. -/
theorem merge_line_limit (rops : RecordOps) (m : MergeOps) (laws : MergeLaws m)
    (files out : List File) (hin : ∀ f ∈ files, (lineCount f).1 ≤ NACHAFileLineLimit)
    (h : MergeFiles rops m files = .ok out) :
    ∀ g ∈ out, (lineCount g).1 ≤ NACHAFileLineLimit := by
  intro g hg
  rw [lineCount_cores]
  refine merge_invariant rops m laws files
    (fun _ cs iat => 2 + (cs.map batchLines).sum + iat ≤ NACHAFileLineLimit)
    (fun f hf => by
      have := hin f hf
      rw [lineCount_cores] at this
      exact this)
    (fun h cs iat f b hf hb hk hQ _ hlim => hlim)
    (fun h cs cs1 iat hs hQ => by
      have := sum_sublist_le batchLines (fun b => by have := batchLines_pos b; omega) cs1 cs hs
      simp only at hQ ⊢
      omega)
    (fun h f b hf hb hk => by
      have h1 := hin f hf
      rw [lineCount_eq] at h1
      have h2 := iatLines_nonneg f
      simp only [File.iatLines] at h2
      have h3 : batchLines b ≤ (f.Batches.map batchLines).sum := by
        have := sum_sublist_le batchLines (fun b => by have := batchLines_pos b; omega)
          [b] f.Batches (List.singleton_sublist.mpr hb)
        simpa using this
      simp only [List.map_cons, List.map_nil, List.sum_cons, List.sum_nil,
        batchLines_withNumber]
      omega)
    out h g hg

/-- C19, amended: when no input file holds two batches that are Equal, no file
that `MergeFiles` returns holds two batches that are Equal, when `Equal` and
`RemoveBatch` obey their laws. -/
theorem merge_no_duplicates_within (rops : RecordOps) (m : MergeOps) (laws : MergeLaws m)
    (files out : List File)
    (hin : ∀ f ∈ files, f.Batches.Pairwise (fun x y => m.Equal x y = false))
    (h : MergeFiles rops m files = .ok out) :
    ∀ g ∈ out, g.Batches.Pairwise (fun x y => m.Equal x y = false) := by
  have hcore : ∀ g : File, g.cores.Pairwise (fun x y => m.Equal x y = false) ↔
      g.Batches.Pairwise (fun x y => m.Equal x y = false) := by
    intro g
    simp only [File.cores, List.pairwise_map, (equal_core m laws _ _ 0).1,
      (equal_core m laws _ _ 0).2]
  intro g hg
  rw [← hcore]
  refine merge_invariant rops m laws files
    (fun _ cs _ => cs.Pairwise (fun x y => m.Equal x y = false))
    (fun f hf => (hcore f).mpr (hin f hf))
    (fun h cs iat f b hf hb hk hQ hne _ => by
      refine List.pairwise_append.mpr ⟨hQ, List.pairwise_singleton _ _, ?_⟩
      intro x hx y hy
      rw [List.mem_singleton] at hy
      subst hy
      rw [(equal_core m laws x b 0).1, laws.equal_symm]
      exact hne x hx)
    (fun h cs cs1 iat hs hQ => hQ.sublist hs)
    (fun h f b hf hb hk => List.pairwise_singleton _ _)
    out h g hg

theorem sameKey_comm (a b : FileHeader) : sameKey a b = sameKey b a := by
  simp only [sameKey]
  congr 1
  exact propext ⟨fun h => ⟨h.1.symm, h.2.symm⟩, fun h => ⟨h.1.symm, h.2.symm⟩⟩

theorem covered_mono (m : MergeOps) (l l1 : List File) (x : Batcher)
    (h : ∀ g ∈ l, ∃ g1 ∈ l1, ∀ o ∈ g.cores, o ∈ g1.cores) (hc : covered m l x) :
    covered m l1 x := by
  obtain ⟨g, hg, o, ho, he⟩ := hc
  obtain ⟨g1, hg1, hsub⟩ := h g hg
  exact ⟨g1, hg1, o, hsub o ho, he⟩

/-- One step keeps the keys of the output files distinct and keeps covered
what is covered, and after it the batch is covered. -/
theorem step_covers (rops : RecordOps) (m : MergeOps) (laws : MergeLaws m) (b : Batcher)
    (z z1 : MergeView) (hI : keysDistinct (z.before ++ z.cur :: z.after))
    (h : z.step rops m b = .ok z1) :
    keysDistinct (z1.before ++ z1.cur :: z1.after) ∧
    (∀ x, covered m z.all x → covered m z1.all x) ∧ covered m z1.all b := by
  rcases step_ok rops m b z z1 h with ⟨e, hany⟩ | ⟨hany, g1, hg1, hcase⟩
  · subst e
    refine ⟨hI, fun x hx => hx, ?_⟩
    obtain ⟨o, ho, he⟩ := List.any_eq_true.mp hany
    exact ⟨z1.cur, (mem_all z1 _).mpr (Or.inr (Or.inr (Or.inl rfl))), o.withNumber 0,
      List.mem_map.mpr ⟨o, ho, rfl⟩, by rw [(equal_core m laws b o 0).1]; exact he⟩
  · have ha := added_facts rops z.cur g1 b hg1
    have hbb : m.Equal b (b.withNumber 0) = true := by
      rw [(equal_core m laws b b 0).1]; exact laws.equal_refl b
    have hne : ∀ o ∈ z.cur.cores, m.Equal o b = false := by
      intro o ho
      obtain ⟨x, hx, hxo⟩ := List.mem_map.mp ho
      rw [← hxo, (equal_core m laws x b 0).2, laws.equal_symm]
      have := List.any_eq_false.mp hany x hx
      simpa using this
    rcases hcase with ⟨hlim, e⟩ | ⟨hlim, hs⟩
    · subst e
      refine ⟨?_, ?_, ?_⟩
      · simp only [keysDistinct, List.map_append, List.map_cons, ha.1] at hI ⊢
        exact hI
      · intro x hx
        apply covered_mono m z.all _ x _ hx
        intro g hg
        rcases (mem_all z g).mp hg with h1 | h1 | h1 | h1
        · exact ⟨g, (mem_all _ g).mpr (Or.inl h1), fun o ho => ho⟩
        · exact ⟨g, (mem_all _ g).mpr (Or.inr (Or.inl h1)), fun o ho => ho⟩
        · refine ⟨g1, (mem_all _ g1).mpr (Or.inr (Or.inr (Or.inl rfl))), ?_⟩
          intro o ho
          rw [ha.2.1]
          exact List.mem_append_left _ (h1 ▸ ho)
        · exact ⟨g, (mem_all _ g).mpr (Or.inr (Or.inr (Or.inr h1))), fun o ho => ho⟩
      · exact ⟨g1, (mem_all _ g1).mpr (Or.inr (Or.inr (Or.inl rfl))), b.withNumber 0,
          by rw [ha.2.1]; simp, hbb⟩
    · obtain ⟨g2, g3, hg2, hg3, e⟩ := split_ok rops m b _ z1 hs
      have hr := removed_facts rops m laws z.cur g1 g2 b hg1 hg2
      have hfr := fresh_facts rops _ g3 b hg3
      simp only [keysDistinct, List.map_append, List.map_cons] at hI
      obtain ⟨hI1, hI2, hI3⟩ := List.pairwise_append.mp hI
      obtain ⟨hI4, hI5⟩ := List.pairwise_cons.mp hI2
      have hbef : ∀ g ∈ z.before, sameKey g.Header g2.Header = false := by
        intro g hg
        rw [hr.1]
        exact hI3 _ (List.mem_map.mpr ⟨g, hg, rfl⟩) _ (List.mem_cons_self _ _)
      have haft : ∀ g ∈ z.after, sameKey g.Header g2.Header = false := by
        intro g hg
        rw [hr.1, sameKey_comm]
        exact hI4 _ (List.mem_map.mpr ⟨g, hg, rfl⟩)
      have her : (z.before ++ g2 :: z.after).eraseP (fun g => sameKey g.Header g2.Header) =
          z.before ++ z.after := by
        rw [List.eraseP_append_right _ (fun g hg => by rw [hbef g hg]; simp)]
        rw [List.eraseP_cons]
        simp only [sameKey_self, cond_true]
      simp only [her] at e
      subst e
      refine ⟨?_, ?_, ?_⟩
      · simp only [keysDistinct, List.map_append, List.map_cons, List.map_nil]
        have h3 : ∀ g, sameKey g g3.Header = sameKey g g2.Header := by
          intro g; rw [hfr.1]; rfl
        refine List.pairwise_append.mpr ⟨List.pairwise_append.mpr ⟨hI1, hI5, ?_⟩,
          List.pairwise_singleton _ _, ?_⟩
        · intro a ha b1 hb1
          exact hI3 a ha b1 (List.mem_cons_of_mem _ hb1)
        · intro a ha b1 hb1
          rw [List.mem_singleton] at hb1
          subst hb1
          rw [h3]
          rcases List.mem_append.mp ha with h1 | h1
          · obtain ⟨g, hg, e⟩ := List.mem_map.mp h1
            rw [← e]; exact hbef g hg
          · obtain ⟨g, hg, e⟩ := List.mem_map.mp h1
            rw [← e]; exact haft g hg
      · intro x hx
        apply covered_mono m z.all _ x _ hx
        intro g hg
        rcases (mem_all z g).mp hg with h1 | h1 | h1 | h1
        · exact ⟨g, (mem_all _ g).mpr (Or.inl (List.mem_append_left _ h1)), fun o ho => ho⟩
        · exact ⟨g, (mem_all _ g).mpr (Or.inr (Or.inl (List.mem_append_left _ h1))),
            fun o ho => ho⟩
        · refine ⟨g2, (mem_all _ g2).mpr (Or.inl (List.mem_append_right _ (by simp))), ?_⟩
          intro o ho
          exact hr.2.2.2 o (h1 ▸ ho) (hne o (h1 ▸ ho))
        · exact ⟨g, (mem_all _ g).mpr (Or.inr (Or.inl (List.mem_append_right _ h1))),
            fun o ho => ho⟩
      · exact ⟨g3, (mem_all _ g3).mpr (Or.inr (Or.inr (Or.inl rfl))), b.withNumber 0,
          by rw [hfr.2.1]; simp, hbb⟩

theorem steps_covers (rops : RecordOps) (m : MergeOps) (laws : MergeLaws m)
    (bs : List Batcher) :
    ∀ z z1 : MergeView, keysDistinct (z.before ++ z.cur :: z.after) →
      MergeView.steps rops m bs z = .ok z1 →
      keysDistinct (z1.before ++ z1.cur :: z1.after) ∧
      (∀ x, covered m z.all x → covered m z1.all x) ∧ ∀ b ∈ bs, covered m z1.all b := by
  induction bs with
  | nil =>
    intro z z1 hI h
    simp only [MergeView.steps, Except.ok.injEq] at h
    subst h
    exact ⟨hI, fun x hx => hx, by intro b hb; cases hb⟩
  | cons b rest ih =>
    intro z z1 hI h
    simp only [MergeView.steps] at h
    cases hs : z.step rops m b with
    | error e => rw [hs] at h; simp at h
    | ok z2 =>
      rw [hs] at h
      obtain ⟨h1, h2, h3⟩ := step_covers rops m laws b z z2 hI hs
      obtain ⟨h4, h5, h6⟩ := ih z2 z1 h1 h
      refine ⟨h4, fun x hx => h5 x (h2 x hx), ?_⟩
      intro b1 hb1
      rcases List.mem_cons.mp hb1 with e | e
      · subst e; exact h5 _ h3
      · exact h6 b1 e

/-- One input file keeps the keys of the output files distinct and keeps
covered what is covered, and after it its batches are covered. -/
theorem file_covers (rops : RecordOps) (m : MergeOps) (laws : MergeLaws m) (f : File)
    (s s1 : MergeValues) (hI : keysDistinct s.outfiles) (h : s.file rops m f = .ok s1) :
    keysDistinct s1.outfiles ∧
    (∀ x, covered m (s.locMaxed ++ s.outfiles) x → covered m (s1.locMaxed ++ s1.outfiles) x) ∧
    ∀ b ∈ f.Batches, covered m (s1.locMaxed ++ s1.outfiles) b := by
  rcases file_ok rops m f s s1 h with ⟨hn, e⟩ | ⟨x, z, hx, hz, e⟩
  · subst e
    refine ⟨?_, ?_, ?_⟩
    · simp only [keysDistinct, List.map_append, List.map_cons, List.map_nil]
      refine List.pairwise_append.mpr ⟨hI, List.pairwise_singleton _ _, ?_⟩
      intro a ha b1 hb1
      rw [List.mem_singleton] at hb1
      subst hb1
      obtain ⟨g, hg, e⟩ := List.mem_map.mp ha
      rw [← e]
      exact splitAtKey_none _ _ hn g hg
    · intro x hx
      apply covered_mono m _ _ x _ hx
      intro g hg
      refine ⟨g, ?_, fun o ho => ho⟩
      rcases List.mem_append.mp hg with h1 | h1
      · exact List.mem_append_left _ h1
      · exact List.mem_append_right _ (List.mem_append_left _ h1)
    · intro b hb
      refine ⟨{ f with Batches := renumber 1 f.Batches }, by simp, b.withNumber 0, ?_, ?_⟩
      · rw [(renumbered_keeps f).2.1]
        exact List.mem_map.mpr ⟨b, hb, rfl⟩
      · rw [(equal_core m laws b b 0).1]; exact laws.equal_refl b
  · obtain ⟨e1, _, _⟩ := splitAtKey_some _ _ x hx
    obtain ⟨h1, h2, h3⟩ := steps_covers rops m laws f.Batches _ z (by rw [← e1]; exact hI) hz
    have hall : ∀ g ∈ z.all, ∃ g1 ∈ z.locMaxed ++
        (z.before ++ { z.cur with Batches := renumber 1 z.cur.Batches } :: z.after),
        ∀ o ∈ g.cores, o ∈ g1.cores := by
      intro g hg
      rcases (mem_all z g).mp hg with h4 | h4 | h4 | h4
      · exact ⟨g, by simp [h4], fun o ho => ho⟩
      · exact ⟨g, by simp [h4], fun o ho => ho⟩
      · refine ⟨{ z.cur with Batches := renumber 1 z.cur.Batches }, by simp, ?_⟩
        intro o ho
        rw [(renumbered_keeps z.cur).2.1]
        exact h4 ▸ ho
      · exact ⟨g, by simp [h4], fun o ho => ho⟩
    subst e
    refine ⟨?_, ?_, ?_⟩
    · simp only [keysDistinct, List.map_append, List.map_cons] at h1 ⊢
      exact h1
    · intro y hy
      apply covered_mono m z.all _ y hall
      apply h2
      apply covered_mono m _ _ y _ hy
      intro g hg
      refine ⟨g, ?_, fun o ho => ho⟩
      rcases List.mem_append.mp hg with h4 | h4
      · exact (mem_all _ g).mpr (Or.inl h4)
      · rw [e1] at h4
        rcases List.mem_append.mp h4 with h5 | h5
        · exact (mem_all _ g).mpr (Or.inr (Or.inl h5))
        · rcases List.mem_cons.mp h5 with h6 | h6
          · exact (mem_all _ g).mpr (Or.inr (Or.inr (Or.inl h6)))
          · exact (mem_all _ g).mpr (Or.inr (Or.inr (Or.inr h6)))
    · intro b hb
      exact covered_mono m z.all _ b hall (h3 b hb)

theorem files_covers (rops : RecordOps) (m : MergeOps) (laws : MergeLaws m) (fl : List File) :
    ∀ s s1 : MergeValues, keysDistinct s.outfiles → MergeValues.files rops m fl s = .ok s1 →
      keysDistinct s1.outfiles ∧
      (∀ x, covered m (s.locMaxed ++ s.outfiles) x →
        covered m (s1.locMaxed ++ s1.outfiles) x) ∧
      ∀ f ∈ fl, ∀ b ∈ f.Batches, covered m (s1.locMaxed ++ s1.outfiles) b := by
  induction fl with
  | nil =>
    intro s s1 hI h
    simp only [MergeValues.files, Except.ok.injEq] at h
    subst h
    exact ⟨hI, fun x hx => hx, by intro f hf; cases hf⟩
  | cons f rest ih =>
    intro s s1 hI h
    simp only [MergeValues.files] at h
    cases hs : s.file rops m f with
    | error e => rw [hs] at h; simp at h
    | ok s2 =>
      rw [hs] at h
      obtain ⟨h1, h2, h3⟩ := file_covers rops m laws f s s2 hI hs
      obtain ⟨h4, h5, h6⟩ := ih s2 s1 h1 h
      refine ⟨h4, fun x hx => h5 x (h2 x hx), ?_⟩
      intro f1 hf1 b hb
      rcases List.mem_cons.mp hf1 with e | e
      · subst e; exact h5 _ (h3 b hb)
      · exact h6 f1 e b hb

/-- C18: when `MergeFiles` succeeds, every batch of every input file is Equal
to a batch of a returned file, and every batch of a returned file is Equal to
a batch of an input file, when `Equal` and `RemoveBatch` obey their laws. -/
theorem merge_preserves_content (rops : RecordOps) (m : MergeOps) (laws : MergeLaws m)
    (files out : List File) (h : MergeFiles rops m files = .ok out) :
    (∀ f ∈ files, ∀ b ∈ f.Batches, ∃ g ∈ out, ∃ o ∈ g.Batches, m.Equal b o = true) ∧
    (∀ g ∈ out, ∀ o ∈ g.Batches, ∃ f ∈ files, ∃ b ∈ f.Batches, m.Equal o b = true) := by
  constructor
  · intro f hf b hb
    have h1 := h
    rw [merge_values rops m laws.equal_refl] at h1
    simp only [mergeValues] at h1
    cases hs : MergeValues.files rops m files { outfiles := [], locMaxed := [], clock := 0 } with
    | error e => rw [hs] at h1; simp at h1
    | ok s =>
      rw [hs] at h1
      simp only [Except.ok.injEq] at h1
      subst h1
      obtain ⟨_, _, h3⟩ := files_covers rops m laws files _ s
        (by simp [keysDistinct]) hs
      obtain ⟨g, hg, o, ho, he⟩ := h3 f hf b hb
      obtain ⟨o1, ho1, e⟩ := List.mem_map.mp ho
      refine ⟨g, hg, o1, ho1, ?_⟩
      rw [← e, (equal_core m laws b o1 0).1] at he
      exact he
  · intro g hg o ho
    obtain ⟨f, hf, _, hc⟩ := merge_origin rops m laws files out h g hg (o.withNumber 0)
      (List.mem_map.mpr ⟨o, ho, rfl⟩)
    obtain ⟨b0, hb0, e⟩ := List.mem_map.mp hc
    refine ⟨f, hf, b0, hb0, ?_⟩
    rw [← (equal_core m laws o b0 0).2, ← e, (equal_core m laws b0 b0 0).2]
    exact laws.equal_refl b0

/-! ## `MergeFiles`: the claims on sample files -/

/-- The Equal and the RemoveBatch of the specification obey the laws. -/
theorem specMergeOps_laws : MergeLaws specMergeOps where
  equal_refl := by intro b; simp [specMergeOps, specEqual]
  equal_symm := by
    intro a b
    simp only [specMergeOps, specEqual]
    congr 1
    exact propext ⟨fun h => ⟨h.1.symm, h.2.symm⟩, fun h => ⟨h.1.symm, h.2.symm⟩⟩
  equal_number := by intro a b n; rfl
  remove_header := by intro f b; rfl
  remove_iat := by intro f b; rfl
  remove_sublist := by intro f b; exact List.filter_sublist _
  remove_equal := by
    intro f b x hx
    have := (List.mem_filter.mp hx).2
    simpa [specMergeOps] using this
  remove_keeps := by
    intro f b x hx he
    exact List.mem_filter.mpr ⟨hx, by simpa [specMergeOps] using he⟩

/-- A list of one file comes back as it is, its batches numbered from 1, when
Equal is reflexive. -/
theorem merge_single (rops : RecordOps) (m : MergeOps) (hrefl : ∀ b, m.Equal b b = true)
    (f : File) :
    MergeFiles rops m [f] = .ok [{ f with Batches := renumber 1 f.Batches }] := by
  rw [merge_values rops m hrefl]
  rfl

set_option maxRecDepth 1000000 in
/-- C17 as stated fails: the input file `sampleBig`, one CTX batch whose entry
carries 9,997 addenda records, has 10,002 lines; it is the first file of its
key, so `MergeFiles` hands it back as its own output file, with more than
10,000 lines. -/
theorem merge_returns_long_file :
    MergeFiles specOps specMergeOps [sampleBig] =
      .ok [{ sampleBig with Batches := renumber 1 sampleBig.Batches }] ∧
    (lineCount { sampleBig with Batches := renumber 1 sampleBig.Batches }).1 =
      10002 ∧
    ¬ ((lineCount { sampleBig with Batches := renumber 1 sampleBig.Batches }).1 ≤
      NACHAFileLineLimit) := by
  have hb : batchLines sampleBigBatch = 10000 := by
    simp only [batchLines, sampleBigBatch, List.map_cons, List.map_nil, List.sum_cons,
      List.sum_nil, lineCountEntry, sampleEntry, List.length_replicate, ne_eq,
      not_true_eq_false, if_false]
    norm_num
  have h : (lineCount
      { sampleBig with Batches := renumber 1 sampleBig.Batches }).1 = 10002 := by
    rw [lineCount_eq]
    have e1 : ({ sampleBig with Batches := renumber 1 sampleBig.Batches } : File).Batches.map
        batchLines = [batchLines sampleBigBatch] := rfl
    have e2 : ({ sampleBig with Batches := renumber 1 sampleBig.Batches } : File).IATBatches =
        [] := rfl
    rw [e1, e2, hb]
    rfl
  refine ⟨merge_single specOps specMergeOps specMergeOps_laws.equal_refl sampleBig, h, ?_⟩
  rw [h]
  decide

set_option maxRecDepth 1000000 in
/-- C17 amended, at `sampleHalves`: two input files of 5,004 lines each with
the same key. The batch of the second takes the first over 10,000 lines, so
it is removed again, the first file is sealed and the batch goes into a new
file with the date of now: two files of 5,004 lines come back. -/
theorem merge_line_limit_witness :
    MergeFiles specOps specMergeOps sampleHalves = .ok sampleHalvesMerged ∧
    (∀ f ∈ sampleHalves, (lineCount f).1 ≤ NACHAFileLineLimit) ∧
    sampleHalvesMerged.map (fun g => (lineCount g).1) = [5004, 5004] ∧
    sampleHalvesMerged.map (fun g => g.Header.FileCreationDate) = ["181008", "181010"] ∧
    ∀ g ∈ sampleHalvesMerged, (lineCount g).1 ≤ NACHAFileLineLimit :=
  ⟨by rfl, by decide, by rfl, by rfl,
    merge_line_limit specOps specMergeOps specMergeOps_laws sampleHalves sampleHalvesMerged
      (by decide) (by rfl)⟩

set_option maxRecDepth 1000000 in
/-- C18 at `sampleHalves`, where the batch of the second input file ends up
in a new file. -/
theorem merge_preserves_content_witness :
    MergeFiles specOps specMergeOps sampleHalves = .ok sampleHalvesMerged ∧
    (∀ f ∈ sampleHalves, ∀ b ∈ f.Batches, ∃ g ∈ sampleHalvesMerged, ∃ o ∈ g.Batches,
      specMergeOps.Equal b o = true) ∧
    (∀ g ∈ sampleHalvesMerged, ∀ o ∈ g.Batches, ∃ f ∈ sampleHalves, ∃ b ∈ f.Batches,
      specMergeOps.Equal o b = true) :=
  ⟨by rfl, merge_preserves_content specOps specMergeOps specMergeOps_laws sampleHalves
    sampleHalvesMerged (by rfl)⟩

set_option maxRecDepth 1000000 in
/-- C19 as stated fails. The input file `sampleDup` holds the same batch
twice; it is the first file of its key, so `MergeFiles` hands it back with
both batches, which are Equal. And the two files of `samplePair`, which have
different keys and hold the same batch once each, come back as two files: a
batch of the first is Equal to a batch of the second. -/
theorem merge_keeps_equal_batches :
    (MergeFiles specOps specMergeOps [sampleDup] = .ok [sampleDup] ∧
      sampleDup.Batches = [sampleEntryBatch.withNumber 1, sampleEntryBatch.withNumber 2] ∧
      specMergeOps.Equal (sampleEntryBatch.withNumber 1) (sampleEntryBatch.withNumber 2) =
        true) ∧
    (MergeFiles specOps specMergeOps samplePair = .ok samplePair ∧
      (∀ f ∈ samplePair, f.Batches.Pairwise (fun x y => specMergeOps.Equal x y = false)) ∧
      samplePair = [samplePPD, { samplePPD with Header := sampleSecondHeader }] ∧
      samplePPD.Batches = [sampleEntryBatch.withNumber 1] ∧
      specMergeOps.Equal (sampleEntryBatch.withNumber 1) (sampleEntryBatch.withNumber 1) =
        true) :=
  ⟨⟨by rfl, by decide, by decide⟩, by rfl, by decide, rfl, by decide, by decide⟩

set_option maxRecDepth 1000000 in
/-- C19 amended, at `sampleMergeIn`: the two batches of the merged file are
not Equal. -/
theorem merge_no_duplicates_within_witness :
    MergeFiles specOps specMergeOps sampleMergeIn = .ok sampleMerged ∧
    (∀ f ∈ sampleMergeIn, f.Batches.Pairwise (fun x y => specMergeOps.Equal x y = false)) ∧
    ∀ g ∈ sampleMerged, g.Batches.Pairwise (fun x y => specMergeOps.Equal x y = false) :=
  ⟨by rfl, by decide,
    merge_no_duplicates_within specOps specMergeOps specMergeOps_laws sampleMergeIn sampleMerged
      (by decide) (by rfl)⟩

set_option maxRecDepth 1000000 in
/-- C20 at `sampleMergeIn`. -/
theorem merge_along_key_witness :
    MergeFiles specOps specMergeOps sampleMergeIn = .ok sampleMerged ∧
    ∀ g ∈ sampleMerged, ∀ b ∈ g.Batches, ∃ f ∈ sampleMergeIn,
      f.Header.ImmediateDestination = g.Header.ImmediateDestination ∧
      f.Header.ImmediateOrigin = g.Header.ImmediateOrigin ∧
      ∃ b0 ∈ f.Batches, b0.withNumber 0 = b.withNumber 0 :=
  ⟨by rfl, merge_along_key specOps specMergeOps specMergeOps_laws sampleMergeIn sampleMerged
    (by rfl)⟩

/-! ## The batch numbers after `MergeFiles` -/

theorem renumber_getElem? (bs : List Batcher) (n : Int) (i : Nat) :
    (renumber n bs)[i]? = (bs[i]?).map (fun b => b.withNumber (n + i)) := by
  induction bs generalizing n i with
  | nil => simp [renumber]
  | cons b rest ih =>
    cases i with
    | zero => simp [renumber, Batcher.withNumber]
    | succ j =>
      simp only [renumber, List.getElem?_cons_succ, ih]
      have e : n + 1 + (j : Int) = n + ((j : Int) + 1) := by ring
      simp [e]

/-- The renumbering loop leaves the batches numbered from 1. -/
theorem renumbered_numbered (g : File) :
    ({ g with Batches := renumber 1 g.Batches } : File).numbered := by
  intro i b h
  simp only [renumber_getElem?] at h
  obtain ⟨b0, _, rfl⟩ := Option.map_eq_some'.mp h
  simp [Batcher.withNumber, add_comm]

/-- A successful `File.Create` leaves the batches numbered from 1. -/
theorem create_numbered (ops : RecordOps) (f g : File) (h : File.Create ops f = (g, none)) :
    g.numbered := by
  intro i b hb
  rw [(create_success ops f g h).1, createBatches_getElem?] at hb
  obtain ⟨b0, _, rfl⟩ := Option.map_eq_some'.mp hb
  simp [Batcher.withNumber, CreateVars.init, add_comm]

/-- The placing of a batch keeps the sealed files and the output files other
than the current one numbered from 1: a file that is sealed has just been
through `File.Create`. -/
theorem step_numbered (rops : RecordOps) (m : MergeOps) (b : Batcher) (z z1 : MergeView)
    (hz : ∀ g ∈ z.locMaxed ++ (z.before ++ z.after), g.numbered)
    (h : z.step rops m b = .ok z1) :
    ∀ g ∈ z1.locMaxed ++ (z1.before ++ z1.after), g.numbered := by
  rcases step_ok rops m b z z1 h with ⟨e, _⟩ | ⟨_, g1, _, ⟨_, e⟩ | ⟨_, hs⟩⟩
  · subst e; exact hz
  · subst e; exact hz
  · obtain ⟨g2, g3, h2, _, e⟩ := split_ok rops m b _ z1 hs
    subst e
    have n2 := create_numbered rops _ g2 h2
    intro g hg
    simp only [List.mem_append, List.mem_singleton, List.append_nil] at hg
    rcases hg with (h1 | h1) | h1
    · exact hz g (List.mem_append_left _ h1)
    · subst h1; exact n2
    · have := List.mem_of_mem_eraseP h1
      simp only [List.mem_append, List.mem_cons] at this
      rcases this with h3 | h3 | h3
      · exact hz g (List.mem_append_right _ (List.mem_append_left _ h3))
      · subst h3; exact n2
      · exact hz g (List.mem_append_right _ (List.mem_append_right _ h3))

/-- C21: in every file that a successful `MergeFiles` returns, the i-th
ordinary batch (counted from 1) carries the number i in its header and in its
control, when `Equal` is reflexive: a sealed file has been numbered by
`File.Create`, every other output file by the renumbering loop at the end of
the last input file that went into it. -/
theorem merge_batch_numbers (rops : RecordOps) (m : MergeOps)
    (hrefl : ∀ b, m.Equal b b = true) (files out : List File)
    (h : MergeFiles rops m files = .ok out) :
    ∀ g ∈ out, ∀ (i : Nat) (b : Batcher), g.Batches[i]? = some b →
      b.Header.BatchNumber = (i : Int) + 1 ∧ b.Control.BatchNumber = (i : Int) + 1 := by
  rw [merge_values rops m hrefl] at h
  simp only [mergeValues] at h
  cases hs : MergeValues.files rops m files { outfiles := [], locMaxed := [], clock := 0 } with
  | error e => rw [hs] at h; simp at h
  | ok s =>
    rw [hs] at h
    simp only [Except.ok.injEq] at h
    subst h
    refine files_induction rops m (fun s => ∀ g ∈ s.locMaxed ++ s.outfiles, g.numbered) files ?_
      _ s (by intro g hg; cases hg) hs
    intro f hf s s1 hJ hfile
    rcases file_ok rops m f s s1 hfile with ⟨_, e⟩ | ⟨x, z, hx, hz, e⟩
    · subst e
      intro g hg
      simp only [List.mem_append, List.mem_singleton] at hg
      rcases hg with h1 | h1 | h1
      · exact hJ g (List.mem_append_left _ h1)
      · exact hJ g (List.mem_append_right _ h1)
      · subst h1; exact renumbered_numbered f
    · obtain ⟨e1, e2, _⟩ := splitAtKey_some _ _ x hx
      have hI := steps_induction rops m
        (fun z => ∀ g ∈ z.locMaxed ++ (z.before ++ z.after), g.numbered) f.Batches
        (fun b _ z z1 hz hstep => step_numbered rops m b z z1 hz hstep)
        _ z (by
          intro g hg
          apply hJ g
          simp only [List.mem_append] at hg
          rcases hg with h1 | h1 | h1
          · exact List.mem_append_left _ h1
          · exact List.mem_append_right _ (by rw [e1]; simp [h1])
          · exact List.mem_append_right _ (by rw [e1]; simp [h1])) hz
      subst e
      intro g hg
      simp only [List.mem_append, List.mem_cons] at hg
      rcases hg with h1 | h1 | h1 | h1
      · exact hI g (List.mem_append_left _ h1)
      · exact hI g (List.mem_append_right _ (List.mem_append_left _ h1))
      · subst h1; exact renumbered_numbered z.cur
      · exact hI g (List.mem_append_right _ (List.mem_append_right _ h1))

set_option maxRecDepth 1000000 in
/-- C21 at `sampleHalves`, where `MergeFiles` returns a sealed file and a new
file, and at `sampleMergeIn`, where the batch of the second input file, which
carried the number 1, is the second batch of the merged file. -/
theorem merge_batch_numbers_witness :
    (∀ b, specMergeOps.Equal b b = true) ∧
    MergeFiles specOps specMergeOps sampleHalves = .ok sampleHalvesMerged ∧
    (∀ g ∈ sampleHalvesMerged, ∀ (i : Nat) (b : Batcher), g.Batches[i]? = some b →
      b.Header.BatchNumber = (i : Int) + 1 ∧ b.Control.BatchNumber = (i : Int) + 1) ∧
    sampleMerged.map (fun g => g.Batches.map (fun b => b.Header.BatchNumber)) = [[1, 2]] ∧
    sampleMergeIn.map (fun g => g.Batches.map (fun b => b.Header.BatchNumber)) = [[1], [1]] :=
  ⟨specMergeOps_laws.equal_refl, by rfl,
    merge_batch_numbers specOps specMergeOps specMergeOps_laws.equal_refl sampleHalves
      sampleHalvesMerged (by rfl), by decide, by decide⟩

/-! ## The line count, spelled out -/

theorem entry_lines (e : EntryDetail) :
    lineCountEntry 0 e = 1 + (if e.Addenda02 ≠ none then 1 else 0) + (e.Addenda05.length : Int) +
      (if e.Addenda98 ≠ none then 1 else 0) + (if e.Addenda99 ≠ none then 1 else 0) := by
  simp only [lineCountEntry, ite_succ]
  ring

theorem iatEntry_lines (e : IATEntryDetail) :
    lineCountIATEntry 0 e = 1 +
      ((if e.Addenda10 ≠ none then 1 else 0) + (if e.Addenda11 ≠ none then 1 else 0) +
       (if e.Addenda12 ≠ none then 1 else 0) + (if e.Addenda13 ≠ none then 1 else 0) +
       (if e.Addenda14 ≠ none then 1 else 0) + (if e.Addenda15 ≠ none then 1 else 0) +
       (if e.Addenda16 ≠ none then 1 else 0)) +
      (e.Addenda17.length : Int) + (e.Addenda18.length : Int) +
      (if e.Addenda98 ≠ none then 1 else 0) + (if e.Addenda99 ≠ none then 1 else 0) := by
  simp only [lineCountIATEntry, ite_succ]
  ring

/-- C22: `lineCount` returns 2, plus for every ordinary batch 2 and for each of
its entries 1, 1 for an Addenda02, the number of its Addenda05 records, 1 for
an Addenda98 and 1 for an Addenda99, plus for every IAT batch 2 and for each
of its entries 1, 1 for each of Addenda10 to Addenda16 that is not nil, the
numbers of its Addenda17 and Addenda18 records, 1 for an Addenda98 and 1 for
an Addenda99. The error it returns is nil, and the count is at least 2. -/
theorem lineCount_formula (f : File) :
    (lineCount f).1 =
      2 + (f.Batches.map (fun b => 2 + (b.Entries.map (fun e =>
          1 + (if e.Addenda02 ≠ none then 1 else 0) + (e.Addenda05.length : Int) +
            (if e.Addenda98 ≠ none then 1 else 0) +
            (if e.Addenda99 ≠ none then 1 else 0))).sum)).sum +
        (f.IATBatches.map (fun b => 2 + (b.Entries.map (fun e =>
          1 +
            ((if e.Addenda10 ≠ none then 1 else 0) + (if e.Addenda11 ≠ none then 1 else 0) +
             (if e.Addenda12 ≠ none then 1 else 0) + (if e.Addenda13 ≠ none then 1 else 0) +
             (if e.Addenda14 ≠ none then 1 else 0) + (if e.Addenda15 ≠ none then 1 else 0) +
             (if e.Addenda16 ≠ none then 1 else 0)) +
            (e.Addenda17.length : Int) + (e.Addenda18.length : Int) +
            (if e.Addenda98 ≠ none then 1 else 0) +
            (if e.Addenda99 ≠ none then 1 else 0))).sum)).sum ∧
    (lineCount f).2 = none ∧ 2 ≤ (lineCount f).1 := by
  refine ⟨?_, lineCount_snd f, lineCount_ge f⟩
  rw [lineCount_eq]
  have e1 : batchLines = fun b => 2 + (b.Entries.map (fun e =>
      1 + (if e.Addenda02 ≠ none then 1 else 0) + (e.Addenda05.length : Int) +
        (if e.Addenda98 ≠ none then 1 else 0) +
        (if e.Addenda99 ≠ none then 1 else 0))).sum := by
    funext b
    simp only [batchLines]
    rw [show lineCountEntry 0 = _ from funext entry_lines]
  have e2 : iatBatchLines = fun b => 2 + (b.Entries.map (fun e =>
      1 +
        ((if e.Addenda10 ≠ none then 1 else 0) + (if e.Addenda11 ≠ none then 1 else 0) +
         (if e.Addenda12 ≠ none then 1 else 0) + (if e.Addenda13 ≠ none then 1 else 0) +
         (if e.Addenda14 ≠ none then 1 else 0) + (if e.Addenda15 ≠ none then 1 else 0) +
         (if e.Addenda16 ≠ none then 1 else 0)) +
        (e.Addenda17.length : Int) + (e.Addenda18.length : Int) +
        (if e.Addenda98 ≠ none then 1 else 0) +
        (if e.Addenda99 ≠ none then 1 else 0))).sum := by
    funext b
    simp only [iatBatchLines]
    rw [show lineCountIATEntry 0 = _ from funext (iatEntry_lines)]
  rw [e1, e2]

/-! ## `File.AddBatch` and the views of a file -/

/-- What `File.AddBatch` does to each field of the file. -/
theorem addBatch_all (f : File) (b : Batcher) :
    (f.AddBatch b).Batches = f.Batches ++ [b] ∧
    (f.AddBatch b).NotificationOfChange =
      (if b.kind = "BatchCOR" then f.NotificationOfChange ++ [b] else f.NotificationOfChange) ∧
    (f.AddBatch b).ReturnEntries =
      (if b.category = CategoryReturn then f.ReturnEntries ++ [b] else f.ReturnEntries) ∧
    (f.AddBatch b).Header = f.Header ∧ (f.AddBatch b).Control = f.Control ∧
    (f.AddBatch b).IATBatches = f.IATBatches ∧ (f.AddBatch b).ID = f.ID := by
  simp only [File.AddBatch]
  split_ifs <;> exact ⟨rfl, rfl, rfl, rfl, rfl, rfl, rfl⟩

/-- C28: `File.AddBatch` puts the batch after the batches the file holds, which
stay as they are; the batch is appended to NotificationOfChange when it is a
`BatchCOR`, and the list is left as it is when it is not; the batch is
appended to ReturnEntries when its category is Return, and the list is left as
it is when it is not; header, control and IAT batches are not touched. -/
theorem addBatch_appends (f : File) (b : Batcher) :
    (f.AddBatch b).Batches = f.Batches ++ [b] ∧
    ((f.AddBatch b).NotificationOfChange = f.NotificationOfChange ++ [b] ↔
      b.kind = "BatchCOR") ∧
    ((f.AddBatch b).NotificationOfChange = f.NotificationOfChange ↔ b.kind ≠ "BatchCOR") ∧
    ((f.AddBatch b).ReturnEntries = f.ReturnEntries ++ [b] ↔ b.category = CategoryReturn) ∧
    ((f.AddBatch b).ReturnEntries = f.ReturnEntries ↔ b.category ≠ CategoryReturn) ∧
    (f.AddBatch b).Header = f.Header ∧ (f.AddBatch b).Control = f.Control ∧
    (f.AddBatch b).IATBatches = f.IATBatches := by
  obtain ⟨h1, h2, h3, h4, h5, h6, _⟩ := addBatch_all f b
  refine ⟨h1, ?_, ?_, ?_, ?_, h4, h5, h6⟩
  · rw [h2]; split_ifs with h <;> simp [h]
  · rw [h2]; split_ifs with h <;> simp [h]
  · rw [h3]; split_ifs with h <;> simp [h]
  · rw [h3]; split_ifs with h <;> simp [h]

/-- The batches and the views of a file after a run of `AddBatch` calls. -/
theorem addBatch_views (bs : List Batcher) (f : File) :
    (bs.foldl File.AddBatch f).Batches = f.Batches ++ bs ∧
    (bs.foldl File.AddBatch f).NotificationOfChange =
      f.NotificationOfChange ++ bs.filter (fun b => b.kind = "BatchCOR") ∧
    (bs.foldl File.AddBatch f).ReturnEntries =
      f.ReturnEntries ++ bs.filter (fun b => b.category = CategoryReturn) := by
  induction bs generalizing f with
  | nil => simp
  | cons b rest ih =>
    simp only [List.foldl_cons]
    obtain ⟨h1, h2, h3⟩ := ih (f.AddBatch b)
    obtain ⟨g1, g2, g3, _⟩ := addBatch_all f b
    rw [h1, h2, h3, g1, g2, g3]
    refine ⟨by simp, ?_, ?_⟩
    · by_cases hk : b.kind = "BatchCOR" <;> simp [hk, List.filter_cons]
    · by_cases hk : b.category = CategoryReturn <;> simp [hk, List.filter_cons]

set_option maxRecDepth 100000 in
/-- C29 as stated fails: `File.Validate` assigns to no field of the file. The
file `sampleViews` holds a `BatchCOR` and a batch of category Return while its
two views are empty; `File.Validate` returns nil on it, and the views are
empty afterwards. -/
theorem validate_leaves_views_empty :
    (File.afterValidate specConverters sampleViews).2 = none ∧
    sampleViews.Batches.map (fun b => (b.kind, b.category)) =
      [("BatchCOR", CategoryNOC), ("BatchPPD", CategoryReturn)] ∧
    (File.afterValidate specConverters sampleViews).1.NotificationOfChange = [] ∧
    (File.afterValidate specConverters sampleViews).1.ReturnEntries = [] ∧
    sampleViews.Batches.filter (fun b => b.kind = "BatchCOR") ≠ [] ∧
    sampleViews.Batches.filter (fun b => b.category = CategoryReturn) ≠ [] :=
  ⟨isNone_eq _ (by decide), by decide, by decide, by decide, by decide, by decide⟩

/-- C29, amended: `File.Validate` leaves the file as it is, the two views
included. The views are kept by `File.AddBatch`: in a file that is built from
one without batches and with empty views by calls of `AddBatch`,
NotificationOfChange holds exactly the `BatchCOR` batches of the file and
ReturnEntries exactly its batches of category Return, in their order, before
`File.Validate` and after it. -/
theorem validate_keeps_views (c : converters) (f0 : File) (bs : List Batcher)
    (hb : f0.Batches = []) (hn : f0.NotificationOfChange = []) (hr : f0.ReturnEntries = []) :
    (File.afterValidate c (bs.foldl File.AddBatch f0)).1 = bs.foldl File.AddBatch f0 ∧
    (File.afterValidate c (bs.foldl File.AddBatch f0)).1.NotificationOfChange =
      (bs.foldl File.AddBatch f0).Batches.filter (fun b => b.kind = "BatchCOR") ∧
    (File.afterValidate c (bs.foldl File.AddBatch f0)).1.ReturnEntries =
      (bs.foldl File.AddBatch f0).Batches.filter (fun b => b.category = CategoryReturn) := by
  obtain ⟨h1, h2, h3⟩ := addBatch_views bs f0
  refine ⟨rfl, ?_, ?_⟩
  · show (bs.foldl File.AddBatch f0).NotificationOfChange = _
    rw [h1, h2, hb, hn]
    simp
  · show (bs.foldl File.AddBatch f0).ReturnEntries = _
    rw [h1, h3, hb, hr]
    simp

set_option maxRecDepth 100000 in
/-- C29 amended, at the file built from the empty sample file by adding
`sampleCOR` and `sampleReturn`. -/
theorem validate_keeps_views_witness :
    (sampleFile []).Batches = [] ∧ (sampleFile []).NotificationOfChange = [] ∧
    (sampleFile []).ReturnEntries = [] ∧
    (File.afterValidate specConverters
      ([sampleCOR, sampleReturn].foldl File.AddBatch (sampleFile []))).1.NotificationOfChange =
      [sampleCOR] ∧
    (File.afterValidate specConverters
      ([sampleCOR, sampleReturn].foldl File.AddBatch (sampleFile []))).1.ReturnEntries =
      [sampleReturn] := by
  have h := validate_keeps_views specConverters (sampleFile []) [sampleCOR, sampleReturn]
    rfl rfl rfl
  refine ⟨rfl, rfl, rfl, ?_, ?_⟩
  · rw [h.2.1]; decide
  · rw [h.2.2]; decide

/-! ## The text of an error of the package `errors` -/

/-- C30 fails on the code: `(*Error).Error` writes the messages of the
underlying errors as they are, separated by newlines, and puts no blanks in
front. The text of `errors.New(m)` is `m`, and the text of
`errors.File(field, value, msg)` with a field or a value is the formatted
message; the tests `TestErrorFormat` and `TestFileError` expect two blanks in
front of both. -/
theorem error_text_has_no_indent :
    (∀ m : String, (errors.New m).message = m) ∧
    (∀ field value msg : String, ¬ (field = "" ∧ value = "") →
      (errors.File field value msg).message =
        "file error field=" ++ errors.quote field ++ " value=" ++ errors.quote value ++
          " message=" ++ errors.quote msg) ∧
    (errors.New "foobar").message = "foobar" ∧
    (errors.New "foobar").message ≠ "  foobar" ∧
    (errors.File "mock" "" "test message").message =
      "file error field=\"mock\" value=\"\" message=\"test message\"" ∧
    (errors.File "mock" "" "test message").message ≠
      "  file error field=\"mock\" value=\"\" message=\"test message\"" := by
  have h : ∀ m : String, (errors.New m).message = m := by
    intro m
    simp [errors.New, errors.WithError, GoError.message, GoError.messages]
  refine ⟨h, ?_, h _, ?_, ?_, ?_⟩
  · intro field value msg hne
    simp only [errors.File, if_neg hne]
    exact h _
  · rw [h]; decide
  · decide
  · decide

/-! ## The `Validate` of the batch types ARC, RCK, PPD and CTX -/

theorem fail_ne_none (b : Batcher) (f m : String) : b.fail f m ≠ none := by
  simp [Batcher.fail]

theorem orElse_none (r : Option ValidateError) : orElse none r = r := rfl

theorem orElse_ne_none (e : Option GoError) (r : Option ValidateError) (h : r ≠ none) :
    orElse e r ≠ none := by
  cases e with
  | none => exact h
  | some x => simp [orElse]

/-- The entry loop of `BatchARC.Validate` goes on behind entries that pass. -/
theorem arc_entries_append (ops : BatchOps) (b : Batcher) (pre rest : List EntryDetail)
    (h : BatchARC.validateEntries ops b pre = none) :
    BatchARC.validateEntries ops b (pre ++ rest) = BatchARC.validateEntries ops b rest := by
  induction pre with
  | nil => rfl
  | cons e es ih =>
    simp only [BatchARC.validateEntries, List.cons_append] at h ⊢
    split_ifs at h ⊢ with h1 h2 h3
    · exact absurd h (fail_ne_none _ _ _)
    · exact absurd h (fail_ne_none _ _ _)
    · exact absurd h (fail_ne_none _ _ _)
    · cases ha : BatchARC.validateAddenda ops b e e.Addendum with
      | some x => rw [ha] at h; simp at h
      | none => rw [ha] at h; simp only at h ⊢; exact ih h

/-- The entry loop of `BatchARC.Validate` stops with an error when an entry is
over the cap. -/
theorem arc_entries_over (ops : BatchOps) (b : Batcher) (es : List EntryDetail)
    (h : ∃ e ∈ es, e.Amount > 2500000) : BatchARC.validateEntries ops b es ≠ none := by
  induction es with
  | nil => obtain ⟨e, he, _⟩ := h; cases he
  | cons e es ih =>
    simp only [BatchARC.validateEntries]
    split_ifs with h1 h2 h3
    · exact fail_ne_none _ _ _
    · exact fail_ne_none _ _ _
    · exact fail_ne_none _ _ _
    · cases ha : BatchARC.validateAddenda ops b e e.Addendum with
      | some x => simp
      | none =>
        simp only
        apply ih
        obtain ⟨e1, he1, ha1⟩ := h
        rcases List.mem_cons.mp he1 with rfl | h4
        · exact absurd ha1 h2
        · exact ⟨e1, h4, ha1⟩

/-- The entry loop of `BatchARC.Validate` on entries that are debits, have a
check serial number and pass the addenda loop: it returns nil exactly when no
amount is over the cap. -/
theorem arc_entries_iff (ops : BatchOps) (b : Batcher) (es : List EntryDetail)
    (h : ∀ e ∈ es, ops.CreditOrDebit e = "D" ∧ e.IdentificationNumber ≠ "" ∧
      BatchARC.validateAddenda ops b e e.Addendum = none) :
    BatchARC.validateEntries ops b es = none ↔ ∀ e ∈ es, e.Amount ≤ 2500000 := by
  induction es with
  | nil => simp [BatchARC.validateEntries]
  | cons e es ih =>
    obtain ⟨h1, h2, h3⟩ := h e (List.mem_cons_self _ _)
    have ih1 := ih (fun x hx => h x (List.mem_cons_of_mem _ hx))
    simp only [BatchARC.validateEntries, h1, h2, h3, ne_eq, not_true_eq_false, if_false,
      List.forall_mem_cons]
    split_ifs with h4
    · constructor
      · intro hc; exact absurd hc (fail_ne_none _ _ _)
      · intro hc; omega
    · rw [ih1]
      constructor
      · intro hc; exact ⟨by omega, hc⟩
      · intro hc; exact hc.2

/-- The entry loop of `BatchRCK.Validate` goes on behind entries that pass. -/
theorem rck_entries_append (ops : BatchOps) (b : Batcher) (pre rest : List EntryDetail)
    (h : BatchRCK.validateEntries ops b pre = none) :
    BatchRCK.validateEntries ops b (pre ++ rest) = BatchRCK.validateEntries ops b rest := by
  induction pre with
  | nil => rfl
  | cons e es ih =>
    simp only [BatchRCK.validateEntries, List.cons_append] at h ⊢
    split_ifs at h ⊢ with h1 h2 h3
    · exact absurd h (fail_ne_none _ _ _)
    · exact absurd h (fail_ne_none _ _ _)
    · exact absurd h (fail_ne_none _ _ _)
    · cases ha : BatchRCK.validateAddenda ops b e e.Addendum with
      | some x => rw [ha] at h; simp at h
      | none => rw [ha] at h; simp only at h ⊢; exact ih h

/-- The entry loop of `BatchRCK.Validate` stops with an error when an entry is
over the cap. -/
theorem rck_entries_over (ops : BatchOps) (b : Batcher) (es : List EntryDetail)
    (h : ∃ e ∈ es, e.Amount > 250000) : BatchRCK.validateEntries ops b es ≠ none := by
  induction es with
  | nil => obtain ⟨e, he, _⟩ := h; cases he
  | cons e es ih =>
    simp only [BatchRCK.validateEntries]
    split_ifs with h1 h2 h3
    · exact fail_ne_none _ _ _
    · exact fail_ne_none _ _ _
    · exact fail_ne_none _ _ _
    · cases ha : BatchRCK.validateAddenda ops b e e.Addendum with
      | some x => simp
      | none =>
        simp only
        apply ih
        obtain ⟨e1, he1, ha1⟩ := h
        rcases List.mem_cons.mp he1 with rfl | h4
        · exact absurd ha1 h2
        · exact ⟨e1, h4, ha1⟩

/-- The entry loop of `BatchRCK.Validate` on entries that are debits, have a
check serial number and pass the addenda loop: it returns nil exactly when no
amount is over the cap. -/
theorem rck_entries_iff (ops : BatchOps) (b : Batcher) (es : List EntryDetail)
    (h : ∀ e ∈ es, ops.CreditOrDebit e = "D" ∧ e.IdentificationNumber ≠ "" ∧
      BatchRCK.validateAddenda ops b e e.Addendum = none) :
    BatchRCK.validateEntries ops b es = none ↔ ∀ e ∈ es, e.Amount ≤ 250000 := by
  induction es with
  | nil => simp [BatchRCK.validateEntries]
  | cons e es ih =>
    obtain ⟨h1, h2, h3⟩ := h e (List.mem_cons_self _ _)
    have ih1 := ih (fun x hx => h x (List.mem_cons_of_mem _ hx))
    simp only [BatchRCK.validateEntries, h1, h2, h3, ne_eq, not_true_eq_false, if_false,
      List.forall_mem_cons]
    split_ifs with h4
    · constructor
      · intro hc; exact absurd hc (fail_ne_none _ _ _)
      · intro hc; omega
    · rw [ih1]
      constructor
      · intro hc; exact ⟨by omega, hc⟩
      · intro hc; exact hc.2

/-- What `BatchARC.Validate` is behind a `verify` that passes, a header of the type
and a service class code that is let through: the entry loop. -/
theorem arc_validate_entries (ops : BatchOps) (b : Batcher) (hv : ops.verify b = none)
    (hsec : b.Header.StandardEntryClassCode = "ARC")
    (hscc : ¬ (b.Header.ServiceClassCode = 200 ∨ b.Header.ServiceClassCode = 220 ∨
      b.Header.ServiceClassCode = 280)) :
    BatchARC.Validate ops b = BatchARC.validateEntries ops b b.Entries := by
  simp only [BatchARC.Validate, hv, orElse_none, hsec, ne_eq, not_true_eq_false, if_false, hscc]

/-- What `BatchRCK.Validate` is behind a `verify` that passes, a header of the type
with its company entry description and a service class code that is let
through: the entry loop. -/
theorem rck_validate_entries (ops : BatchOps) (b : Batcher) (hv : ops.verify b = none)
    (hsec : b.Header.StandardEntryClassCode = "RCK")
    (hscc : ¬ (b.Header.ServiceClassCode = 200 ∨ b.Header.ServiceClassCode = 220 ∨
      b.Header.ServiceClassCode = 280))
    (hced : b.Header.CompanyEntryDescription = "REDEPCHECK") :
    BatchRCK.Validate ops b = BatchRCK.validateEntries ops b b.Entries := by
  simp only [BatchRCK.Validate, hv, orElse_none, hsec, hced, ne_eq, not_true_eq_false, if_false,
    hscc]

/-- The error of `BatchARC.Validate` on a service class code of the switch. -/
theorem arc_validate_scc (ops : BatchOps) (b : Batcher) (hv : ops.verify b = none)
    (hsec : b.Header.StandardEntryClassCode = "ARC")
    (hscc : b.Header.ServiceClassCode = 200 ∨ b.Header.ServiceClassCode = 220 ∨
      b.Header.ServiceClassCode = 280) :
    BatchARC.Validate ops b =
      some (.batch { BatchNumber := b.Header.BatchNumber, FieldName := "ServiceClassCode",
                     Msg := ops.msgBatchServiceClassCode b.Header.ServiceClassCode "ARC" }) := by
  simp only [BatchARC.Validate, hv, orElse_none, hsec, ne_eq, not_true_eq_false, if_false, hscc,
    if_true, Batcher.fail]

/-- The error of `BatchRCK.Validate` on a service class code of the switch. -/
theorem rck_validate_scc (ops : BatchOps) (b : Batcher) (hv : ops.verify b = none)
    (hsec : b.Header.StandardEntryClassCode = "RCK")
    (hscc : b.Header.ServiceClassCode = 200 ∨ b.Header.ServiceClassCode = 220 ∨
      b.Header.ServiceClassCode = 280) :
    BatchRCK.Validate ops b =
      some (.batch { BatchNumber := b.Header.BatchNumber, FieldName := "ServiceClassCode",
                     Msg := ops.msgBatchServiceClassCode b.Header.ServiceClassCode "RCK" }) := by
  simp only [BatchRCK.Validate, hv, orElse_none, hsec, ne_eq, not_true_eq_false, if_false, hscc,
    if_true, Batcher.fail]

/-- C23 fails on the code: the switch of `BatchARC.Validate` and of
`BatchRCK.Validate`, under the comment "ServiceClassCode must allow debits",
lists the service class code 200, which allows debits, next to 220 and 280. The
batches `sampleARC 200 25000` and `sampleRCK 200 25000` pass `verify` and hold
one debit entry that passes the entry loop, and `Validate` returns a
`BatchError` on ServiceClassCode. -/
theorem debit_batch_rejects_mixed :
    (specBatchOps.verify (sampleARC 200 25000) = none ∧
      (sampleARC 200 25000).Header.ServiceClassCode = 200 ∧
      (sampleARC 200 25000).Entries.map specBatchOps.CreditOrDebit = ["D"] ∧
      BatchARC.validateEntries specBatchOps (sampleARC 200 25000)
        (sampleARC 200 25000).Entries = none ∧
      BatchARC.Validate specBatchOps (sampleARC 200 25000) =
        some (.batch { BatchNumber := 1, FieldName := "ServiceClassCode",
                       Msg := "Service Class Code 200 is not valid for batch type ARC" })) ∧
    (specBatchOps.verify (sampleRCK 200 25000) = none ∧
      (sampleRCK 200 25000).Header.ServiceClassCode = 200 ∧
      (sampleRCK 200 25000).Entries.map specBatchOps.CreditOrDebit = ["D"] ∧
      BatchRCK.validateEntries specBatchOps (sampleRCK 200 25000)
        (sampleRCK 200 25000).Entries = none ∧
      BatchRCK.Validate specBatchOps (sampleRCK 200 25000) =
        some (.batch { BatchNumber := 1, FieldName := "ServiceClassCode",
                       Msg := "Service Class Code 200 is not valid for batch type RCK" })) :=
  ⟨⟨by rfl, by decide, by decide, by rfl, by rfl⟩, by rfl, by decide, by decide, by rfl, by rfl⟩

/-- What the switch on the service class code does in general: for a batch
that passes `verify`, `BatchARC.Validate` on a header of the type ARC returns a
`BatchError` on ServiceClassCode when the service class code is 200, 220 or
280; when the entries pass the entry loop of the type, it accepts the code
225, and it returns nil exactly when the code is none of 200, 220 and 280. The
same holds of `BatchRCK.Validate` on a header of the type RCK, where
acceptance also asks for the company entry description REDEPCHECK. -/
theorem debit_batch_service_class (ops : BatchOps) (b : Batcher) (hv : ops.verify b = none) :
    (b.Header.StandardEntryClassCode = "ARC" →
      (b.Header.ServiceClassCode = 200 ∨ b.Header.ServiceClassCode = 220 ∨
          b.Header.ServiceClassCode = 280 →
        BatchARC.Validate ops b =
          some (.batch { BatchNumber := b.Header.BatchNumber, FieldName := "ServiceClassCode",
                         Msg := ops.msgBatchServiceClassCode b.Header.ServiceClassCode "ARC" })) ∧
      (BatchARC.validateEntries ops b b.Entries = none →
        (b.Header.ServiceClassCode = 225 → BatchARC.Validate ops b = none) ∧
        (BatchARC.Validate ops b = none ↔
          ¬ (b.Header.ServiceClassCode = 200 ∨ b.Header.ServiceClassCode = 220 ∨
            b.Header.ServiceClassCode = 280)))) ∧
    (b.Header.StandardEntryClassCode = "RCK" →
      (b.Header.ServiceClassCode = 200 ∨ b.Header.ServiceClassCode = 220 ∨
          b.Header.ServiceClassCode = 280 →
        BatchRCK.Validate ops b =
          some (.batch { BatchNumber := b.Header.BatchNumber, FieldName := "ServiceClassCode",
                         Msg := ops.msgBatchServiceClassCode b.Header.ServiceClassCode "RCK" })) ∧
      (b.Header.CompanyEntryDescription = "REDEPCHECK" →
        BatchRCK.validateEntries ops b b.Entries = none →
        (b.Header.ServiceClassCode = 225 → BatchRCK.Validate ops b = none) ∧
        (BatchRCK.Validate ops b = none ↔
          ¬ (b.Header.ServiceClassCode = 200 ∨ b.Header.ServiceClassCode = 220 ∨
            b.Header.ServiceClassCode = 280)))) := by
  refine ⟨fun hsec => ⟨arc_validate_scc ops b hv hsec, fun he => ⟨?_, ?_⟩⟩,
    fun hsec => ⟨rck_validate_scc ops b hv hsec, fun hced he => ⟨?_, ?_⟩⟩⟩
  · intro h225
    rw [arc_validate_entries ops b hv hsec (by omega), he]
  · constructor
    · intro hn hscc
      rw [arc_validate_scc ops b hv hsec hscc] at hn
      cases hn
    · intro hscc
      rw [arc_validate_entries ops b hv hsec hscc, he]
  · intro h225
    rw [rck_validate_entries ops b hv hsec (by omega) hced, he]
  · constructor
    · intro hn hscc
      rw [rck_validate_scc ops b hv hsec hscc] at hn
      cases hn
    · intro hscc
      rw [rck_validate_entries ops b hv hsec hscc hced, he]

/-- The switch on the service class code at the sample batches: the code 225
is accepted, the code 220 is rejected. -/
theorem debit_batch_service_class_witness :
    specBatchOps.verify (sampleARC 225 25000) = none ∧
    BatchARC.Validate specBatchOps (sampleARC 225 25000) = none ∧
    specBatchOps.verify (sampleRCK 220 25000) = none ∧
    BatchRCK.Validate specBatchOps (sampleRCK 220 25000) =
      some (.batch { BatchNumber := 1, FieldName := "ServiceClassCode",
                     Msg := "Service Class Code 220 is not valid for batch type RCK" }) :=
  ⟨by rfl,
    (((debit_batch_service_class specBatchOps (sampleARC 225 25000) (by rfl)).1 (by rfl)).2
      (by rfl)).1 (by decide),
    by rfl,
    ((debit_batch_service_class specBatchOps (sampleRCK 220 25000) (by rfl)).2 (by rfl)).1
      (by decide)⟩

/-- C24: `BatchARC.Validate` returns an error for every batch that holds an
entry with an amount over 2,500,000, and `BatchRCK.Validate` for every batch
that holds an entry with an amount over 250,000. When `verify` passes, the
header is of the type and is let through, the entries before the entry pass
the entry loop and the entry is a debit, the error is the `BatchError` on
Amount. When all entries are debits that have a check serial number and pass
the addenda loop, `Validate` returns nil exactly when no amount is over the
cap: an amount at the cap is let through. -/
theorem amount_caps (ops : BatchOps) (b : Batcher) :
    ((∃ e ∈ b.Entries, e.Amount > 2500000) → BatchARC.Validate ops b ≠ none) ∧
    ((∃ e ∈ b.Entries, e.Amount > 250000) → BatchRCK.Validate ops b ≠ none) ∧
    (ops.verify b = none → b.Header.StandardEntryClassCode = "ARC" →
      ¬ (b.Header.ServiceClassCode = 200 ∨ b.Header.ServiceClassCode = 220 ∨
        b.Header.ServiceClassCode = 280) →
      (∀ (pre post : List EntryDetail) (e : EntryDetail), b.Entries = pre ++ e :: post →
        BatchARC.validateEntries ops b pre = none → ops.CreditOrDebit e = "D" →
        e.Amount > 2500000 →
        BatchARC.Validate ops b =
          some (.batch { BatchNumber := b.Header.BatchNumber, FieldName := "Amount",
                         Msg := ops.msgBatchAmount "25,000" "ARC" })) ∧
      ((∀ e ∈ b.Entries, ops.CreditOrDebit e = "D" ∧ e.IdentificationNumber ≠ "" ∧
          BatchARC.validateAddenda ops b e e.Addendum = none) →
        (BatchARC.Validate ops b = none ↔ ∀ e ∈ b.Entries, e.Amount ≤ 2500000))) ∧
    (ops.verify b = none → b.Header.StandardEntryClassCode = "RCK" →
      ¬ (b.Header.ServiceClassCode = 200 ∨ b.Header.ServiceClassCode = 220 ∨
        b.Header.ServiceClassCode = 280) →
      b.Header.CompanyEntryDescription = "REDEPCHECK" →
      (∀ (pre post : List EntryDetail) (e : EntryDetail), b.Entries = pre ++ e :: post →
        BatchRCK.validateEntries ops b pre = none → ops.CreditOrDebit e = "D" →
        e.Amount > 250000 →
        BatchRCK.Validate ops b =
          some (.batch { BatchNumber := b.Header.BatchNumber, FieldName := "Amount",
                         Msg := ops.msgBatchAmount "2,500" "RCK" })) ∧
      ((∀ e ∈ b.Entries, ops.CreditOrDebit e = "D" ∧ e.IdentificationNumber ≠ "" ∧
          BatchRCK.validateAddenda ops b e e.Addendum = none) →
        (BatchRCK.Validate ops b = none ↔ ∀ e ∈ b.Entries, e.Amount ≤ 250000))) := by
  refine ⟨?_, ?_, ?_, ?_⟩
  · intro h
    simp only [BatchARC.Validate]
    apply orElse_ne_none
    split_ifs
    · exact fail_ne_none _ _ _
    · exact fail_ne_none _ _ _
    · exact arc_entries_over ops b _ h
  · intro h
    simp only [BatchRCK.Validate]
    apply orElse_ne_none
    split_ifs
    · exact fail_ne_none _ _ _
    · exact fail_ne_none _ _ _
    · exact fail_ne_none _ _ _
    · exact rck_entries_over ops b _ h
  · intro hv hsec hscc
    rw [arc_validate_entries ops b hv hsec hscc]
    refine ⟨?_, arc_entries_iff ops b _⟩
    intro pre post e hb hpre hd ha
    rw [hb, arc_entries_append ops b pre _ hpre]
    simp only [BatchARC.validateEntries, hd, ne_eq, not_true_eq_false, if_false, ha, if_true,
      Batcher.fail]
  · intro hv hsec hscc hced
    rw [rck_validate_entries ops b hv hsec hscc hced]
    refine ⟨?_, rck_entries_iff ops b _⟩
    intro pre post e hb hpre hd ha
    rw [hb, rck_entries_append ops b pre _ hpre]
    simp only [BatchRCK.validateEntries, hd, ne_eq, not_true_eq_false, if_false, ha, if_true,
      Batcher.fail]

/-- C24 at the sample batches: an ARC entry of 2,500,001 gets the error on
Amount and one of 2,500,000 is accepted; an RCK entry of 250,001 gets the
error on Amount and one of 250,000 is accepted. -/
theorem amount_caps_witness :
    BatchARC.Validate specBatchOps (sampleARC 225 2500001) =
      some (.batch { BatchNumber := 1, FieldName := "Amount",
                     Msg := "Amounts in batch type ARC are at most 25,000" }) ∧
    BatchARC.Validate specBatchOps (sampleARC 225 2500000) = none ∧
    BatchRCK.Validate specBatchOps (sampleRCK 225 250001) =
      some (.batch { BatchNumber := 1, FieldName := "Amount",
                     Msg := "Amounts in batch type RCK are at most 2,500" }) ∧
    BatchRCK.Validate specBatchOps (sampleRCK 225 250000) = none :=
  ⟨((amount_caps specBatchOps (sampleARC 225 2500001)).2.2.1 (by rfl) (by rfl) (by decide)).1
      [] [] (sampleDebit 2500001) (by rfl) (by rfl) (by decide) (by decide),
    (((amount_caps specBatchOps (sampleARC 225 2500000)).2.2.1 (by rfl) (by rfl) (by decide)).2
      (fun e he => by
        rw [show (sampleARC 225 2500000).Entries = [sampleDebit 2500000] from rfl,
          List.mem_singleton] at he
        subst he
        exact ⟨by decide, by decide, by rfl⟩)).mpr (by decide),
    ((amount_caps specBatchOps (sampleRCK 225 250001)).2.2.2 (by rfl) (by rfl) (by decide)
      (by rfl)).1 [] [] (sampleDebit 250001) (by rfl) (by rfl) (by decide) (by decide),
    (((amount_caps specBatchOps (sampleRCK 225 250000)).2.2.2 (by rfl) (by rfl) (by decide)
      (by rfl)).2
      (fun e he => by
        rw [show (sampleRCK 225 250000).Entries = [sampleDebit 250000] from rfl,
          List.mem_singleton] at he
        subst he
        exact ⟨by decide, by decide, by rfl⟩)).mpr (by decide)⟩

/-- The entry loop of `BatchPPD.Validate` goes on behind entries that pass. -/
theorem ppd_entries_append (ops : BatchOps) (b : Batcher) (pre rest : List EntryDetail)
    (h : BatchPPD.validateEntries ops b pre = none) :
    BatchPPD.validateEntries ops b (pre ++ rest) = BatchPPD.validateEntries ops b rest := by
  induction pre with
  | nil => rfl
  | cons e es ih =>
    simp only [BatchPPD.validateEntries, List.cons_append] at h ⊢
    cases ha : BatchPPD.validateAddenda ops b e e.Addendum with
    | some x => rw [ha] at h; simp at h
    | none => rw [ha] at h; simp only at h ⊢; exact ih h

/-- The addenda loop of `BatchPPD.Validate` on a Forward entry with more than
one addenda stops at the first addenda it looks at. -/
theorem ppd_addenda_over (ops : BatchOps) (b : Batcher) (e : EntryDetail)
    (hc : e.Category = CategoryForward) (hl : 1 < e.Addendum.length) (a : Addendumer)
    (rest : List Addendumer) :
    BatchPPD.validateAddenda ops b e (a :: rest) =
      orElse (ops.categoryForwardAddenda05 b e a)
        (some (.batch { BatchNumber := b.Header.BatchNumber, FieldName := "AddendaCount",
                        Msg := ops.msgBatchAddendaCount e.Addendum.length 1
                          b.Header.StandardEntryClassCode })) := by
  have h1 : (e.Addendum.length : Int) > 1 := by omega
  simp only [BatchPPD.validateAddenda, hc, if_true, h1, Batcher.fail]

/-- The addenda loop of `BatchPPD.Validate` on a Forward entry with at most one
addenda: the addenda check of the category is all that is asked. -/
theorem ppd_addenda_one (ops : BatchOps) (b : Batcher) (e : EntryDetail)
    (hc : e.Category = CategoryForward) (hl : e.Addendum.length ≤ 1) :
    ∀ l : List Addendumer, (∀ a ∈ l, ops.categoryForwardAddenda05 b e a = none) →
      BatchPPD.validateAddenda ops b e l = none := by
  have h1 : ¬ (e.Addendum.length : Int) > 1 := by omega
  intro l
  induction l with
  | nil => intro _; rfl
  | cons a rest ih =>
    intro h
    simp only [BatchPPD.validateAddenda, hc, if_true, h a (List.mem_cons_self _ _), orElse_none,
      h1, if_false]
    exact ih (fun x hx => h x (List.mem_cons_of_mem _ hx))

/-- The entry loop of `BatchPPD.Validate` stops with an error when a Forward
entry carries more than one addenda. -/
theorem ppd_entries_over (ops : BatchOps) (b : Batcher) (es : List EntryDetail)
    (h : ∃ e ∈ es, e.Category = CategoryForward ∧ 1 < e.Addendum.length) :
    BatchPPD.validateEntries ops b es ≠ none := by
  induction es with
  | nil => obtain ⟨e, he, _⟩ := h; cases he
  | cons e es ih =>
    simp only [BatchPPD.validateEntries]
    cases ha : BatchPPD.validateAddenda ops b e e.Addendum with
    | some x => simp
    | none =>
      simp only
      apply ih
      obtain ⟨e1, he1, hc, hl⟩ := h
      rcases List.mem_cons.mp he1 with rfl | h4
      · exfalso
        cases hA : e1.Addendum with
        | nil => rw [hA] at hl; simp at hl
        | cons a rest =>
          rw [hA, ppd_addenda_over ops b e1 hc hl a rest] at ha
          exact orElse_ne_none _ _ (by simp) ha
      · exact ⟨e1, h4, hc, hl⟩

/-- C25: `BatchPPD.Validate` returns an error for every batch in which a
Forward entry carries more than one addenda. When `verify` passes, the header
is of the type PPD, the entries before the entry pass the entry loop and the
addenda of the entry pass the Addenda05 check of the category, the error is
the `BatchError` on AddendaCount. A Forward entry with at most one addenda
that passes the Addenda05 check passes the addenda loop, and a batch of such
entries is accepted. -/
theorem ppd_addenda_count (ops : BatchOps) (b : Batcher) :
    ((∃ e ∈ b.Entries, e.Category = CategoryForward ∧ 1 < e.Addendum.length) →
      BatchPPD.Validate ops b ≠ none) ∧
    (ops.verify b = none → b.Header.StandardEntryClassCode = "PPD" →
      (∀ (pre post : List EntryDetail) (e : EntryDetail), b.Entries = pre ++ e :: post →
        BatchPPD.validateEntries ops b pre = none → e.Category = CategoryForward →
        1 < e.Addendum.length → (∀ a ∈ e.Addendum, ops.categoryForwardAddenda05 b e a = none) →
        BatchPPD.Validate ops b =
          some (.batch { BatchNumber := b.Header.BatchNumber, FieldName := "AddendaCount",
                         Msg := ops.msgBatchAddendaCount e.Addendum.length 1
                           b.Header.StandardEntryClassCode })) ∧
      ((∀ e ∈ b.Entries, e.Category = CategoryForward ∧ e.Addendum.length ≤ 1 ∧
          ∀ a ∈ e.Addendum, ops.categoryForwardAddenda05 b e a = none) →
        BatchPPD.Validate ops b = none)) ∧
    (∀ e : EntryDetail, e.Category = CategoryForward → e.Addendum.length ≤ 1 →
      (∀ a ∈ e.Addendum, ops.categoryForwardAddenda05 b e a = none) →
      BatchPPD.validateAddenda ops b e e.Addendum = none) := by
  refine ⟨?_, ?_, fun e hc hl ha => ppd_addenda_one ops b e hc hl _ ha⟩
  · intro h
    simp only [BatchPPD.Validate]
    apply orElse_ne_none
    split_ifs
    · exact fail_ne_none _ _ _
    · exact ppd_entries_over ops b _ h
  · intro hv hsec
    have hV : BatchPPD.Validate ops b = BatchPPD.validateEntries ops b b.Entries := by
      simp only [BatchPPD.Validate, hv, orElse_none, hsec, ne_eq, not_true_eq_false, if_false]
    rw [hV]
    constructor
    · intro pre post e hb hpre hc hl ha
      rw [hb, ppd_entries_append ops b pre _ hpre]
      simp only [BatchPPD.validateEntries]
      cases hA : e.Addendum with
      | nil => rw [hA] at hl; simp at hl
      | cons a rest =>
        rw [← hA, hA, ppd_addenda_over ops b e hc hl a rest,
          ha a (by rw [hA]; exact List.mem_cons_self _ _)]
        simp [orElse, hA]
    · intro h
      generalize b.Entries = es at h
      induction es with
      | nil => rfl
      | cons e es ih =>
        obtain ⟨hc, hl, ha⟩ := h e (List.mem_cons_self _ _)
        simp only [BatchPPD.validateEntries, ppd_addenda_one ops b e hc hl _ ha]
        exact ih (fun x hx => h x (List.mem_cons_of_mem _ hx))

/-- C25 at the sample batches: the entry of `samplePPDBatch 2` carries two
Addenda05 records and gets the error on AddendaCount; the batches with one
addenda and with none are accepted. -/
theorem ppd_addenda_count_witness :
    BatchPPD.Validate specBatchOps (samplePPDBatch 2) =
      some (.batch { BatchNumber := 1, FieldName := "AddendaCount",
                     Msg := "2 addenda found where 1 is allowed for batch type PPD" }) ∧
    BatchPPD.Validate specBatchOps (samplePPDBatch 1) = none ∧
    BatchPPD.Validate specBatchOps (samplePPDBatch 0) = none ∧
    BatchPPD.Validate specBatchOps (samplePPDBatch 2) ≠ none :=
  ⟨((ppd_addenda_count specBatchOps (samplePPDBatch 2)).2.1 (by rfl) (by rfl)).1 [] []
      { sampleEntry with
        AddendaRecordIndicator := 1, Addendum := [sampleAddenda, sampleAddenda] }
      (by rfl) (by rfl) (by rfl) (by decide)
      (fun a ha => by
        simp only [List.mem_cons, List.mem_singleton, List.not_mem_nil, or_false, or_self] at ha
        subst ha
        rfl),
    by rfl, by rfl,
    (ppd_addenda_count specBatchOps (samplePPDBatch 2)).1
      ⟨{ sampleEntry with
          AddendaRecordIndicator := 1, Addendum := [sampleAddenda, sampleAddenda] },
        by decide, by rfl, by decide⟩⟩

/-- The entry loop of `BatchCTX.Validate` stops with an error when an entry
has a prenote code and addenda, or more than 9,999 addenda, or a count field
that is not the number of its addenda. -/
theorem ctx_entries_error (ops : BatchOps) (b : Batcher) (es : List EntryDetail)
    (h : ∃ e ∈ es,
      (e.TransactionCode ∈ [23, 28, 33, 38, 43, 48, 53] ∧ 0 < e.Addendum.length) ∨
      9999 < e.Addendum.length ∨
      Atoi (ops.CATXAddendaRecordsField e) ≠ (e.Addendum.length : Int)) :
    BatchCTX.validateEntries ops b es ≠ none := by
  induction es with
  | nil => obtain ⟨e, he, _⟩ := h; cases he
  | cons e es ih =>
    have tail : (∀ e1 ∈ es, ∀ _ : e1 ∈ e :: es,
        ((e1.TransactionCode ∈ [23, 28, 33, 38, 43, 48, 53] ∧ 0 < e1.Addendum.length) ∨
          9999 < e1.Addendum.length ∨
          Atoi (ops.CATXAddendaRecordsField e1) ≠ (e1.Addendum.length : Int)) →
        BatchCTX.validateEntries ops b es ≠ none) :=
      fun e1 h1 _ hp => ih ⟨e1, h1, hp⟩
    obtain ⟨e1, he1, hp⟩ := h
    simp only [BatchCTX.validateEntries]
    split_ifs with h1 h2 h3 h4
    · exact fail_ne_none _ _ _
    · exact fail_ne_none _ _ _
    · exact fail_ne_none _ _ _
    · cases ha : BatchCTX.validateAddenda ops b e e.Addendum with
      | some x => simp
      | none =>
        simp only
        rcases List.mem_cons.mp he1 with rfl | h5
        · exfalso
          rcases hp with ⟨hp1, _⟩ | hp2 | hp3
          · exact h4 hp1
          · exact h1 (by omega)
          · exact h2 (fun hc => hp3 hc.symm)
        · exact tail e1 h5 he1 hp
    · rcases List.mem_cons.mp he1 with rfl | h5
      · exfalso
        rcases hp with ⟨_, hp1⟩ | hp2 | hp3
        · exact h3 (by omega)
        · exact h1 (by omega)
        · exact h2 (fun hc => hp3 hc.symm)
      · exact tail e1 h5 he1 hp

/-- C26, amended: `BatchCTX.Validate` returns an error for every batch in
which an entry has one of the prenote transaction codes 23, 28, 33, 38, 43, 48
and 53 and at least one addenda, or more than 9,999 addenda, or an
addenda-count field whose number, as `strconv.Atoi` reads it with its error
dropped (0 for a text that is no number), is not the number of the addenda of
the entry. -/
theorem ctx_addenda_rules (ops : BatchOps) (b : Batcher)
    (h : ∃ e ∈ b.Entries,
      (e.TransactionCode ∈ [23, 28, 33, 38, 43, 48, 53] ∧ 0 < e.Addendum.length) ∨
      9999 < e.Addendum.length ∨
      Atoi (ops.CATXAddendaRecordsField e) ≠ (e.Addendum.length : Int)) :
    BatchCTX.Validate ops b ≠ none := by
  simp only [BatchCTX.Validate]
  apply orElse_ne_none
  split_ifs
  · exact fail_ne_none _ _ _
  · exact ctx_entries_error ops b _ h

/-- C26 amended, at the sample batches: an entry with the prenote code 23 and one
addenda, and an entry whose count field says 2 while it carries one addenda;
the batch whose entry has the code 22 and the count field 0001 is accepted. -/
theorem ctx_addenda_rules_witness :
    BatchCTX.Validate specBatchOps (sampleCTX 23 "0001" 1) ≠ none ∧
    BatchCTX.Validate specBatchOps (sampleCTX 23 "0001" 1) =
      some (.batch { BatchNumber := 1, FieldName := "Addendum",
                     Msg := "Addenda not allowed for transaction code 23 for batch type CTX" }) ∧
    BatchCTX.Validate specBatchOps (sampleCTX 22 "0002" 1) ≠ none ∧
    BatchCTX.Validate specBatchOps (sampleCTX 22 "0002" 1) =
      some (.batch { BatchNumber := 1, FieldName := "Addendum",
                     Msg := "2 entry detail addenda records not equal to addendum 1" }) ∧
    BatchCTX.Validate specBatchOps (sampleCTX 22 "0001" 1) = none :=
  ⟨ctx_addenda_rules specBatchOps (sampleCTX 23 "0001" 1)
      ⟨_, List.mem_cons_self _ _, Or.inl (by decide)⟩,
    by rfl,
    ctx_addenda_rules specBatchOps (sampleCTX 22 "0002" 1)
      ⟨_, List.mem_cons_self _ _, Or.inr (Or.inr (by decide))⟩,
    by rfl, by rfl⟩

/-- C26 as stated fails: `BatchCTX.Validate` drops the error of
`strconv.Atoi`, so an addenda-count field that is no number counts as 0. The
batches `sampleCTX 22 "abcd" 0` and `sampleCTX 22 "    " 0` pass `verify`;
their entry has no addenda and the count field "abcd", or four blanks, which
is not the number 0 of its addenda, and `Validate` returns nil. -/
theorem ctx_accepts_text_count :
    (specBatchOps.verify (sampleCTX 22 "abcd" 0)).isNone = true ∧
    (sampleCTX 22 "abcd" 0).Entries.map
      (fun e => (specBatchOps.CATXAddendaRecordsField e, e.Addendum.length)) = [("abcd", 0)] ∧
    Atoi "abcd" = 0 ∧
    (BatchCTX.Validate specBatchOps (sampleCTX 22 "abcd" 0)).isNone = true ∧
    (sampleCTX 22 "    " 0).Entries.map
      (fun e => (specBatchOps.CATXAddendaRecordsField e, e.Addendum.length)) = [("    ", 0)] ∧
    Atoi "    " = 0 ∧
    (BatchCTX.Validate specBatchOps (sampleCTX 22 "    " 0)).isNone = true :=
  ⟨by rfl, by decide, by decide, by rfl, by decide, by decide, by rfl⟩

/-! ## The round trip of an Addenda12 record -/

theorem toList_append (s t : String) : (s ++ t).toList = s.toList ++ t.toList := by
  simp [String.toList, String.data_append]

theorem length_toList (s : String) : s.toList.length = s.length := rfl

/-- The slice that begins where `s1` ends and has the length of `s2` is `s2`. -/
theorem slice_mid (s1 s2 s3 : String) (a b : Nat) (ha : a = s1.length)
    (hb : b = s1.length + s2.length) : slice (s1 ++ s2 ++ s3) a b = s2 := by
  subst ha hb
  simp only [slice, toList_append, List.append_assoc]
  rw [← length_toList s1, List.drop_left, Nat.add_sub_cancel_left, ← length_toList s2,
    List.take_left]
  rfl

theorem dropWhile_all {α : Type} (p : α → Bool) (a c : List α) (h : ∀ x ∈ a, p x = true) :
    (a ++ c).dropWhile p = c.dropWhile p := by
  induction a with
  | nil => rfl
  | cons x rest ih =>
    simp only [List.cons_append, List.dropWhile, h x (List.mem_cons_self _ _)]
    exact ih (fun y hy => h y (List.mem_cons_of_mem _ hy))

/-- White space behind a text is cut off with the white space of the text. -/
theorem trim_append_spaces (p : Char → Bool) (l b : List Char) (hb : ∀ x ∈ b, p x = true) :
    (((l ++ b).dropWhile p).reverse.dropWhile p).reverse =
      ((l.dropWhile p).reverse.dropWhile p).reverse := by
  induction l with
  | nil =>
    have e : (b.dropWhile p) = [] := by
      have := dropWhile_all p b [] hb
      simpa using this
    simp [e]
  | cons x rest ih =>
    simp only [List.cons_append, List.dropWhile]
    cases hx : p x with
    | true => simpa using ih
    | false =>
      have e : (x :: (rest ++ b)).reverse = b.reverse ++ (x :: rest).reverse := by simp
      show (List.dropWhile p (x :: (rest ++ b)).reverse).reverse =
        (List.dropWhile p (x :: rest).reverse).reverse
      rw [e, dropWhile_all p b.reverse _ (fun y hy => hb y (List.mem_reverse.mp hy))]

theorem trimSpace_pad (s : String) (k : Nat) :
    TrimSpace (s ++ String.mk (List.replicate k ' ')) = TrimSpace s := by
  simp only [TrimSpace, toList_append]
  congr 1
  apply trim_append_spaces
  intro x hx
  rw [List.eq_of_mem_replicate hx]
  decide

theorem trimSpace_length (s : String) : (TrimSpace s).length ≤ s.length := by
  simp only [TrimSpace, String.length, List.length_reverse]
  exact le_trans (dropWhile_length_le _ _)
    (by rw [List.length_reverse]; exact dropWhile_length_le _ _)

theorem dropWhile_head {α : Type} (p : α → Bool) (l : List α) (x : α) (rest : List α)
    (h : l.dropWhile p = x :: rest) : p x = false := by
  induction l with
  | nil => simp at h
  | cons y ys ih =>
    simp only [List.dropWhile] at h
    cases hy : p y with
    | true => rw [hy] at h; exact ih h
    | false =>
      rw [hy] at h
      simp only [List.cons.injEq] at h
      rw [← h.1]; exact hy

/-- The text that `TrimSpace` returns does not begin with white space. -/
theorem trimSpace_head (s : String) (x : Char) (rest : List Char)
    (h : (TrimSpace s).toList = x :: rest) : isSpace x = false := by
  simp only [TrimSpace] at h
  have e := List.takeWhile_append_dropWhile isSpace (s.toList.dropWhile isSpace).reverse
  have e2 := congrArg List.reverse e
  simp only [List.reverse_append, List.reverse_reverse] at e2
  have h' : ((s.toList.dropWhile isSpace).reverse.dropWhile isSpace).reverse = x :: rest := h
  rw [h'] at e2
  exact dropWhile_head isSpace s.toList x _ e2.symm

theorem addenda12_inclusion_iff (val : validator) (c : converters) (v : Addenda12) :
    v.fieldInclusion val c = none ↔
      v.recordType ≠ "" ∧ v.TypeCode ≠ "" ∧ v.OriginatorCityStateProvince ≠ "" ∧
      v.OriginatorCountryPostalCode ≠ "" ∧ v.EntryDetailSequenceNumber ≠ 0 := by
  simp only [Addenda12.fieldInclusion]
  split_ifs <;> simp [*]

/-- The records on which `Addenda12.Validate` returns nil: those with the record
type 7 and the type code 12, which `isTypeCode` lets through, with a city and
a country that are not empty and that `isAlphanumeric` lets through, and with
a sequence number other than 0. -/
theorem addenda12_valid_iff (val : validator) (c : converters) (v : Addenda12) :
    v.Validate val c = none ↔
      v.recordType = "7" ∧ v.TypeCode = "12" ∧ v.OriginatorCityStateProvince ≠ "" ∧
      v.OriginatorCountryPostalCode ≠ "" ∧ v.EntryDetailSequenceNumber ≠ 0 ∧
      val.isTypeCode v.TypeCode = none ∧
      val.isAlphanumeric v.OriginatorCityStateProvince = none ∧
      val.isAlphanumeric v.OriginatorCountryPostalCode = none := by
  constructor
  · intro h
    simp only [Addenda12.Validate] at h
    cases hf : v.fieldInclusion val c with
    | some e => rw [hf] at h; cases h
    | none =>
      rw [hf] at h
      simp only at h
      obtain ⟨_, _, f3, f4, f5⟩ := (addenda12_inclusion_iff val c v).mp hf
      by_cases g1 : v.recordType = "7"
      · rw [if_neg (not_not.mpr g1)] at h
        cases ht : val.isTypeCode v.TypeCode with
        | some e => rw [ht] at h; cases h
        | none =>
          rw [ht] at h
          simp only at h
          by_cases g2 : v.TypeCode = "12"
          · rw [if_neg (not_not.mpr g2)] at h
            cases ha : val.isAlphanumeric v.OriginatorCityStateProvince with
            | some e => rw [ha] at h; cases h
            | none =>
              rw [ha] at h
              simp only at h
              cases hb : val.isAlphanumeric v.OriginatorCountryPostalCode with
              | some e => rw [hb] at h; cases h
              | none => exact ⟨g1, g2, f3, f4, f5, rfl, rfl, rfl⟩
          · rw [if_pos g2] at h; cases h
      · rw [if_pos g1] at h; cases h
  · rintro ⟨h1, h2, h3, h4, h5, h6, h7, h8⟩
    have e1 : v.recordType ≠ "" := by rw [h1]; decide
    have e2 : v.TypeCode ≠ "" := by rw [h2]; decide
    have hf := (addenda12_inclusion_iff val c v).mpr ⟨e1, e2, h3, h4, h5⟩
    simp only [Addenda12.Validate, hf, h6, h7, h8]
    rw [if_neg (not_not.mpr h1), if_neg (not_not.mpr h2)]

/-- The record that `Addenda12.String` writes for a record with the record
type 7 and the type code 12, under the laws of the converters: 94 characters,
of which the columns 2 to 3, 4 to 38, 39 to 73 and 88 to 94 are the type code,
the two text fields and the sequence number field. -/
theorem addenda12_string_slices (c : converters) (laws : ConverterLaws c) (v : Addenda12)
    (h1 : v.recordType = "7") (h2 : v.TypeCode = "12") :
    (v.String c).length = 94 ∧ slice (v.String c) 1 3 = "12" ∧
    slice (v.String c) 3 38 = c.alphaField v.OriginatorCityStateProvince 35 ∧
    slice (v.String c) 38 73 = c.alphaField v.OriginatorCountryPostalCode 35 ∧
    slice (v.String c) 87 94 = c.numericField v.EntryDetailSequenceNumber 7 := by
  have lA := laws.alpha_length v.OriginatorCityStateProvince 35
  have lB := laws.alpha_length v.OriginatorCountryPostalCode 35
  have lR := laws.alpha_length v.reserved 14
  have lN := laws.numeric_length v.EntryDetailSequenceNumber 7
  simp only [Addenda12.String, Addenda12.OriginatorCityStateProvinceField,
    Addenda12.OriginatorCountryPostalCodeField, Addenda12.reservedField,
    Addenda12.EntryDetailSequenceNumberField, h1, h2]
  generalize c.alphaField v.OriginatorCityStateProvince 35 = A at lA
  generalize c.alphaField v.OriginatorCountryPostalCode 35 = B at lB
  generalize c.alphaField v.reserved 14 = R at lR
  generalize c.numericField v.EntryDetailSequenceNumber 7 = N at lN
  have l7 : ("7" : String).length = 1 := by decide
  have l12 : ("12" : String).length = 2 := by decide
  refine ⟨?_, ?_, ?_, ?_, ?_⟩
  · simp only [String.length_append, lA, lB, lR, lN, l7, l12]
  · have e : "7" ++ "12" ++ A ++ B ++ R ++ N = "7" ++ "12" ++ (A ++ (B ++ (R ++ N))) := by
      simp only [String.append_assoc]
    rw [e]
    exact slice_mid _ _ _ 1 3 (by rw [l7]) (by rw [l7, l12])
  · have e : "7" ++ "12" ++ A ++ B ++ R ++ N = ("7" ++ "12") ++ A ++ (B ++ (R ++ N)) := by
      simp only [String.append_assoc]
    rw [e]
    exact slice_mid _ _ _ 3 38 (by simp only [String.length_append, l7, l12])
      (by simp only [String.length_append, l7, l12, lA])
  · have e : "7" ++ "12" ++ A ++ B ++ R ++ N = ("7" ++ "12" ++ A) ++ B ++ (R ++ N) := by
      simp only [String.append_assoc]
    rw [e]
    exact slice_mid _ _ _ 38 73 (by simp only [String.length_append, l7, l12, lA])
      (by simp only [String.length_append, l7, l12, lA, lB])
  · have e : "7" ++ "12" ++ A ++ B ++ R ++ N = ("7" ++ "12" ++ A ++ B ++ R) ++ N ++ "" := by
      simp only [String.append_assoc, String.append_empty]
    rw [e]
    exact slice_mid _ _ _ 87 94 (by simp only [String.length_append, l7, l12, lA, lB, lR])
      (by simp only [String.length_append, l7, l12, lA, lB, lR, lN])

/-- C27, amended: for every Addenda12 record `v` that `Validate` accepts, whose
city and country have at most 35 characters and no white space at their ends,
and whose sequence number is not negative and below 10,000,000, with
converters that obey their laws: `Parse` on the line `v.String()` returns a
record, whatever the record it is called on, which `Validate` accepts and
which has the type code, the city, the country and the sequence number of
`v`. -/
theorem addenda12_roundtrip (val : validator) (c : converters) (laws : ConverterLaws c)
    (v a0 : Addenda12) (hv : v.Validate val c = none)
    (h1 : v.OriginatorCityStateProvince.length ≤ 35)
    (h2 : v.OriginatorCountryPostalCode.length ≤ 35)
    (h3 : TrimSpace v.OriginatorCityStateProvince = v.OriginatorCityStateProvince)
    (h4 : TrimSpace v.OriginatorCountryPostalCode = v.OriginatorCountryPostalCode)
    (h5 : 0 ≤ v.EntryDetailSequenceNumber) (h6 : v.EntryDetailSequenceNumber < 10000000) :
    ∃ w : Addenda12, Addenda12.Parse c a0 (v.String c) = some w ∧
      w.Validate val c = none ∧ w.TypeCode = v.TypeCode ∧
      w.OriginatorCityStateProvince = v.OriginatorCityStateProvince ∧
      w.OriginatorCountryPostalCode = v.OriginatorCountryPostalCode ∧
      w.EntryDetailSequenceNumber = v.EntryDetailSequenceNumber := by
  obtain ⟨g1, g2, g3, g4, g5, g6, g7, g8⟩ := (addenda12_valid_iff val c v).mp hv
  obtain ⟨s0, s1, s2, s3, s4⟩ := addenda12_string_slices c laws v g1 g2
  have eA : TrimSpace (c.alphaField v.OriginatorCityStateProvince 35) =
      v.OriginatorCityStateProvince := by
    rw [laws.alpha_pad _ _ h1, trimSpace_pad, h3]
  have eB : TrimSpace (c.alphaField v.OriginatorCountryPostalCode 35) =
      v.OriginatorCountryPostalCode := by
    rw [laws.alpha_pad _ _ h2, trimSpace_pad, h4]
  have eN : c.parseNumField (c.numericField v.EntryDetailSequenceNumber 7) =
      v.EntryDetailSequenceNumber := laws.numeric_parse _ 7 h5 (by norm_num; exact h6)
  refine ⟨_, by simp only [Addenda12.Parse, s0, lt_irrefl, if_false]; rfl, ?_, ?_, ?_, ?_, ?_⟩
  · rw [addenda12_valid_iff]
    simp only [s1, s2, s3, s4, eA, eB, eN]
    exact ⟨trivial, trivial, g3, g4, g5, g2 ▸ g6, g7, g8⟩
  · simp only [s1, g2]
  · simp only [s2, eA]
  · simp only [s3, eB]
  · simp only [s4, eN]

/-! ## The converters of the specification obey the laws -/

theorem digitChar_digit : ∀ k : Nat, k < 10 →
    (Nat.digitChar k).isDigit = true ∧ (Nat.digitChar k).toNat - 48 = k := by
  decide

/-- The digits that `Nat.toDigitsCore` puts in front of `ds` read as the
number they were made of. -/
theorem toDigitsCore_value (fuel : Nat) : ∀ (n : Nat) (ds : List Char), n < fuel →
    digitsValue (Nat.toDigitsCore 10 fuel n ds) 0 = digitsValue ds n := by
  induction fuel with
  | zero => intro n ds h; omega
  | succ fuel ih =>
    intro n ds h
    obtain ⟨d1, d2⟩ := digitChar_digit (n % 10) (Nat.mod_lt _ (by norm_num))
    simp only [Nat.toDigitsCore]
    split_ifs with h0
    · simp only [digitsValue, d1, if_true, d2]
      congr 1
      have := Nat.div_add_mod n 10
      omega
    · rw [ih (n / 10) _ (by omega)]
      simp only [digitsValue, d1, if_true, d2]
      congr 1
      have := Nat.div_add_mod n 10
      omega

theorem toDigits_value (n : Nat) : digitsValue (Nat.toDigits 10 n) 0 = some n := by
  simp only [Nat.toDigits]
  rw [toDigitsCore_value (n + 1) n [] (by omega)]
  rfl

/-- A number below `10 ^ w` has at most `w` digits. -/
theorem toDigitsCore_length (fuel : Nat) : ∀ (n w : Nat) (ds : List Char), n < fuel →
    n < 10 ^ w → 0 < w → (Nat.toDigitsCore 10 fuel n ds).length ≤ ds.length + w := by
  induction fuel with
  | zero => intro n w ds h; omega
  | succ fuel ih =>
    intro n w ds h hw h0
    simp only [Nat.toDigitsCore]
    split_ifs with hz
    · simp only [List.length_cons]; omega
    · obtain ⟨k, rfl⟩ : ∃ k, w = k + 1 := ⟨w - 1, by omega⟩
      have hk : 0 < k := by
        rcases Nat.eq_zero_or_pos k with rfl | hk
        · simp only [zero_add, pow_one] at hw
          exact absurd (Nat.div_eq_of_lt hw) hz
        · exact hk
      have hd : n / 10 < 10 ^ k := by
        rw [Nat.div_lt_iff_lt_mul (by norm_num)]
        rw [pow_succ] at hw
        exact hw
      have := ih (n / 10) k ((n % 10).digitChar :: ds) (by omega) hd hk
      simp only [List.length_cons] at this
      omega

theorem toDigits_length (n w : Nat) (hw : n < 10 ^ w) (h0 : 0 < w) :
    (Nat.toDigits 10 n).length ≤ w := by
  have := toDigitsCore_length (n + 1) n w [] (by omega) hw h0
  simpa [Nat.toDigits] using this

theorem digitsValue_zeros (k : Nat) (l : List Char) :
    digitsValue (List.replicate k '0' ++ l) 0 = digitsValue l 0 := by
  induction k with
  | zero => rfl
  | succ k ih =>
    simp only [List.replicate_succ, List.cons_append, digitsValue]
    rw [if_pos (by decide)]
    exact ih

theorem digitsValue_head (x : Char) (rest : List Char) (acc : Nat)
    (v : Nat) (h : digitsValue (x :: rest) acc = some v) : x.isDigit = true := by
  simp only [digitsValue] at h
  by_contra hx
  rw [if_neg hx] at h
  cases h

/-- A text of digits has no blank in front. -/
theorem dropWhile_blank_digits (l : List Char) (v : Nat) (h : digitsValue l 0 = some v) :
    l.dropWhile (fun c => decide (c = ' ')) = l := by
  cases l with
  | nil => rfl
  | cons x rest =>
    have hx := digitsValue_head x rest 0 v h
    have : x ≠ ' ' := by
      intro e
      rw [e] at hx
      exact absurd hx (by decide)
    simp [List.dropWhile, this]

theorem take_length (s : String) (n : Nat) (h : s.length > n) : (s.take n).length = n := by
  have e : (s.take n).length = (s.take n).data.length := rfl
  rw [e, String.data_take, List.length_take]
  exact Nat.min_eq_left (Nat.le_of_lt h)

theorem specAlphaField_length (s : String) (n : Nat) : (specAlphaField s n).length = n := by
  simp only [specAlphaField]
  split_ifs with h
  · exact take_length s n h
  · simp only [String.length_append, String.length_mk, List.length_replicate]
    omega

theorem specNumericField_length (x : Int) (n : Nat) : (specNumericField x n).length = n := by
  simp only [specNumericField]
  split_ifs with h
  · exact take_length _ n h
  · simp only [String.length_append, String.length_mk, List.length_replicate]
    omega

theorem specNumericField_parse (x : Int) (n : Nat) (h0 : 0 ≤ x) (hx : x < 10 ^ n) :
    specParseNumField (specNumericField x n) = x := by
  obtain ⟨m, rfl⟩ := Int.eq_ofNat_of_zero_le h0
  have hm : m < 10 ^ n := by exact_mod_cast hx
  have hI : Itoa (m : Int) = String.mk (Nat.toDigits 10 m) := rfl
  rcases Nat.eq_zero_or_pos n with rfl | hn
  · have : m = 0 := by simpa using hm
    subst this
    rfl
  · have hl : (Nat.toDigits 10 m).length ≤ n := toDigits_length m n hm hn
    have hv : digitsValue (List.replicate (n - (Nat.toDigits 10 m).length) '0' ++
        Nat.toDigits 10 m) 0 = some m := by
      rw [digitsValue_zeros, toDigits_value]
    simp only [specNumericField, hI, String.length_mk, not_lt.mpr hl, if_false, specParseNumField,
      toList_append]
    have e : (String.mk (List.replicate (n - (Nat.toDigits 10 m).length) '0')).toList ++
        (String.mk (Nat.toDigits 10 m)).toList =
        List.replicate (n - (Nat.toDigits 10 m).length) '0' ++ Nat.toDigits 10 m := rfl
    rw [e, dropWhile_blank_digits _ m hv, hv]

/-- The converters of section 4.1 obey the laws that the round trip of a
record assumes. -/
theorem specConverters_laws : ConverterLaws specConverters where
  alpha_pad := by
    intro s n h
    simp only [specConverters, specAlphaField, not_lt.mpr h, if_false]
  alpha_length := specAlphaField_length
  numeric_length := specNumericField_length
  numeric_parse := specNumericField_parse

/-- Whatever the converters and the line, the city that `Addenda12.Parse`
leaves has at most 35 characters and no white space in front. -/
theorem addenda12_parse_city (c : converters) (a0 w : Addenda12) (record : String)
    (h : Addenda12.Parse c a0 record = some w) :
    w.OriginatorCityStateProvince.length ≤ 35 ∧
    ∀ (x : Char) (rest : List Char), w.OriginatorCityStateProvince.toList = x :: rest →
      isSpace x = false := by
  simp only [Addenda12.Parse] at h
  split_ifs at h
  simp only [Option.some.injEq] at h
  subst h
  exact ⟨le_trans (trimSpace_length _) (slice_length _ 3 38), fun x rest hx =>
    trimSpace_head _ x rest hx⟩

set_option maxRecDepth 100000 in
/-- C27 as stated fails. `Validate` accepts the record `sampleLongCity`, whose
city has 36 characters, and the record `sampleBlankCity`, whose city begins
with a blank; whatever the converters, the record that `Parse` returns has
another city: at most 35 characters, no white space in front. With the
converters of the specification the city comes back cut to 35 characters in
the one case and without its blank in the other. `Validate` accepts the record
`sampleLongSequence`, whose sequence number 12345678 has eight digits; with
the converters of the specification it comes back as 1234567. -/
theorem addenda12_roundtrip_loses :
    (sampleLongCity.Validate specValidator specConverters = none ∧
      (∀ (c : converters) (a0 w : Addenda12),
        Addenda12.Parse c a0 (sampleLongCity.String c) = some w →
        w.OriginatorCityStateProvince ≠ sampleLongCity.OriginatorCityStateProvince) ∧
      (Addenda12.Parse specConverters NewAddenda12 (sampleLongCity.String specConverters)).map
        (fun w => w.OriginatorCityStateProvince) = some "ABCDEFGHIJKLMNOPQRSTUVWXYZ012345678") ∧
    (sampleBlankCity.Validate specValidator specConverters = none ∧
      (∀ (c : converters) (a0 w : Addenda12),
        Addenda12.Parse c a0 (sampleBlankCity.String c) = some w →
        w.OriginatorCityStateProvince ≠ sampleBlankCity.OriginatorCityStateProvince) ∧
      (Addenda12.Parse specConverters NewAddenda12 (sampleBlankCity.String specConverters)).map
        (fun w => w.OriginatorCityStateProvince) = some "Springfield*IL\\") ∧
    (sampleLongSequence.Validate specValidator specConverters = none ∧
      sampleLongSequence.EntryDetailSequenceNumber = 12345678 ∧
      (Addenda12.Parse specConverters NewAddenda12
        (sampleLongSequence.String specConverters)).map
        (fun w => w.EntryDetailSequenceNumber) = some 1234567) := by
  refine ⟨⟨by decide, ?_, by decide⟩, ⟨by decide, ?_, by decide⟩, by decide, by decide,
    by decide⟩
  · intro c a0 w h e
    have := (addenda12_parse_city c a0 w _ h).1
    rw [e] at this
    exact absurd this (by decide)
  · intro c a0 w h e
    have := (addenda12_parse_city c a0 w _ h).2 ' ' " Springfield*IL\\".toList.tail
      (by rw [e]; decide)
    exact absurd this (by decide)

set_option maxRecDepth 100000 in
/-- C27 amended, at the record `sampleA12` and the converters of the
specification. -/
theorem addenda12_roundtrip_witness :
    sampleA12.Validate specValidator specConverters = none ∧
    sampleA12.String specConverters =
      "712Springfield*IL\\                    US*62701\\" ++
      "                                        1234567" ∧
    ∃ w : Addenda12,
      Addenda12.Parse specConverters NewAddenda12 (sampleA12.String specConverters) = some w ∧
      w.Validate specValidator specConverters = none ∧ w.TypeCode = sampleA12.TypeCode ∧
      w.OriginatorCityStateProvince = sampleA12.OriginatorCityStateProvince ∧
      w.OriginatorCountryPostalCode = sampleA12.OriginatorCountryPostalCode ∧
      w.EntryDetailSequenceNumber = sampleA12.EntryDetailSequenceNumber :=
  ⟨by decide, by decide,
    addenda12_roundtrip specValidator specConverters specConverters_laws sampleA12 NewAddenda12
      (by decide) (by decide) (by decide) (by decide) (by decide) (by decide) (by decide)⟩

/-! ## The lines the reader skips, refuses and drops -/

theorem slice_one_of_two (s : String) (a b : Char) (h : slice s 0 2 = String.mk [a, b]) :
    slice s 0 1 = String.mk [a] := by
  simp only [slice, List.drop_zero, Nat.sub_zero] at h ⊢
  have h2 : s.toList.take 2 = [a, b] := congrArg String.data h
  have : s.toList.take 1 = (s.toList.take 2).take 1 := by simp [List.take_take]
  rw [this, h2]
  rfl

/-- C31: a line whose first two characters are "99" goes through `parseLine`
without error and leaves the reader as it was, with its file, its file control
and its open batches, whatever follows the two characters; any other line that
begins with "9" is handed to `parseFileControl`. -/
theorem padding_line_skipped (ops : RecordOps) (r : Reader) :
    (slice r.line 0 2 = "99" → r.parseLine ops = (r, none)) ∧
    (slice r.line 0 1 = fileControlPos → slice r.line 0 2 ≠ "99" →
      r.parseLine ops = r.parseFileControl ops) := by
  constructor
  · intro h
    have h1 : slice r.line 0 1 = fileControlPos := slice_one_of_two r.line '9' '9' h
    rw [parseLine_fileControl ops r h1, if_pos h]
  · intro h1 h2
    rw [parseLine_fileControl ops r h1, if_neg h2]

set_option maxRecDepth 100000 in
/-- C31 at the reader `sampleOpen`, whose batch is open, with a line of 94
nines and with a line that has other characters behind "99"; the file control
line of `samplePPD`, which begins with "90", is parsed as the file control. -/
theorem padding_line_skipped_witness :
    Reader.parseLine specOps { sampleOpen with line := String.mk (List.replicate 94 '9') } =
      ({ sampleOpen with line := String.mk (List.replicate 94 '9') }, none) ∧
    Reader.parseLine specOps { sampleOpen with line := "99 any text behind it" } =
      ({ sampleOpen with line := "99 any text behind it" }, none) ∧
    sampleOpen.currentBatch ≠ none ∧
    Reader.parseLine specOps
        { sampleOpen with line := (samplePPD.records specOps).getD 5 "" } =
      Reader.parseFileControl specOps
        { sampleOpen with line := (samplePPD.records specOps).getD 5 "" } :=
  ⟨(padding_line_skipped specOps _).1 (by decide),
    (padding_line_skipped specOps _).1 (by decide), by decide,
    (padding_line_skipped specOps _).2 (by decide) (by decide)⟩

set_option maxRecDepth 100000 in
/-- C36 fails on the code: `parseED` picks the parser by the columns 17 to 29
of the line and not by the batch that is open. With an ordinary batch open and
no IAT batch, an entry line whose columns 17 to 29 are blank, as they are when
the DFI account number has at most four characters, goes to
`parseIATEntryDetail` and is refused with "outside of current batch", whatever
it parses to; the open batch gets no entry. With other columns 17 to 29 the
entry that validates is added to the open batch. The line of
`sampleShortEntry`, with the account number 1234, parses to an entry that
`Validate` accepts, and is refused by the reader `sampleShortOpen`, whose PPD
batch is open. -/
theorem short_account_entry_refused :
    (∀ (ops : RecordOps) (r : Reader) (b : Batcher), r.currentBatch = some b →
      r.IATCurrentBatch = none → slice r.line 0 1 = entryDetailPos →
      slice r.line 16 29 = "             " →
      r.parseLine ops =
        ({ r with recordName := "EntryDetail" },
          some (Reader.error { r with recordName := "EntryDetail" }
            (errors.File "" "" msgFileBatchOutside)))) ∧
    (∀ (ops : RecordOps) (r : Reader) (b : Batcher), r.currentBatch = some b →
      slice r.line 0 1 = entryDetailPos → slice r.line 16 29 ≠ "             " →
      ops.entryDetailValidate (ops.entryDetailParse r.line) = none →
      r.parseLine ops =
        ({ r with
            recordName := "EntryDetail"
            currentBatch := some (ops.batcherAddEntry b (ops.entryDetailParse r.line)) },
          none)) ∧
    (sampleShortOpen.currentBatch.map (fun b => (b.kind, b.Entries.length)) =
        some ("BatchPPD", 0) ∧
      sampleShortOpen.IATCurrentBatch = none ∧
      (specOps.entryDetailParse sampleShortOpen.line).DFIAccountNumber = "1234" ∧
      specOps.entryDetailValidate (specOps.entryDetailParse sampleShortOpen.line) = none ∧
      (sampleShortOpen.parseLine specOps).1.currentBatch = sampleShortOpen.currentBatch ∧
      (sampleShortOpen.parseLine specOps).2.map GoError.message =
        some "line:2 record:EntryDetail file error message=\"outside of current batch\"") := by
  refine ⟨?_, ?_, by decide, by decide, by decide, by rfl, by decide, by decide⟩
  · intro ops r b h1 h2 h6 hb
    rw [parseLine_entry ops r h6]
    simp only [Reader.parseED, hb, if_true, Reader.parseIATEntryDetail, h2]
  · intro ops r b h1 h6 hb hv
    rw [parseLine_entry ops r h6]
    simp only [Reader.parseED, hb, if_false, Reader.parseEntryDetail, h1, hv]

/-- C37 fails on the code: the switches on the type code have no default case.
With an ordinary batch open whose last entry has the addenda record indicator
1, an addenda line whose type code is none of 02, 05, 98 and 99 goes through
`parseLine` without error and without a change to the batch: it is not parsed,
not validated and not attached. With an IAT batch open the same holds of a
type code that is none of 10 to 18 and 99. The reader `sampleStrayAddenda`
takes a line with the type code 12 into its PPD batch in this way. -/
theorem addenda_dropped_silently :
    (∀ (ops : RecordOps) (r : Reader) (b : Batcher) (e : EntryDetail),
      r.currentBatch = some b → b.Entries.getLast? = some e → e.AddendaRecordIndicator = 1 →
      slice r.line 0 1 = entryAddendaPos → slice r.line 1 3 ∉ ["02", "05", "98", "99"] →
      r.parseLine ops = ({ r with recordName := "Addenda" }, none)) ∧
    (∀ (ops : RecordOps) (r : Reader) (b : IATBatch) (e : IATEntryDetail),
      r.currentBatch = none → r.IATCurrentBatch = some b → b.Entries.getLast? = some e →
      e.AddendaRecordIndicator = 1 → slice r.line 0 1 = entryAddendaPos →
      slice r.line 1 3 ∉ ["10", "11", "12", "13", "14", "15", "16", "17", "18", "99"] →
      r.parseLine ops = ({ r with recordName := "Addenda" }, none)) ∧
    (slice sampleStrayAddenda.line 0 3 = "712" ∧
      sampleStrayAddenda.currentBatch.map (fun b => b.Entries.map
        (fun e => (e.AddendaRecordIndicator, e.Addendum.length))) = some [(1, 0)] ∧
      (sampleStrayAddenda.parseLine specOps).2 = none ∧
      (sampleStrayAddenda.parseLine specOps).1.currentBatch = sampleStrayAddenda.currentBatch ∧
      (sampleStrayAddenda.parseLine specOps).1.File = sampleStrayAddenda.File) := by
  refine ⟨?_, ?_, by decide, by decide, by rfl, by decide, by decide⟩
  · intro ops r b e h1 h2 h3 h7 hc
    simp only [List.mem_cons, List.mem_singleton, List.not_mem_nil, or_false, not_or] at hc
    rw [parseLine_addenda ops r h7]
    simp only [Reader.parseEDAddenda, h1, ne_eq, not_false_eq_true, if_true, Reader.parseAddenda,
      h2, h3, hc.1, hc.2.1, hc.2.2.1, hc.2.2.2, if_false, reduceCtorEq]
  · intro ops r b e h1 h2 h3 h4 h7 hc
    have hc2 : slice r.line 1 3 ∉ ["10", "11", "12", "13", "14", "15", "16", "17", "18"] := by
      intro hm
      apply hc
      simp only [List.mem_cons, List.mem_singleton, List.not_mem_nil, or_false] at hm ⊢
      tauto
    have hc3 : slice r.line 1 3 ≠ "99" := by
      intro hm
      apply hc
      simp [hm]
    rw [parseLine_addenda ops r h7]
    simp only [Reader.parseEDAddenda, h1, ne_eq, not_true_eq_false, if_false,
      Reader.parseIATAddenda, h2, h3, h4, if_true, Reader.switchIATAddenda, hc2, hc3]

/-- The records cut out of an ASCII line of 94 k characters have 94 characters
each. -/
theorem fixedWidthRecords_length (k : Nat) (cs : List Char) (ha : ∀ c ∈ cs, c.toNat < 128)
    (hl : cs.length = 94 * k) : ∀ rec ∈ fixedWidthRecords cs 0 "", rec.length = 94 := by
  rw [fixedWidthRecords_ascii k cs 0 ha hl rfl]
  intro rec hrec
  obtain ⟨j, hj, rfl⟩ := List.mem_map.mp hrec
  have hj2 : j < k := List.mem_range.mp hj
  simp only [String.length, List.length_take, List.length_drop, hl]
  omega

/-- C35: what `Reader.Read` does with one line of the scanner is told by
`dispatched`: a line that is refused for its length gets the RecordLength
error and `parseLine` is not called; otherwise `parseLine` is called on the
records of `dispatched`, one after another, and on nothing else. On an ASCII
line every one of these records has 94 characters, so the columns 1, 1 to 2, 2
to 3, 17 to 29 and 51 to 53 that the dispatch looks at are within it. The
empty line is refused. -/
theorem dispatch_line_length (ops : RecordOps) (line : String) (rest : List String)
    (r : Reader) :
    (dispatched (r.lineNum + 1) line = none →
      Reader.readLoop ops (line :: rest) r =
        ({ r with lineNum := r.lineNum + 1 },
          some (Reader.error { r with lineNum := r.lineNum + 1 }
            (errors.File "RecordLength" (Itoa line.utf8ByteSize)
              (msgRecordLength line.utf8ByteSize))))) ∧
    (∀ recs : List String, dispatched (r.lineNum + 1) line = some recs →
      Reader.readLoop ops (line :: rest) r =
        Reader.andThen (Reader.parseRecords ops recs { r with lineNum := r.lineNum + 1 })
          (Reader.readLoop ops rest)) ∧
    ((∀ c ∈ line.toList, c.toNat < 128) →
      ∀ recs : List String, dispatched (r.lineNum + 1) line = some recs →
        ∀ rec ∈ recs, rec.length = 94 ∧ 1 ≤ rec.length ∧ 2 ≤ rec.length ∧ 3 ≤ rec.length ∧
          29 ≤ rec.length ∧ 53 ≤ rec.length) ∧
    dispatched (r.lineNum + 1) "" = none := by
  refine ⟨?_, ?_, ?_, ?_⟩
  · intro h
    simp only [dispatched] at h
    split_ifs at h with h1 h2
    simp only [Reader.readLoop]
    rw [if_neg h1, if_pos h2]
  · intro recs h
    simp only [dispatched] at h
    split_ifs at h with h1 h2
    · simp only [Option.some.injEq] at h
      subst h
      simp only [Reader.readLoop]
      rw [if_pos h1]
      simp only [Reader.processFixedWidthFile, fixedWidthLoop_eq]
      generalize Reader.parseRecords ops (fixedWidthRecords line.toList 0 "")
        { r with lineNum := r.lineNum + 1 } = p
      obtain ⟨r1, e⟩ := p
      cases e <;> rfl
    · simp only [Option.some.injEq] at h
      subst h
      simp only [Reader.readLoop]
      rw [if_neg h1, if_neg h2]
      simp only [Reader.parseRecords]
      generalize Reader.parseLine ops { r with lineNum := r.lineNum + 1, line := line } = p
      obtain ⟨r1, e⟩ := p
      cases e <;> rfl
  · intro ha recs h rec hrec
    have h94 : rec.length = 94 := by
      have hb : line.utf8ByteSize = line.toList.length := ascii_byteSize line.toList ha
      simp only [dispatched] at h
      split_ifs at h with h1 h2
      · simp only [Option.some.injEq] at h
        subst h
        obtain ⟨_, hgt, hmod⟩ := h1
        rw [hb] at hmod
        simp only [RecordLength] at hmod
        have hk : line.toList.length = 94 * (line.toList.length / 94) := by
          have := @Int.tmod_eq_emod (line.toList.length : Int) 94 (by positivity) (by norm_num)
          omega
        exact fixedWidthRecords_length _ line.toList ha hk rec hrec
      · simp only [Option.some.injEq] at h
        subst h
        rw [List.mem_singleton] at hrec
        subst hrec
        simp only [RecordLength, ne_eq, not_not] at h2
        have : (rec.utf8ByteSize : Int) = 94 := h2
        rw [hb] at this
        exact_mod_cast this
    rw [h94]
    omega
  · simp only [dispatched]
    have e : ("" : String).utf8ByteSize = 0 := rfl
    simp [e, RecordLength]

set_option maxRecDepth 100000 in
/-- C35 at the line `sampleFixedWidth` of 564 characters, read as first line:
its six records have 94 characters each. -/
theorem dispatch_line_length_witness :
    (∀ c ∈ sampleFixedWidth.toList, c.toNat < 128) ∧
    dispatched ((0 : Int) + 1) sampleFixedWidth = some (samplePPD.records specOps) ∧
    (∀ rec ∈ samplePPD.records specOps, rec.length = 94 ∧ 1 ≤ rec.length ∧ 2 ≤ rec.length ∧
      3 ≤ rec.length ∧ 29 ≤ rec.length ∧ 53 ≤ rec.length) ∧
    dispatched 2 sampleFixedWidth = none :=
  ⟨by decide, by decide,
    (dispatch_line_length specOps sampleFixedWidth [] { NewReader with lineNum := 0 }).2.2.1
      (by decide) (samplePPD.records specOps) (by decide), by decide⟩

/-! ## `File.Create`, then `File.Validate` and `Writer.Write` -/

/-- The five comparisons of `File.Validate` hold: it returns nil. -/
theorem validate_of_checks (c : converters) (f : File)
    (h1 : f.Control.BatchCount = (f.Batches.length : Int) + (f.IATBatches.length : Int))
    (h2 : f.Control.EntryAddendaCount = f.sumControls (fun bc => bc.EntryAddendaCount))
    (h3 : f.Control.TotalDebitEntryDollarAmountInFile =
      f.sumControls (fun bc => bc.TotalDebitEntryDollarAmount))
    (h4 : f.Control.TotalCreditEntryDollarAmountInFile =
      f.sumControls (fun bc => bc.TotalCreditEntryDollarAmount))
    (h5 : c.numericField f.Control.EntryHash 10 =
      c.numericField (f.sumControls (fun bc => bc.EntryHash)) 10) :
    f.Validate c = none := by
  simp only [File.sumControls] at h2 h3 h4 h5
  simp only [File.Validate, File.isEntryAddendaCount, File.isFileAmount, File.isEntryHash,
    File.calculateEntryHash, FileControl.EntryHashField, foldl_add_eq_sum,
    foldl_add_pair_eq_sum, zero_add, h1, h2, h3, h4, h5, ne_eq, not_true_eq_false, if_false,
    errors.WithError?]

/-- A successful `File.Create` leaves a file that `File.Validate` accepts. -/
theorem create_valid (ops : RecordOps) (c : converters) (f f1 : File)
    (h : File.Create ops f = (f1, none)) : f1.Validate c = none := by
  obtain ⟨_, _, h1, _, h2, h3, h4, h5⟩ := create_success ops f f1 h
  obtain ⟨l1, l2⟩ := create_lengths ops f f1 h
  apply validate_of_checks
  · rw [h1, l1, l2]
  · rw [h2, create_sumControls ops f f1 h (fun bc => bc.EntryAddendaCount) (fun _ _ => rfl)]
  · rw [h4, create_sumControls ops f f1 h (fun bc => bc.TotalDebitEntryDollarAmount)
      (fun _ _ => rfl)]
  · rw [h5, create_sumControls ops f f1 h (fun bc => bc.TotalCreditEntryDollarAmount)
      (fun _ _ => rfl)]
  · rw [h3, create_sumControls ops f f1 h (fun bc => bc.EntryHash) (fun _ _ => rfl)]

/-- C33: for every file on which `File.Create` returns nil, `File.Validate` on
the file it leaves returns nil. The entry hash that `File.Create` stores is the
sum over the batch controls, and `File.Validate` compares the ten-digit field
of that number with the ten-digit field of the same sum, whatever its size. -/
theorem create_establishes_validate (ops : RecordOps) (c : converters) (f f1 : File)
    (h : File.Create ops f = (f1, none)) : f1.Validate c = none :=
  create_valid ops c f f1 h

/-- C33 at the file `sampleTwo`, whose entry hashes sum to 10000000000, a
number of eleven digits. -/
theorem create_establishes_validate_witness :
    File.Create specOps sampleTwo = (sampleTwoCreated, none) ∧
    sampleTwoCreated.Control.EntryHash = 10000000000 ∧
    sampleTwoCreated.Validate specConverters = none :=
  ⟨by rfl, by decide,
    create_establishes_validate specOps specConverters sampleTwo sampleTwoCreated (by rfl)⟩

theorem entryRecords_length (ops : RecordOps) (es : List EntryDetail) :
    (((es.flatMap (entryRecords ops)).length : Nat) : Int) =
      (es.length : Int) + ((es.map (fun e => e.Addendum.length)).sum : Nat) := by
  induction es with
  | nil => rfl
  | cons x xs ih =>
    simp only [List.flatMap_cons, List.length_append, List.map_cons, List.sum_cons,
      List.length_cons, entryRecords, List.length_map, Nat.cast_add, Nat.cast_one, ih]
    ring

/-- The records of the batches whose controls count their entries and addenda:
two per batch plus the count of its control. -/
theorem batchRecords_length (ops : RecordOps) (l : List Batcher)
    (h : ∀ b ∈ l, b.Control.EntryAddendaCount =
      (b.Entries.length : Int) + ((b.Entries.map (fun e => e.Addendum.length)).sum : Nat)) :
    (((l.flatMap (batchRecords ops)).length : Nat) : Int) =
      (l.map (fun b => 2 + b.Control.EntryAddendaCount)).sum := by
  induction l with
  | nil => rfl
  | cons b bs ih =>
    simp only [List.flatMap_cons, List.length_append, List.map_cons, List.sum_cons,
      Nat.cast_add, ih (fun x hx => h x (List.mem_cons_of_mem _ hx)),
      h b (List.mem_cons_self _ _), batchRecords, List.length_singleton, Nat.cast_one,
      entryRecords_length]
    ring

/-- C34: for every file without IAT batches that a successful `File.Create`
leaves and in which the entry and addenda count of every batch control is the
number of entries of the batch plus the number of their addenda records,
`Writer.Write` succeeds and the number of lines it writes, records and padding
together, is ten times the block count of the file control. -/
theorem write_line_count (ops : RecordOps) (c : converters) (f f1 : File) (w : Writer)
    (h : File.Create ops f = (f1, none)) (hi : f1.IATBatches = [])
    (hcount : ∀ b ∈ f1.Batches, b.Control.EntryAddendaCount =
      (b.Entries.length : Int) + ((b.Entries.map (fun e => e.Addendum.length)).sum : Nat)) :
    ∃ w1 : Writer, Writer.Write ops c w f1 = some (w1, none) ∧
      ((w1.w.length - w.w.length : Nat) : Int) = 10 * f1.Control.BlockCount := by
  have hv := create_valid ops c f f1 h
  refine ⟨_, write_output ops c w f1 hv (by simp [File.iatComplete, hi]), ?_⟩
  obtain ⟨_, _, _, hb, _⟩ := create_success ops f f1 h
  rw [← create_recordCount ops f f1 h] at hb
  have hn : f1.recordCount = ((f1.records ops).length : Int) := by
    simp only [File.recordCount, File.sumControls, File.records, hi, List.map_nil, List.sum_nil,
      add_zero, List.flatMap_nil, List.append_nil, List.length_append, List.length_singleton,
      Nat.cast_add, Nat.cast_one, batchRecords_length ops f1.Batches hcount]
    ring
  rw [hb, hn]
  simp only [List.length_append, List.length_map, List.length_replicate, padCount]
  generalize (f1.records ops).length = n
  rw [Int.tmod_eq_emod (by omega) (by norm_num), Int.tdiv_eq_ediv (by omega) (by norm_num)]
  split_ifs with h0 <;> omega

set_option maxRecDepth 100000 in
/-- C34 at the file `samplePPD`: six records, one block, ten lines. -/
theorem write_line_count_witness :
    File.Create specOps (sampleFile [sampleEntryBatch]) = (samplePPD, none) ∧
    samplePPD.IATBatches = [] ∧ (samplePPD.records specOps).length = 6 ∧
    samplePPD.Control.BlockCount = 1 ∧
    ∃ w1 : Writer, Writer.Write specOps specConverters NewWriter samplePPD = some (w1, none) ∧
      ((w1.w.length - NewWriter.w.length : Nat) : Int) = 10 * samplePPD.Control.BlockCount :=
  ⟨by rfl, by decide, by decide, by decide,
    write_line_count specOps specConverters (sampleFile [sampleEntryBatch]) samplePPD NewWriter
      (by rfl) (by decide) (by decide)⟩

/-! ## The length of an Addenda12 line -/

/-- C32: the line that `Addenda12.String` writes has 94 characters, 1 + 2 + 35
+ 35 + 14 + 7, for every record whose record type has one character and whose
type code has two, whatever the lengths of the two texts and whatever the
sequence number, with converters that give fields of the width asked for. -/
theorem addenda12_string_length (c : converters)
    (ha : ∀ (s : String) (n : Nat), (c.alphaField s n).length = n)
    (hn : ∀ (x : Int) (n : Nat), (c.numericField x n).length = n)
    (v : Addenda12) (h1 : v.recordType.length = 1) (h2 : v.TypeCode.length = 2) :
    (v.String c).length = 94 := by
  simp only [Addenda12.String, Addenda12.OriginatorCityStateProvinceField,
    Addenda12.OriginatorCountryPostalCodeField, Addenda12.reservedField,
    Addenda12.EntryDetailSequenceNumberField, String.length_append, ha, hn, h1, h2]

set_option maxRecDepth 100000 in
/-- C32 at the converters of the specification and the records
`sampleLongCity`, whose city has 36 characters, and `sampleLongSequence`,
whose sequence number has eight digits. -/
theorem addenda12_string_length_witness :
    sampleLongCity.OriginatorCityStateProvince.length = 36 ∧
    (sampleLongCity.String specConverters).length = 94 ∧
    (sampleLongSequence.String specConverters).length = 94 ∧
    ({ sampleA12 with EntryDetailSequenceNumber := -5 } : Addenda12).String specConverters =
      "712Springfield*IL\\                    US*62701\\" ++
      "                                        00000-5" :=
  ⟨by decide,
    addenda12_string_length specConverters specAlphaField_length specNumericField_length
      sampleLongCity (by decide) (by decide),
    addenda12_string_length specConverters specAlphaField_length specNumericField_length
      sampleLongSequence (by decide) (by decide), by decide⟩

/-! ## `MergeFiles`: the first file of a key, and the IAT batches -/

/-- No file of the list has the key of `h`: `splitAtKey` finds none. -/
theorem splitAtKey_eq_none (h : FileHeader) (l : List File)
    (hl : ∀ g ∈ l, sameKey g.Header h = false) : splitAtKey h l = none := by
  induction l with
  | nil => rfl
  | cons g gs ih =>
    simp only [splitAtKey]
    rw [if_neg (by rw [hl g (List.mem_cons_self _ _)]; decide),
      ih (fun x hx => hl x (List.mem_cons_of_mem _ hx))]

/-- An input file whose key no output file has becomes the last output file,
with its batches numbered from 1. -/
theorem file_new_key (rops : RecordOps) (m : MergeOps) (f : File) (s : MergeValues)
    (hs : ∀ g ∈ s.outfiles, sameKey g.Header f.Header = false) :
    s.file rops m f =
      .ok { s with outfiles := s.outfiles ++ [{ f with Batches := renumber 1 f.Batches }] } := by
  simp only [MergeValues.file, splitAtKey_eq_none f.Header s.outfiles hs]

/-- Input files with keys that differ from each other and from the keys of the
output files are appended to the output files one by one. -/
theorem files_new_keys (rops : RecordOps) (m : MergeOps) (files : List File) :
    ∀ s : MergeValues,
      (∀ g ∈ s.outfiles, ∀ f ∈ files, sameKey g.Header f.Header = false) →
      keysDistinct files →
      MergeValues.files rops m files s =
        .ok { s with outfiles := (s.outfiles ++
          files.map (fun f => { f with Batches := renumber 1 f.Batches })) } := by
  induction files with
  | nil => intro s _ _; simp [MergeValues.files]
  | cons f rest ih =>
    intro s hs hd
    simp only [keysDistinct, List.map_cons, List.pairwise_cons] at hd
    simp only [MergeValues.files]
    rw [file_new_key rops m f s (fun g hg => hs g hg f (List.mem_cons_self _ _))]
    simp only
    rw [ih]
    · simp
    · intro g hg f1 hf1
      simp only [List.mem_append, List.mem_singleton] at hg
      rcases hg with hg | hg
      · exact hs g hg f1 (List.mem_cons_of_mem _ hf1)
      · subst hg
        exact hd.1 f1.Header (List.mem_map.mpr ⟨f1, hf1, rfl⟩)
    · exact hd.2

/-- C39: when `Equal` is reflexive, `MergeFiles` of the one file `f` returns
the one file `f` with its batches numbered from 1: the same header, the same
batches in the same order but for their numbers, whatever the number of lines
of `f`. An input file whose key no output file has is itself taken as the
output file of its key: `lookupByHeader` returns the address of the input
file and puts it at the end of the output files; on values, the file is
appended to the output files with its batches numbered from 1; and input
files with keys that differ from each other all come back so. -/
theorem merge_first_of_key (rops : RecordOps) (m : MergeOps)
    (hrefl : ∀ b, m.Equal b b = true) (f : File) :
    MergeFiles rops m [f] = .ok [{ f with Batches := renumber 1 f.Batches }] ∧
    ({ f with Batches := renumber 1 f.Batches } : File).Header = f.Header ∧
    ({ f with Batches := renumber 1 f.Batches } : File).cores = f.cores ∧
    ({ f with Batches := renumber 1 f.Batches } : File).IATBatches = f.IATBatches ∧
    (∀ (fs : mergableFiles) (i : Nat),
      fs.outfiles.find? (fun a => sameKey (fs.heap a).Header (fs.heap i).Header) = none →
      fs.lookupByHeader i = ({ fs with outfiles := fs.outfiles ++ [i] }, i)) ∧
    (∀ (g : File) (s : MergeValues),
      (∀ o ∈ s.outfiles, sameKey o.Header g.Header = false) →
      s.file rops m g =
        .ok { s with outfiles := s.outfiles ++ [{ g with Batches := renumber 1 g.Batches }] }) ∧
    (∀ files : List File, keysDistinct files →
      MergeFiles rops m files =
        .ok (files.map (fun g => { g with Batches := renumber 1 g.Batches }))) := by
  refine ⟨merge_single rops m hrefl f, rfl, renumber_cores f.Batches 1, rfl, ?_, ?_, ?_⟩
  · intro fs i h
    simp only [mergableFiles.lookupByHeader, h]
  · intro g s hs
    exact file_new_key rops m g s hs
  · intro files hd
    rw [merge_values rops m hrefl]
    simp only [mergeValues]
    rw [files_new_keys rops m files _ (by intro g hg; cases hg) hd]
    rfl

set_option maxRecDepth 1000000 in
/-- C39 at the file `sampleBig`, which has 10,002 lines, and at the two files
of `samplePair`, whose keys differ. -/
theorem merge_first_of_key_witness :
    (∀ b, specMergeOps.Equal b b = true) ∧
    MergeFiles specOps specMergeOps [sampleBig] =
      .ok [{ sampleBig with Batches := renumber 1 sampleBig.Batches }] ∧
    renumber 1 sampleBig.Batches = sampleBig.Batches ∧
    keysDistinct samplePair ∧
    MergeFiles specOps specMergeOps samplePair =
      .ok (samplePair.map (fun g => { g with Batches := renumber 1 g.Batches })) :=
  have h := merge_first_of_key specOps specMergeOps specMergeOps_laws.equal_refl sampleBig
  ⟨specMergeOps_laws.equal_refl, h.1, by rfl, by unfold keysDistinct; decide,
    h.2.2.2.2.2.2 samplePair (by unfold keysDistinct; decide)⟩

/-- The length of the IAT batches of a file is what `File.Create` found, also
when it returns an error. -/
theorem create_iat_length (ops : RecordOps) (f : File) :
    (File.Create ops f).1.IATBatches.length = f.IATBatches.length := by
  unfold File.Create
  split
  · rfl
  · split
    · rfl
    · simp only [createIATBatches_length]

theorem create_iat_nil (ops : RecordOps) (f : File) (h : f.IATBatches = []) :
    (File.Create ops f).1.IATBatches = [] := by
  have e := create_iat_length ops f
  rw [h] at e
  exact List.eq_nil_of_length_eq_zero e

theorem addBatch_iat (f : File) (b : Batcher) : (f.AddBatch b).IATBatches = f.IATBatches := by
  unfold File.AddBatch
  split_ifs <;> rfl

/-- The placing of a batch brings no IAT batch into the output files and the
sealed files. -/
theorem step_iat (rops : RecordOps) (m : MergeOps)
    (hrem : ∀ f b, (m.RemoveBatch f b).IATBatches = f.IATBatches)
    (b : Batcher) (z z1 : MergeView) (hz : ∀ g ∈ z.all, g.IATBatches = [])
    (h : z.step rops m b = .ok z1) : ∀ g ∈ z1.all, g.IATBatches = [] := by
  have hcur : z.cur.IATBatches = [] := hz z.cur (by simp [MergeView.all])
  rcases step_ok rops m b z z1 h with ⟨e, _⟩ | ⟨_, g1, hc, ⟨_, e⟩ | ⟨_, hs⟩⟩
  · subst e; exact hz
  · subst e
    have h1 : g1.IATBatches = [] := by
      have e1 := congrArg (fun p => p.1.IATBatches) hc
      simp only at e1
      rw [← e1]
      exact create_iat_nil rops _ (by rw [addBatch_iat, hcur])
    intro g hg
    simp only [MergeView.all, List.mem_append, List.mem_cons] at hg
    rcases hg with h2 | h2 | h2 | h2
    · exact hz g (by simp [MergeView.all, h2])
    · exact hz g (by simp [MergeView.all, h2])
    · subst h2; exact h1
    · exact hz g (by simp [MergeView.all, h2])
  · have h1 : g1.IATBatches = [] := by
      have e1 := congrArg (fun p => p.1.IATBatches) hc
      simp only at e1
      rw [← e1]
      exact create_iat_nil rops _ (by rw [addBatch_iat, hcur])
    obtain ⟨g2, g3, h2, h3, e⟩ := split_ok rops m b _ z1 hs
    subst e
    have i2 : g2.IATBatches = [] := by
      have e2 := congrArg (fun p => p.1.IATBatches) h2
      simp only at e2
      rw [← e2]
      exact create_iat_nil rops _ (by rw [hrem, h1])
    have i3 : g3.IATBatches = [] := by
      have e3 := congrArg (fun p => p.1.IATBatches) h3
      simp only at e3
      rw [← e3]
      exact create_iat_nil rops _ (by rw [addBatch_iat]; exact create_iat_nil rops _ rfl)
    intro g hg
    simp only [MergeView.all, List.mem_append, List.mem_cons, List.mem_singleton,
      List.not_mem_nil, or_false] at hg
    rcases hg with (h4 | h4) | h4 | h4
    · exact hz g (by simp [MergeView.all, h4])
    · subst h4; exact i2
    · have := List.mem_of_mem_eraseP h4
      simp only [List.mem_append, List.mem_cons] at this
      rcases this with h5 | h5 | h5
      · exact hz g (by simp [MergeView.all, h5])
      · subst h5; exact i2
      · exact hz g (by simp [MergeView.all, h5])
    · subst h4; exact i3

/-- The merge of two files with the same key: the batches of the second are
placed into the first. -/
theorem merge_pair (rops : RecordOps) (m : MergeOps) (hrefl : ∀ b, m.Equal b b = true)
    (f1 f2 : File) (hk : sameKey f1.Header f2.Header = true) (out : List File)
    (h : MergeFiles rops m [f1, f2] = .ok out) :
    ∃ z : MergeView, MergeView.steps rops m f2.Batches
        { before := [], cur := { f1 with Batches := renumber 1 f1.Batches }, after := [],
          locMaxed := [], clock := 0 } = .ok z ∧
      out = z.locMaxed ++ (z.before ++ { z.cur with Batches := renumber 1 z.cur.Batches } ::
        z.after) := by
  rw [merge_values rops m hrefl] at h
  simp only [mergeValues, MergeValues.files, MergeValues.file, splitAtKey, List.nil_append,
    hk, if_true] at h
  cases hs : MergeView.steps rops m f2.Batches
      { before := [], cur := { f1 with Batches := renumber 1 f1.Batches }, after := [],
        locMaxed := [], clock := 0 } with
  | error x => rw [hs] at h; simp at h
  | ok z =>
    rw [hs] at h
    simp only [Except.ok.injEq] at h
    exact ⟨z, rfl, h.symm⟩

set_option maxRecDepth 1000000 in
/-- C40 fails on the code. `MergeFiles` goes through the ordinary batches of an
input file only. When the first of two input files with the same key has no
IAT batch, no file that comes back has one, whatever IAT batches the second
holds: they are in no returned file. So for the input files `samplePPD` and
`sampleMixed`, which holds the batch of `samplePPD` and the IAT batch
`sampleIATBatch`: the one file that comes back is `samplePPD`, without an IAT
batch, while `lineCount` counts the ten lines of the IAT batch in
`sampleMixed`. -/
theorem merge_drops_iat_batches (rops : RecordOps) (m : MergeOps) :
    ((∀ b, m.Equal b b = true) →
      (∀ f b, (m.RemoveBatch f b).IATBatches = f.IATBatches) →
      ∀ (f1 f2 : File) (out : List File), f1.IATBatches = [] →
        sameKey f1.Header f2.Header = true →
        MergeFiles rops m [f1, f2] = .ok out → ∀ g ∈ out, g.IATBatches = []) ∧
    MergeFiles specOps specMergeOps [samplePPD, sampleMixed] = .ok [samplePPD] ∧
    sampleMixed.IATBatches = [sampleIATBatch.withNumber 2] ∧
    samplePPD.IATBatches = [] ∧
    (lineCount samplePPD).1 = 5 ∧
    (lineCount sampleMixed).1 = 15 := by
  refine ⟨?_, by rfl, by decide, by decide, by decide, by decide⟩
  intro hrefl hrem f1 f2 out h1 hk h
  obtain ⟨z, hs, e⟩ := merge_pair rops m hrefl f1 f2 hk out h
  have hz := steps_induction rops m (fun z => ∀ g ∈ z.all, g.IATBatches = []) f2.Batches
    (fun b _ z z1 hz hstep => step_iat rops m hrem b z z1 hz hstep) _ z
    (by
      intro g hg
      simp only [MergeView.all, List.nil_append, List.mem_singleton] at hg
      subst hg
      exact h1) hs
  subst e
  intro g hg
  simp only [List.mem_append, List.mem_cons] at hg
  rcases hg with h2 | h2 | h2 | h2
  · exact hz g (by simp [MergeView.all, h2])
  · exact hz g (by simp [MergeView.all, h2])
  · subst h2
    exact hz z.cur (by simp [MergeView.all])
  · exact hz g (by simp [MergeView.all, h2])

/-! ## `BatchMTE.InvalidEntries` and the entry without an Addenda02 -/

/-- The loop stops on a Forward entry whose Addenda02 is nil. -/
theorem mte_loop_stops (ops : MTEOps) (batch : Batcher) (entries : List EntryDetail) :
    (∃ e ∈ entries, e.Category = CategoryForward ∧ e.Addenda02 = none) →
    ∀ out, BatchMTE.invalidEntriesLoop ops batch entries out = none := by
  induction entries with
  | nil => rintro ⟨e, he, _⟩; cases he
  | cons x rest ih =>
    rintro ⟨e, he, hc, ha⟩ out
    simp only [BatchMTE.invalidEntriesLoop]
    cases ht : BatchMTE.terminalState ops batch x (BatchMTE.entryChecks ops batch x out) with
    | none => rfl
    | some out1 =>
      rcases List.mem_cons.mp he with h1 | h1
      · subst h1
        simp only [BatchMTE.terminalState, hc, if_true, ha] at ht
        cases ht
      · exact ih ⟨e, h1, hc, ha⟩ _

/-- The loop returns a list when every Forward entry has an Addenda02. -/
theorem mte_loop_returns (ops : MTEOps) (batch : Batcher) (entries : List EntryDetail) :
    (∀ e ∈ entries, e.Category = CategoryForward → e.Addenda02 ≠ none) →
    ∀ out, (BatchMTE.invalidEntriesLoop ops batch entries out).isSome = true := by
  induction entries with
  | nil => intro _ out; rfl
  | cons x rest ih =>
    intro h out
    simp only [BatchMTE.invalidEntriesLoop]
    have hx := h x (List.mem_cons_self _ _)
    cases ht : BatchMTE.terminalState ops batch x (BatchMTE.entryChecks ops batch x out) with
    | none =>
      exfalso
      simp only [BatchMTE.terminalState] at ht
      by_cases hc : x.Category = CategoryForward
      · rw [if_pos hc] at ht
        cases ha : x.Addenda02 with
        | none => exact hx hc ha
        | some a =>
          rw [ha] at ht
          simp only at ht
          split_ifs at ht
      · rw [if_neg hc] at ht
        cases ht
    | some out1 => exact ih (fun e he => h e (List.mem_cons_of_mem _ he)) _

/-- C38 fails on the code. `BatchMTE.InvalidEntries` reads
`entry.Addenda02.TerminalState` of every Forward entry without a test of the
pointer: for every batch that holds a Forward entry whose Addenda02 is nil the
run stops there and no list is returned, and `BatchMTE.Validate` stops with it
once `verify` and the test of the SEC code have passed. A list is returned
exactly when every Forward entry has an Addenda02. So for the batch
`sampleMTE none`: its entry is reported by `addendaFieldInclusion`, the error
is put into `out`, and the next statement stops the run; with an Addenda02
whose state is in the table the list is empty. -/
theorem mte_invalid_entries_stops (ops : MTEOps) (batch : Batcher) :
    ((∃ e ∈ batch.Entries, e.Category = CategoryForward ∧ e.Addenda02 = none) →
      BatchMTE.InvalidEntries ops batch = none ∧
      (ops.skipAll batch = false → ops.verify batch = none →
        batch.Header.StandardEntryClassCode = MTE → BatchMTE.Validate ops batch = none)) ∧
    ((BatchMTE.InvalidEntries ops batch).isSome = true ↔
      ∀ e ∈ batch.Entries, e.Category = CategoryForward → e.Addenda02 ≠ none) ∧
    (sampleMTE none).Entries.map (fun e => (e.Category, e.Addenda02)) =
      [(CategoryForward, none)] ∧
    (specMTEOps.verify (sampleMTE none)).isNone = true ∧
    (sampleMTE none).Header.StandardEntryClassCode = MTE ∧
    ((sampleMTE none).Entries.map
      (fun e => (specMTEOps.addendaFieldInclusion (sampleMTE none) e).map GoError.message)) =
      [some "Addenda02 is a mandatory field and has a default value"] ∧
    (BatchMTE.InvalidEntries specMTEOps (sampleMTE none)).isNone = true ∧
    (BatchMTE.Validate specMTEOps (sampleMTE none)).isNone = true ∧
    (BatchMTE.InvalidEntries specMTEOps (sampleMTE (some (sampleAddenda02 "PA")))).map
      (fun l => l.map (fun i => i.Entry.Amount)) = some [10000] ∧
    (BatchMTE.InvalidEntries specMTEOps (sampleMTE (some (sampleAddenda02 "NY")))).map
      List.length = some 0 := by
  refine ⟨?_, ?_, by decide, by rfl, by decide, by decide, by rfl, by rfl, by rfl, by rfl⟩
  · intro h
    have h1 : BatchMTE.InvalidEntries ops batch = none :=
      mte_loop_stops ops batch batch.Entries h []
    refine ⟨h1, ?_⟩
    intro hs hv hsec
    simp only [BatchMTE.Validate, hs, hv, hsec, h1, ne_eq, not_true_eq_false, if_false]
    rfl
  · constructor
    · intro hsome e he hc ha
      have := mte_loop_stops ops batch batch.Entries ⟨e, he, hc, ha⟩ []
      simp only [BatchMTE.InvalidEntries] at hsome
      rw [this] at hsome
      cases hsome
    · intro h
      exact mte_loop_returns ops batch batch.Entries h []

/-! ## The buffer of the scanner and the lines `Reader.Read` is given -/

end Ach
